import Mathlib

/-!
# Epoch based reclamation: a shallow embedding of `epoch_based.hpp`

The development follows the C++ sources of the repository:

* `deletable_object.hpp`  : retirable objects, `delete_objects`, `orphan`;
* `epoch_based.hpp`       : `thread_control_block`, `thread_data`, `guard_ptr`;
* `marked_ptr.hpp`, `guard_ptr.hpp` : the pointer word held by a guard.

Conventions of the embedding.

* A pointer is a natural number, `0` is `nullptr`.  The heap maps every address to
  the object stored there; the addresses `1 .. top` are the allocated ones.
* `unsigned` is a 32 bit machine integer: every `++`, `--` and `+` on an `unsigned`
  is reduced modulo `UINT = 2 ^ 32`.
* A failed `assert`, a null or wild dereference, and a read or a `delete_self` of an
  object whose `delete_self` has already run are faults: the function returns `none`.
* The atomics are plain fields.  A member function of `thread_data` runs without
  interruption, except in the section on interleavings, where a thread may be preempted
  inside `do_enter_critical` between the load of `global_epoch` and the store into
  `local_epoch`.
-/

namespace EBR

/-! ## Machine integers and pointers -/

/-- Addresses; `0` is `nullptr`. -/
abbrev Ptr := Nat

/-- Modulus of the C++ type `unsigned` (32 bits). -/
def UINT : Nat := 4294967296

/-- The constant `number_epochs` of `epoch_based`. -/
def number_epochs : Nat := 3

/-! ## `deletable_object.hpp` -/

/-- The three implementations of `delete_self` met by the engine: a user node whose
deleter type is empty (`deletable_object_with_empty_deleter`), a user node that stores
its deleter in `deleter_buffer` (`deletable_object_with_non_empty_deleter`; the buffer is
`none` while no deleter is installed, a deleter value is a number), and
`utils::orphan<3>` with its `target_epoch` and its private copy of three retire lists. -/
inductive Kind where
  | with_empty_deleter
  | with_non_empty_deleter (deleter_buffer : Option Nat)
  | orphan (target_epoch : Nat) (l0 l1 l2 : Ptr)
deriving DecidableEq, Repr

/-- A `deletable_object`: the intrusive `next` link and the dynamic type. -/
structure deletable_object where
  next : Ptr
  kind : Kind
deriving DecidableEq, Repr

/-- The heap: the object at every address, the highest allocated address, and the log
of deleter applications made by `delete_self`, oldest first.  An entry `(d, p)` records
that the deleter `d` (`none` for a default constructed empty deleter) was applied to
`p`. -/
structure Heap where
  obj : Ptr → deletable_object
  top : Ptr
  calls : List (Option Nat × Ptr)

/-- The objects on which `delete_self` has run, oldest first. -/
def Heap.deleted (h : Heap) : List Ptr :=
  h.calls.map Prod.snd

/-- An address that may be dereferenced: not null, allocated, not yet destroyed. -/
def Heap.live (h : Heap) (p : Ptr) : Bool :=
  decide (p ≠ 0) && decide (p ≤ h.top) && !(h.deleted.contains p)

/-- Write of the field `p->next`. -/
def Heap.set_next (h : Heap) (p v : Ptr) : Heap :=
  { h with obj := fun q => if q = p then { h.obj p with next := v } else h.obj q }

/-- Write of the dynamic part of the object at `p`. -/
def Heap.set_kind (h : Heap) (p : Ptr) (k : Kind) : Heap :=
  { h with obj := fun q => if q = p then { h.obj p with kind := k } else h.obj q }

/-- Record the application of deleter `d` to `p`. -/
def Heap.log (h : Heap) (d : Option Nat) (p : Ptr) : Heap :=
  { h with calls := h.calls ++ [(d, p)] }

/-- Member `set_deleter(d)`: a no-op for an empty deleter type, a placement-new into
`deleter_buffer` otherwise.  An orphan is never handed a deleter by the engine; its
deleter type is the empty `std::default_delete`. -/
def set_deleter (h : Heap) (p : Ptr) (d : Nat) : Heap :=
  match (h.obj p).kind with
  | .with_non_empty_deleter _ => h.set_kind p (.with_non_empty_deleter (some d))
  | _ => h

mutual
/-- The loop of `utils::delete_objects`: `next` is read before `delete_self` is
called on `current`.  The first argument bounds the number of nested calls. -/
def delete_objects_loop : Nat → Heap → Ptr → Option Heap
  | 0, _, _ => none
  | fuel + 1, h, current =>
    if current = 0 then some h
    else if h.live current then
      let next := (h.obj current).next
      match delete_self fuel h current with
      | none => none
      | some h1 => delete_objects_loop fuel h1 next
    else none
/-- Virtual `delete_self()`.  With an empty deleter type a default constructed deleter
is applied to the object; with a stored deleter the buffer is moved out, destroyed, and
the moved value applied; for an orphan the default deleter runs `~orphan`, which drains
the three inherited lists in index order. -/
def delete_self : Nat → Heap → Ptr → Option Heap
  | 0, _, _ => none
  | fuel + 1, h, p =>
    if h.live p then
      match (h.obj p).kind with
      | .with_empty_deleter => some (h.log none p)
      | .with_non_empty_deleter none => none
      | .with_non_empty_deleter (some d) =>
        some ((h.set_kind p (.with_non_empty_deleter none)).log (some d) p)
      | .orphan _ l0 l1 l2 =>
        (delete_objects_loop fuel (h.log none p) l0).bind fun h1 =>
        (delete_objects_loop fuel h1 l1).bind fun h2 =>
        delete_objects_loop fuel h2 l2
    else none
end

/-- The function `utils::delete_objects(list)` on the heap; the caller stores `nullptr` into
`list` afterwards.  A walk that visits more objects than are allocated has met an
object twice, so twice the number of allocated objects bounds the nesting. -/
def delete_objects (h : Heap) (list : Ptr) : Option Heap :=
  delete_objects_loop (2 * h.top + 1) h list

/-! ## The thread registry (`thread_block_list.hpp`) -/

/-- A `thread_control_block`.  The two atomics are declared in `epoch_based.hpp`; the
flag `active` belongs to the base class `entry` of the registry. -/
structure thread_control_block where
  is_in_critical_region : Bool
  local_epoch : Nat
  active : Bool
deriving DecidableEq, Repr

/-- The process-wide state of one instantiation `epoch_based<UpdateThreshold>`: the
static `global_epoch`, the entries of the static `global_thread_block_list` in
allocation order (the head of the C++ list is the last element; a control block is
named by its position), the head of the registry's orphan list, and the heap.
The field `update_attempts` is not a variable of the program: it counts the calls of
`try_update_epoch` made so far, so that "an advance is attempted" can be observed. -/
structure World where
  global_epoch : Nat
  entries : List thread_control_block
  abandoned : Ptr
  heap : Heap
  update_attempts : Nat

/-- The per-thread `thread_data`. -/
structure thread_data where
  enter_count : Nat
  entries_since_update : Nat
  control_block : Option Nat
  retire_lists : Nat → Ptr

/-- A default constructed `thread_data` (the member initialisers of the struct). -/
def thread_data.init : thread_data :=
  { enter_count := 0, entries_since_update := 0, control_block := none,
    retire_lists := fun _ => 0 }

/-- The statics after zero initialisation, over a given heap. -/
def World.init (h : Heap) : World :=
  { global_epoch := 0, entries := [], abandoned := 0, heap := h, update_attempts := 0 }

/-- Dereference of a control block pointer. -/
def World.tcb (w : World) (cb : Nat) : Option thread_control_block :=
  w.entries.get? cb

/-- Store into a control block. -/
def World.set_tcb (w : World) (cb : Nat) (b : thread_control_block) : World :=
  { w with entries := w.entries.set cb b }

/-- Modelled from the spec: the scan of `thread_block_list::acquire_entry` for an
inactive entry, starting at the head of the list (the newest entry). -/
def find_inactive : List thread_control_block → Option Nat
  | [] => none
  | e :: es =>
    match find_inactive es with
    | some i => some (i + 1)
    | none => if e.active then none else some 0

/-- Modelled from the spec: `thread_block_list::acquire_entry`.  "Scan from head; CAS
an inactive entry to active and return it.  Otherwise allocate a new entry, publish it
at head."  A new entry is built by `thread_control_block()`: not in a critical region,
`local_epoch = number_epochs`. -/
def acquire_entry (w : World) : World × Nat :=
  match find_inactive w.entries with
  | some i =>
    match w.tcb i with
    | some b => (w.set_tcb i { b with active := true }, i)
    | none => (w, i)
  | none =>
    ({ w with entries := w.entries ++
        [{ is_in_critical_region := false, local_epoch := number_epochs, active := true }] },
     w.entries.length)

/-- Modelled from the spec: `thread_block_list::release_entry`, "reset flags and mark
inactive". -/
def release_entry (w : World) (cb : Nat) : World :=
  match w.tcb cb with
  | some b => w.set_tcb cb { b with is_in_critical_region := false, active := false }
  | none => w

/-- Modelled from the spec: `thread_block_list::abandon_retired_nodes`, a push on the
orphan list. -/
def abandon_retired_nodes (w : World) (o : Ptr) : World :=
  { w with heap := w.heap.set_next o w.abandoned, abandoned := o }

/-- Modelled from the spec: `thread_block_list::adopt_abandoned_retired_nodes`, which
"atomically swaps it to null and returns the whole chain". -/
def adopt_abandoned_retired_nodes (w : World) : World × Ptr :=
  ({ w with abandoned := 0 }, w.abandoned)

/-! ## `thread_data` -/

/-- The two-argument `add_retired_node(p, epoch)`. -/
def add_retired_node_at (w : World) (t : thread_data) (p : Ptr) (epoch : Nat) :
    Option (World × thread_data) :=
  if epoch < number_epochs then
    if w.heap.live p then
      some ({ w with heap := w.heap.set_next p (t.retire_lists epoch) },
            { t with retire_lists := fun i => if i = epoch then p else t.retire_lists i })
    else none
  else none

/-- The one-argument `add_retired_node(p)`: the epoch is the thread's `local_epoch`. -/
def add_retired_node (w : World) (t : thread_data) (p : Ptr) : Option (World × thread_data) :=
  match t.control_block with
  | none => none
  | some cb =>
    match w.tcb cb with
    | none => none
    | some b => add_retired_node_at w t p b.local_epoch

/-- The loop of `adopt_orphans`; the first argument bounds the length of the walk. -/
def adopt_orphans_loop : Nat → World → thread_data → Ptr → Option (World × thread_data)
  | 0, _, _, _ => none
  | fuel + 1, w, t, current =>
    if current = 0 then some (w, t)
    else if w.heap.live current then
      let next := (w.heap.obj current).next
      let w1 := { w with heap := w.heap.set_next current 0 }
      match (w1.heap.obj current).kind with
      | .orphan target_epoch _ _ _ =>
        match add_retired_node_at w1 t current target_epoch with
        | none => none
        | some (w2, t2) => adopt_orphans_loop fuel w2 t2 next
      | _ => none
    else none

/-- Member `adopt_orphans()`. -/
def adopt_orphans (w : World) (t : thread_data) : Option (World × thread_data) :=
  let (w1, current) := adopt_abandoned_retired_nodes w
  adopt_orphans_loop (w1.heap.top + 1) w1 t current

/-- The lambda `prevents_update` of `try_update_epoch`. -/
def prevents_update (old_epoch : Nat) (data : thread_control_block) : Bool :=
  data.is_in_critical_region && decide (data.local_epoch = old_epoch)

/-- The value `old_epoch` computed by `try_update_epoch`, in `unsigned` arithmetic. -/
def old_epoch_of (curr_epoch : Nat) : Nat :=
  ((curr_epoch + number_epochs) % UINT + UINT - 1) % UINT % number_epochs

/-- Member `try_update_epoch(curr_epoch, new_epoch)`; the result carries the returned
`bool`.  The strong compare-exchange succeeds exactly when `global_epoch` holds
`curr_epoch`. -/
def try_update_epoch (w0 : World) (t : thread_data) (curr_epoch new_epoch : Nat) :
    Option (Bool × World × thread_data) :=
  let w := { w0 with update_attempts := w0.update_attempts + 1 }
  let old_epoch := old_epoch_of curr_epoch
  let can_update := !(w.entries.any (prevents_update old_epoch))
  if !can_update then some (false, w, t)
  else if w.global_epoch = curr_epoch then
    let success := decide (w.global_epoch = curr_epoch)
    let w1 := if success then { w with global_epoch := new_epoch } else w
    if success then
      match adopt_orphans w1 t with
      | none => none
      | some (w2, t2) => some (true, w2, t2)
    else some (true, w1, t)
  else some (true, w, t)

/-- Member `ensure_has_control_block()`; the control block is returned as well. -/
def ensure_has_control_block (w : World) (t : thread_data) : World × thread_data × Nat :=
  match t.control_block with
  | some cb => (w, t, cb)
  | none =>
    let (w1, cb) := acquire_entry w
    (w1, { t with control_block := some cb }, cb)

/-- The last two statements of `do_enter_critical`: store `epoch` into `local_epoch`
and drain `retire_lists[epoch]`. -/
def adopt_epoch (w : World) (t : thread_data) (cb epoch : Nat) : Option (World × thread_data) :=
  match w.tcb cb with
  | none => none
  | some b =>
    let w1 := w.set_tcb cb { b with local_epoch := epoch }
    if epoch < number_epochs then
      match delete_objects w1.heap (t.retire_lists epoch) with
      | none => none
      | some h =>
        some ({ w1 with heap := h },
              { t with retire_lists := fun i => if i = epoch then 0 else t.retire_lists i })
    else none

/-- Member `do_enter_critical()` of `thread_data` in `epoch_based<UpdateThreshold>`. -/
def do_enter_critical (UpdateThreshold : Nat) (w : World) (t : thread_data) :
    Option (World × thread_data) :=
  match ensure_has_control_block w t with
  | (w0, t0, cb) =>
    match w0.tcb cb with
    | none => none
    | some b =>
      let w1 := w0.set_tcb cb { b with is_in_critical_region := true }
      let epoch := w1.global_epoch
      if b.local_epoch ≠ epoch then
        adopt_epoch w1 { t0 with entries_since_update := 0 } cb epoch
      else if t0.entries_since_update = UpdateThreshold then
        let t1 := { t0 with entries_since_update := 0 }
        let new_epoch := (epoch + 1) % UINT % number_epochs
        match try_update_epoch w1 t1 epoch new_epoch with
        | none => none
        | some (false, w2, t2) => some (w2, t2)
        | some (true, w2, t2) => adopt_epoch w2 t2 cb new_epoch
      else
        some (w1, { t0 with entries_since_update := (t0.entries_since_update + 1) % UINT })

/-- Member `do_leave_critical()`. -/
def do_leave_critical (w : World) (t : thread_data) : Option (World × thread_data) :=
  match t.control_block with
  | none => none
  | some cb =>
    match w.tcb cb with
    | none => none
    | some b => some (w.set_tcb cb { b with is_in_critical_region := false }, t)

/-- Member `enter_critical()`. -/
def enter_critical (UpdateThreshold : Nat) (w : World) (t : thread_data) :
    Option (World × thread_data) :=
  let t1 := { t with enter_count := (t.enter_count + 1) % UINT }
  if t1.enter_count = 1 then do_enter_critical UpdateThreshold w t1 else some (w, t1)

/-- Member `leave_critical()`. -/
def leave_critical (w : World) (t : thread_data) : Option (World × thread_data) :=
  if 0 < t.enter_count then
    let t1 := { t with enter_count := (t.enter_count + UINT - 1) % UINT }
    if t1.enter_count = 0 then do_leave_critical w t1 else some (w, t1)
  else none

/-- Destructor `~thread_data()`.  When some retire list is non-empty, a new
`utils::orphan<3>` holding a copy of the three lists is allocated at the next free
address and abandoned to the registry; then the control block is released. -/
def thread_data.dtor (w : World) (t : thread_data) : Option World :=
  match t.control_block with
  | none => some w
  | some cb =>
    let w1 :=
      if t.retire_lists 0 ≠ 0 ∨ t.retire_lists 1 ≠ 0 ∨ t.retire_lists 2 ≠ 0 then
        let target_epoch :=
          ((w.global_epoch + number_epochs) % UINT + UINT - 1) % UINT % number_epochs
        let o := w.heap.top + 1
        let h : Heap :=
          { w.heap with
            obj := fun q =>
              if q = o then
                { next := 0,
                  kind := .orphan target_epoch (t.retire_lists 0) (t.retire_lists 1)
                            (t.retire_lists 2) }
              else w.heap.obj q
            top := o }
        abandon_retired_nodes { w with heap := h } o
      else w
    match w1.tcb cb with
    | none => none
    | some b => if b.is_in_critical_region then none else some (release_entry w1 cb)

/-! ## `marked_ptr.hpp` -/

/-- Modulus of `uintptr_t` (64 bits). -/
def UINTPTR : Nat := 18446744073709551616

/-- The constant `MarkMask = (1 << N) - 1`. -/
def MarkMask (N : Nat) : Nat := (1 <<< N) - 1

/-- The constructor `marked_ptr(p, mark)`; both assertions are checked. -/
def marked_ptr.mk (N : Nat) (p mark : Nat) : Option Nat :=
  if mark ≤ MarkMask N ∧ p &&& MarkMask N = 0 then some (p ||| mark) else none

/-- Member `marked_ptr::mark()`. -/
def marked_ptr.mark (N : Nat) (ptr : Nat) : Nat := ptr &&& MarkMask N

/-- Member `marked_ptr::get()`: the word with the mark bits cleared (`ptr & ~MarkMask`). -/
def marked_ptr.get (N : Nat) (ptr : Nat) : Nat := ptr &&& (UINTPTR - 1 - MarkMask N)

/-! ## `guard_ptr`

A guard is the marked pointer word it holds.  Each member function is given by the new
word together with the calls it makes, in order, into `local_thread_data()` and into the
pointee. -/

/-- The calls a guard makes. -/
inductive Call where
  | enter_critical
  | leave_critical
  | set_deleter (p : Ptr) (d : Nat)
  | add_retired_node (p : Ptr)
deriving DecidableEq, Repr

/-- Execution of one call on the state of the calling thread. -/
def Call.exec (UpdateThreshold : Nat) (c : Call) (w : World) (t : thread_data) :
    Option (World × thread_data) :=
  match c with
  | .enter_critical => EBR.enter_critical UpdateThreshold w t
  | .leave_critical => EBR.leave_critical w t
  | .set_deleter p d =>
    if w.heap.live p then some ({ w with heap := EBR.set_deleter w.heap p d }, t) else none
  | .add_retired_node p => EBR.add_retired_node w t p

/-- Execution of a sequence of calls, in order. -/
def exec_calls (UpdateThreshold : Nat) :
    List Call → World → thread_data → Option (World × thread_data)
  | [], w, t => some (w, t)
  | c :: cs, w, t =>
    match c.exec UpdateThreshold w t with
    | none => none
    | some (w1, t1) => exec_calls UpdateThreshold cs w1 t1

/-- Constructor `guard_ptr(const MarkedPtr& p)`. -/
def guard_ptr.ctor (p : Nat) : Nat × List Call :=
  (p, if p ≠ 0 then [Call.enter_critical] else [])

/-- Member `guard_ptr::reset()`. -/
def guard_ptr.reset (ptr : Nat) : Nat × List Call :=
  (0, if ptr ≠ 0 then [Call.leave_critical] else [])

/-- Member `guard_ptr::acquire(p, order)`; `first` and `second` are the values returned
by the relaxed load and by the load with the caller's order. -/
def guard_ptr.acquire (ptr first second : Nat) : Nat × List Call :=
  if first = 0 then guard_ptr.reset ptr
  else
    (second,
     (if ptr = 0 then [Call.enter_critical] else []) ++
     (if second = 0 then [Call.leave_critical] else []))

/-- Member `guard_ptr::acquire_if_equal(p, expected, order)` with the returned `bool`. -/
def guard_ptr.acquire_if_equal (ptr expected first second : Nat) : Bool × Nat × List Call :=
  if first = 0 ∨ first ≠ expected then
    (decide (first = expected), guard_ptr.reset ptr)
  else
    let enter := if ptr = 0 then [Call.enter_critical] else []
    if second = 0 ∨ second ≠ expected then
      (decide ((0 : Nat) = expected), 0, enter ++ [Call.leave_critical])
    else
      (decide (second = expected), second, enter)

/-- Member `guard_ptr::reclaim(d)` for a pointee type with `N` mark bits; the dereference
`this->ptr->set_deleter` of a guard whose pointer part is null is a fault. -/
def guard_ptr.reclaim (N : Nat) (ptr : Nat) (d : Nat) : Option (Nat × List Call) :=
  if marked_ptr.get N ptr = 0 then none
  else
    some ((guard_ptr.reset ptr).1,
          [Call.set_deleter (marked_ptr.get N ptr) d,
           Call.add_retired_node (marked_ptr.get N ptr)] ++ (guard_ptr.reset ptr).2)

/-! ## Well-formed retire lists -/

/-- The effect of `delete_self` on the object itself: its stored deleter, if any, is
moved out, and the application of the deleter is recorded. -/
def delete_one (h : Heap) (p : Ptr) : Heap :=
  match (h.obj p).kind with
  | .with_non_empty_deleter (some d) =>
    (h.set_kind p (.with_non_empty_deleter none)).log (some d) p
  | _ => h.log none p

/-- A user node on which `delete_self` can run: its deleter type is empty, or a
deleter is installed. -/
def Heap.is_node (h : Heap) (p : Ptr) : Prop :=
  (h.obj p).kind = .with_empty_deleter ∨ ∃ d, (h.obj p).kind = .with_non_empty_deleter (some d)

/-- The relation `Chain h p fp` holds when the `next` links starting at `p` reach `nullptr`, every object on
the way is live, and `fp` lists, in the order in which `delete_objects` meets them, the
objects of the list together with everything owned by the orphans on it. -/
inductive Chain (h : Heap) : Ptr → List Ptr → Prop where
  | nil : Chain h 0 []
  | node {p : Ptr} {fp : List Ptr} :
      h.live p = true → h.is_node p → Chain h (h.obj p).next fp → Chain h p (p :: fp)
  | orphan {p : Ptr} {te : Nat} {l0 l1 l2 : Ptr} {f0 f1 f2 fp : List Ptr} :
      h.live p = true → (h.obj p).kind = .orphan te l0 l1 l2 →
      Chain h l0 f0 → Chain h l1 f1 → Chain h l2 f2 → Chain h (h.obj p).next fp →
      Chain h p (p :: (f0 ++ f1 ++ f2 ++ fp))

/-- A list that `delete_objects` can drain: it is null terminated and no object is met
twice (in particular the list is acyclic). -/
def Drainable (h : Heap) (p : Ptr) (fp : List Ptr) : Prop :=
  Chain h p fp ∧ fp.Nodup

/-- Some registered control block prevents the update away from `curr`. -/
def Blocked (w : World) (curr : Nat) : Prop :=
  ∃ b ∈ w.entries, b.is_in_critical_region = true ∧ b.local_epoch = (curr + 2) % 3

/-- No control block other than `cb` is in a critical region; in particular this holds
when `cb` is the only registered control block. -/
def Alone (w : World) (cb : Nat) : Prop :=
  ∀ i b, i ≠ cb → w.tcb i = some b → b.is_in_critical_region = false

/-- The three retire lists `rl 0`, `rl 1`, `rl 2` of a thread are well formed with
footprints `f 0`, `f 1`, `f 2`: each is drainable and no object occurs in two of them. -/
structure ThreadWF (h : Heap) (rl : Nat → Ptr) (f : Nat → List Ptr) : Prop where
  chain : ∀ i, i < 3 → Chain h (rl i) (f i)
  nodup : ∀ i, i < 3 → (f i).Nodup
  disjoint : ∀ i j, i < 3 → j < 3 → i ≠ j → ∀ q, q ∈ f i → q ∉ f j

/-- A thread running alone: it owns the control block `cb`, has observed the current
global epoch, no other control block is in a critical region, nothing is abandoned, and
its retire lists are well formed with footprints `f`. -/
structure Solo (w : World) (t : thread_data) (cb : Nat) (f : Nat → List Ptr) : Prop where
  cb_eq : t.control_block = some cb
  tcb : ∃ b, w.tcb cb = some b ∧ b.local_epoch = w.global_epoch
  epoch_lt : w.global_epoch < 3
  alone : Alone w cb
  no_orphans : w.abandoned = 0
  lists : ThreadWF w.heap t.retire_lists f

/-- A user object, as opposed to an orphan. -/
def Heap.is_user (h : Heap) (p : Ptr) : Prop :=
  ∀ te l0 l1 l2, (h.obj p).kind ≠ .orphan te l0 l1 l2

/-! ## Concrete states used to instantiate the theorems -/

/-- A heap with eight allocated user objects of an empty deleter type, none destroyed. -/
def heap8 : Heap :=
  { obj := fun _ => { next := 0, kind := .with_empty_deleter }, top := 8, calls := [] }

/-- One registered thread, inside a critical region at epoch `0`. -/
def world1 : World :=
  { global_epoch := 0,
    entries := [{ is_in_critical_region := true, local_epoch := 0, active := true }],
    abandoned := 0, heap := heap8, update_attempts := 0 }

/-- The state of that thread while it holds one non-null guard. -/
def thread1 : thread_data :=
  { enter_count := 1, entries_since_update := 0, control_block := some 0,
    retire_lists := fun _ => 0 }

/-- One registered thread, outside any critical region, at epoch `0`. -/
def world2 : World :=
  { global_epoch := 0,
    entries := [{ is_in_critical_region := false, local_epoch := 0, active := true }],
    abandoned := 0, heap := heap8, update_attempts := 0 }

/-- The state of that thread with the object `4` queued on `retire_lists[0]` and no
guard held. -/
def thread2 : thread_data :=
  { enter_count := 0, entries_since_update := 0, control_block := some 0,
    retire_lists := fun i => if i = 0 then 4 else 0 }

/-! ## Nested critical regions -/

/-- The value of `enter_count` after the calls `cs`, starting from `n`. -/
def depth_after : Nat → List Call → Nat
  | n, [] => n
  | n, Call.enter_critical :: cs => depth_after (n + 1) cs
  | n, Call.leave_critical :: cs => depth_after (n - 1) cs
  | n, _ :: cs => depth_after n cs

/-- The calls `cs` are made by guards created and destroyed while the `n` guards held
at the start stay alive and one of them is non-null throughout: only `enter_critical`
and `leave_critical` occur, the nesting depth never falls below `1`, and it stays below
`2 ^ 32`. -/
def Nested : Nat → List Call → Prop
  | _, [] => True
  | n, Call.enter_critical :: cs => n + 1 < UINT ∧ Nested (n + 1) cs
  | n, Call.leave_critical :: cs => 1 < n ∧ Nested (n - 1) cs
  | _, _ :: _ => False

/-- The flag `is_in_critical_region` of the thread's control block; `false` while no
control block is attached. -/
def thread_data.in_critical_region (t : thread_data) (w : World) : Bool :=
  match t.control_block with
  | none => false
  | some cb =>
    match w.tcb cb with
    | some b => b.is_in_critical_region
    | none => false

/-- A sequence of `enter_critical` and `leave_critical` calls, started at nesting depth
`n`, in which every `leave_critical` is preceded by an unmatched `enter_critical` and
the nesting depth stays below `2 ^ 32`. -/
def Balanced : Nat → List Call → Prop
  | _, [] => True
  | n, Call.enter_critical :: cs => n + 1 < UINT ∧ Balanced (n + 1) cs
  | n, Call.leave_critical :: cs => 0 < n ∧ Balanced (n - 1) cs
  | _, _ :: _ => False

/-- The calls of `n` consecutive `update_epoch()` of the test harness: `n` pairs of
`enter_critical` and `leave_critical`. -/
def entry_exit_pairs : Nat → List Call
  | 0 => []
  | n + 1 => Call.enter_critical :: Call.leave_critical :: entry_exit_pairs n

/-! ## The orphan list -/

/-- The relation `OChain h p segs` holds when the `next` links starting at `p` reach `nullptr` through live orphans
with a valid `target_epoch`; `segs` lists each orphan with its target epoch and the
footprint of the three lists it carries. -/
inductive OChain (h : Heap) : Ptr → List (Ptr × Nat × List Ptr) → Prop where
  | nil : OChain h 0 []
  | cons {p : Ptr} {te : Nat} {l0 l1 l2 : Ptr} {f0 f1 f2 : List Ptr}
      {segs : List (Ptr × Nat × List Ptr)} :
      h.live p = true → (h.obj p).kind = .orphan te l0 l1 l2 → te < 3 →
      Chain h l0 f0 → Chain h l1 f1 → Chain h l2 f2 → OChain h (h.obj p).next segs →
      OChain h p ((p, te, f0 ++ f1 ++ f2) :: segs)

/-- All objects of an orphan list: the orphans and what they carry. -/
def flat : List (Ptr × Nat × List Ptr) → List Ptr
  | [] => []
  | (o, _, fp) :: segs => o :: (fp ++ flat segs)

/-- The footprints of a thread's retire lists after it has adopted the orphans `segs`,
in list order: each orphan is pushed on the list of its target epoch. -/
def adopt_fp : List (Ptr × Nat × List Ptr) → (Nat → List Ptr) → (Nat → List Ptr)
  | [], f => f
  | (o, te, fp) :: segs, f => adopt_fp segs (fun i => if i = te then o :: (fp ++ f te) else f i)

/-- Two registered threads at global epoch `0`: the first is outside any critical
region at epoch `0`, the second is inside a critical region and still at epoch `2`. -/
def world3 : World :=
  { global_epoch := 0,
    entries := [{ is_in_critical_region := false, local_epoch := 0, active := true },
                { is_in_critical_region := true, local_epoch := 2, active := true }],
    abandoned := 0, heap := heap8, update_attempts := 0 }

/-! ## Sequences of guard operations on one thread -/

/-- Copy assignment `operator=(const guard_ptr& p)` between two distinct guards: the
new word of the target and the calls made. -/
def guard_ptr.copy_assign (self p : Nat) : Nat × List Call :=
  (p, (guard_ptr.reset self).2 ++ (if p ≠ 0 then [Call.enter_critical] else []))

/-- Move assignment `operator=(guard_ptr&& p)` between two distinct guards: the new
words of the target and of the source, and the calls made. -/
def guard_ptr.move_assign (self p : Nat) : (Nat × Nat) × List Call :=
  ((p, 0), (guard_ptr.reset self).2)

/-- Move construction `guard_ptr(guard_ptr&& p)`: the words of the new guard and of the
source; no call is made. -/
def guard_ptr.move_ctor (p : Nat) : Nat × Nat := (p, 0)

/-- The operations a thread performs on its guards.  Guards are named by their position
in the store; `first` and `second` are the values a concurrent pointer returns to the two
loads of `acquire` / `acquire_if_equal`. -/
inductive GuardOp where
  | construct (p : Nat)
  | copy_construct (src : Nat)
  | move_construct (src : Nat)
  | copy_assign (dst src : Nat)
  | move_assign (dst src : Nat)
  | acquire (g first second : Nat)
  | acquire_if_equal (g expected first second : Nat)
  | reset (g : Nat)
  | reclaim (g d : Nat)
  | swap (g1 g2 : Nat)
  | destroy (g : Nat)
deriving DecidableEq, Repr

/-- The guards of a thread (`none` once destroyed) together with the engine state. -/
structure GuardState where
  guards : List (Option Nat)
  world : World
  thread : thread_data

/-- The word held by the live guard `g`. -/
def guard_at (gs : List (Option Nat)) (g : Nat) : Option Nat :=
  (gs.get? g).bind id

/-- The effect of one operation on the guard store, and the calls it makes; `none` when
the operation names a guard that is not alive (or `reclaim` dereferences null). -/
def guard_step (N : Nat) : GuardOp → List (Option Nat) → Option (List (Option Nat) × List Call)
  | .construct p, gs => some (gs ++ [some (guard_ptr.ctor p).1], (guard_ptr.ctor p).2)
  | .copy_construct src, gs =>
    (guard_at gs src).map fun p => (gs ++ [some (guard_ptr.ctor p).1], (guard_ptr.ctor p).2)
  | .move_construct src, gs =>
    (guard_at gs src).map fun p =>
      ((gs.set src (some (guard_ptr.move_ctor p).2)) ++ [some (guard_ptr.move_ctor p).1], [])
  | .copy_assign dst src, gs =>
    (guard_at gs dst).bind fun self => (guard_at gs src).map fun p =>
      if dst = src then (gs, [])
      else (gs.set dst (some (guard_ptr.copy_assign self p).1), (guard_ptr.copy_assign self p).2)
  | .move_assign dst src, gs =>
    (guard_at gs dst).bind fun self => (guard_at gs src).map fun p =>
      if dst = src then (gs, [])
      else ((gs.set dst (some (guard_ptr.move_assign self p).1.1)).set src
              (some (guard_ptr.move_assign self p).1.2),
            (guard_ptr.move_assign self p).2)
  | .acquire g first second, gs =>
    (guard_at gs g).map fun self =>
      (gs.set g (some (guard_ptr.acquire self first second).1),
       (guard_ptr.acquire self first second).2)
  | .acquire_if_equal g expected first second, gs =>
    (guard_at gs g).map fun self =>
      (gs.set g (some (guard_ptr.acquire_if_equal self expected first second).2.1),
       (guard_ptr.acquire_if_equal self expected first second).2.2)
  | .reset g, gs =>
    (guard_at gs g).map fun self =>
      (gs.set g (some (guard_ptr.reset self).1), (guard_ptr.reset self).2)
  | .reclaim g d, gs =>
    (guard_at gs g).bind fun self => (guard_ptr.reclaim N self d).map fun r =>
      (gs.set g (some r.1), r.2)
  | .swap g1 g2, gs =>
    (guard_at gs g1).bind fun p1 => (guard_at gs g2).map fun p2 =>
      ((gs.set g1 (some p2)).set g2 (some p1), [])
  | .destroy g, gs =>
    (guard_at gs g).map fun self => (gs.set g none, (guard_ptr.reset self).2)

/-- One guard operation on the whole state. -/
def guard_exec (UpdateThreshold N : Nat) (op : GuardOp) (s : GuardState) : Option GuardState :=
  match guard_step N op s.guards with
  | none => none
  | some (gs, cs) =>
    match exec_calls UpdateThreshold cs s.world s.thread with
    | none => none
    | some (w, t) => some { guards := gs, world := w, thread := t }

/-- A sequence of guard operations. -/
def run_ops (UpdateThreshold N : Nat) : List GuardOp → GuardState → Option GuardState
  | [], s => some s
  | op :: ops, s =>
    match guard_exec UpdateThreshold N op s with
    | none => none
    | some s1 => run_ops UpdateThreshold N ops s1

/-- The number of live guards whose marked pointer is non-null. -/
def nonnull_guards (gs : List (Option Nat)) : Nat :=
  gs.countP fun g => match g with
    | some p => decide (p ≠ 0)
    | none => false

/-- The number of `enter_critical` calls in a list of calls. -/
def enters (cs : List Call) : Nat := cs.count Call.enter_critical

/-- The number of `leave_critical` calls in a list of calls. -/
def leaves (cs : List Call) : Nat := cs.count Call.leave_critical

/-- The contribution of one guard slot to `nonnull_guards`. -/
def nn (g : Option Nat) : Nat :=
  match g with
  | some p => if p ≠ 0 then 1 else 0
  | none => 0

/-! ## Reachable states of one thread -/

/-- Everything queued for destruction: the orphans of the registry with what they carry,
and the objects on the thread's three retire lists. -/
def owned (f : Nat → List Ptr) (segs : List (Ptr × Nat × List Ptr)) : List Ptr :=
  flat segs ++ (f 0 ++ f 1 ++ f 2)

/-- A well-formed state of the engine as seen by one thread: the epoch is in range, the
three retire lists are null terminated with footprints `f`, the orphan list is well
formed with footprint `segs`, no object is queued twice, no object has been destroyed
twice, and the thread's control block pointer is valid. -/
structure Owned (w : World) (t : thread_data) (f : Nat → List Ptr)
    (segs : List (Ptr × Nat × List Ptr)) : Prop where
  epoch_lt : w.global_epoch < 3
  lists : ∀ i, i < 3 → Chain w.heap (t.retire_lists i) (f i)
  orphans : OChain w.heap w.abandoned segs
  nodup : (owned f segs).Nodup
  deleted_nodup : w.heap.deleted.Nodup
  cb_valid : ∀ cb, t.control_block = some cb → cb < w.entries.length

/-- The states a thread reaches from `(w0, t0)` through `enter_critical` (which performs
the orphan adoption and the drains), `leave_critical` and the retirement of user objects,
together with the list of objects retired so far, which starts as `R0`.  An object is
retired only if it is not yet on that list: every node is retired at most once.  Between
two calls other threads may change the registry entries and advance the global epoch. -/
inductive Reach (UpdateThreshold : Nat) (w0 : World) (t0 : thread_data) (R0 : List Ptr) :
    World → thread_data → List Ptr → Prop where
  | start : Reach UpdateThreshold w0 t0 R0 w0 t0 R0
  | enter {w w1 : World} {t t1 : thread_data} {R : List Ptr} :
      Reach UpdateThreshold w0 t0 R0 w t R →
      enter_critical UpdateThreshold w t = some (w1, t1) →
      Reach UpdateThreshold w0 t0 R0 w1 t1 R
  | leave {w w1 : World} {t t1 : thread_data} {R : List Ptr} :
      Reach UpdateThreshold w0 t0 R0 w t R →
      leave_critical w t = some (w1, t1) →
      Reach UpdateThreshold w0 t0 R0 w1 t1 R
  | retire {w w1 : World} {t t1 : thread_data} {R : List Ptr} (p : Ptr) (d : Nat) :
      Reach UpdateThreshold w0 t0 R0 w t R →
      p ∉ R → w.heap.is_user p →
      exec_calls UpdateThreshold [Call.set_deleter p d, Call.add_retired_node p] w t
        = some (w1, t1) →
      Reach UpdateThreshold w0 t0 R0 w1 t1 (p :: R)
  | interference {w w1 : World} {t : thread_data} {R : List Ptr} :
      Reach UpdateThreshold w0 t0 R0 w t R →
      w1.heap = w.heap → w1.abandoned = w.abandoned → w1.global_epoch < 3 →
      w.entries.length ≤ w1.entries.length →
      Reach UpdateThreshold w0 t0 R0 w1 t R

/-! ## Interleavings of several threads

Each thread owns one guard.  A thread performs whole member functions of its guard; the
one exception is `guard_ptr::acquire`, which may be preempted inside `do_enter_critical`
between the load of `global_epoch` and the store into `local_epoch`. -/

/-- The part of `do_enter_critical()` that precedes the statement
`control_block->local_epoch.store(epoch)`.  The third component is `none` when the
function has returned, and `some (cb, epoch)` when it goes on to store `epoch` into the
control block `cb` and to drain `retire_lists[epoch]`. -/
def do_enter_critical_load (UpdateThreshold : Nat) (w : World) (t : thread_data) :
    Option (World × thread_data × Option (Nat × Nat)) :=
  match ensure_has_control_block w t with
  | (w0, t0, cb) =>
    match w0.tcb cb with
    | none => none
    | some b =>
      let w1 := w0.set_tcb cb { b with is_in_critical_region := true }
      let epoch := w1.global_epoch
      if b.local_epoch ≠ epoch then
        some (w1, { t0 with entries_since_update := 0 }, some (cb, epoch))
      else if t0.entries_since_update = UpdateThreshold then
        let t1 := { t0 with entries_since_update := 0 }
        let new_epoch := (epoch + 1) % UINT % number_epochs
        match try_update_epoch w1 t1 epoch new_epoch with
        | none => none
        | some (false, w2, t2) => some (w2, t2, none)
        | some (true, w2, t2) => some (w2, t2, some (cb, new_epoch))
      else
        some (w1, { t0 with entries_since_update := (t0.entries_since_update + 1) % UINT },
              none)

/-- The rest of `do_enter_critical()`: the store into `local_epoch` and the drain, when
they are still to be done. -/
def do_enter_critical_store (w : World) (t : thread_data) (pending : Option (Nat × Nat)) :
    Option (World × thread_data) :=
  match pending with
  | none => some (w, t)
  | some (cb, epoch) => adopt_epoch w t cb epoch

/-- Member `enter_critical()` up to the store into `local_epoch`. -/
def enter_critical_load (UpdateThreshold : Nat) (w : World) (t : thread_data) :
    Option (World × thread_data × Option (Nat × Nat)) :=
  let t1 := { t with enter_count := (t.enter_count + 1) % UINT }
  if t1.enter_count = 1 then do_enter_critical_load UpdateThreshold w t1
  else some (w, t1, none)

/-- A thread: its `thread_data`, the marked pointer word of its guard, and, while it is
preempted inside `enter_critical`, the control block and the epoch it is about to
store. -/
structure Thread where
  data : thread_data
  guard : Nat
  pending : Option (Option (Nat × Nat))

/-- A thread that has not run yet; its guard is null. -/
def Thread.init : Thread := { data := thread_data.init, guard := 0, pending := none }

/-- The steps of a thread.  In `acquire v`, `acquire_begin v` and `acquire_resume v` the
value `v` is what the concurrent pointer holds when it is loaded. -/
inductive Action where
  | acquire (v : Nat)
  | acquire_begin (v : Nat)
  | acquire_resume (v : Nat)
  | reclaim (d : Nat)
  | reset
deriving DecidableEq, Repr

/-- The process: the engine state and the threads. -/
structure Sys where
  world : World
  threads : List Thread

/-- One step of thread `i`.  `acquire_begin` runs `guard_ptr::acquire` on a null guard
whose first load returns the non-null `v`, up to the store into `local_epoch` inside
`enter_critical`; `acquire_resume` finishes that call: the store, the drain, and the
second load, which returns `v`.  A preempted thread can only resume. -/
def sys_step (UpdateThreshold N : Nat) (i : Nat) (a : Action) (s : Sys) : Option Sys :=
  match s.threads.get? i with
  | none => none
  | some th =>
    match a, th.pending with
    | .acquire v, none =>
      match exec_calls UpdateThreshold (guard_ptr.acquire th.guard v v).2 s.world th.data with
      | none => none
      | some (w, t) =>
        some { world := w,
               threads := s.threads.set i
                 { th with data := t, guard := (guard_ptr.acquire th.guard v v).1 } }
    | .acquire_begin v, none =>
      if th.guard = 0 ∧ v ≠ 0 then
        match enter_critical_load UpdateThreshold s.world th.data with
        | none => none
        | some (w, t, p) =>
          some { world := w, threads := s.threads.set i { th with data := t, pending := some p } }
      else none
    | .acquire_resume v, some p =>
      match do_enter_critical_store s.world th.data p with
      | none => none
      | some (w, t) =>
        match exec_calls UpdateThreshold (if v = 0 then [Call.leave_critical] else []) w t with
        | none => none
        | some (w1, t1) =>
          some { world := w1,
                 threads := s.threads.set i { data := t1, guard := v, pending := none } }
    | .reclaim d, none =>
      match guard_ptr.reclaim N th.guard d with
      | none => none
      | some r =>
        match exec_calls UpdateThreshold r.2 s.world th.data with
        | none => none
        | some (w, t) =>
          some { world := w, threads := s.threads.set i { th with data := t, guard := r.1 } }
    | .reset, none =>
      match exec_calls UpdateThreshold (guard_ptr.reset th.guard).2 s.world th.data with
      | none => none
      | some (w, t) =>
        some { world := w,
               threads := s.threads.set i { th with data := t, guard := (guard_ptr.reset th.guard).1 } }
    | _, _ => none

/-- A schedule: which thread makes which step, in order. -/
def sys_run (UpdateThreshold N : Nat) : List (Nat × Action) → Sys → Option Sys
  | [], s => some s
  | (i, a) :: rest, s =>
    match sys_step UpdateThreshold N i a s with
    | none => none
    | some s1 => sys_run UpdateThreshold N rest s1

/-- Three new threads in a new process. -/
def sys3 : Sys :=
  { world := World.init heap8, threads := [Thread.init, Thread.init, Thread.init] }

/-- What is observed of a process: the global epoch, the objects destroyed so far, and
for every thread its guard word, its `enter_count`, its flag `is_in_critical_region` and
the heads of its three retire lists. -/
def Sys.observe (s : Sys) :
    Nat × List Ptr × List (Nat × Nat × Bool × Ptr × Ptr × Ptr) :=
  (s.world.global_epoch, s.world.heap.deleted,
   s.threads.map fun th =>
     (th.guard, th.data.enter_count, th.data.in_critical_region s.world,
      th.data.retire_lists 0, th.data.retire_lists 1, th.data.retire_lists 2))

/-! ### The states met along the schedule `preempted_entry_schedule` -/

/-- The schedule: thread `1` is preempted inside its first `enter_critical` while thread
`0` advances the epoch twice and thread `2` enters; thread `1` then completes the
acquisition of its guard on the object `4`; thread `2` retires `4`; the epoch is advanced
twice more, and thread `2` enters twice. -/
def preempted_entry_schedule : List (Nat × Action) :=
  [(1, .acquire_begin 4), (0, .acquire 8), (0, .reset),
   (0, .acquire 8), (0, .reset), (2, .acquire 4),
   (0, .acquire 8), (0, .reset), (1, .acquire_resume 4),
   (2, .reclaim 0), (0, .acquire 8), (0, .reset),
   (2, .acquire 8), (2, .reset), (0, .acquire 8), (0, .reset),
   (2, .acquire 8)]

/-- After 3 steps: thread `1` is preempted with its flag set and `local_epoch` still the
sentinel; thread `0` has made its first entry. -/
def sysA : Sys :=
  { world :=
      { global_epoch := 0,
        entries := [{ is_in_critical_region := true, local_epoch := 3, active := true },
                    { is_in_critical_region := false, local_epoch := 0, active := true }],
        abandoned := 0, heap := heap8, update_attempts := 0 },
    threads :=
      [{ data := { enter_count := 0, entries_since_update := 0, control_block := some 1,
                   retire_lists := fun i => if i = 0 then 0 else 0 },
         guard := 0, pending := none },
       { data := { enter_count := 1, entries_since_update := 0, control_block := some 0,
                   retire_lists := fun _ => 0 },
         guard := 0, pending := some (some (0, 0)) },
       Thread.init] }

/-- After 6 steps: the epoch is `1` and thread `2` holds a guard on `4`. -/
def sysB : Sys :=
  { world :=
      { global_epoch := 1,
        entries := [{ is_in_critical_region := true, local_epoch := 3, active := true },
                    { is_in_critical_region := false, local_epoch := 1, active := true },
                    { is_in_critical_region := true, local_epoch := 1, active := true }],
        abandoned := 0, heap := heap8, update_attempts := 1 },
    threads :=
      [{ data := { enter_count := 0, entries_since_update := 0, control_block := some 1,
                   retire_lists := fun i => if i = 1 then 0 else if i = 0 then 0 else 0 },
         guard := 0, pending := none },
       { data := { enter_count := 1, entries_since_update := 0, control_block := some 0,
                   retire_lists := fun _ => 0 },
         guard := 0, pending := some (some (0, 0)) },
       { data := { enter_count := 1, entries_since_update := 0, control_block := some 2,
                   retire_lists := fun i => if i = 1 then 0 else 0 },
         guard := 4, pending := none }] }

/-- After 9 steps: the epoch is `2`; thread `1` has stored the epoch `0` it had loaded and
holds a guard on `4`, which is on no retire list. -/
def sysC : Sys :=
  { world :=
      { global_epoch := 2,
        entries := [{ is_in_critical_region := true, local_epoch := 0, active := true },
                    { is_in_critical_region := false, local_epoch := 2, active := true },
                    { is_in_critical_region := true, local_epoch := 1, active := true }],
        abandoned := 0, heap := heap8, update_attempts := 2 },
    threads :=
      [{ data := { enter_count := 0, entries_since_update := 0, control_block := some 1,
                   retire_lists := fun i =>
                     if i = 2 then 0 else if i = 1 then 0 else if i = 0 then 0 else 0 },
         guard := 0, pending := none },
       { data := { enter_count := 1, entries_since_update := 0, control_block := some 0,
                   retire_lists := fun i => if i = 0 then 0 else 0 },
         guard := 4, pending := none },
       { data := { enter_count := 1, entries_since_update := 0, control_block := some 2,
                   retire_lists := fun i => if i = 1 then 0 else 0 },
         guard := 4, pending := none }] }

/-- After 12 steps: thread `2` has retired `4` on its `retire_lists[1]`, and the epoch
has been advanced to `0`. -/
def sysD : Sys :=
  { world :=
      { global_epoch := 0,
        entries := [{ is_in_critical_region := true, local_epoch := 0, active := true },
                    { is_in_critical_region := false, local_epoch := 0, active := true },
                    { is_in_critical_region := false, local_epoch := 1, active := true }],
        abandoned := 0, heap := heap8.set_next 4 0, update_attempts := 3 },
    threads :=
      [{ data := { enter_count := 0, entries_since_update := 0, control_block := some 1,
                   retire_lists := fun i =>
                     if i = 0 then 0 else
                       if i = 2 then 0 else if i = 1 then 0 else if i = 0 then 0 else 0 },
         guard := 0, pending := none },
       { data := { enter_count := 1, entries_since_update := 0, control_block := some 0,
                   retire_lists := fun i => if i = 0 then 0 else 0 },
         guard := 4, pending := none },
       { data := { enter_count := 0, entries_since_update := 0, control_block := some 2,
                   retire_lists := fun i => if i = 1 then 4 else if i = 1 then 0 else 0 },
         guard := 0, pending := none }] }

/-- After 16 steps: thread `2` has observed the epoch `0`, and the epoch has been
advanced to `1`. -/
def sysE : Sys :=
  { world :=
      { global_epoch := 1,
        entries := [{ is_in_critical_region := true, local_epoch := 0, active := true },
                    { is_in_critical_region := false, local_epoch := 1, active := true },
                    { is_in_critical_region := false, local_epoch := 0, active := true }],
        abandoned := 0, heap := heap8.set_next 4 0, update_attempts := 4 },
    threads :=
      [{ data := { enter_count := 0, entries_since_update := 0, control_block := some 1,
                   retire_lists := fun i =>
                     if i = 1 then 0 else
                       if i = 0 then 0 else
                         if i = 2 then 0 else if i = 1 then 0 else if i = 0 then 0 else 0 },
         guard := 0, pending := none },
       { data := { enter_count := 1, entries_since_update := 0, control_block := some 0,
                   retire_lists := fun i => if i = 0 then 0 else 0 },
         guard := 4, pending := none },
       { data := { enter_count := 0, entries_since_update := 0, control_block := some 2,
                   retire_lists := fun i =>
                     if i = 0 then 0 else if i = 1 then 4 else if i = 1 then 0 else 0 },
         guard := 0, pending := none }] }

/-! ## Threads that run whole guard operations -/

/-- A thread together with the objects its live non-null guards point to, one entry per
guard. -/
structure GThread where
  data : thread_data
  held : List Ptr

/-- The process: the engine state, the threads, and the objects retired so far. -/
structure GSys where
  world : World
  threads : List GThread
  retired : List Ptr

/-- The states `n` threads reach from a new process over the heap `h0` when every
thread runs whole guard operations, each holds fewer than `2 ^ 32` guards at a time, a
guard is acquired on an object only if the object is not yet retired or the thread
already holds a guard on it, and an object is retired at most once.
`acquire i v`: thread `i` obtains a further non-null guard on `v` (`enter_critical`).
`release i v`: one of its guards on `v` is reset or destroyed (`leave_critical`).
`reclaim i v d`: `reclaim(d)` on one of its guards on `v`. -/
inductive GReach (UpdateThreshold : Nat) (h0 : Heap) (n : Nat) : GSys → Prop where
  | start :
      GReach UpdateThreshold h0 n
        { world := World.init h0,
          threads := List.replicate n { data := thread_data.init, held := [] },
          retired := [] }
  | acquire {s : GSys} (i : Nat) (v : Ptr) {th : GThread} {w1 : World} {t1 : thread_data} :
      GReach UpdateThreshold h0 n s → s.threads.get? i = some th →
      (v ∉ s.retired ∨ v ∈ th.held) → th.held.length + 1 < UINT →
      enter_critical UpdateThreshold s.world th.data = some (w1, t1) →
      GReach UpdateThreshold h0 n
        { world := w1, threads := s.threads.set i { data := t1, held := v :: th.held },
          retired := s.retired }
  | release {s : GSys} (i : Nat) (v : Ptr) {th : GThread} {w1 : World} {t1 : thread_data} :
      GReach UpdateThreshold h0 n s → s.threads.get? i = some th → v ∈ th.held →
      leave_critical s.world th.data = some (w1, t1) →
      GReach UpdateThreshold h0 n
        { world := w1, threads := s.threads.set i { data := t1, held := th.held.erase v },
          retired := s.retired }
  | reclaim {s : GSys} (i : Nat) (v : Ptr) (d : Nat) {th : GThread} {w1 : World}
      {t1 : thread_data} :
      GReach UpdateThreshold h0 n s → s.threads.get? i = some th → v ∈ th.held →
      v ∉ s.retired → s.world.heap.is_user v →
      exec_calls UpdateThreshold
        [Call.set_deleter v d, Call.add_retired_node v, Call.leave_critical]
        s.world th.data = some (w1, t1) →
      GReach UpdateThreshold h0 n
        { world := w1, threads := s.threads.set i { data := t1, held := th.held.erase v },
          retired := v :: s.retired }

/-- What the safety argument records about one thread with the footprints `f` of its
retire lists: its control block is registered; `enter_count` is the number of its guards;
while it holds a guard its control block is flagged, and an object it guards that has
been retired was retired no earlier than the epoch the thread has observed; every object
queued on `retire_lists[k]` was retired at least two advances before any epoch at which
the thread can drain that list. -/
structure ThreadOK (es : List thread_control_block) (h : Heap) (R : List Ptr) (G : Nat)
    (stamp : Ptr → Nat) (f : Nat → List Ptr) (th : GThread) : Prop where
  cb_lt : ∀ cb, th.data.control_block = some cb → cb < es.length
  count : th.data.enter_count = th.held.length ∧ th.held.length < UINT
  inside : th.held ≠ [] →
    ∃ cb b, th.data.control_block = some cb ∧ es.get? cb = some b
      ∧ b.is_in_critical_region = true
      ∧ ∀ v ∈ th.held, v ∈ R → (b.local_epoch = G % 3 → G ≤ stamp v) ∧ G ≤ stamp v + 1
  lists : ∀ k, k < 3 → Chain h (th.data.retire_lists k) (f k)
  bound : ∀ k, k < 3 → ∀ v ∈ f k,
    ∃ cb b, th.data.control_block = some cb ∧ es.get? cb = some b
      ∧ ∀ G1, G ≤ G1 → G1 % 3 = k → (G1 = G → b.local_epoch ≠ G % 3) → stamp v + 2 ≤ G1

/-- The invariant behind reclamation safety.  `G` counts the advances of the global
epoch, `stamp v` is the value of `G` when `v` was retired, and `F i k` is the footprint
of `retire_lists[k]` of thread `i`. -/
structure GInv (es : List thread_control_block) (h : Heap) (ths : List GThread)
    (R : List Ptr) (G : Nat) (stamp : Ptr → Nat) (F : Nat → Nat → List Ptr) : Prop where
  active : ∀ b ∈ es, b.active = true
  flagged : ∀ cb b, es.get? cb = some b → b.is_in_critical_region = true →
    b.local_epoch = G % 3 ∨ b.local_epoch = (G + 2) % 3
  threads : ∀ i th, ths.get? i = some th → ThreadOK es h R G stamp (F i) th
  cb_inj : ∀ i j thi thj cb, ths.get? i = some thi → ths.get? j = some thj →
    thi.data.control_block = some cb → thj.data.control_block = some cb → i = j
  nodup : ∀ i k, i < ths.length → k < 3 → (F i k).Nodup
  disjoint : ∀ i j k l q, i < ths.length → j < ths.length → k < 3 → l < 3 →
    q ∈ F i k → q ∈ F j l → i = j ∧ k = l
  account : ∀ q, q ∈ R ↔ ((∃ i k, i < ths.length ∧ k < 3 ∧ q ∈ F i k) ∨ q ∈ h.deleted)
  destroyed : ∀ v ∈ h.deleted, stamp v + 2 ≤ G
/-- The invariant of a process: some count `G` of advances, retirement stamps and
footprints make `GInv` hold, the global epoch is `G mod 3`, and there is no orphan. -/
def SysInv (s : GSys) : Prop :=
  ∃ (G : Nat) (stamp : Ptr → Nat) (F : Nat → Nat → List Ptr),
    s.world.global_epoch = G % 3 ∧ s.world.abandoned = 0
      ∧ GInv s.world.entries s.world.heap s.threads s.retired G stamp F

/-! ### A guard acquired after the retirement -/

/-- Two new threads in a new process. -/
def sys2 : Sys :=
  { world := World.init heap8, threads := [Thread.init, Thread.init] }

/-- Thread `0` acquires a guard on `4`, retires `4` through it and advances the epoch
twice; thread `1` then acquires a guard on `4`; thread `0` advances the epoch once
more.  All steps are whole guard operations. -/
def late_guard_schedule : List (Nat × Action) :=
  [(0, .acquire 4), (0, .reclaim 0), (0, .acquire 8), (0, .reset),
   (0, .acquire 8), (0, .reset), (1, .acquire 4),
   (0, .acquire 8)]

/-- After 4 steps: `4` is queued on `retire_lists[0]` of thread `0`; the epoch is `1`. -/
def sysL1 : Sys :=
  { world :=
      { global_epoch := 1,
        entries := [{ is_in_critical_region := false, local_epoch := 1, active := true }],
        abandoned := 0, heap := heap8.set_next 4 0, update_attempts := 1 },
    threads :=
      [{ data := { enter_count := 0, entries_since_update := 0, control_block := some 0,
                   retire_lists := fun i =>
                     if i = 1 then 0 else if i = 0 then 4 else if i = 0 then 0 else 0 },
         guard := 0, pending := none },
       Thread.init] }

/-- After 7 steps: the epoch is `2`, `4` is still queued, and thread `1` holds a guard
on `4`. -/
def sysL2 : Sys :=
  { world :=
      { global_epoch := 2,
        entries := [{ is_in_critical_region := false, local_epoch := 2, active := true },
                    { is_in_critical_region := true, local_epoch := 2, active := true }],
        abandoned := 0, heap := heap8.set_next 4 0, update_attempts := 2 },
    threads :=
      [{ data := { enter_count := 0, entries_since_update := 0, control_block := some 0,
                   retire_lists := fun i =>
                     if i = 2 then 0 else
                       if i = 1 then 0 else if i = 0 then 4 else if i = 0 then 0 else 0 },
         guard := 0, pending := none },
       { data := { enter_count := 1, entries_since_update := 0, control_block := some 1,
                   retire_lists := fun i => if i = 2 then 0 else 0 },
         guard := 4, pending := none }] }

/-- One step of the engine on the process-wide state, made by some thread with local
state `t`: a call made by a guard (`enter_critical`, `leave_critical`, `set_deleter`,
`add_retired_node`), the destructor of a thread state, or a `try_update_epoch` whose
argument `curr` is a value of `global_epoch` loaded earlier (one of `L`) by a thread that
was preempted between the load and the call. -/
inductive EngineStep (UpdateThreshold : Nat) (L : List Nat) (w w1 : World) : Prop where
  | call (c : Call) (t t1 : thread_data) :
      c.exec UpdateThreshold w t = some (w1, t1) → EngineStep UpdateThreshold L w w1
  | exit (t : thread_data) :
      thread_data.dtor w t = some w1 → EngineStep UpdateThreshold L w w1
  | update (t t1 : thread_data) (curr : Nat) (r : Bool) :
      curr ∈ L →
      try_update_epoch w t curr ((curr + 1) % UINT % number_epochs) = some (r, w1, t1) →
      EngineStep UpdateThreshold L w w1

/-- The process-wide states reached from the zero-initialised statics over the heap
`h0`, together with the values of `global_epoch` loaded so far. -/
inductive EngineReach (UpdateThreshold : Nat) (h0 : Heap) : World → List Nat → Prop where
  | init : EngineReach UpdateThreshold h0 (World.init h0) []
  | step {w w1 : World} {L : List Nat} :
      EngineReach UpdateThreshold h0 w L → EngineStep UpdateThreshold L w w1 →
      EngineReach UpdateThreshold h0 w1 L
  | load {w : World} {L : List Nat} :
      EngineReach UpdateThreshold h0 w L →
      EngineReach UpdateThreshold h0 w (w.global_epoch :: L)

/-- One registered thread, inside a critical region, after the first advance of the
global epoch. -/
def world5 : World :=
  { global_epoch := 1,
    entries := [{ is_in_critical_region := true, local_epoch := 1, active := true }],
    abandoned := 0, heap := heap8, update_attempts := 1 }

/-- The deleter that `delete_self` applies to the object `p`: the value stored in
`deleter_buffer` for a node with a non-empty deleter type, and a default constructed
deleter (`none`) for the other objects. -/
def stored_deleter (h : Heap) (p : Ptr) : Option Nat :=
  match (h.obj p).kind with
  | .with_non_empty_deleter (some d) => some d
  | _ => none

/-- A heap with eight allocated user objects of a non-empty deleter type, none
destroyed, no deleter installed. -/
def heap8d : Heap :=
  { obj := fun _ => { next := 0, kind := .with_non_empty_deleter none }, top := 8,
    calls := [] }

/-- One registered thread, inside a critical region at epoch `0`, over `heap8d`. -/
def world6 : World :=
  { global_epoch := 0,
    entries := [{ is_in_critical_region := true, local_epoch := 0, active := true }],
    abandoned := 0, heap := heap8d, update_attempts := 0 }

/-! ## Comparison and null test of marked pointers -/

/-- The conversion `explicit operator bool() const` of `marked_ptr`: `ptr != nullptr`, a
test of the whole word. -/
def marked_ptr.operator_bool (ptr : Nat) : Bool := decide (ptr ≠ 0)

/-- The friend `operator==` of `marked_ptr`: `l.ptr == r.ptr`. -/
def marked_ptr.operator_eq (l r : Nat) : Bool := decide (l = r)

/-- The friend `operator!=` of `marked_ptr`: `l.ptr != r.ptr`. -/
def marked_ptr.operator_ne (l r : Nat) : Bool := decide (l ≠ r)

/-- The conversion `explicit operator bool() const` of `utils::guard_ptr`:
`static_cast<bool>(ptr)`. -/
def guard_ptr.operator_bool (ptr : Nat) : Bool := marked_ptr.operator_bool ptr

/-! ## The accesses made by `delete_objects` -/

/-- What the loop of `delete_objects` does to a node of its list. -/
inductive Access where
  | read_next (p : Ptr)
  | delete_self (p : Ptr)
deriving DecidableEq, Repr

/-- The loop of `utils::delete_objects` once more, together with the record, in order,
of the reads of `current->next` and of the calls `current->delete_self()` that the loop
itself makes. -/
def delete_objects_traced_loop : Nat → Heap → Ptr → Option (Heap × List Access)
  | 0, _, _ => none
  | fuel + 1, h, current =>
    if current = 0 then some (h, [])
    else if h.live current then
      let next := (h.obj current).next
      match delete_self fuel h current with
      | none => none
      | some h1 =>
        match delete_objects_traced_loop fuel h1 next with
        | none => none
        | some (h2, tr) => some (h2, Access.read_next current :: Access.delete_self current :: tr)
    else none

/-- The function `utils::delete_objects(list)` with its record of accesses and with the new
value of its reference parameter: the last statement is `list = nullptr`. -/
def delete_objects_ref (h : Heap) (list : Ptr) : Option (Heap × Ptr × List Access) :=
  match delete_objects_traced_loop (2 * h.top + 1) h list with
  | none => none
  | some (h1, tr) => some (h1, 0, tr)

/-- The relation `ListOf h p ns` holds when `ns` are the objects met from `p` along the
`next` links up to `nullptr`, in order. -/
inductive ListOf (h : Heap) : Ptr → List Ptr → Prop where
  | nil : ListOf h 0 []
  | cons {p : Ptr} {ns : List Ptr} :
      p ≠ 0 → ListOf h (h.obj p).next ns → ListOf h p (p :: ns)

/-- The accesses of a walk that reads the `next` link of each node and then calls its
`delete_self`, node after node. -/
def drain_accesses : List Ptr → List Access
  | [] => []
  | q :: ns => Access.read_next q :: Access.delete_self q :: drain_accesses ns

/-- A heap with eight allocated user objects, none destroyed, in which `4`, `6` and `2`
are linked in this order. -/
def heap8l : Heap :=
  { obj := fun q =>
      { next := if q = 4 then 6 else if q = 6 then 2 else 0, kind := .with_empty_deleter },
    top := 8, calls := [] }

/-! ## The states of one thread among others -/

/-- The states of a thread that starts with a default constructed `thread_data` in a
reachable state of the process: its own calls (`enter_critical`, `leave_critical`,
`set_deleter`, `add_retired_node`) interleaved in any way with the steps of the other
threads, among them thread exits, after which a control block can be taken over. -/
inductive ThreadReach (UpdateThreshold : Nat) (h0 : Heap) :
    World → thread_data → List Nat → Prop where
  | start {w : World} {L : List Nat} :
      EngineReach UpdateThreshold h0 w L →
      ThreadReach UpdateThreshold h0 w thread_data.init L
  | own {w w1 : World} {t t1 : thread_data} {L : List Nat} (c : Call) :
      ThreadReach UpdateThreshold h0 w t L → c.exec UpdateThreshold w t = some (w1, t1) →
      ThreadReach UpdateThreshold h0 w1 t1 L
  | other {w w1 : World} {t : thread_data} {L : List Nat} :
      ThreadReach UpdateThreshold h0 w t L → EngineStep UpdateThreshold L w w1 →
      ThreadReach UpdateThreshold h0 w1 t L
  | load {w : World} {t : thread_data} {L : List Nat} :
      ThreadReach UpdateThreshold h0 w t L →
      ThreadReach UpdateThreshold h0 w t (w.global_epoch :: L)

/-- The heap `heap8` after a thread whose `retire_lists[0]` held the object `4` has
exited at the global epoch `0`: the orphan at the address `9` has the target epoch `2`
and carries the list `4`. -/
def heap9 : Heap :=
  { obj := fun q =>
      if q = 9 then { next := 0, kind := .orphan 2 4 0 0 }
      else { next := 0, kind := .with_empty_deleter },
    top := 9, calls := [] }

/-- The process after that exit: the control block `0` is released, the orphan `9` is on
the orphan list, and a second thread owns the control block `1`. -/
def world7 : World :=
  { global_epoch := 0,
    entries := [{ is_in_critical_region := false, local_epoch := 0, active := false },
                { is_in_critical_region := false, local_epoch := 0, active := true }],
    abandoned := 9, heap := heap9, update_attempts := 0 }

/-- The state of the second thread: no guard held, nothing retired. -/
def thread7 : thread_data :=
  { enter_count := 0, entries_since_update := 0, control_block := some 1,
    retire_lists := fun _ => 0 }

/-- One released control block, left by a thread that made one entry at epoch `0` and
then exited. -/
def world8 : World :=
  { global_epoch := 0,
    entries := [{ is_in_critical_region := false, local_epoch := 0, active := false }],
    abandoned := 0, heap := heap8, update_attempts := 0 }

/-- The states a thread reaches from `(w0, t0)` before the global epoch is `te`: by
`enter_critical`, `leave_critical` and the retirement of user objects that are not
queued, and through steps of other threads.  A step of another thread may change the
registry, the global epoch, the orphan list and the heap in any way that leaves the
thread's view well formed with the footprints of its three retire lists unchanged.  The
global epoch of every state on the way is different from `te`. -/
inductive ReachBefore (UpdateThreshold : Nat) (te : Nat) (w0 : World) (t0 : thread_data) :
    World → thread_data → Prop where
  | start : w0.global_epoch ≠ te → ReachBefore UpdateThreshold te w0 t0 w0 t0
  | enter {w w1 : World} {t t1 : thread_data} :
      ReachBefore UpdateThreshold te w0 t0 w t →
      enter_critical UpdateThreshold w t = some (w1, t1) →
      w1.global_epoch ≠ te →
      ReachBefore UpdateThreshold te w0 t0 w1 t1
  | leave {w w1 : World} {t t1 : thread_data} :
      ReachBefore UpdateThreshold te w0 t0 w t →
      leave_critical w t = some (w1, t1) →
      ReachBefore UpdateThreshold te w0 t0 w1 t1
  | retire {w w1 : World} {t t1 : thread_data} (p : Ptr) (d : Nat) :
      ReachBefore UpdateThreshold te w0 t0 w t →
      w.heap.is_user p →
      (∀ f segs, Owned w t f segs → p ∉ owned f segs) →
      exec_calls UpdateThreshold [Call.set_deleter p d, Call.add_retired_node p] w t
        = some (w1, t1) →
      ReachBefore UpdateThreshold te w0 t0 w1 t1
  | environment {w w1 : World} {t : thread_data} :
      ReachBefore UpdateThreshold te w0 t0 w t →
      (∀ f segs, Owned w t f segs → ∃ segs1, Owned w1 t f segs1) →
      w1.global_epoch ≠ te →
      ReachBefore UpdateThreshold te w0 t0 w1 t

/-! # Theorems -/

/-! ## Basic facts about the registry -/

@[simp] theorem set_tcb_global_epoch (w : World) (cb : Nat) (b : thread_control_block) :
    (w.set_tcb cb b).global_epoch = w.global_epoch := rfl

@[simp] theorem set_tcb_heap (w : World) (cb : Nat) (b : thread_control_block) :
    (w.set_tcb cb b).heap = w.heap := rfl

@[simp] theorem set_tcb_abandoned (w : World) (cb : Nat) (b : thread_control_block) :
    (w.set_tcb cb b).abandoned = w.abandoned := rfl

@[simp] theorem set_tcb_update_attempts (w : World) (cb : Nat) (b : thread_control_block) :
    (w.set_tcb cb b).update_attempts = w.update_attempts := rfl

@[simp] theorem set_tcb_entries (w : World) (cb : Nat) (b : thread_control_block) :
    (w.set_tcb cb b).entries = w.entries.set cb b := rfl

theorem tcb_lt {w : World} {cb : Nat} {b : thread_control_block} (h : w.tcb cb = some b) :
    cb < w.entries.length := by
  unfold World.tcb at h
  by_contra hn
  rw [List.get?_eq_none.mpr (by omega)] at h
  cases h

theorem tcb_set_tcb_same {w : World} {cb : Nat} {b0 : thread_control_block}
    (h : w.tcb cb = some b0) (b : thread_control_block) :
    (w.set_tcb cb b).tcb cb = some b := by
  have hlt := tcb_lt h
  simp [World.tcb, World.set_tcb, List.get?_eq_getElem?, hlt]

theorem tcb_set_tcb_ne (w : World) {cb cb2 : Nat} (hne : cb ≠ cb2) (b : thread_control_block) :
    (w.set_tcb cb b).tcb cb2 = w.tcb cb2 := by
  simp [World.tcb, World.set_tcb, List.get?_eq_getElem?, List.getElem?_set_ne hne]

theorem old_epoch_of_lt {curr : Nat} (h : curr < 3) : old_epoch_of curr = (curr + 2) % 3 := by
  unfold old_epoch_of number_epochs UINT
  omega


theorem any_prevents_iff (w : World) {curr : Nat} (hc : curr < 3) :
    w.entries.any (prevents_update (old_epoch_of curr)) = true ↔ Blocked w curr := by
  simp [List.any_eq_true, prevents_update, old_epoch_of_lt hc, Blocked]

theorem try_update_epoch_blocked (w : World) (t : thread_data) {curr : Nat} (new : Nat)
    (hc : curr < 3) (hb : Blocked w curr) :
    try_update_epoch w t curr new
      = some (false, { w with update_attempts := w.update_attempts + 1 }, t) := by
  have h := (any_prevents_iff w hc).mpr hb
  simp [try_update_epoch, h]

theorem try_update_epoch_stale (w : World) (t : thread_data) {curr : Nat} (new : Nat)
    (hc : curr < 3) (hb : ¬ Blocked w curr) (hg : w.global_epoch ≠ curr) :
    try_update_epoch w t curr new
      = some (true, { w with update_attempts := w.update_attempts + 1 }, t) := by
  have h : w.entries.any (prevents_update (old_epoch_of curr)) = false := by
    rw [Bool.eq_false_iff]; exact fun h => hb ((any_prevents_iff w hc).mp h)
  simp [try_update_epoch, h, hg]

theorem try_update_epoch_cas (w : World) (t : thread_data) {curr : Nat} (new : Nat)
    (hc : curr < 3) (hb : ¬ Blocked w curr) (hg : w.global_epoch = curr) :
    try_update_epoch w t curr new
      = (adopt_orphans { w with update_attempts := w.update_attempts + 1,
                                global_epoch := new } t).map fun r => (true, r.1, r.2) := by
  have h : w.entries.any (prevents_update (old_epoch_of curr)) = false := by
    rw [Bool.eq_false_iff]; exact fun h => hb ((any_prevents_iff w hc).mp h)
  simp only [try_update_epoch, h, hg]
  simp
  cases adopt_orphans _ t <;> simp

/-! ## Heap updates -/

@[simp] theorem log_obj (h : Heap) (d : Option Nat) (p : Ptr) : (h.log d p).obj = h.obj := rfl
@[simp] theorem log_top (h : Heap) (d : Option Nat) (p : Ptr) : (h.log d p).top = h.top := rfl
@[simp] theorem log_deleted (h : Heap) (d : Option Nat) (p : Ptr) :
    (h.log d p).deleted = h.deleted ++ [p] := by
  simp [Heap.log, Heap.deleted]
@[simp] theorem set_kind_top (h : Heap) (p : Ptr) (k : Kind) : (h.set_kind p k).top = h.top := rfl
@[simp] theorem set_kind_deleted (h : Heap) (p : Ptr) (k : Kind) :
    (h.set_kind p k).deleted = h.deleted := rfl
@[simp] theorem set_kind_next (h : Heap) (p : Ptr) (k : Kind) (q : Ptr) :
    ((h.set_kind p k).obj q).next = (h.obj q).next := by
  unfold Heap.set_kind; by_cases hq : q = p <;> simp [hq]
theorem set_kind_obj_ne (h : Heap) {p q : Ptr} (k : Kind) (hq : q ≠ p) :
    (h.set_kind p k).obj q = h.obj q := by
  simp [Heap.set_kind, hq]
@[simp] theorem set_next_top (h : Heap) (p v : Ptr) : (h.set_next p v).top = h.top := rfl
@[simp] theorem set_next_deleted (h : Heap) (p v : Ptr) :
    (h.set_next p v).deleted = h.deleted := rfl
@[simp] theorem set_next_calls (h : Heap) (p v : Ptr) : (h.set_next p v).calls = h.calls := rfl
@[simp] theorem set_next_kind (h : Heap) (p v : Ptr) (q : Ptr) :
    ((h.set_next p v).obj q).kind = (h.obj q).kind := by
  unfold Heap.set_next; by_cases hq : q = p <;> simp [hq]
@[simp] theorem set_next_next_same (h : Heap) (p v : Ptr) : ((h.set_next p v).obj p).next = v := by
  simp [Heap.set_next]
theorem set_next_obj_ne (h : Heap) {p q : Ptr} (v : Ptr) (hq : q ≠ p) :
    (h.set_next p v).obj q = h.obj q := by
  simp [Heap.set_next, hq]
@[simp] theorem set_next_live (h : Heap) (p v q : Ptr) : (h.set_next p v).live q = h.live q := rfl
@[simp] theorem set_kind_live (h : Heap) (p : Ptr) (k : Kind) (q : Ptr) :
    (h.set_kind p k).live q = h.live q := rfl

theorem live_iff (h : Heap) (p : Ptr) :
    h.live p = true ↔ p ≠ 0 ∧ p ≤ h.top ∧ p ∉ h.deleted := by
  simp [Heap.live, and_assoc]

@[simp] theorem delete_one_top (h : Heap) (p : Ptr) : (delete_one h p).top = h.top := by
  unfold delete_one; split <;> simp
@[simp] theorem delete_one_deleted (h : Heap) (p : Ptr) :
    (delete_one h p).deleted = h.deleted ++ [p] := by
  unfold delete_one; split <;> simp
@[simp] theorem delete_one_next (h : Heap) (p q : Ptr) :
    ((delete_one h p).obj q).next = (h.obj q).next := by
  unfold delete_one; split <;> simp
theorem delete_one_obj_ne (h : Heap) {p q : Ptr} (hq : q ≠ p) :
    (delete_one h p).obj q = h.obj q := by
  unfold delete_one; split <;> simp [set_kind_obj_ne, hq]

@[simp] theorem foldl_delete_one_top (fp : List Ptr) (h : Heap) :
    (fp.foldl delete_one h).top = h.top := by
  induction fp generalizing h with
  | nil => rfl
  | cons p fp ih => simp [ih]
@[simp] theorem foldl_delete_one_deleted (fp : List Ptr) (h : Heap) :
    (fp.foldl delete_one h).deleted = h.deleted ++ fp := by
  induction fp generalizing h with
  | nil => simp
  | cons p fp ih => simp [ih]
theorem foldl_delete_one_obj (fp : List Ptr) (h : Heap) {q : Ptr} (hq : q ∉ fp) :
    (fp.foldl delete_one h).obj q = h.obj q := by
  induction fp generalizing h with
  | nil => rfl
  | cons p fp ih =>
    simp only [List.mem_cons, not_or] at hq
    simp [ih _ hq.2, delete_one_obj_ne h hq.1]

theorem foldl_delete_one_live (fp : List Ptr) (h : Heap) {q : Ptr} (hq : q ∉ fp) :
    (fp.foldl delete_one h).live q = h.live q := by
  rw [Bool.eq_iff_iff, live_iff, live_iff]
  simp [hq]

/-! ## Chains -/

theorem Chain.transport {h h2 : Heap} {p : Ptr} {fp : List Ptr} (c : Chain h p fp)
    (hf : ∀ q ∈ fp, h2.obj q = h.obj q ∧ h2.live q = h.live q) : Chain h2 p fp := by
  induction c with
  | nil => exact Chain.nil
  | @node p fp hl hn _ ih =>
    have hp := hf p (List.mem_cons_self _ _)
    refine Chain.node (by rw [hp.2]; exact hl) ?_ ?_
    · unfold Heap.is_node; rw [hp.1]; exact hn
    · rw [hp.1]; exact ih (fun q hq => hf q (List.mem_cons_of_mem _ hq))
  | @orphan p te l0 l1 l2 f0 f1 f2 fp hl hk _ _ _ _ ih0 ih1 ih2 ih =>
    have hp := hf p (List.mem_cons_self _ _)
    refine Chain.orphan (by rw [hp.2]; exact hl) (by rw [hp.1]; exact hk) ?_ ?_ ?_ ?_
    · exact ih0 (fun q hq => hf q (by simp [hq]))
    · exact ih1 (fun q hq => hf q (by simp [hq]))
    · exact ih2 (fun q hq => hf q (by simp [hq]))
    · rw [hp.1]; exact ih (fun q hq => hf q (by simp [hq]))

theorem Chain.live_of_mem {h : Heap} {p : Ptr} {fp : List Ptr} (c : Chain h p fp) :
    ∀ q ∈ fp, h.live q = true := by
  induction c with
  | nil => simp
  | @node p fp hl _ _ ih =>
    intro q hq
    rcases List.mem_cons.mp hq with rfl | hq
    · exact hl
    · exact ih q hq
  | @orphan p te l0 l1 l2 f0 f1 f2 fp hl _ _ _ _ _ ih0 ih1 ih2 ih =>
    intro q hq
    simp only [List.mem_cons, List.mem_append] at hq
    rcases hq with rfl | ((hq | hq) | hq) | hq
    · exact hl
    · exact ih0 q hq
    · exact ih1 q hq
    · exact ih2 q hq
    · exact ih q hq

theorem Chain.unique {h : Heap} {p : Ptr} {fp : List Ptr} (c : Chain h p fp) :
    ∀ {fp2 : List Ptr}, Chain h p fp2 → fp = fp2 := by
  induction c with
  | nil =>
    intro fp2 c2
    cases c2 with
    | nil => rfl
    | node hl _ _ => simp [live_iff] at hl
    | orphan hl _ _ _ _ _ => simp [live_iff] at hl
  | @node p fp hl hn _ ih =>
    intro fp2 c2
    cases c2 with
    | nil => simp [live_iff] at hl
    | node _ _ c => rw [ih c]
    | orphan _ hk _ _ _ _ =>
      rcases hn with hn | ⟨d, hn⟩ <;> rw [hn] at hk <;> cases hk
  | @orphan p te l0 l1 l2 f0 f1 f2 fp hl hk _ _ _ _ ih0 ih1 ih2 ih =>
    intro fp2 c2
    cases c2 with
    | nil => simp [live_iff] at hl
    | node _ hn _ =>
      rcases hn with hn | ⟨d, hn⟩ <;> rw [hn] at hk <;> cases hk
    | orphan _ hk2 c0 c1 c2 c =>
      rw [hk] at hk2
      cases hk2
      rw [ih0 c0, ih1 c1, ih2 c2, ih c]

theorem Chain.head_zero {h : Heap} {fp : List Ptr} (c : Chain h 0 fp) : fp = [] :=
  (Chain.unique Chain.nil c).symm

theorem nodup_bounded_length {l : List Nat} {n : Nat} (hn : l.Nodup)
    (hb : ∀ q ∈ l, q ≠ 0 ∧ q ≤ n) : l.length ≤ n := by
  have h1 : l.toFinset ⊆ Finset.Icc 1 n := by
    intro q hq
    have := hb q (List.mem_toFinset.mp hq)
    simp only [Finset.mem_Icc]
    omega
  have h2 := Finset.card_le_card h1
  rw [List.toFinset_card_of_nodup hn] at h2
  simpa using h2

theorem Chain.length_le {h : Heap} {p : Ptr} {fp : List Ptr} (c : Chain h p fp)
    (hn : fp.Nodup) : fp.length ≤ h.top :=
  nodup_bounded_length hn fun q hq => by
    have := (live_iff h q).mp (c.live_of_mem q hq)
    exact ⟨this.1, this.2.1⟩

/-! ## Draining a well-formed list -/

theorem delete_self_node {h : Heap} {p : Ptr} (hl : h.live p = true) (hn : h.is_node p)
    (fuel : Nat) : delete_self (fuel + 1) h p = some (delete_one h p) := by
  rw [delete_self]
  rcases hn with hn | ⟨d, hn⟩ <;> simp [hl, hn, delete_one]

theorem delete_one_orphan {h : Heap} {p : Ptr} {te : Nat} {l0 l1 l2 : Ptr}
    (hk : (h.obj p).kind = .orphan te l0 l1 l2) : delete_one h p = h.log none p := by
  simp [delete_one, hk]

theorem delete_one_live_ne (h : Heap) {p q : Ptr} (hq : q ≠ p) :
    (delete_one h p).live q = h.live q := by
  rw [Bool.eq_iff_iff, live_iff, live_iff]
  simp [hq]

theorem Chain.after_delete_one {h : Heap} {p r : Ptr} {fp : List Ptr} (c : Chain h r fp)
    (hp : p ∉ fp) : Chain (delete_one h p) r fp :=
  c.transport fun q hq => by
    have hne : q ≠ p := fun e => hp (e ▸ hq)
    exact ⟨delete_one_obj_ne h hne, delete_one_live_ne h hne⟩

theorem Chain.after_foldl {h : Heap} {r : Ptr} {fp gp : List Ptr} (c : Chain h r fp)
    (hd : ∀ q ∈ fp, q ∉ gp) : Chain (gp.foldl delete_one h) r fp :=
  c.transport fun q hq => ⟨foldl_delete_one_obj gp h (hd q hq), foldl_delete_one_live gp h (hd q hq)⟩

theorem drain_loop (n : Nat) : ∀ (h : Heap) (p : Ptr) (fp : List Ptr), fp.length ≤ n →
    Chain h p fp → fp.Nodup → ∀ fuel, 2 * fp.length + 1 ≤ fuel →
    delete_objects_loop fuel h p = some (fp.foldl delete_one h) := by
  induction n with
  | zero =>
    intro h p fp hlen c _ fuel hfuel
    have hfp : fp = [] := List.length_eq_zero.mp (Nat.le_zero.mp hlen)
    subst hfp
    cases c
    obtain ⟨f, rfl⟩ : ∃ f, fuel = f + 1 := ⟨fuel - 1, by omega⟩
    simp [delete_objects_loop]
  | succ n ih =>
    intro h p fp hlen c hnd fuel hfuel
    cases c with
    | nil =>
      obtain ⟨f, rfl⟩ : ∃ f, fuel = f + 1 := ⟨fuel - 1, by omega⟩
      simp [delete_objects_loop]
    | @node _ fp hl hn c =>
      simp only [List.length_cons] at hlen hfuel
      obtain ⟨f, rfl⟩ : ∃ f, fuel = f + 2 := ⟨fuel - 2, by omega⟩
      have hp0 : p ≠ 0 := ((live_iff h p).mp hl).1
      have hpn : p ∉ fp := (List.nodup_cons.mp hnd).1
      rw [delete_objects_loop]
      simp only [hp0, if_false, hl, if_true, delete_self_node hl hn]
      have c2 : Chain (delete_one h p) (h.obj p).next fp := c.after_delete_one hpn
      rw [ih _ _ _ (by omega) c2 (List.nodup_cons.mp hnd).2 _ (by omega)]
      rfl
    | @orphan _ te l0 l1 l2 f0 f1 f2 fp hl hk c0 c1 c2 c =>
      simp only [List.length_cons, List.length_append] at hlen hfuel
      obtain ⟨f, rfl⟩ : ∃ f, fuel = f + 2 := ⟨fuel - 2, by omega⟩
      have hp0 : p ≠ 0 := ((live_iff h p).mp hl).1
      have hnd2 := List.nodup_cons.mp hnd
      have hpn := hnd2.1
      simp only [List.mem_append, not_or] at hpn
      have hnd3 := hnd2.2
      rw [List.nodup_append] at hnd3
      obtain ⟨hnd012, hndfp, hdis3⟩ := hnd3
      rw [List.nodup_append] at hnd012
      obtain ⟨hnd01, hndf2, hdis2⟩ := hnd012
      rw [List.nodup_append] at hnd01
      obtain ⟨hndf0, hndf1, hdis1⟩ := hnd01
      -- the orphan itself
      have e0 : delete_one h p = h.log none p := delete_one_orphan hk
      have d0 : Chain (delete_one h p) l0 f0 := c0.after_delete_one hpn.1.1.1
      have d1 : Chain (f0.foldl delete_one (delete_one h p)) l1 f1 :=
        (c1.after_delete_one hpn.1.1.2).after_foldl
          (fun q hq hq0 => hdis1 hq0 hq)
      have d2 : Chain (f1.foldl delete_one (f0.foldl delete_one (delete_one h p))) l2 f2 :=
        ((c2.after_delete_one hpn.1.2).after_foldl
          (fun q hq hq0 => hdis2 (List.mem_append_left _ hq0) hq)).after_foldl
          (fun q hq hq1 => hdis2 (List.mem_append_right _ hq1) hq)
      have d3 : Chain (f2.foldl delete_one (f1.foldl delete_one
          (f0.foldl delete_one (delete_one h p)))) (h.obj p).next fp :=
        (((c.after_delete_one hpn.2).after_foldl
          (fun q hq hq0 => hdis3 (List.mem_append_left _ (List.mem_append_left _ hq0)) hq)).after_foldl
          (fun q hq hq1 => hdis3 (List.mem_append_left _ (List.mem_append_right _ hq1)) hq)).after_foldl
          (fun q hq hq2 => hdis3 (List.mem_append_right _ hq2) hq)
      have s0 := ih _ _ _ (by omega) d0 hndf0 f (by omega)
      have s1 := ih _ _ _ (by omega) d1 hndf1 f (by omega)
      have s2 := ih _ _ _ (by omega) d2 hndf2 f (by omega)
      have s3 := ih _ _ _ (by omega) d3 hndfp (f + 1) (by omega)
      rw [delete_objects_loop]
      simp only [hp0, if_false, hl, if_true]
      rw [delete_self]
      simp only [hl, if_true, hk, ← e0]
      rw [s0]; simp only [Option.some_bind]
      rw [s1]; simp only [Option.some_bind]
      rw [s2]
      show delete_objects_loop (f + 1) _ _ = _
      rw [s3]
      simp [List.foldl_append]

theorem delete_objects_drainable {h : Heap} {p : Ptr} {fp : List Ptr} (d : Drainable h p fp) :
    delete_objects h p = some (fp.foldl delete_one h) := by
  have hlen := d.1.length_le d.2
  exact drain_loop fp.length h p fp (le_refl _) d.1 d.2 _ (by omega)

/-! ## The branches of `do_enter_critical` -/

theorem adopt_epoch_eq {w : World} {t : thread_data} {cb e : Nat} {b : thread_control_block}
    {fp : List Ptr} (hb : w.tcb cb = some b) (he : e < 3)
    (hd : Drainable w.heap (t.retire_lists e) fp) :
    adopt_epoch w t cb e
      = some ({ (w.set_tcb cb { b with local_epoch := e }) with
                  heap := fp.foldl delete_one w.heap },
              { t with retire_lists := fun i => if i = e then 0 else t.retire_lists i }) := by
  have he2 : e < number_epochs := he
  simp [adopt_epoch, hb, he2, delete_objects_drainable hd]

theorem adopt_orphans_empty {w : World} (t : thread_data) (h0 : w.abandoned = 0) :
    adopt_orphans w t = some (w, t) := by
  obtain ⟨g, en, ab, hp, ua⟩ := w
  simp only at h0
  subst h0
  simp [adopt_orphans, adopt_abandoned_retired_nodes, adopt_orphans_loop]

theorem blocked_set_own {w : World} {cb : Nat} {b : thread_control_block}
    (hb : w.tcb cb = some b) (hl : b.local_epoch = w.global_epoch) (c : Bool) :
    Blocked (w.set_tcb cb { b with is_in_critical_region := c }) w.global_epoch
      → ∃ i b2, i ≠ cb ∧ w.tcb i = some b2 ∧ b2.is_in_critical_region = true
          ∧ b2.local_epoch = (w.global_epoch + 2) % 3 := by
  rintro ⟨b2, hmem, hflag, hloc⟩
  simp only [set_tcb_entries] at hmem
  obtain ⟨i, hi, hget⟩ := List.mem_iff_getElem.mp hmem
  by_cases hic : i = cb
  · subst hic
    simp only [List.getElem_set_self] at hget
    subst hget
    simp only at hloc
    omega
  · refine ⟨i, b2, hic, ?_, hflag, hloc⟩
    rw [List.getElem_set_ne (Ne.symm hic)] at hget
    simp only [List.length_set] at hi
    simp [World.tcb, List.get?_eq_getElem?, List.getElem?_eq_getElem hi, hget]

theorem not_blocked_of_alone {w : World} {cb : Nat} {b : thread_control_block}
    (hb : w.tcb cb = some b) (hl : b.local_epoch = w.global_epoch)
    (ha : Alone w cb) (c : Bool) :
    ¬ Blocked (w.set_tcb cb { b with is_in_critical_region := c }) w.global_epoch := by
  intro hB
  obtain ⟨i, b2, hi, hb2, hflag, _⟩ := blocked_set_own hb hl c hB
  rw [ha i b2 hi hb2] at hflag
  cases hflag

theorem ensure_has_control_block_some {w : World} {t : thread_data} {cb : Nat}
    (h : t.control_block = some cb) : ensure_has_control_block w t = (w, t, cb) := by
  simp [ensure_has_control_block, h]

/-- First branch: a new epoch is observed. -/
theorem do_enter_critical_observe (U : Nat) {w : World} {t : thread_data} {cb : Nat}
    {b : thread_control_block} {fp : List Ptr}
    (hcb : t.control_block = some cb) (hb : w.tcb cb = some b)
    (hne : b.local_epoch ≠ w.global_epoch) (hg : w.global_epoch < 3)
    (hd : Drainable w.heap (t.retire_lists w.global_epoch) fp) :
    do_enter_critical U w t
      = some ({ (w.set_tcb cb { b with is_in_critical_region := true,
                                       local_epoch := w.global_epoch }) with
                  heap := fp.foldl delete_one w.heap },
              { t with entries_since_update := 0,
                       retire_lists := fun i => if i = w.global_epoch then 0
                                                else t.retire_lists i }) := by
  have h1 := tcb_set_tcb_same hb { b with is_in_critical_region := true }
  have h2 := adopt_epoch_eq (t := { t with entries_since_update := 0 }) h1 hg
    (by simpa using hd)
  simp only [do_enter_critical, ensure_has_control_block_some hcb, hb, set_tcb_global_epoch,
    ne_eq, hne, not_false_eq_true, if_true]
  rw [h2]
  simp [World.set_tcb]

/-- Third branch: the epoch is unchanged and the threshold is not reached. -/
theorem do_enter_critical_stale (U : Nat) {w : World} {t : thread_data} {cb : Nat}
    {b : thread_control_block}
    (hcb : t.control_block = some cb) (hb : w.tcb cb = some b)
    (he : b.local_epoch = w.global_epoch) (hu : t.entries_since_update ≠ U) :
    do_enter_critical U w t
      = some (w.set_tcb cb { b with is_in_critical_region := true },
              { t with entries_since_update := (t.entries_since_update + 1) % UINT }) := by
  simp [do_enter_critical, ensure_has_control_block_some hcb, hb, he, hu]

/-- Second branch, the attempt is refused. -/
theorem do_enter_critical_blocked (U : Nat) {w : World} {t : thread_data} {cb : Nat}
    {b : thread_control_block}
    (hcb : t.control_block = some cb) (hb : w.tcb cb = some b)
    (he : b.local_epoch = w.global_epoch) (hg : w.global_epoch < 3)
    (hu : t.entries_since_update = U)
    (hB : Blocked (w.set_tcb cb { b with is_in_critical_region := true }) w.global_epoch) :
    do_enter_critical U w t
      = some ({ (w.set_tcb cb { b with is_in_critical_region := true }) with
                  update_attempts := w.update_attempts + 1 },
              { t with entries_since_update := 0 }) := by
  have h := try_update_epoch_blocked (w.set_tcb cb { b with is_in_critical_region := true })
    { t with entries_since_update := 0 } ((w.global_epoch + 1) % UINT % number_epochs) hg hB
  simp only [set_tcb_global_epoch] at h
  have hif : (b.local_epoch ≠ w.global_epoch) = False := by simp [he]
  simp only [do_enter_critical, ensure_has_control_block_some hcb, hb, set_tcb_global_epoch,
    hif, if_false, hu, if_true, h]
  rfl

theorem next_epoch_eq {g : Nat} (hg : g < 3) : (g + 1) % UINT % number_epochs = (g + 1) % 3 := by
  unfold UINT number_epochs; omega

/-- Second branch, the attempt goes through and there is no orphan to adopt. -/
theorem do_enter_critical_advance (U : Nat) {w : World} {t : thread_data} {cb : Nat}
    {b : thread_control_block} {fp : List Ptr}
    (hcb : t.control_block = some cb) (hb : w.tcb cb = some b)
    (he : b.local_epoch = w.global_epoch) (hg : w.global_epoch < 3)
    (hu : t.entries_since_update = U)
    (hB : ¬ Blocked (w.set_tcb cb { b with is_in_critical_region := true }) w.global_epoch)
    (h0 : w.abandoned = 0)
    (hd : Drainable w.heap (t.retire_lists ((w.global_epoch + 1) % 3)) fp) :
    do_enter_critical U w t
      = some ({ global_epoch := (w.global_epoch + 1) % 3,
                entries := w.entries.set cb { b with is_in_critical_region := true,
                                                     local_epoch := (w.global_epoch + 1) % 3 },
                abandoned := 0,
                heap := fp.foldl delete_one w.heap,
                update_attempts := w.update_attempts + 1 },
              { t with entries_since_update := 0,
                       retire_lists := fun i => if i = (w.global_epoch + 1) % 3 then 0
                                                else t.retire_lists i }) := by
  have h := try_update_epoch_cas (w.set_tcb cb { b with is_in_critical_region := true })
    { t with entries_since_update := 0 } ((w.global_epoch + 1) % 3) hg hB rfl
  rw [adopt_orphans_empty _ (by simpa using h0)] at h
  simp only [Option.map_some'] at h
  have h1 : ({ (w.set_tcb cb { b with is_in_critical_region := true }) with
      update_attempts := (w.set_tcb cb { b with is_in_critical_region := true }).update_attempts + 1,
      global_epoch := (w.global_epoch + 1) % 3 } : World).tcb cb
        = some { b with is_in_critical_region := true } :=
    tcb_set_tcb_same hb _
  have hlt : (w.global_epoch + 1) % 3 < 3 := Nat.mod_lt _ (by norm_num)
  have h2 := adopt_epoch_eq (t := { t with entries_since_update := 0 }) h1 hlt
    (by simpa using hd)
  have hif : (b.local_epoch ≠ w.global_epoch) = False := by simp [he]
  simp only [do_enter_critical, ensure_has_control_block_some hcb, hb, set_tcb_global_epoch,
    hif, if_false, hu, if_true, next_epoch_eq hg, h]
  rw [h2]
  simp [World.set_tcb, h0]

/-! ## `enter_critical` and `leave_critical` -/

theorem enter_critical_first (U : Nat) (w : World) {t : thread_data} (h : t.enter_count = 0) :
    enter_critical U w t = do_enter_critical U w { t with enter_count := 1 } := by
  simp [enter_critical, h, UINT]

theorem enter_critical_nested (U : Nat) (w : World) {t : thread_data}
    (h1 : 0 < t.enter_count) (h2 : t.enter_count < UINT) :
    enter_critical U w t = some (w, { t with enter_count := (t.enter_count + 1) % UINT }) := by
  have : (t.enter_count + 1) % UINT ≠ 1 := by unfold UINT at *; omega
  simp [enter_critical, this]

theorem leave_critical_last {w : World} {t : thread_data} (h : t.enter_count = 1) :
    leave_critical w t = do_leave_critical w { t with enter_count := 0 } := by
  simp [leave_critical, h, UINT]

theorem leave_critical_nested {w : World} {t : thread_data}
    (h1 : 1 < t.enter_count) (h2 : t.enter_count < UINT) :
    leave_critical w t = some (w, { t with enter_count := t.enter_count - 1 }) := by
  have e : (t.enter_count + UINT - 1) % UINT = t.enter_count - 1 := by unfold UINT at *; omega
  have h0 : 0 < t.enter_count := by omega
  have hne : t.enter_count - 1 ≠ 0 := by omega
  simp [leave_critical, h0, e, hne]

theorem do_leave_critical_eq {w : World} {t : thread_data} {cb : Nat} {b : thread_control_block}
    (hcb : t.control_block = some cb) (hb : w.tcb cb = some b) :
    do_leave_critical w t = some (w.set_tcb cb { b with is_in_critical_region := false }, t) := by
  simp [do_leave_critical, hcb, hb]

/-! ## Well-formed retire lists of one thread -/

theorem ThreadWF.drain {h : Heap} {rl : Nat → Ptr} {f : Nat → List Ptr} (wf : ThreadWF h rl f)
    {e : Nat} (he : e < 3) :
    ThreadWF ((f e).foldl delete_one h) (fun i => if i = e then 0 else rl i)
      (fun i => if i = e then [] else f i) := by
  refine ⟨?_, ?_, ?_⟩
  · intro i hi
    by_cases hie : i = e
    · simp only [hie, if_true]; exact Chain.nil
    · simp only [hie, if_false]
      exact (wf.chain i hi).after_foldl (fun q hq => wf.disjoint i e hi he hie q hq)
  · intro i hi
    by_cases hie : i = e
    · simp [hie]
    · simp only [hie, if_false]; exact wf.nodup i hi
  · intro i j hi hj hij q hq
    by_cases hie : i = e
    · simp [hie] at hq
    · simp only [hie, if_false] at hq
      by_cases hje : j = e
      · simp [hje]
      · simp only [hje, if_false]; exact wf.disjoint i j hi hj hij q hq

theorem ThreadWF.transport_lists {h h2 : Heap} {rl : Nat → Ptr} {f : Nat → List Ptr}
    (wf : ThreadWF h rl f)
    (hf : ∀ i, i < 3 → ∀ q ∈ f i, h2.obj q = h.obj q ∧ h2.live q = h.live q) :
    ThreadWF h2 rl f :=
  ⟨fun i hi => (wf.chain i hi).transport (hf i hi), wf.nodup, wf.disjoint⟩

theorem ThreadWF.push {h : Heap} {rl : Nat → Ptr} {f : Nat → List Ptr} (wf : ThreadWF h rl f)
    {e : Nat} (he : e < 3) {p : Ptr} (hl : h.live p = true) (hn : h.is_node p)
    (hp : ∀ i, i < 3 → p ∉ f i) :
    ThreadWF (h.set_next p (rl e)) (fun i => if i = e then p else rl i)
      (fun i => if i = e then p :: f e else f i) := by
  have fr : ∀ i, i < 3 → Chain (h.set_next p (rl e)) (rl i) (f i) := fun i hi =>
    (wf.chain i hi).transport fun q hq => by
      have hne : q ≠ p := fun e => hp i hi (e ▸ hq)
      exact ⟨set_next_obj_ne h _ hne, by simp⟩
  refine ⟨?_, ?_, ?_⟩
  · intro i hi
    by_cases hie : i = e
    · simp only [hie, if_true]
      refine Chain.node (by simpa using hl) ?_ ?_
      · unfold Heap.is_node at *; simpa using hn
      · simpa using fr e he
    · simp only [hie, if_false]; exact fr i hi
  · intro i hi
    by_cases hie : i = e
    · simp only [hie, if_true]
      exact List.nodup_cons.mpr ⟨hp e he, wf.nodup e he⟩
    · simp only [hie, if_false]; exact wf.nodup i hi
  · intro i j hi hj hij q hq
    by_cases hie : i = e
    · simp only [hie, if_true] at hq
      have hje : j ≠ e := fun h => hij (hie.trans h.symm)
      simp only [hje, if_false]
      rcases List.mem_cons.mp hq with rfl | hq
      · exact hp j hj
      · exact wf.disjoint e j he hj (fun h => hje h.symm) q hq
    · simp only [hie, if_false] at hq
      by_cases hje : j = e
      · simp only [hje, if_true]
        intro hq2
        rcases List.mem_cons.mp hq2 with rfl | hq2
        · exact hp i hi hq
        · exact wf.disjoint i e hi he hie q hq hq2
      · simp only [hje, if_false]; exact wf.disjoint i j hi hj hij q hq

/-! ## A thread running alone -/

theorem Alone.set_own {w : World} {cb : Nat} (ha : Alone w cb) (b : thread_control_block) :
    Alone (w.set_tcb cb b) cb := by
  intro i b2 hi hb2
  rw [tcb_set_tcb_ne w (Ne.symm hi)] at hb2
  exact ha i b2 hi hb2

/-- A first-level entry of a thread running alone whose counter has reached the
threshold: the global epoch advances, the list of the new epoch is drained. -/
theorem solo_enter_advance (U : Nat) {w : World} {t : thread_data} {cb : Nat}
    {f : Nat → List Ptr} (s : Solo w t cb f) (hc : t.enter_count = 0)
    (hu : t.entries_since_update = U) :
    ∃ w1 t1, enter_critical U w t = some (w1, t1)
      ∧ Solo w1 t1 cb (fun i => if i = (w.global_epoch + 1) % 3 then [] else f i)
      ∧ w1.global_epoch = (w.global_epoch + 1) % 3
      ∧ w1.update_attempts = w.update_attempts + 1
      ∧ w1.heap = (f ((w.global_epoch + 1) % 3)).foldl delete_one w.heap
      ∧ t1.enter_count = 1 ∧ t1.entries_since_update = 0
      ∧ t1.retire_lists
          = (fun i => if i = (w.global_epoch + 1) % 3 then 0 else t.retire_lists i) := by
  obtain ⟨b, hb, hl⟩ := s.tcb
  have hlt : (w.global_epoch + 1) % 3 < 3 := Nat.mod_lt _ (by norm_num)
  have hd : Drainable w.heap (t.retire_lists ((w.global_epoch + 1) % 3))
      (f ((w.global_epoch + 1) % 3)) := ⟨s.lists.chain _ hlt, s.lists.nodup _ hlt⟩
  have hB := not_blocked_of_alone hb hl s.alone true
  have h := do_enter_critical_advance U (t := { t with enter_count := 1 })
    s.cb_eq hb hl s.epoch_lt hu hB s.no_orphans hd
  rw [enter_critical_first U w hc, h]
  refine ⟨_, _, rfl, ?_, rfl, rfl, rfl, rfl, rfl, rfl⟩
  refine ⟨s.cb_eq, ⟨_, tcb_set_tcb_same hb _, rfl⟩, hlt, ?_, rfl, s.lists.drain hlt⟩
  exact s.alone.set_own _

/-- A first-level entry of a thread running alone below the threshold. -/
theorem solo_enter_stale (U : Nat) {w : World} {t : thread_data} {cb : Nat}
    {f : Nat → List Ptr} (s : Solo w t cb f) (hc : t.enter_count = 0)
    (hu : t.entries_since_update ≠ U) :
    ∃ w1 t1, enter_critical U w t = some (w1, t1)
      ∧ Solo w1 t1 cb f
      ∧ w1.global_epoch = w.global_epoch
      ∧ w1.update_attempts = w.update_attempts
      ∧ w1.heap = w.heap
      ∧ t1.enter_count = 1
      ∧ t1.entries_since_update = (t.entries_since_update + 1) % UINT
      ∧ t1.retire_lists = t.retire_lists := by
  obtain ⟨b, hb, hl⟩ := s.tcb
  have h := do_enter_critical_stale U (t := { t with enter_count := 1 }) s.cb_eq hb hl hu
  rw [enter_critical_first U w hc, h]
  refine ⟨_, _, rfl, ?_, rfl, rfl, rfl, rfl, rfl, rfl⟩
  exact ⟨s.cb_eq, ⟨_, tcb_set_tcb_same hb _, hl⟩, s.epoch_lt, s.alone.set_own _,
    s.no_orphans, s.lists⟩

/-- The matching `leave_critical`. -/
theorem solo_leave {w : World} {t : thread_data} {cb : Nat}
    {f : Nat → List Ptr} (s : Solo w t cb f) (hc : t.enter_count = 1) :
    ∃ w1 t1, leave_critical w t = some (w1, t1)
      ∧ Solo w1 t1 cb f
      ∧ w1.global_epoch = w.global_epoch
      ∧ w1.update_attempts = w.update_attempts
      ∧ w1.heap = w.heap
      ∧ t1.enter_count = 0
      ∧ t1.entries_since_update = t.entries_since_update
      ∧ t1.retire_lists = t.retire_lists := by
  obtain ⟨b, hb, hl⟩ := s.tcb
  have h := do_leave_critical_eq (t := { t with enter_count := 0 }) s.cb_eq hb
  rw [leave_critical_last hc, h]
  refine ⟨_, _, rfl, ?_, rfl, rfl, rfl, rfl, rfl, rfl⟩
  exact ⟨s.cb_eq, ⟨_, tcb_set_tcb_same hb _, hl⟩, s.epoch_lt, s.alone.set_own _,
    s.no_orphans, s.lists⟩

theorem set_deleter_top (h : Heap) (p : Ptr) (d : Nat) : (set_deleter h p d).top = h.top := by
  unfold set_deleter; split <;> rfl

theorem set_deleter_deleted (h : Heap) (p : Ptr) (d : Nat) :
    (set_deleter h p d).deleted = h.deleted := by
  unfold set_deleter; split <;> rfl

theorem set_deleter_live (h : Heap) (p : Ptr) (d : Nat) (q : Ptr) :
    (set_deleter h p d).live q = h.live q := by
  unfold set_deleter; split <;> rfl

theorem set_deleter_obj_ne (h : Heap) {p q : Ptr} (d : Nat) (hq : q ≠ p) :
    (set_deleter h p d).obj q = h.obj q := by
  unfold set_deleter; split
  · exact set_kind_obj_ne h _ hq
  · rfl

theorem set_deleter_is_node {h : Heap} {p : Ptr} (d : Nat) (hu : h.is_user p) :
    (set_deleter h p d).is_node p := by
  unfold set_deleter Heap.is_node
  cases hk : (h.obj p).kind with
  | with_empty_deleter => left; simpa using hk
  | with_non_empty_deleter b => right; exact ⟨d, by simp [Heap.set_kind]⟩
  | orphan te l0 l1 l2 => exact absurd hk (hu te l0 l1 l2)

/-- The two calls by which `reclaim` retires its pointee, for a thread running alone. -/
theorem solo_retire (U : Nat) {w : World} {t : thread_data} {cb : Nat} {f : Nat → List Ptr}
    (s : Solo w t cb f) {p : Ptr} (d : Nat) (hl : w.heap.live p = true)
    (hu : w.heap.is_user p) (hp : ∀ i, i < 3 → p ∉ f i) :
    ∃ w1 t1, exec_calls U [Call.set_deleter p d, Call.add_retired_node p] w t = some (w1, t1)
      ∧ Solo w1 t1 cb (fun i => if i = w.global_epoch then p :: f w.global_epoch else f i)
      ∧ w1.global_epoch = w.global_epoch
      ∧ w1.update_attempts = w.update_attempts
      ∧ w1.heap.deleted = w.heap.deleted
      ∧ t1.enter_count = t.enter_count
      ∧ t1.entries_since_update = t.entries_since_update
      ∧ t1.retire_lists = (fun i => if i = w.global_epoch then p else t.retire_lists i) := by
  obtain ⟨b, hb, hloc⟩ := s.tcb
  have hg : w.global_epoch < number_epochs := s.epoch_lt
  have hl2 : (set_deleter w.heap p d).live p = true := by rw [set_deleter_live]; exact hl
  have wf1 : ThreadWF (set_deleter w.heap p d) t.retire_lists f :=
    s.lists.transport_lists fun i hi q hq => by
      have hne : q ≠ p := fun e => hp i hi (e ▸ hq)
      exact ⟨set_deleter_obj_ne _ _ hne, set_deleter_live _ _ _ _⟩
  have wf2 := wf1.push s.epoch_lt hl2 (set_deleter_is_node d hu) hp
  have htcb : ({ w with heap := set_deleter w.heap p d } : World).tcb cb = some b := hb
  simp only [exec_calls, Call.exec, hl, if_true, add_retired_node, s.cb_eq, htcb, hloc,
    add_retired_node_at, hg, hl2]
  refine ⟨_, _, rfl, ?_, rfl, rfl, ?_, rfl, rfl, rfl⟩
  · exact ⟨rfl, ⟨b, hb, hloc⟩, s.epoch_lt, s.alone, s.no_orphans, wf2⟩
  · simp [set_deleter_deleted]

/-! ## A node retired by a thread running alone -/

theorem exec_calls_append (U : Nat) (cs ds : List Call) (w : World) (t : thread_data) :
    exec_calls U (cs ++ ds) w t
      = (exec_calls U cs w t).bind fun r => exec_calls U ds r.1 r.2 := by
  induction cs generalizing w t with
  | nil => simp [exec_calls]
  | cons c cs ih =>
    simp only [List.cons_append, exec_calls]
    cases c.exec U w t with
    | none => simp
    | some r => obtain ⟨w1, t1⟩ := r; simp [ih]

/-- One `update_epoch()` of the test harness (a guard on a dummy object is created and
destroyed) by a thread running alone with `UpdateThreshold = 0`. -/
theorem solo_update_epoch {w : World} {t : thread_data} {cb : Nat}
    {f : Nat → List Ptr} (s : Solo w t cb f) (hc : t.enter_count = 0)
    (hu : t.entries_since_update = 0) :
    ∃ w1 t1, exec_calls 0 [Call.enter_critical, Call.leave_critical] w t = some (w1, t1)
      ∧ Solo w1 t1 cb (fun i => if i = (w.global_epoch + 1) % 3 then [] else f i)
      ∧ w1.global_epoch = (w.global_epoch + 1) % 3
      ∧ w1.update_attempts = w.update_attempts + 1
      ∧ w1.heap = (f ((w.global_epoch + 1) % 3)).foldl delete_one w.heap
      ∧ t1.enter_count = 0 ∧ t1.entries_since_update = 0
      ∧ t1.retire_lists
          = (fun i => if i = (w.global_epoch + 1) % 3 then 0 else t.retire_lists i) := by
  obtain ⟨w1, t1, h1, s1, g1, a1, hp1, c1, u1, r1⟩ := solo_enter_advance 0 s hc hu
  obtain ⟨w2, t2, h2, s2, g2, a2, hp2, c2, u2, r2⟩ := solo_leave s1 c1
  refine ⟨w2, t2, ?_, s2, by rw [g2, g1], by rw [a2, a1], by rw [hp2, hp1], c2, by rw [u2, u1],
    by rw [r2, r1]⟩
  simp [exec_calls, Call.exec, h1, h2]

/-- The calls of `reclaim` on a guard of the object `p`, followed by three
`update_epoch()`, for a thread running alone with `UpdateThreshold = 0`. -/
theorem solo_reclaim_three_advances
    {w : World} {t : thread_data} {cb : Nat} {f : Nat → List Ptr} (p d : Nat)
    (s : Solo w t cb f) (hc : t.enter_count = 1) (hu : t.entries_since_update = 0)
    (hl : w.heap.live p = true) (husr : w.heap.is_user p) (hf : ∀ i, i < 3 → p ∉ f i) :
    ∃ w1 t1 w2 t2 w3 t3 w4 t4,
      exec_calls 0 [Call.set_deleter p d, Call.add_retired_node p, Call.leave_critical] w t
        = some (w1, t1)
      ∧ w1.global_epoch = w.global_epoch
      ∧ p ∉ w1.heap.deleted
      ∧ exec_calls 0 [Call.enter_critical, Call.leave_critical] w1 t1 = some (w2, t2)
      ∧ w2.global_epoch = (w.global_epoch + 1) % 3
      ∧ p ∉ w2.heap.deleted
      ∧ exec_calls 0 [Call.enter_critical, Call.leave_critical] w2 t2 = some (w3, t3)
      ∧ w3.global_epoch = (w.global_epoch + 2) % 3
      ∧ p ∉ w3.heap.deleted
      ∧ t3.retire_lists w.global_epoch = p
      ∧ enter_critical 0 w3 t3 = some (w4, t4)
      ∧ w4.global_epoch = w.global_epoch
      ∧ w4.heap.deleted.count p = 1
      ∧ t4.retire_lists w.global_epoch = 0 := by
  have hlv := (live_iff _ _).mp hl
  have hg := s.epoch_lt
  -- reclaim: set_deleter, add_retired_node, leave_critical
  obtain ⟨wa, ta, ha, sa, ga, _, da, ca, ua, ra⟩ := solo_retire 0 s d hl husr hf
  obtain ⟨w1, t1, h1, s1, g1, _, hp1, c1, u1, r1⟩ := solo_leave sa (ca.trans hc)
  -- first and second advance
  obtain ⟨w2, t2, h2, s2, g2, _, hp2, c2, u2, r2⟩ :=
    solo_update_epoch s1 c1 (by rw [u1, ua, hu])
  obtain ⟨w3, t3, h3, s3, g3, _, hp3, c3, u3, r3⟩ := solo_update_epoch s2 c2 u2
  -- the entry of the third advance
  obtain ⟨w4, t4, h4, _, g4, _, hp4, _, _, r4⟩ := solo_enter_advance 0 s3 c3 u3
  have e1 : w1.global_epoch = w.global_epoch := by rw [g1, ga]
  have e2 : w2.global_epoch = (w.global_epoch + 1) % 3 := by rw [g2, e1]
  have e3 : w3.global_epoch = (w.global_epoch + 2) % 3 := by rw [g3, e2]; omega
  have e4 : w4.global_epoch = w.global_epoch := by rw [g4, e3]; omega
  have n1 : (w.global_epoch + 1) % 3 ≠ w.global_epoch := by omega
  have n2 : (w.global_epoch + 2) % 3 ≠ w.global_epoch := by omega
  have n3 : (w.global_epoch + 2) % 3 ≠ (w.global_epoch + 1) % 3 := by omega
  have n4 : ((w.global_epoch + 2) % 3 + 1) % 3 = w.global_epoch := by omega
  have n5 : ((w.global_epoch + 1) % 3 + 1) % 3 = (w.global_epoch + 2) % 3 := by omega
  have d1 : w1.heap.deleted = w.heap.deleted := by rw [hp1, da]
  rw [e1] at hp2 r2
  simp only [n1, if_false] at hp2
  rw [e2, e1, n5] at hp3
  rw [e2, n5] at r3
  simp only [n3, n2, if_false] at hp3
  rw [e3, e2, e1, n4, n5] at hp4
  rw [e3, n4] at r4
  simp only [n1.symm, n2.symm, if_false, if_true] at hp4
  have d2 : w2.heap.deleted = w.heap.deleted ++ f ((w.global_epoch + 1) % 3) := by
    rw [hp2, foldl_delete_one_deleted, d1]
  have d3 : w3.heap.deleted = w.heap.deleted ++ f ((w.global_epoch + 1) % 3)
      ++ f ((w.global_epoch + 2) % 3) := by
    rw [hp3, foldl_delete_one_deleted, d2]
  have d4 : w4.heap.deleted = w.heap.deleted ++ f ((w.global_epoch + 1) % 3)
      ++ f ((w.global_epoch + 2) % 3) ++ (p :: f w.global_epoch) := by
    rw [hp4, foldl_delete_one_deleted, d3]
  have hm1 := hf _ (Nat.mod_lt (w.global_epoch + 1) (by norm_num : 0 < 3))
  have hm2 := hf _ (Nat.mod_lt (w.global_epoch + 2) (by norm_num : 0 < 3))
  have hm0 := hf _ hg
  refine ⟨w1, t1, w2, t2, w3, t3, w4, t4, ?_, e1, ?_, h2, e2, ?_, h3, e3, ?_, ?_, h4, e4,
    ?_, ?_⟩
  · rw [show [Call.set_deleter p d, Call.add_retired_node p, Call.leave_critical]
        = [Call.set_deleter p d, Call.add_retired_node p] ++ [Call.leave_critical] from rfl,
      exec_calls_append, ha]
    simp [exec_calls, Call.exec, h1]
  · rw [d1]; exact hlv.2.2
  · rw [d2]; simp [hlv.2.2, hm1]
  · rw [d3]; simp [hlv.2.2, hm1, hm2]
  · rw [r3, r2, r1, ra]; simp [n1.symm, n2.symm]
  · rw [d4]
    simp [List.count_append, List.count_eq_zero_of_not_mem, hlv.2.2, hm1, hm2, hm0]
  · rw [r4]; simp

theorem alone_singleton (w : World) (h : w.entries.length = 1) : Alone w 0 := by
  intro i b hi hb
  have := tcb_lt hb
  omega

theorem threadWF_empty (h : Heap) : ThreadWF h (fun _ => 0) (fun _ => []) :=
  ⟨fun _ _ => Chain.nil, fun _ _ => List.nodup_nil, fun _ _ _ _ _ _ hq => by cases hq⟩

theorem solo_world1 : Solo world1 thread1 0 (fun _ => []) :=
  ⟨rfl, ⟨_, rfl, rfl⟩, by decide, alone_singleton world1 rfl, rfl, threadWF_empty _⟩

theorem reclaim_calls {N ptr : Nat} (d : Nat) (h : marked_ptr.get N ptr ≠ 0) :
    guard_ptr.reclaim N ptr d
      = some (0, [Call.set_deleter (marked_ptr.get N ptr) d,
                  Call.add_retired_node (marked_ptr.get N ptr), Call.leave_critical]) := by
  have hptr : ptr ≠ 0 := by
    intro h0; apply h; subst h0; simp [marked_ptr.get]
  simp [guard_ptr.reclaim, h, guard_ptr.reset, hptr]

/-! ## C1 -/

/-- C1. In a single-threaded run with `UpdateThreshold = 0`, an empty orphan list and no
other thread in a critical region, a node retired through `guard.reclaim()` while that
guard is the thread's only non-null guard is not destroyed by `reclaim()` itself nor by
the first two subsequent epoch advances, and its `delete_self` is invoked (exactly once)
during the third subsequent advance, which returns the global epoch to its value at the
retirement. -/
theorem C1_reclaimed_node_destroyed_by_third_advance
    (N : Nat) (w : World) (t : thread_data) (cb : Nat) (f : Nat → List Ptr) (ptr d : Nat)
    (s : Solo w t cb f) (hc : t.enter_count = 1) (hu : t.entries_since_update = 0)
    (hl : w.heap.live (marked_ptr.get N ptr) = true)
    (husr : w.heap.is_user (marked_ptr.get N ptr))
    (hf : ∀ i, i < 3 → marked_ptr.get N ptr ∉ f i) :
    ∃ calls w1 t1 w2 t2 w3 t3 w4 t4,
      guard_ptr.reclaim N ptr d = some (0, calls)
      ∧ exec_calls 0 calls w t = some (w1, t1)
      ∧ w1.global_epoch = w.global_epoch
      ∧ marked_ptr.get N ptr ∉ w1.heap.deleted
      ∧ exec_calls 0 [Call.enter_critical, Call.leave_critical] w1 t1 = some (w2, t2)
      ∧ w2.global_epoch = (w.global_epoch + 1) % 3
      ∧ marked_ptr.get N ptr ∉ w2.heap.deleted
      ∧ exec_calls 0 [Call.enter_critical, Call.leave_critical] w2 t2 = some (w3, t3)
      ∧ w3.global_epoch = (w.global_epoch + 2) % 3
      ∧ marked_ptr.get N ptr ∉ w3.heap.deleted
      ∧ enter_critical 0 w3 t3 = some (w4, t4)
      ∧ w4.global_epoch = w.global_epoch
      ∧ w4.heap.deleted.count (marked_ptr.get N ptr) = 1 := by
  obtain ⟨w1, t1, w2, t2, w3, t3, w4, t4, h1, e1, n1, h2, e2, n2, h3, e3, n3, _, h4, e4, c4, _⟩ :=
    solo_reclaim_three_advances (marked_ptr.get N ptr) d s hc hu hl husr hf
  exact ⟨_, w1, t1, w2, t2, w3, t3, w4, t4, reclaim_calls d ((live_iff _ _).mp hl).1,
    h1, e1, n1, h2, e2, n2, h3, e3, n3, h4, e4, c4⟩

/-- Instance of C1: a guard on the marked pointer `7` (object `4`, mark `3`, two mark
bits) held by the only thread. -/
theorem C1_witness :
    Solo world1 thread1 0 (fun _ => [])
    ∧ world1.heap.live (marked_ptr.get 2 7) = true
    ∧ ∃ calls w1 t1 w2 t2 w3 t3 w4 t4,
      guard_ptr.reclaim 2 7 0 = some (0, calls)
      ∧ exec_calls 0 calls world1 thread1 = some (w1, t1)
      ∧ w1.global_epoch = world1.global_epoch
      ∧ marked_ptr.get 2 7 ∉ w1.heap.deleted
      ∧ exec_calls 0 [Call.enter_critical, Call.leave_critical] w1 t1 = some (w2, t2)
      ∧ w2.global_epoch = (world1.global_epoch + 1) % 3
      ∧ marked_ptr.get 2 7 ∉ w2.heap.deleted
      ∧ exec_calls 0 [Call.enter_critical, Call.leave_critical] w2 t2 = some (w3, t3)
      ∧ w3.global_epoch = (world1.global_epoch + 2) % 3
      ∧ marked_ptr.get 2 7 ∉ w3.heap.deleted
      ∧ enter_critical 0 w3 t3 = some (w4, t4)
      ∧ w4.global_epoch = world1.global_epoch
      ∧ w4.heap.deleted.count (marked_ptr.get 2 7) = 1 :=
  ⟨solo_world1, by decide,
   C1_reclaimed_node_destroyed_by_third_advance 2 world1 thread1 0 (fun _ => []) 7 0
     solo_world1 rfl rfl (by decide) (fun _ _ _ _ h => by cases h) (fun _ _ h => by cases h)⟩

/-! ## C2: which entry destroys a retired node -/

theorem ThreadWF.not_deleted {h : Heap} {rl : Nat → Ptr} {f : Nat → List Ptr}
    (wf : ThreadWF h rl f) {i : Nat} (hi : i < 3) {p : Ptr} (hp : p ∈ f i) :
    p ∉ h.deleted :=
  ((live_iff h p).mp ((wf.chain i hi).live_of_mem p hp)).2.2

theorem threadWF_thread2 :
    ThreadWF world2.heap thread2.retire_lists (fun i => if i = 0 then [4] else []) := by
  refine ⟨?_, ?_, ?_⟩
  · intro i _
    by_cases hi : i = 0
    · subst hi
      exact Chain.node (by decide) (Or.inl rfl) Chain.nil
    · simp only [thread2, hi, if_false]; exact Chain.nil
  · intro i _
    by_cases hi : i = 0 <;> simp [hi]
  · intro i j _ _ hij q hq
    by_cases hi : i = 0
    · have hj : j ≠ 0 := fun h => hij (hi.trans h.symm)
      simp [hj]
    · simp [hi] at hq

theorem exec_nested (U : Nat) (w : World) (cs : List Call) :
    ∀ (t : thread_data), 0 < t.enter_count → t.enter_count < UINT → Nested t.enter_count cs →
      exec_calls U cs w t = some (w, { t with enter_count := depth_after t.enter_count cs }) := by
  induction cs with
  | nil => intro t _ _ _; rfl
  | cons c cs ih =>
    intro t h1 h2 hn
    cases c with
    | enter_critical =>
      obtain ⟨hlt, hn⟩ := hn
      have e : (t.enter_count + 1) % UINT = t.enter_count + 1 := Nat.mod_eq_of_lt hlt
      simp only [exec_calls, Call.exec, enter_critical_nested U w h1 h2, e]
      rw [ih { t with enter_count := t.enter_count + 1 } (Nat.succ_pos _) hlt hn]
      rfl
    | leave_critical =>
      obtain ⟨hlt, hn⟩ := hn
      simp only [exec_calls, Call.exec, leave_critical_nested hlt h2]
      rw [ih { t with enter_count := t.enter_count - 1 } (by simp only; omega)
        (by simp only; omega) hn]
      rfl
    | set_deleter p d => exact absurd hn (by simp [Nested])
    | add_retired_node p => exact absurd hn (by simp [Nested])

theorem exec_replicate_enter (U : Nat) (w : World) (n : Nat) :
    ∀ (t : thread_data), 0 < t.enter_count → t.enter_count + n < UINT →
      exec_calls U (List.replicate n Call.enter_critical) w t
        = some (w, { t with enter_count := t.enter_count + n }) := by
  induction n with
  | zero => intro t _ _; rfl
  | succ n ih =>
    intro t h1 h2
    have e : (t.enter_count + 1) % UINT = t.enter_count + 1 := Nat.mod_eq_of_lt (by omega)
    simp only [List.replicate_succ, exec_calls, Call.exec,
      enter_critical_nested U w h1 (by omega : t.enter_count < UINT), e]
    rw [ih { t with enter_count := t.enter_count + 1 } (Nat.succ_pos _) (by simp only; omega)]
    simp only [Nat.add_assoc, Nat.add_comm 1 n]

theorem enter_critical_wrap (U : Nat) (w : World) {t : thread_data}
    (h : t.enter_count = UINT - 1) :
    enter_critical U w t = some (w, { t with enter_count := 0 }) := by
  simp [enter_critical, h, UINT]

/-- C3 (as stated, refuted). The only thread holds one non-null guard
(`enter_count = 1`, global epoch `0`) and creates `2 ^ 32` further non-null guards: the
32 bit `enter_count` wraps to `0`, the last creation is taken for a first-level entry and
advances the global epoch to `1`. -/
theorem C3_counterexample :
    thread1.enter_count = 1 ∧ world1.global_epoch = 0
    ∧ (exec_calls 0 (List.replicate 4294967296 Call.enter_critical) world1 thread1).map
        (fun r => (r.1.global_epoch, r.2.enter_count)) = some (1, 1) := by
  refine ⟨rfl, rfl, ?_⟩
  have h1 := exec_replicate_enter 0 world1 4294967294 thread1 (by decide) (by decide)
  have h2 := enter_critical_wrap 0 world1
    (t := { thread1 with enter_count := thread1.enter_count + 4294967294 }) (by decide)
  have s : Solo world1 { thread1 with enter_count := 0 } 0 (fun _ => []) :=
    ⟨rfl, ⟨_, rfl, rfl⟩, by decide, alone_singleton world1 rfl, rfl, threadWF_empty _⟩
  obtain ⟨w3, t3, h3, _, g3, _, _, c3, _⟩ := solo_enter_advance 0 s rfl rfl
  rw [show (4294967296 : Nat) = 4294967294 + 2 from rfl, List.replicate_add,
    exec_calls_append, h1]
  simp only [Option.some_bind, List.replicate, exec_calls, Call.exec, h2]
  rw [h3]
  simp only [Option.map_some', g3, c3]
  rfl

/-- C3 (amended). While a thread holds at least one non-null guard
(`enter_count >= 1`), creating and destroying further guards, as long as fewer than
`2 ^ 32` guards are held at once, changes nothing but `enter_count`: every call returns,
the world (global epoch, control blocks with `local_epoch`, orphan list, heap and log of
`delete_self` calls, number of update attempts) is unchanged, and so are
`entries_since_update` and the three retire lists; `enter_count` follows the nesting
depth and is restored when every guard created has been destroyed.  In particular no
node is destroyed while the first guard is held. -/
theorem C3_nested_guards_change_only_enter_count
    (U : Nat) (w : World) (t : thread_data) (cs : List Call)
    (h1 : 0 < t.enter_count) (h2 : t.enter_count < UINT) (hn : Nested t.enter_count cs) :
    ∃ w1 t1, exec_calls U cs w t = some (w1, t1)
      ∧ w1 = w
      ∧ t1 = { t with enter_count := depth_after t.enter_count cs }
      ∧ w1.global_epoch = w.global_epoch
      ∧ w1.entries = w.entries
      ∧ w1.heap.deleted = w.heap.deleted
      ∧ t1.entries_since_update = t.entries_since_update
      ∧ t1.retire_lists = t.retire_lists
      ∧ (depth_after t.enter_count cs = t.enter_count → t1 = t) := by
  refine ⟨w, _, exec_nested U w cs t h1 h2 hn, rfl, rfl, rfl, rfl, rfl, rfl, rfl, ?_⟩
  intro h
  rw [h]

/-- Instance of C3: the only thread, holding one guard, runs `update_epoch()` twice, the
second time inside a further guard. -/
theorem C3_witness :
    0 < thread1.enter_count
    ∧ Nested thread1.enter_count
        [Call.enter_critical, Call.leave_critical, Call.enter_critical, Call.enter_critical,
         Call.leave_critical, Call.leave_critical]
    ∧ ∃ w1 t1,
        exec_calls 0 [Call.enter_critical, Call.leave_critical, Call.enter_critical,
          Call.enter_critical, Call.leave_critical, Call.leave_critical] world1 thread1
          = some (w1, t1)
      ∧ w1 = world1
      ∧ t1 = { thread1 with enter_count :=
                (depth_after thread1.enter_count
                  [Call.enter_critical, Call.leave_critical, Call.enter_critical,
                   Call.enter_critical, Call.leave_critical, Call.leave_critical]) }
      ∧ w1.global_epoch = world1.global_epoch
      ∧ w1.entries = world1.entries
      ∧ w1.heap.deleted = world1.heap.deleted
      ∧ t1.entries_since_update = thread1.entries_since_update
      ∧ t1.retire_lists = thread1.retire_lists
      ∧ (depth_after thread1.enter_count
            [Call.enter_critical, Call.leave_critical, Call.enter_critical,
             Call.enter_critical, Call.leave_critical, Call.leave_critical]
          = thread1.enter_count → t1 = thread1) :=
  ⟨by decide, by simp [Nested, thread1, UINT],
   C3_nested_guards_change_only_enter_count 0 world1 thread1 _ (by decide) (by decide)
     (by simp [Nested, thread1, UINT])⟩

/-! ## What the engine functions leave unchanged -/

theorem add_retired_node_at_frame {w w1 : World} {t t1 : thread_data} {p e : Nat}
    (h : add_retired_node_at w t p e = some (w1, t1)) :
    w1.entries = w.entries ∧ w1.global_epoch = w.global_epoch
      ∧ w1.update_attempts = w.update_attempts ∧ w1.abandoned = w.abandoned
      ∧ t1.control_block = t.control_block ∧ t1.enter_count = t.enter_count
      ∧ t1.entries_since_update = t.entries_since_update := by
  unfold add_retired_node_at at h
  split at h
  · split at h
    · cases h; exact ⟨rfl, rfl, rfl, rfl, rfl, rfl, rfl⟩
    · cases h
  · cases h

theorem adopt_orphans_loop_frame (fuel : Nat) :
    ∀ {w w1 : World} {t t1 : thread_data} {p : Ptr},
      adopt_orphans_loop fuel w t p = some (w1, t1) →
      w1.entries = w.entries ∧ w1.global_epoch = w.global_epoch
        ∧ w1.update_attempts = w.update_attempts ∧ w1.abandoned = w.abandoned
        ∧ t1.control_block = t.control_block ∧ t1.enter_count = t.enter_count
        ∧ t1.entries_since_update = t.entries_since_update := by
  induction fuel with
  | zero => intro w w1 t t1 p h; simp [adopt_orphans_loop] at h
  | succ fuel ih =>
    intro w w1 t t1 p h
    rw [adopt_orphans_loop] at h
    split at h
    · cases h; exact ⟨rfl, rfl, rfl, rfl, rfl, rfl, rfl⟩
    · split at h
      · dsimp only at h
        split at h
        · rename_i te l0 l1 l2 hk
          split at h
          · cases h
          · rename_i w2 t2 h2
            have a := add_retired_node_at_frame h2
            have b := ih h
            simp only at a
            exact ⟨b.1.trans a.1, b.2.1.trans a.2.1, b.2.2.1.trans a.2.2.1,
              b.2.2.2.1.trans a.2.2.2.1, b.2.2.2.2.1.trans a.2.2.2.2.1,
              b.2.2.2.2.2.1.trans a.2.2.2.2.2.1, b.2.2.2.2.2.2.trans a.2.2.2.2.2.2⟩
        · cases h
      · cases h

theorem adopt_orphans_frame {w w1 : World} {t t1 : thread_data}
    (h : adopt_orphans w t = some (w1, t1)) :
    w1.entries = w.entries ∧ w1.global_epoch = w.global_epoch
      ∧ w1.update_attempts = w.update_attempts ∧ w1.abandoned = 0
      ∧ t1.control_block = t.control_block ∧ t1.enter_count = t.enter_count
      ∧ t1.entries_since_update = t.entries_since_update := by
  unfold adopt_orphans adopt_abandoned_retired_nodes at h
  have a := adopt_orphans_loop_frame _ h
  exact ⟨a.1, a.2.1, a.2.2.1, a.2.2.2.1, a.2.2.2.2⟩

theorem try_update_epoch_frame {w w1 : World} {t t1 : thread_data} {curr new : Nat} {r : Bool}
    (h : try_update_epoch w t curr new = some (r, w1, t1)) :
    w1.entries = w.entries ∧ w1.update_attempts = w.update_attempts + 1
      ∧ (w1.global_epoch = w.global_epoch ∨ (w.global_epoch = curr ∧ w1.global_epoch = new))
      ∧ t1.control_block = t.control_block ∧ t1.enter_count = t.enter_count
      ∧ t1.entries_since_update = t.entries_since_update := by
  unfold try_update_epoch at h
  simp only at h
  split at h
  · cases h; exact ⟨rfl, rfl, Or.inl rfl, rfl, rfl, rfl⟩
  · split at h
    · rename_i hg
      simp only [hg, decide_True, if_true] at h
      split at h
      · cases h
      · rename_i w2 t2 h2
        cases h
        have a := adopt_orphans_frame h2
        exact ⟨a.1, a.2.2.1, Or.inr ⟨hg, a.2.1⟩, a.2.2.2.2⟩
    · cases h; exact ⟨rfl, rfl, Or.inl rfl, rfl, rfl, rfl⟩

theorem adopt_epoch_frame {w w1 : World} {t t1 : thread_data} {cb e : Nat}
    (h : adopt_epoch w t cb e = some (w1, t1)) :
    ∃ b, w.tcb cb = some b ∧ w1.entries = w.entries.set cb { b with local_epoch := e }
      ∧ e < 3
      ∧ w1.global_epoch = w.global_epoch ∧ w1.update_attempts = w.update_attempts
      ∧ w1.abandoned = w.abandoned
      ∧ t1.control_block = t.control_block ∧ t1.enter_count = t.enter_count
      ∧ t1.entries_since_update = t.entries_since_update := by
  unfold adopt_epoch at h
  split at h
  · cases h
  · rename_i b hb
    simp only at h
    split at h
    · rename_i he
      split at h
      · cases h
      · cases h
        exact ⟨b, hb, rfl, he, rfl, rfl, rfl, rfl, rfl, rfl⟩
    · cases h

theorem tcb_congr {w w1 : World} (h : w1.entries = w.entries) (cb : Nat) :
    w1.tcb cb = w.tcb cb := by
  simp [World.tcb, h]

theorem tcb_of_entries_set {w w1 : World} {cb : Nat} {b0 b : thread_control_block}
    (hb : w.tcb cb = some b0) (h : w1.entries = w.entries.set cb b) : w1.tcb cb = some b := by
  have hlt := tcb_lt hb
  simp [World.tcb, h, List.get?_eq_getElem?, hlt]

theorem acquire_entry_frame (w : World) :
    (acquire_entry w).1.global_epoch = w.global_epoch ∧ (acquire_entry w).1.heap = w.heap
      ∧ (acquire_entry w).1.abandoned = w.abandoned
      ∧ (acquire_entry w).1.update_attempts = w.update_attempts := by
  unfold acquire_entry
  split
  · split <;> exact ⟨rfl, rfl, rfl, rfl⟩
  · exact ⟨rfl, rfl, rfl, rfl⟩

theorem ensure_has_control_block_spec {w w0 : World} {t t0 : thread_data} {cb : Nat}
    (h : ensure_has_control_block w t = (w0, t0, cb)) :
    t0.control_block = some cb ∧ t0.enter_count = t.enter_count
      ∧ t0.entries_since_update = t.entries_since_update
      ∧ t0.retire_lists = t.retire_lists
      ∧ w0.global_epoch = w.global_epoch ∧ w0.heap = w.heap ∧ w0.abandoned = w.abandoned
      ∧ w0.update_attempts = w.update_attempts := by
  unfold ensure_has_control_block at h
  split at h
  · rename_i cb0 hcb
    cases h
    exact ⟨hcb, rfl, rfl, rfl, rfl, rfl, rfl, rfl⟩
  · have a := acquire_entry_frame w
    cases h
    exact ⟨rfl, rfl, rfl, rfl, a.1, a.2.1, a.2.2.1, a.2.2.2⟩

/-- Whatever branch `do_enter_critical` takes, when it returns the thread has a control
block whose flag `is_in_critical_region` is set, and `enter_count` is untouched. -/
theorem do_enter_critical_flag {U : Nat} {w w1 : World} {t t1 : thread_data}
    (h : do_enter_critical U w t = some (w1, t1)) :
    t1.in_critical_region w1 = true ∧ t1.enter_count = t.enter_count := by
  unfold do_enter_critical at h
  split at h
  rename_i w0 t0 cb hens
  obtain ⟨hcb0, hec0, -⟩ := ensure_has_control_block_spec hens
  split at h
  · cases h
  · rename_i b hb
    have hset := tcb_set_tcb_same hb { b with is_in_critical_region := true }
    dsimp only at h
    split at h
    · -- a new epoch is observed
      obtain ⟨b2, hb2, hent, -, -, -, -, hcb1, hec1, -⟩ := adopt_epoch_frame h
      rw [hset] at hb2
      cases hb2
      have := tcb_of_entries_set hset hent
      simp only at hcb1 hec1
      refine ⟨?_, hec1.trans hec0⟩
      simp [thread_data.in_critical_region, hcb1, hcb0, this]
    · split at h
      · split at h
        · cases h
        · -- the attempt is refused
          rename_i w2 t2 htry
          cases h
          obtain ⟨hent, -, -, hcb1, hec1, -⟩ := try_update_epoch_frame htry
          have := (tcb_congr hent cb).trans hset
          simp only at hcb1 hec1
          refine ⟨?_, hec1.trans hec0⟩
          simp [thread_data.in_critical_region, hcb1, hcb0, this]
        · -- the attempt is made
          rename_i w2 t2 htry
          obtain ⟨hent, -, -, hcb2, hec2, -⟩ := try_update_epoch_frame htry
          have hb2w := (tcb_congr hent cb).trans hset
          obtain ⟨b3, hb3, hent3, -, -, -, -, hcb1, hec1, -⟩ := adopt_epoch_frame h
          rw [hb2w] at hb3
          cases hb3
          have := tcb_of_entries_set hb2w hent3
          simp only at hcb2 hec2
          refine ⟨?_, hec1.trans (hec2.trans hec0)⟩
          simp [thread_data.in_critical_region, hcb1, hcb2, hcb0, this]
      · -- below the threshold
        cases h
        refine ⟨?_, hec0⟩
        simp [thread_data.in_critical_region, hcb0, hset]

theorem do_leave_critical_flag {w w1 : World} {t t1 : thread_data}
    (h : do_leave_critical w t = some (w1, t1)) :
    t1.in_critical_region w1 = false ∧ t1.enter_count = t.enter_count := by
  unfold do_leave_critical at h
  split at h
  · cases h
  · rename_i cb hcb
    split at h
    · cases h
    · rename_i b hb
      cases h
      have := tcb_set_tcb_same hb { b with is_in_critical_region := false }
      refine ⟨?_, rfl⟩
      simp [thread_data.in_critical_region, hcb, this]

/-! ## C5: the flag `is_in_critical_region` and `enter_count` -/

theorem exec_balanced (U : Nat) (cs : List Call) :
    ∀ (w : World) (t : thread_data) (w1 : World) (t1 : thread_data),
      t.enter_count < UINT →
      t.in_critical_region w = decide (0 < t.enter_count) →
      Balanced t.enter_count cs →
      exec_calls U cs w t = some (w1, t1) →
      t1.in_critical_region w1 = decide (0 < t1.enter_count)
        ∧ t1.enter_count = depth_after t.enter_count cs ∧ t1.enter_count < UINT := by
  induction cs with
  | nil =>
    intro w t w1 t1 hlt hf _ h
    simp only [exec_calls, Option.some.injEq, Prod.mk.injEq] at h
    obtain ⟨rfl, rfl⟩ := h
    exact ⟨hf, rfl, hlt⟩
  | cons c cs ih =>
    intro w t w1 t1 hlt hf hb h
    cases c with
    | enter_critical =>
      obtain ⟨hd, hb⟩ := hb
      simp only [exec_calls, Call.exec] at h
      by_cases h0 : t.enter_count = 0
      · rw [enter_critical_first U w h0] at h
        cases hd1 : do_enter_critical U w { t with enter_count := 1 } with
        | none => rw [hd1] at h; cases h
        | some r =>
          obtain ⟨w2, t2⟩ := r
          rw [hd1] at h
          obtain ⟨hf2, hc2⟩ := do_enter_critical_flag hd1
          simp only at hc2
          have := ih w2 t2 w1 t1 (by rw [hc2]; decide) (by rw [hf2, hc2]; rfl)
            (by rw [hc2]; simpa [h0] using hb) h
          rw [hc2] at this
          simpa [depth_after, h0] using this
      · have hpos : 0 < t.enter_count := Nat.pos_of_ne_zero h0
        rw [enter_critical_nested U w hpos hlt, Nat.mod_eq_of_lt hd] at h
        have := ih w { t with enter_count := t.enter_count + 1 } w1 t1 hd
          (by simpa [thread_data.in_critical_region, hpos] using hf) hb h
        simpa [depth_after] using this
    | leave_critical =>
      obtain ⟨hpos, hb⟩ := hb
      simp only [exec_calls, Call.exec] at h
      by_cases h1 : t.enter_count = 1
      · rw [leave_critical_last h1] at h
        cases hd1 : do_leave_critical w { t with enter_count := 0 } with
        | none => rw [hd1] at h; cases h
        | some r =>
          obtain ⟨w2, t2⟩ := r
          rw [hd1] at h
          obtain ⟨hf2, hc2⟩ := do_leave_critical_flag hd1
          simp only at hc2
          have := ih w2 t2 w1 t1 (by rw [hc2]; decide) (by rw [hf2, hc2]; rfl)
            (by rw [hc2]; simpa [h1] using hb) h
          rw [hc2] at this
          simpa [depth_after, h1] using this
      · have hgt : 1 < t.enter_count := by omega
        rw [leave_critical_nested hgt hlt] at h
        have hpos2 : 0 < t.enter_count - 1 := by omega
        have := ih w { t with enter_count := t.enter_count - 1 } w1 t1
          (by simp only; omega)
          (by simpa [thread_data.in_critical_region, hpos, hpos2] using hf) hb h
        simpa [depth_after] using this
    | set_deleter p d => exact absurd hb (by simp [Balanced])
    | add_retired_node p => exact absurd hb (by simp [Balanced])

/-- The first critical-region entry of a new thread in a new process. -/
theorem first_entry_init (U : Nat) :
    enter_critical U (World.init heap8) thread_data.init
      = some ({ global_epoch := 0,
                entries := [{ is_in_critical_region := true, local_epoch := 0, active := true }],
                abandoned := 0, heap := heap8, update_attempts := 0 },
              { enter_count := 1, entries_since_update := 0, control_block := some 0,
                retire_lists := fun i => if i = 0 then 0 else 0 }) := by
  rfl

theorem exec_calls_single (U : Nat) (c : Call) (w : World) (t : thread_data) :
    exec_calls U [c] w t = c.exec U w t := by
  simp only [exec_calls]
  cases c.exec U w t with
  | none => rfl
  | some r => rfl

theorem exec_enter (U : Nat) (w : World) (t : thread_data) :
    Call.exec U Call.enter_critical w t = enter_critical U w t := rfl

/-- C5 (as stated, refuted). A new thread makes `2 ^ 32` calls of `enter_critical` and
no `leave_critical` (so no assertion can fail): the 32 bit `enter_count` has wrapped to
`0` while the flag `is_in_critical_region` of its control block is `true`. -/
theorem C5_counterexample :
    (exec_calls 0 (List.replicate 4294967296 Call.enter_critical)
        (World.init heap8) thread_data.init).map
      (fun r => (r.2.enter_count, r.2.in_critical_region r.1)) = some (0, true) := by
  have h2 := exec_replicate_enter 0
    { global_epoch := 0,
      entries := [{ is_in_critical_region := true, local_epoch := 0, active := true }],
      abandoned := 0, heap := heap8, update_attempts := 0 } 4294967294
    { enter_count := 1, entries_since_update := 0, control_block := some 0,
      retire_lists := fun i => if i = 0 then 0 else 0 } (by decide) (by decide)
  have e1 : List.replicate 1 Call.enter_critical = [Call.enter_critical] := rfl
  have h1 : exec_calls 0 [Call.enter_critical] (World.init heap8) thread_data.init
      = some ({ global_epoch := 0,
                entries := [{ is_in_critical_region := true, local_epoch := 0, active := true }],
                abandoned := 0, heap := heap8, update_attempts := 0 },
              { enter_count := 1, entries_since_update := 0, control_block := some 0,
                retire_lists := fun i => if i = 0 then 0 else 0 }) := by
    rw [exec_calls_single]; exact first_entry_init 0
  rw [show (4294967296 : Nat) = 1 + (4294967294 + 1) from rfl, List.replicate_add,
    List.replicate_add, e1, exec_calls_append, h1, Option.some_bind, exec_calls_append, h2,
    Option.some_bind, exec_calls_single]
  simp only [exec_enter]
  rw [enter_critical_wrap 0 _ (by decide)]
  rfl

/-- C5 (amended). For every sequence of `enter_critical` / `leave_critical` calls on a
thread in which each `leave_critical` is preceded by an unmatched `enter_critical` and
the nesting depth stays below `2 ^ 32`, started in a state where the flag agrees with
`enter_count` (such as a new thread), after every call that returns the thread's flag
`is_in_critical_region` is `true` if and only if `enter_count > 0`, whichever branch of
`do_enter_critical` was taken; `enter_count` is the nesting depth.  In particular
`enter_count == 0` implies that the flag is `false`. -/
theorem C5_flag_iff_enter_count_positive
    (U : Nat) (cs : List Call) (w : World) (t : thread_data) (w1 : World) (t1 : thread_data)
    (hlt : t.enter_count < UINT)
    (hf : t.in_critical_region w = decide (0 < t.enter_count))
    (hb : Balanced t.enter_count cs)
    (h : exec_calls U cs w t = some (w1, t1)) :
    (t1.in_critical_region w1 = true ↔ 0 < t1.enter_count)
      ∧ t1.enter_count = depth_after t.enter_count cs
      ∧ (t1.enter_count = 0 → t1.in_critical_region w1 = false) := by
  obtain ⟨h1, h2, _⟩ := exec_balanced U cs w t w1 t1 hlt hf hb h
  refine ⟨by simp [h1], h2, ?_⟩
  intro h0
  simp [h1, h0]

/-- Instance of C5: a new thread enters, enters again, and leaves twice. -/
theorem C5_witness :
    Balanced thread_data.init.enter_count
        [Call.enter_critical, Call.enter_critical, Call.leave_critical, Call.leave_critical]
    ∧ ∃ w1 t1,
        exec_calls 0
          [Call.enter_critical, Call.enter_critical, Call.leave_critical, Call.leave_critical]
          (World.init heap8) thread_data.init = some (w1, t1)
        ∧ (t1.in_critical_region w1 = true ↔ 0 < t1.enter_count)
        ∧ t1.enter_count = depth_after thread_data.init.enter_count
            [Call.enter_critical, Call.enter_critical, Call.leave_critical,
             Call.leave_critical]
        ∧ (t1.enter_count = 0 → t1.in_critical_region w1 = false) :=
  ⟨by simp [Balanced, thread_data.init, UINT],
   _, _, rfl,
   C5_flag_iff_enter_count_positive 0
     [Call.enter_critical, Call.enter_critical, Call.leave_critical, Call.leave_critical]
     (World.init heap8) thread_data.init _ _ (by decide) rfl
     (by simp [Balanced, thread_data.init, UINT]) rfl⟩

/-! ## C8: when an advance is attempted -/

/-- The number of calls of `try_update_epoch` made by one `do_enter_critical`, and the
new value of `entries_since_update`, by branch. -/
theorem do_enter_critical_attempts {U : Nat} {w w0 w1 : World} {t t0 t1 : thread_data}
    {cb : Nat} {b : thread_control_block}
    (h : do_enter_critical U w t = some (w1, t1))
    (hens : ensure_has_control_block w t = (w0, t0, cb)) (hb : w0.tcb cb = some b) :
    (b.local_epoch ≠ w.global_epoch →
        w1.update_attempts = w.update_attempts ∧ t1.entries_since_update = 0
          ∧ w1.global_epoch = w.global_epoch)
    ∧ (b.local_epoch = w.global_epoch → t.entries_since_update = U →
        w1.update_attempts = w.update_attempts + 1 ∧ t1.entries_since_update = 0)
    ∧ (b.local_epoch = w.global_epoch → t.entries_since_update ≠ U →
        w1.update_attempts = w.update_attempts
          ∧ t1.entries_since_update = (t.entries_since_update + 1) % UINT
          ∧ w1.global_epoch = w.global_epoch) := by
  obtain ⟨-, -, hesu0, -, hg0, -, -, hua0⟩ := ensure_has_control_block_spec hens
  unfold do_enter_critical at h
  rw [hens] at h
  simp only [hb, set_tcb_global_epoch, hg0] at h
  split at h
  · -- a new epoch is observed
    rename_i hne
    obtain ⟨_, _, _, _, hg1, hua1, _, _, _, hesu1⟩ := adopt_epoch_frame h
    simp only [set_tcb_update_attempts, set_tcb_global_epoch] at hua1 hesu1 hg1
    exact ⟨fun _ => ⟨hua1.trans hua0, hesu1, hg1.trans hg0⟩, fun e => absurd e hne,
      fun e => absurd e hne⟩
  · rename_i he
    have he : b.local_epoch = w.global_epoch := not_not.mp he
    split at h
    · rename_i hu
      rw [hesu0] at hu
      refine ⟨fun hne => absurd he hne, fun _ _ => ?_, fun _ hne => absurd hu hne⟩
      split at h
      · cases h
      · rename_i w2 t2 htry
        cases h
        obtain ⟨-, hua2, -, -, -, hesu2⟩ := try_update_epoch_frame htry
        simp only [set_tcb_update_attempts] at hua2 hesu2
        exact ⟨by rw [hua2, hua0], hesu2⟩
      · rename_i w2 t2 htry
        obtain ⟨-, hua2, -, -, -, hesu2⟩ := try_update_epoch_frame htry
        simp only [set_tcb_update_attempts] at hua2 hesu2
        obtain ⟨_, _, _, _, _, hua1, _, _, _, hesu1⟩ := adopt_epoch_frame h
        exact ⟨by rw [hua1, hua2, hua0], hesu1.trans hesu2⟩
    · rename_i hu
      rw [hesu0] at hu
      cases h
      refine ⟨fun hne => absurd he hne, fun _ e => absurd e hu, fun _ _ => ⟨?_, ?_, ?_⟩⟩
      · simpa using hua0
      · simp [hesu0]
      · simpa using hg0

theorem ensure_has_control_block_new {w : World} {t : thread_data}
    (hcb : t.control_block = none) (hf : find_inactive w.entries = none) :
    ensure_has_control_block w t
      = ({ w with entries := w.entries ++
            [{ is_in_critical_region := false, local_epoch := number_epochs, active := true }] },
         { t with control_block := some w.entries.length }, w.entries.length) := by
  simp [ensure_has_control_block, hcb, acquire_entry, hf]

theorem ensure_has_control_block_enter_count (w : World) (t : thread_data) (n : Nat) :
    ensure_has_control_block w { t with enter_count := n }
      = ((ensure_has_control_block w t).1,
         { (ensure_has_control_block w t).2.1 with enter_count := n },
         (ensure_has_control_block w t).2.2) := by
  obtain ⟨ec, esu, cbo, rl⟩ := t
  cases cbo <;> rfl

/-- C8 (as stated, refuted). With `UpdateThreshold = 0`, the very first critical-region
entry of a new thread (a first-level entry: `enter_count` goes from `0` to `1`) returns
without any call of `try_update_epoch`, and the global epoch is unchanged: the new
control block holds the sentinel `local_epoch = 3`, which differs from the global epoch. -/
theorem C8_counterexample :
    thread_data.init.enter_count = 0
    ∧ (enter_critical 0 (World.init heap8) thread_data.init).map
        (fun r => (r.2.enter_count, r.1.update_attempts, r.1.global_epoch))
      = some (1, 0, 0) := by
  refine ⟨rfl, ?_⟩
  rw [first_entry_init]
  rfl

/-- C8 (amended). With `UpdateThreshold = 0` (where `entries_since_update` is always
`0`), a first-level critical-region entry calls `try_update_epoch`, once, exactly when
the `local_epoch` of the thread's control block equals the global epoch; for a thread
running alone that call advances the global epoch.  A first-level entry that finds
`local_epoch` different from the global epoch, in particular the very first entry of a
thread with a new control block (`local_epoch = 3`), adopts the global epoch without
calling `try_update_epoch`. -/
theorem C8_first_level_entry_attempts_iff_epoch_current :
    (∀ (w : World) (t : thread_data) (w0 : World) (t0 : thread_data) (cb : Nat)
        (b : thread_control_block) (w1 : World) (t1 : thread_data),
        t.enter_count = 0 → t.entries_since_update = 0 →
        ensure_has_control_block w t = (w0, t0, cb) → w0.tcb cb = some b →
        enter_critical 0 w t = some (w1, t1) →
        (b.local_epoch = w.global_epoch → w1.update_attempts = w.update_attempts + 1)
        ∧ (b.local_epoch ≠ w.global_epoch →
            w1.update_attempts = w.update_attempts ∧ w1.global_epoch = w.global_epoch)
        ∧ t1.entries_since_update = 0)
    ∧ (∀ (w : World) (t : thread_data) (cb : Nat) (f : Nat → List Ptr),
        Solo w t cb f → t.enter_count = 0 → t.entries_since_update = 0 →
        ∃ w1 t1, enter_critical 0 w t = some (w1, t1)
          ∧ w1.update_attempts = w.update_attempts + 1
          ∧ w1.global_epoch = (w.global_epoch + 1) % 3)
    ∧ (∀ (w : World) (t : thread_data) (w1 : World) (t1 : thread_data),
        t.control_block = none → find_inactive w.entries = none → w.global_epoch < 3 →
        t.enter_count = 0 →
        enter_critical 0 w t = some (w1, t1) →
        w1.update_attempts = w.update_attempts ∧ w1.global_epoch = w.global_epoch) := by
  refine ⟨?_, ?_, ?_⟩
  · intro w t w0 t0 cb b w1 t1 hc hu hens hb h
    rw [enter_critical_first 0 w hc] at h
    have hens1 : ensure_has_control_block w { t with enter_count := 1 }
        = (w0, { t0 with enter_count := 1 }, cb) := by
      rw [ensure_has_control_block_enter_count, hens]
    obtain ⟨a1, a2, a3⟩ := do_enter_critical_attempts h hens1 hb
    refine ⟨fun e => (a2 e hu).1, fun e => ⟨(a1 e).1, (a1 e).2.2⟩, ?_⟩
    by_cases e : b.local_epoch = w.global_epoch
    · exact (a2 e hu).2
    · exact (a1 e).2.1
  · intro w t cb f s hc hu
    obtain ⟨w1, t1, h1, _, g1, a1, _⟩ := solo_enter_advance 0 s hc hu
    exact ⟨w1, t1, h1, a1, g1⟩
  · intro w t w1 t1 hcb hf hg hc h
    rw [enter_critical_first 0 w hc] at h
    have hens := ensure_has_control_block_new (t := { t with enter_count := 1 }) hcb hf
    have hb : ({ w with entries := w.entries ++
            [{ is_in_critical_region := false, local_epoch := number_epochs,
               active := true }] } : World).tcb w.entries.length
        = some { is_in_critical_region := false, local_epoch := number_epochs,
                 active := true } := by
      simp [World.tcb, List.get?_eq_getElem?]
    obtain ⟨a1, -, -⟩ := do_enter_critical_attempts h hens hb
    have hne : number_epochs ≠ w.global_epoch := by unfold number_epochs; omega
    exact ⟨(a1 hne).1, (a1 hne).2.2⟩

/-- Instance of C8: the thread of `world2` enters at the current epoch and attempts an
advance; a new thread in a new process does not. -/
theorem C8_witness :
    (∃ w1 t1, enter_critical 0 world2 thread2 = some (w1, t1)
        ∧ ((0 : Nat) = world2.global_epoch → w1.update_attempts = world2.update_attempts + 1)
        ∧ ((0 : Nat) ≠ world2.global_epoch →
            w1.update_attempts = world2.update_attempts
              ∧ w1.global_epoch = world2.global_epoch)
        ∧ t1.entries_since_update = 0)
    ∧ (∃ w1 t1, enter_critical 0 (World.init heap8) thread_data.init = some (w1, t1)
        ∧ w1.update_attempts = (World.init heap8).update_attempts
        ∧ w1.global_epoch = (World.init heap8).global_epoch) :=
  ⟨⟨_, _, rfl,
    C8_first_level_entry_attempts_iff_epoch_current.1 world2 thread2 world2 thread2 0
      { is_in_critical_region := false, local_epoch := 0, active := true } _ _
      rfl rfl rfl rfl rfl⟩,
   ⟨_, _, first_entry_init 0,
    C8_first_level_entry_attempts_iff_epoch_current.2.2 (World.init heap8) thread_data.init
      _ _ rfl rfl (by decide) rfl (first_entry_init 0)⟩⟩

/-! ## C9: the entry/exit loop of a thread running alone -/

theorem entry_exit_pairs_add (m n : Nat) :
    entry_exit_pairs (m + n) = entry_exit_pairs m ++ entry_exit_pairs n := by
  induction m with
  | zero => simp [entry_exit_pairs]
  | succ m ih =>
    rw [Nat.succ_add]
    simp [entry_exit_pairs, ih]

/-- One entry below the threshold followed by the matching exit. -/
theorem solo_stale_pair (U : Nat) {w : World} {t : thread_data} {cb : Nat}
    {f : Nat → List Ptr} (s : Solo w t cb f) (hc : t.enter_count = 0)
    (hu : t.entries_since_update ≠ U) :
    ∃ w1 t1, exec_calls U [Call.enter_critical, Call.leave_critical] w t = some (w1, t1)
      ∧ Solo w1 t1 cb f
      ∧ w1.global_epoch = w.global_epoch
      ∧ w1.update_attempts = w.update_attempts
      ∧ w1.heap = w.heap
      ∧ t1.enter_count = 0
      ∧ t1.entries_since_update = (t.entries_since_update + 1) % UINT
      ∧ t1.retire_lists = t.retire_lists := by
  obtain ⟨w1, t1, h1, s1, g1, a1, hp1, c1, u1, r1⟩ := solo_enter_stale U s hc hu
  obtain ⟨w2, t2, h2, s2, g2, a2, hp2, c2, u2, r2⟩ := solo_leave s1 c1
  refine ⟨w2, t2, ?_, s2, by rw [g2, g1], by rw [a2, a1], by rw [hp2, hp1], c2, by rw [u2, u1],
    by rw [r2, r1]⟩
  simp [exec_calls, Call.exec, h1, h2]

/-- One entry at the threshold followed by the matching exit. -/
theorem solo_advance_pair (U : Nat) {w : World} {t : thread_data} {cb : Nat}
    {f : Nat → List Ptr} (s : Solo w t cb f) (hc : t.enter_count = 0)
    (hu : t.entries_since_update = U) :
    ∃ w1 t1, exec_calls U [Call.enter_critical, Call.leave_critical] w t = some (w1, t1)
      ∧ Solo w1 t1 cb (fun i => if i = (w.global_epoch + 1) % 3 then [] else f i)
      ∧ w1.global_epoch = (w.global_epoch + 1) % 3
      ∧ w1.update_attempts = w.update_attempts + 1
      ∧ w1.heap = (f ((w.global_epoch + 1) % 3)).foldl delete_one w.heap
      ∧ t1.enter_count = 0 ∧ t1.entries_since_update = 0
      ∧ t1.retire_lists
          = (fun i => if i = (w.global_epoch + 1) % 3 then 0 else t.retire_lists i) := by
  obtain ⟨w1, t1, h1, s1, g1, a1, hp1, c1, u1, r1⟩ := solo_enter_advance U s hc hu
  obtain ⟨w2, t2, h2, s2, g2, a2, hp2, c2, u2, r2⟩ := solo_leave s1 c1
  refine ⟨w2, t2, ?_, s2, by rw [g2, g1], by rw [a2, a1], by rw [hp2, hp1], c2, by rw [u2, u1],
    by rw [r2, r1]⟩
  simp [exec_calls, Call.exec, h1, h2]

/-- Any number `n` of entry/exit pairs below the threshold: no attempt is made. -/
theorem solo_stale_pairs (U : Nat) (n : Nat) :
    ∀ {w : World} {t : thread_data} {cb : Nat} {f : Nat → List Ptr}, Solo w t cb f →
      t.enter_count = 0 → t.entries_since_update < UINT →
      (∀ j, j < n → (t.entries_since_update + j) % UINT ≠ U) →
      ∃ w1 t1, exec_calls U (entry_exit_pairs n) w t = some (w1, t1)
        ∧ Solo w1 t1 cb f
        ∧ w1.global_epoch = w.global_epoch
        ∧ w1.update_attempts = w.update_attempts
        ∧ w1.heap = w.heap
        ∧ t1.enter_count = 0
        ∧ t1.entries_since_update = (t.entries_since_update + n) % UINT
        ∧ t1.retire_lists = t.retire_lists := by
  induction n with
  | zero =>
    intro w t cb f s hc hlt _
    exact ⟨w, t, rfl, s, rfl, rfl, rfl, hc, (Nat.mod_eq_of_lt hlt).symm, rfl⟩
  | succ n ih =>
    intro w t cb f s hc hlt hne
    have h0 : t.entries_since_update ≠ U := by
      have h00 := hne 0 (Nat.succ_pos _)
      rwa [Nat.add_zero, Nat.mod_eq_of_lt hlt] at h00
    obtain ⟨w1, t1, h1, s1, g1, a1, hp1, c1, u1, r1⟩ := solo_stale_pair U s hc h0
    obtain ⟨w2, t2, h2, s2, g2, a2, hp2, c2, u2, r2⟩ := ih s1 c1
      (by rw [u1]; exact Nat.mod_lt _ (by decide)) (by
        intro j hj
        have := hne (j + 1) (by omega)
        rw [u1]
        have e : ((t.entries_since_update + 1) % UINT + j) % UINT
            = (t.entries_since_update + (j + 1)) % UINT := by unfold UINT; omega
        rw [e]; exact this)
    refine ⟨w2, t2, ?_, s2, by rw [g2, g1], by rw [a2, a1], by rw [hp2, hp1], c2, ?_,
      by rw [r2, r1]⟩
    · rw [show entry_exit_pairs (n + 1)
          = [Call.enter_critical, Call.leave_critical] ++ entry_exit_pairs n from rfl,
        exec_calls_append, h1]
      exact h2
    · rw [u2, u1]; unfold UINT; omega

/-- One round of the loop for `UpdateThreshold = U < 2 ^ 32`: `U` entries below the
threshold, then one entry that advances the epoch. -/
theorem solo_round {U : Nat} (hU : U < UINT) {w : World} {t : thread_data} {cb : Nat}
    {f : Nat → List Ptr} (s : Solo w t cb f) (hc : t.enter_count = 0)
    (hu : t.entries_since_update = 0) :
    ∃ w1 t1, exec_calls U (entry_exit_pairs (U + 1)) w t = some (w1, t1)
      ∧ Solo w1 t1 cb (fun i => if i = (w.global_epoch + 1) % 3 then [] else f i)
      ∧ w1.global_epoch = (w.global_epoch + 1) % 3
      ∧ w1.update_attempts = w.update_attempts + 1
      ∧ w1.heap = (f ((w.global_epoch + 1) % 3)).foldl delete_one w.heap
      ∧ t1.enter_count = 0 ∧ t1.entries_since_update = 0
      ∧ t1.retire_lists
          = (fun i => if i = (w.global_epoch + 1) % 3 then 0 else t.retire_lists i) := by
  obtain ⟨w1, t1, h1, s1, g1, a1, hp1, c1, u1, r1⟩ := solo_stale_pairs U U s hc
    (by rw [hu]; decide) (by
      intro j hj
      rw [hu, Nat.zero_add, Nat.mod_eq_of_lt (by omega)]
      omega)
  have u1b : t1.entries_since_update = U := by
    rw [u1, hu, Nat.zero_add, Nat.mod_eq_of_lt hU]
  obtain ⟨w2, t2, h2, s2, g2, a2, hp2, c2, u2, r2⟩ := solo_advance_pair U s1 c1 u1b
  refine ⟨w2, t2, ?_, by rw [← g1]; exact s2, by rw [g2, g1], by rw [a2, a1],
    by rw [hp2, hp1, g1], c2, u2, by rw [r2, r1, g1]⟩
  rw [entry_exit_pairs_add, exec_calls_append, h1]
  exact h2

theorem solo_world2 : Solo world2 thread2 0 (fun i => if i = 0 then [4] else []) :=
  ⟨rfl, ⟨_, rfl, rfl⟩, by decide, alone_singleton world2 rfl, rfl, threadWF_thread2⟩

/-- C9 (as stated, refuted). With `UpdateThreshold = 2 ^ 32` the 32 bit counter
`entries_since_update` never equals the threshold: after `3 * (2 ^ 32 + 1)` entry/exit
pairs of the only thread no advance has been attempted, the global epoch has not moved,
and the object `4` queued on `retire_lists[0]` is still queued and not destroyed. -/
theorem C9_counterexample :
    (exec_calls 4294967296 (entry_exit_pairs (3 * (4294967296 + 1))) world2 thread2).map
      (fun r => (r.1.update_attempts, r.1.global_epoch, decide (4 ∈ r.1.heap.deleted),
                 r.2.retire_lists 0))
      = some (0, 0, false, 4) := by
  obtain ⟨w1, t1, h1, _, g1, a1, hp1, _, _, r1⟩ :=
    solo_stale_pairs 4294967296 (3 * (4294967296 + 1)) solo_world2 rfl (by decide) (by
      intro j _
      have := Nat.mod_lt (thread2.entries_since_update + j) (by decide : 0 < UINT)
      unfold UINT at this ⊢
      omega)
  rw [h1]
  simp only [Option.map_some', a1, g1, hp1, r1]
  rfl

/-- C9 (amended). For every `UpdateThreshold = T < 2 ^ 32` and a single thread that has
completed its first entry (`local_epoch == global_epoch`, `entries_since_update == 0`),
with no other thread in a critical region, an empty orphan list and no retirement during
the loop: the first `T` entry/exit pairs make no attempt, the entry after them attempts
the advance and succeeds, so `3 * (T + 1)` consecutive pairs advance the global epoch
exactly three times (returning it to its starting value) and leave all three retire
lists empty, with `delete_self` invoked exactly once on every node that was queued. -/
theorem C9_loop_advances_three_times_and_drains
    (U : Nat) (hU : U < UINT) (w : World) (t : thread_data) (cb : Nat) (f : Nat → List Ptr)
    (s : Solo w t cb f) (hc : t.enter_count = 0) (hu : t.entries_since_update = 0) :
    (∀ j, j ≤ U → ∃ w1 t1, exec_calls U (entry_exit_pairs j) w t = some (w1, t1)
        ∧ w1.update_attempts = w.update_attempts ∧ w1.global_epoch = w.global_epoch
        ∧ t1.entries_since_update = j)
    ∧ (∃ w1 t1, exec_calls U (entry_exit_pairs (U + 1)) w t = some (w1, t1)
        ∧ w1.update_attempts = w.update_attempts + 1
        ∧ w1.global_epoch = (w.global_epoch + 1) % 3
        ∧ t1.entries_since_update = 0)
    ∧ (∃ w3 t3, exec_calls U (entry_exit_pairs (3 * (U + 1))) w t = some (w3, t3)
        ∧ w3.update_attempts = w.update_attempts + 3
        ∧ w3.global_epoch = w.global_epoch
        ∧ (∀ e, e < 3 → t3.retire_lists e = 0)
        ∧ w3.heap.deleted = w.heap.deleted ++ f ((w.global_epoch + 1) % 3)
            ++ f ((w.global_epoch + 2) % 3) ++ f w.global_epoch
        ∧ (∀ e q, e < 3 → q ∈ f e → w3.heap.deleted.count q = 1)) := by
  have hg := s.epoch_lt
  refine ⟨?_, ?_, ?_⟩
  · intro j hj
    obtain ⟨w1, t1, h1, _, g1, a1, _, _, u1, _⟩ := solo_stale_pairs U j s hc
      (by rw [hu]; decide) (by
        intro i hi
        rw [hu, Nat.zero_add, Nat.mod_eq_of_lt (by omega)]
        omega)
    refine ⟨w1, t1, h1, a1, g1, ?_⟩
    rw [u1, hu, Nat.zero_add, Nat.mod_eq_of_lt (by omega)]
  · obtain ⟨w1, t1, h1, _, g1, a1, _, _, u1, _⟩ := solo_round hU s hc hu
    exact ⟨w1, t1, h1, a1, g1, u1⟩
  · obtain ⟨w1, t1, h1, s1, g1, a1, hp1, c1, u1, r1⟩ := solo_round hU s hc hu
    obtain ⟨w2, t2, h2, s2, g2, a2, hp2, c2, u2, r2⟩ := solo_round hU s1 c1 u1
    obtain ⟨w3, t3, h3, _, g3, a3, hp3, _, _, r3⟩ := solo_round hU s2 c2 u2
    have n1 : (w.global_epoch + 1) % 3 ≠ w.global_epoch := by omega
    have n2 : (w.global_epoch + 2) % 3 ≠ w.global_epoch := by omega
    have n3 : (w.global_epoch + 2) % 3 ≠ (w.global_epoch + 1) % 3 := by omega
    have n4 : ((w.global_epoch + 2) % 3 + 1) % 3 = w.global_epoch := by omega
    have n5 : ((w.global_epoch + 1) % 3 + 1) % 3 = (w.global_epoch + 2) % 3 := by omega
    rw [g1, n5] at g2 hp2 r2
    simp only [n3, if_false] at hp2
    rw [g2, n4] at g3 hp3 r3
    simp only [g1, n5, n1.symm, n2.symm, if_false] at hp3
    have d3 : w3.heap.deleted = w.heap.deleted ++ f ((w.global_epoch + 1) % 3)
        ++ f ((w.global_epoch + 2) % 3) ++ f w.global_epoch := by
      rw [hp3, foldl_delete_one_deleted, hp2, foldl_delete_one_deleted, hp1,
        foldl_delete_one_deleted]
    refine ⟨w3, t3, ?_, by rw [a3, a2, a1], g3, ?_, d3, ?_⟩
    · rw [show 3 * (U + 1) = (U + 1) + ((U + 1) + (U + 1)) by omega, entry_exit_pairs_add,
        exec_calls_append, h1, Option.some_bind, entry_exit_pairs_add, exec_calls_append, h2]
      exact h3
    · intro e he
      rw [r3, r2, r1]
      have : e = w.global_epoch ∨ e = (w.global_epoch + 1) % 3
          ∨ e = (w.global_epoch + 2) % 3 := by omega
      rcases this with h | h | h <;> simp [h, n1, n2, n3]
    · intro e q he hq
      have hnd := s.lists.not_deleted he hq
      have hm1 := Nat.mod_lt (w.global_epoch + 1) (by norm_num : 0 < 3)
      have hm2 := Nat.mod_lt (w.global_epoch + 2) (by norm_num : 0 < 3)
      rw [d3]
      simp only [List.count_append, List.count_eq_zero_of_not_mem hnd]
      have : e = w.global_epoch ∨ e = (w.global_epoch + 1) % 3
          ∨ e = (w.global_epoch + 2) % 3 := by omega
      rcases this with h | h | h
      · subst h
        rw [List.count_eq_one_of_mem (s.lists.nodup _ he) hq,
          List.count_eq_zero_of_not_mem (s.lists.disjoint _ _ he hm1 n1.symm q hq),
          List.count_eq_zero_of_not_mem (s.lists.disjoint _ _ he hm2 n2.symm q hq)]
      · subst h
        rw [List.count_eq_one_of_mem (s.lists.nodup _ he) hq,
          List.count_eq_zero_of_not_mem (s.lists.disjoint _ _ he hm2 n3.symm q hq),
          List.count_eq_zero_of_not_mem (s.lists.disjoint _ _ he hg n1 q hq)]
      · subst h
        rw [List.count_eq_one_of_mem (s.lists.nodup _ he) hq,
          List.count_eq_zero_of_not_mem (s.lists.disjoint _ _ he hm1 n3 q hq),
          List.count_eq_zero_of_not_mem (s.lists.disjoint _ _ he hg n2 q hq)]

/-- Instance of C9: `UpdateThreshold = 1`, the only thread, the object `4` queued on
`retire_lists[0]`. -/
theorem C9_witness :
    (1 : Nat) < UINT ∧ Solo world2 thread2 0 (fun i => if i = 0 then [4] else [])
    ∧ (∀ j, j ≤ 1 → ∃ w1 t1, exec_calls 1 (entry_exit_pairs j) world2 thread2 = some (w1, t1)
        ∧ w1.update_attempts = world2.update_attempts
        ∧ w1.global_epoch = world2.global_epoch
        ∧ t1.entries_since_update = j)
    ∧ (∃ w1 t1, exec_calls 1 (entry_exit_pairs (1 + 1)) world2 thread2 = some (w1, t1)
        ∧ w1.update_attempts = world2.update_attempts + 1
        ∧ w1.global_epoch = (world2.global_epoch + 1) % 3
        ∧ t1.entries_since_update = 0)
    ∧ (∃ w3 t3, exec_calls 1 (entry_exit_pairs (3 * (1 + 1))) world2 thread2 = some (w3, t3)
        ∧ w3.update_attempts = world2.update_attempts + 3
        ∧ w3.global_epoch = world2.global_epoch
        ∧ (∀ e, e < 3 → t3.retire_lists e = 0)
        ∧ w3.heap.deleted = world2.heap.deleted
            ++ (fun i => if i = 0 then [4] else []) ((world2.global_epoch + 1) % 3)
            ++ (fun i => if i = 0 then [4] else []) ((world2.global_epoch + 2) % 3)
            ++ (fun i => if i = 0 then [4] else []) world2.global_epoch
        ∧ (∀ e q, e < 3 → q ∈ (fun i => if i = 0 then [4] else []) e
            → w3.heap.deleted.count q = 1)) :=
  ⟨by decide, solo_world2,
   C9_loop_advances_three_times_and_drains 1 (by decide) world2 thread2 0
     (fun i => if i = 0 then [4] else []) solo_world2 rfl rfl⟩

/-! ## Adopting orphans -/

theorem threadWF_nodup_all {h : Heap} {rl : Nat → Ptr} {f : Nat → List Ptr}
    (wf : ThreadWF h rl f) : (f 0 ++ f 1 ++ f 2).Nodup := by
  rw [List.nodup_append, List.nodup_append]
  refine ⟨⟨wf.nodup 0 (by decide), wf.nodup 1 (by decide), ?_⟩, wf.nodup 2 (by decide), ?_⟩
  · intro q h0 h1
    exact wf.disjoint 0 1 (by decide) (by decide) (by decide) q h0 h1
  · intro q h01 h2
    rcases List.mem_append.mp h01 with h0 | h1
    · exact wf.disjoint 0 2 (by decide) (by decide) (by decide) q h0 h2
    · exact wf.disjoint 1 2 (by decide) (by decide) (by decide) q h1 h2

theorem threadWF_of_nodup_all {h : Heap} {rl : Nat → Ptr} {f : Nat → List Ptr}
    (hc : ∀ i, i < 3 → Chain h (rl i) (f i)) (hn : (f 0 ++ f 1 ++ f 2).Nodup) :
    ThreadWF h rl f := by
  rw [List.nodup_append, List.nodup_append] at hn
  obtain ⟨⟨n0, n1, d01⟩, n2, d012⟩ := hn
  have d02 : ∀ q, q ∈ f 0 → q ∉ f 2 := fun q hq => d012 (List.mem_append_left _ hq)
  have d12 : ∀ q, q ∈ f 1 → q ∉ f 2 := fun q hq => d012 (List.mem_append_right _ hq)
  refine ⟨hc, ?_, ?_⟩
  · intro i hi
    interval_cases i
    · exact n0
    · exact n1
    · exact n2
  · intro i j hi hj hij q hq
    interval_cases i <;> interval_cases j
    · exact absurd rfl hij
    · exact fun h1 => d01 hq h1
    · exact d02 q hq
    · exact fun h0 => d01 h0 hq
    · exact absurd rfl hij
    · exact d12 q hq
    · exact fun h0 => d02 q h0 hq
    · exact fun h1 => d12 q h1 hq
    · exact absurd rfl hij

theorem OChain.transport_orphans {h h2 : Heap} {p : Ptr} {segs : List (Ptr × Nat × List Ptr)}
    (c : OChain h p segs)
    (hf : ∀ q ∈ flat segs, h2.obj q = h.obj q ∧ h2.live q = h.live q) : OChain h2 p segs := by
  induction c with
  | nil => exact OChain.nil
  | @cons p te l0 l1 l2 f0 f1 f2 segs hl hk hte c0 c1 c2 _ ih =>
    have hp := hf p (by simp [flat])
    refine OChain.cons (by rw [hp.2]; exact hl) (by rw [hp.1]; exact hk) hte ?_ ?_ ?_ ?_
    · exact c0.transport (fun q hq => hf q (by simp [flat, hq]))
    · exact c1.transport (fun q hq => hf q (by simp [flat, hq]))
    · exact c2.transport (fun q hq => hf q (by simp [flat, hq]))
    · rw [hp.1]; exact ih (fun q hq => hf q (by simp [flat, hq]))

theorem OChain.live_of_mem_flat {h : Heap} {p : Ptr} {segs : List (Ptr × Nat × List Ptr)}
    (c : OChain h p segs) : ∀ q ∈ flat segs, h.live q = true := by
  induction c with
  | nil => simp [flat]
  | @cons p te l0 l1 l2 f0 f1 f2 segs hl _ _ c0 c1 c2 _ ih =>
    intro q hq
    simp only [flat, List.mem_cons, List.mem_append] at hq
    rcases hq with rfl | ((hq | hq) | hq) | hq
    · exact hl
    · exact c0.live_of_mem q hq
    · exact c1.live_of_mem q hq
    · exact c2.live_of_mem q hq
    · exact ih q hq

theorem flat_length_ge (segs : List (Ptr × Nat × List Ptr)) : segs.length ≤ (flat segs).length := by
  induction segs with
  | nil => simp [flat]
  | cons s segs ih =>
    obtain ⟨o, te, fp⟩ := s
    simp only [flat, List.length_cons, List.length_append]
    omega

theorem nodup_of_count_le {l l2 : List Ptr} (h : l.Nodup)
    (hc : ∀ x, l2.count x ≤ l.count x) : l2.Nodup :=
  List.nodup_iff_count_le_one.mpr fun x =>
    (hc x).trans (List.nodup_iff_count_le_one.mp h x)

theorem not_mem_of_count_zero {l : List Ptr} {x : Ptr} (h : l.count x = 0) : x ∉ l :=
  List.count_eq_zero.mp h

theorem set_next_set_next_obj_ne (h : Heap) {p q : Ptr} (u v : Ptr) (hq : q ≠ p) :
    ((h.set_next p u).set_next p v).obj q = h.obj q := by
  rw [set_next_obj_ne _ _ hq, set_next_obj_ne _ _ hq]

/-- The loop of `adopt_orphans` on a well-formed orphan list: it returns, every orphan
is pushed on the retire list of its target epoch, and the retire lists stay well
formed. -/
theorem adopt_orphans_loop_wf (segs : List (Ptr × Nat × List Ptr)) :
    ∀ (fuel : Nat) (w : World) (t : thread_data) (p : Ptr) (f : Nat → List Ptr),
      OChain w.heap p segs → ThreadWF w.heap t.retire_lists f →
      (flat segs ++ (f 0 ++ f 1 ++ f 2)).Nodup → segs.length + 1 ≤ fuel →
      ∃ w1 t1, adopt_orphans_loop fuel w t p = some (w1, t1)
        ∧ ThreadWF w1.heap t1.retire_lists (adopt_fp segs f)
        ∧ w1.heap.calls = w.heap.calls ∧ w1.heap.top = w.heap.top
        ∧ (∀ q, q ∉ segs.map (fun s => s.1) → w1.heap.obj q = w.heap.obj q)
        ∧ (∀ q, (w1.heap.obj q).kind = (w.heap.obj q).kind) := by
  induction segs with
  | nil =>
    intro fuel w t p f oc wf _ hfuel
    cases oc
    obtain ⟨k, rfl⟩ : ∃ k, fuel = k + 1 := ⟨fuel - 1, by omega⟩
    exact ⟨w, t, by simp [adopt_orphans_loop], wf, rfl, rfl, fun _ _ => rfl, fun _ => rfl⟩
  | cons s segs ih =>
    intro fuel w t p f oc wf hnd hfuel
    obtain ⟨k, rfl⟩ : ∃ k, fuel = k + 1 := ⟨fuel - 1, by omega⟩
    cases oc with
    | @cons _ te l0 l1 l2 f0 f1 f2 _ hl hk hte c0 c1 c2 crest =>
      have hp0 : p ≠ 0 := ((live_iff _ _).mp hl).1
      have hte2 : te < number_epochs := hte
      -- membership facts from the global `Nodup`
      have hcnt := List.nodup_iff_count_le_one.mp hnd
      have hnot : ∀ x, x ∈ f0 ++ f1 ++ f2 ++ flat segs ++ (f 0 ++ f 1 ++ f 2) → x ≠ p := by
        intro x hx e
        subst e
        have := hcnt x
        simp only [flat, List.count_append, List.count_cons, beq_self_eq_true, if_true] at this
        have hx2 : 0 < List.count x (f0 ++ f1 ++ f2 ++ flat segs ++ (f 0 ++ f 1 ++ f 2)) :=
          List.count_pos_iff.mpr hx
        simp only [List.count_append] at hx2
        omega
      -- the heap after the two writes of `p->next`
      have obj_ne : ∀ q, q ≠ p →
          ((w.heap.set_next p 0).set_next p (t.retire_lists te)).obj q = w.heap.obj q :=
        fun q hq => set_next_set_next_obj_ne _ _ _ hq
      have tr : ∀ {r : Ptr} {fp : List Ptr}, Chain w.heap r fp →
          (∀ x ∈ fp, x ≠ p) →
          Chain ((w.heap.set_next p 0).set_next p (t.retire_lists te)) r fp :=
        fun c hx => c.transport fun q hq => ⟨obj_ne q (hx q hq), rfl⟩
      have oc2 : OChain ((w.heap.set_next p 0).set_next p (t.retire_lists te))
          (w.heap.obj p).next segs :=
        crest.transport_orphans fun q hq =>
          ⟨obj_ne q (hnot q (by simp [hq])), rfl⟩
      have wf2 : ThreadWF ((w.heap.set_next p 0).set_next p (t.retire_lists te))
          (fun i => if i = te then p else t.retire_lists i)
          (fun i => if i = te then p :: (f0 ++ f1 ++ f2 ++ f te) else f i) := by
        apply threadWF_of_nodup_all
        · intro i hi
          by_cases hie : i = te
          · simp only [hie, if_true]
            have hfte : ∀ x ∈ f te, x ≠ p := fun x hx => hnot x (by
              interval_cases te <;> simp [hx])
            have c := tr (wf.chain te hte) hfte
            refine Chain.orphan (by simpa using hl) (by simpa using hk)
              (tr c0 fun x hx => hnot x (by simp [hx]))
              (tr c1 fun x hx => hnot x (by simp [hx]))
              (tr c2 fun x hx => hnot x (by simp [hx])) ?_
            simpa using c
          · simp only [hie, if_false]
            exact tr (wf.chain i hi) fun x hx => hnot x (by
              interval_cases i <;> simp [hx])
        · apply nodup_of_count_le hnd
          intro x
          interval_cases te <;>
            simp only [flat, List.count_append, List.count_cons, if_true, if_false,
              OfNat.ofNat_ne_zero, OfNat.zero_ne_ofNat, OfNat.ofNat_ne_one, OfNat.one_ne_ofNat,
              zero_ne_one, one_ne_zero] <;> omega
      have hnd2 : (flat segs ++ ((if (0 : Nat) = te then p :: (f0 ++ f1 ++ f2 ++ f te) else f 0)
          ++ (if (1 : Nat) = te then p :: (f0 ++ f1 ++ f2 ++ f te) else f 1)
          ++ (if (2 : Nat) = te then p :: (f0 ++ f1 ++ f2 ++ f te) else f 2))).Nodup := by
        apply nodup_of_count_le hnd
        intro x
        interval_cases te <;>
          simp only [flat, List.count_append, List.count_cons, if_true, if_false,
            OfNat.ofNat_ne_zero, OfNat.zero_ne_ofNat, OfNat.ofNat_ne_one, OfNat.one_ne_ofNat,
            zero_ne_one, one_ne_zero] <;> omega
      obtain ⟨w1, t1, h1, wf1, hc1, ht1, ho1, hk1⟩ :=
        ih k { w with heap := (w.heap.set_next p 0).set_next p (t.retire_lists te) }
          { t with retire_lists := fun i => if i = te then p else t.retire_lists i }
          (w.heap.obj p).next
          (fun i => if i = te then p :: (f0 ++ f1 ++ f2 ++ f te) else f i)
          oc2 wf2 hnd2 (by simp only [List.length_cons] at hfuel; omega)
      refine ⟨w1, t1, ?_, wf1, hc1, ht1, ?_, ?_⟩
      · rw [adopt_orphans_loop]
        simp only [hp0, if_false, hl, if_true, set_next_kind, hk, add_retired_node_at, hte2,
          set_next_live]
        exact h1
      · intro q hq
        simp only [List.map_cons, List.mem_cons, not_or] at hq
        rw [ho1 q hq.2]
        exact obj_ne q hq.1
      · intro q
        rw [hk1 q]
        simp

/-- Member `adopt_orphans` on a well-formed orphan list returns and empties the list. -/
theorem adopt_orphans_wf {w : World} {t : thread_data} {segs : List (Ptr × Nat × List Ptr)}
    {f : Nat → List Ptr}
    (oc : OChain w.heap w.abandoned segs) (wf : ThreadWF w.heap t.retire_lists f)
    (hnd : (flat segs ++ (f 0 ++ f 1 ++ f 2)).Nodup) :
    ∃ w1 t1, adopt_orphans w t = some (w1, t1)
      ∧ ThreadWF w1.heap t1.retire_lists (adopt_fp segs f)
      ∧ w1.abandoned = 0
      ∧ w1.entries = w.entries ∧ w1.global_epoch = w.global_epoch
      ∧ w1.update_attempts = w.update_attempts
      ∧ t1.control_block = t.control_block ∧ t1.enter_count = t.enter_count
      ∧ t1.entries_since_update = t.entries_since_update
      ∧ w1.heap.calls = w.heap.calls ∧ w1.heap.top = w.heap.top
      ∧ (∀ q, q ∉ segs.map (fun s => s.1) → w1.heap.obj q = w.heap.obj q)
      ∧ (∀ q, (w1.heap.obj q).kind = (w.heap.obj q).kind) := by
  have hlen : segs.length ≤ w.heap.top := by
    refine (flat_length_ge segs).trans (nodup_bounded_length (List.nodup_append.mp hnd).1 ?_)
    intro q hq
    have := (live_iff _ _).mp (oc.live_of_mem_flat q hq)
    exact ⟨this.1, this.2.1⟩
  obtain ⟨w1, t1, h1, wf1, hc1, ht1, ho1, hk1⟩ :=
    adopt_orphans_loop_wf segs (w.heap.top + 1) { w with abandoned := 0 } t w.abandoned f
      oc wf hnd (by omega)
  have h2 : adopt_orphans w t = some (w1, t1) := by
    simp only [adopt_orphans, adopt_abandoned_retired_nodes]
    exact h1
  obtain ⟨a1, a2, a3, a4, a5, a6, a7⟩ := adopt_orphans_frame h2
  exact ⟨w1, t1, h2, wf1, a4, a1, a2, a3, a5, a6, a7, hc1, ht1, ho1, hk1⟩

/-! ## C10: `try_update_epoch` -/

theorem blocked_set {w : World} {i curr : Nat} {b : thread_control_block}
    (hB : Blocked (w.set_tcb i b) curr) :
    (b.is_in_critical_region = true ∧ b.local_epoch = (curr + 2) % 3)
    ∨ ∃ j bj, j ≠ i ∧ w.tcb j = some bj ∧ bj.is_in_critical_region = true
        ∧ bj.local_epoch = (curr + 2) % 3 := by
  obtain ⟨b2, hmem, hflag, hloc⟩ := hB
  simp only [set_tcb_entries] at hmem
  obtain ⟨j, hj, hget⟩ := List.mem_iff_getElem.mp hmem
  by_cases hji : j = i
  · subst hji
    simp only [List.getElem_set_self] at hget
    subst hget
    exact Or.inl ⟨hflag, hloc⟩
  · refine Or.inr ⟨j, b2, hji, ?_, hflag, hloc⟩
    rw [List.getElem_set_ne (Ne.symm hji)] at hget
    simp only [List.length_set] at hj
    simp [World.tcb, List.get?_eq_getElem?, List.getElem?_eq_getElem hj, hget]

theorem blocked_of_tcb {w : World} {j curr : Nat} {bj : thread_control_block}
    (hb : w.tcb j = some bj) (hf : bj.is_in_critical_region = true)
    (hl : bj.local_epoch = (curr + 2) % 3) : Blocked w curr := by
  refine ⟨bj, ?_, hf, hl⟩
  unfold World.tcb at hb
  exact List.get?_mem hb

/-- C10. For every current epoch `curr` in `{0,1,2}` and every registry content,
`try_update_epoch(curr, (curr+1) mod 3)` returns `false` if and only if some registered
control block has `is_in_critical_region == true` and `local_epoch == (curr-1) mod 3`;
it returns `true` in every other case, also when `global_epoch` no longer equals `curr`
and no CAS is performed (with a well-formed orphan list when the CAS succeeds and the
orphans are adopted).  A blocked attempt changes neither `global_epoch`, nor the orphan
list, nor the heap, nor the attempting thread's `local_epoch` or retire lists:
`do_enter_critical` returns having only set its flag and reset `entries_since_update`.
Once the blocking control block's flag is `false`, no control block blocks the same
attempt. -/
theorem C10_try_update_epoch_false_iff_blocked
    (w : World) (t : thread_data) (curr : Nat) (hc : curr < 3) :
    (Blocked w curr →
        try_update_epoch w t curr ((curr + 1) % 3)
          = some (false, { w with update_attempts := w.update_attempts + 1 }, t))
    ∧ (¬ Blocked w curr → w.global_epoch ≠ curr →
        try_update_epoch w t curr ((curr + 1) % 3)
          = some (true, { w with update_attempts := w.update_attempts + 1 }, t))
    ∧ (¬ Blocked w curr → w.global_epoch = curr →
        ∀ (segs : List (Ptr × Nat × List Ptr)) (f : Nat → List Ptr),
          OChain w.heap w.abandoned segs → ThreadWF w.heap t.retire_lists f →
          (flat segs ++ (f 0 ++ f 1 ++ f 2)).Nodup →
          ∃ w1 t1, try_update_epoch w t curr ((curr + 1) % 3) = some (true, w1, t1)
            ∧ w1.global_epoch = (curr + 1) % 3 ∧ w1.abandoned = 0
            ∧ w1.entries = w.entries)
    ∧ (∀ (r : Bool) (w1 : World) (t1 : thread_data),
        try_update_epoch w t curr ((curr + 1) % 3) = some (r, w1, t1) →
        (r = false ↔ Blocked w curr))
    ∧ (∀ (U cb : Nat) (b : thread_control_block),
        t.control_block = some cb → w.tcb cb = some b → b.local_epoch = w.global_epoch →
        w.global_epoch = curr → t.entries_since_update = U →
        Blocked (w.set_tcb cb { b with is_in_critical_region := true }) curr →
        do_enter_critical U w t
          = some ({ (w.set_tcb cb { b with is_in_critical_region := true }) with
                      update_attempts := w.update_attempts + 1 },
                  { t with entries_since_update := 0 }))
    ∧ (∀ (i : Nat) (bi : thread_control_block), w.tcb i = some bi →
        (∀ j bj, j ≠ i → w.tcb j = some bj →
          ¬ (bj.is_in_critical_region = true ∧ bj.local_epoch = (curr + 2) % 3)) →
        ¬ Blocked (w.set_tcb i { bi with is_in_critical_region := false }) curr) := by
  refine ⟨?_, ?_, ?_, ?_, ?_, ?_⟩
  · exact fun hB => try_update_epoch_blocked w t _ hc hB
  · exact fun hB hg => try_update_epoch_stale w t _ hc hB hg
  · intro hB hg segs f oc wf hnd
    rw [try_update_epoch_cas w t _ hc hB hg]
    obtain ⟨w1, t1, h1, _, ha, he, hge, _⟩ :=
      adopt_orphans_wf (w := { w with update_attempts := w.update_attempts + 1,
                                      global_epoch := (curr + 1) % 3 }) oc wf hnd
    exact ⟨w1, t1, by rw [h1]; rfl, hge, ha, he⟩
  · intro r w1 t1 h
    by_cases hB : Blocked w curr
    · rw [try_update_epoch_blocked w t _ hc hB] at h
      cases h
      simp [hB]
    · by_cases hg : w.global_epoch = curr
      · rw [try_update_epoch_cas w t _ hc hB hg] at h
        cases ha : adopt_orphans { w with update_attempts := w.update_attempts + 1,
                                          global_epoch := (curr + 1) % 3 } t with
        | none => rw [ha] at h; cases h
        | some r2 =>
          rw [ha] at h
          cases h
          simp [hB]
      · rw [try_update_epoch_stale w t _ hc hB hg] at h
        cases h
        simp [hB]
  · intro U cb b hcb hb hl hg hu hB
    subst hg
    exact do_enter_critical_blocked U hcb hb hl hc hu hB
  · intro i bi _ hothers hB
    rcases blocked_set hB with ⟨h1, _⟩ | ⟨j, bj, hj, hbj, hf, hl⟩
    · cases h1
    · exact hothers j bj hj hbj ⟨hf, hl⟩

theorem blocked_world3 : Blocked world3 0 :=
  blocked_of_tcb (w := world3) (j := 1) rfl rfl rfl

/-- Instance of C10: at global epoch `0` the second thread of `world3` is in a critical
region at epoch `2 = (0 - 1) mod 3`; the attempt of the first thread returns `false` and
changes nothing, and it is no longer blocked once the second thread has left. -/
theorem C10_witness :
    (0 : Nat) < 3 ∧ Blocked world3 0
    ∧ try_update_epoch world3 thread2 0 ((0 + 1) % 3)
        = some (false, { world3 with update_attempts := world3.update_attempts + 1 }, thread2)
    ∧ ¬ Blocked (world3.set_tcb 1
          { is_in_critical_region := false, local_epoch := 2, active := true }) 0 :=
  ⟨by decide, blocked_world3,
   (C10_try_update_epoch_false_iff_blocked world3 thread2 0 (by decide)).1 blocked_world3,
   (C10_try_update_epoch_false_iff_blocked world3 thread2 0 (by decide)).2.2.2.2.2 1
     { is_in_critical_region := true, local_epoch := 2, active := true } rfl
     (by
       intro j bj hj hbj
       have hlt := tcb_lt hbj
       have hj0 : j = 0 := by
         have : world3.entries.length = 2 := rfl
         omega
       subst hj0
       have : bj = { is_in_critical_region := false, local_epoch := 0, active := true } := by
         have h0 : world3.tcb 0
             = some { is_in_critical_region := false, local_epoch := 0, active := true } := rfl
         rw [h0] at hbj
         exact (Option.some.inj hbj).symm
       subst this
       simp)⟩

/-! ## C4: guards and `enter_count` -/

theorem enter_critical_count {U : Nat} {w w1 : World} {t t1 : thread_data}
    (h : enter_critical U w t = some (w1, t1)) :
    t1.enter_count = (t.enter_count + 1) % UINT := by
  unfold enter_critical at h
  dsimp only at h
  split at h
  · exact (do_enter_critical_flag h).2
  · cases h; rfl

theorem leave_critical_count {w w1 : World} {t t1 : thread_data}
    (h : leave_critical w t = some (w1, t1)) :
    0 < t.enter_count ∧ t1.enter_count = (t.enter_count + UINT - 1) % UINT := by
  unfold leave_critical at h
  by_cases hpos : 0 < t.enter_count
  · rw [if_pos hpos] at h
    dsimp only at h
    by_cases h0 : (t.enter_count + UINT - 1) % UINT = 0
    · rw [if_pos h0] at h
      exact ⟨hpos, (do_leave_critical_flag h).2⟩
    · rw [if_neg h0] at h
      cases h
      exact ⟨hpos, rfl⟩
  · rw [if_neg hpos] at h
    cases h

theorem add_retired_node_count {w w1 : World} {t t1 : thread_data} {p : Ptr}
    (h : add_retired_node w t p = some (w1, t1)) : t1.enter_count = t.enter_count := by
  unfold add_retired_node at h
  split at h
  · cases h
  · split at h
    · cases h
    · exact (add_retired_node_at_frame h).2.2.2.2.2.1

@[simp] theorem enters_nil : enters [] = 0 := rfl
@[simp] theorem leaves_nil : leaves [] = 0 := rfl
@[simp] theorem enters_cons_enter (cs : List Call) :
    enters (Call.enter_critical :: cs) = enters cs + 1 := by
  simp [enters, List.count_cons]
@[simp] theorem enters_cons_leave (cs : List Call) :
    enters (Call.leave_critical :: cs) = enters cs := by
  simp [enters, List.count_cons]
@[simp] theorem enters_cons_set_deleter (p d : Nat) (cs : List Call) :
    enters (Call.set_deleter p d :: cs) = enters cs := by
  simp [enters, List.count_cons]
@[simp] theorem enters_cons_add_retired_node (p : Nat) (cs : List Call) :
    enters (Call.add_retired_node p :: cs) = enters cs := by
  simp [enters, List.count_cons]
@[simp] theorem leaves_cons_enter (cs : List Call) :
    leaves (Call.enter_critical :: cs) = leaves cs := by
  simp [leaves, List.count_cons]
@[simp] theorem leaves_cons_leave (cs : List Call) :
    leaves (Call.leave_critical :: cs) = leaves cs + 1 := by
  simp [leaves, List.count_cons]
@[simp] theorem leaves_cons_set_deleter (p d : Nat) (cs : List Call) :
    leaves (Call.set_deleter p d :: cs) = leaves cs := by
  simp [leaves, List.count_cons]
@[simp] theorem leaves_cons_add_retired_node (p : Nat) (cs : List Call) :
    leaves (Call.add_retired_node p :: cs) = leaves cs := by
  simp [leaves, List.count_cons]
@[simp] theorem enters_append (cs ds : List Call) : enters (cs ++ ds) = enters cs + enters ds := by
  simp [enters]
@[simp] theorem leaves_append (cs ds : List Call) : leaves (cs ++ ds) = leaves cs + leaves ds := by
  simp [leaves]

/-- The calls made by guards move `enter_count` by the number of `enter_critical` minus
the number of `leave_critical`, modulo `2 ^ 32`. -/
theorem exec_calls_count (U : Nat) (cs : List Call) :
    ∀ {w w1 : World} {t t1 : thread_data}, exec_calls U cs w t = some (w1, t1) →
      t.enter_count < UINT →
      (t1.enter_count + leaves cs) % UINT = (t.enter_count + enters cs) % UINT
        ∧ t1.enter_count < UINT := by
  induction cs with
  | nil =>
    intro w w1 t t1 h hlt
    simp only [exec_calls, Option.some.injEq, Prod.mk.injEq] at h
    obtain ⟨rfl, rfl⟩ := h
    exact ⟨rfl, hlt⟩
  | cons c cs ih =>
    intro w w1 t t1 h hlt
    simp only [exec_calls] at h
    cases hc : c.exec U w t with
    | none => rw [hc] at h; cases h
    | some r =>
      obtain ⟨w2, t2⟩ := r
      rw [hc] at h
      have hmod : ∀ n : Nat, n % UINT < UINT := fun n => Nat.mod_lt _ (by decide)
      cases c with
      | enter_critical =>
        have e := enter_critical_count hc
        obtain ⟨a, b⟩ := ih h (by rw [e]; exact hmod _)
        refine ⟨?_, b⟩
        simp only [leaves_cons_enter, enters_cons_enter]
        rw [e] at a
        unfold UINT at *
        omega
      | leave_critical =>
        obtain ⟨hpos, e⟩ := leave_critical_count hc
        obtain ⟨a, b⟩ := ih h (by rw [e]; exact hmod _)
        refine ⟨?_, b⟩
        simp only [leaves_cons_leave, enters_cons_leave]
        rw [e] at a
        unfold UINT at *
        omega
      | set_deleter p d =>
        have e : t2.enter_count = t.enter_count := by
          simp only [Call.exec] at hc
          split at hc
          · cases hc; rfl
          · cases hc
        obtain ⟨a, b⟩ := ih h (by rw [e]; exact hlt)
        refine ⟨?_, b⟩
        simp only [leaves_cons_set_deleter, enters_cons_set_deleter]
        rw [e] at a
        exact a
      | add_retired_node p =>
        have e : t2.enter_count = t.enter_count := add_retired_node_count hc
        obtain ⟨a, b⟩ := ih h (by rw [e]; exact hlt)
        refine ⟨?_, b⟩
        simp only [leaves_cons_add_retired_node, enters_cons_add_retired_node]
        rw [e] at a
        exact a

theorem nonnull_guards_append_one (gs : List (Option Nat)) (x : Option Nat) :
    nonnull_guards (gs ++ [x]) = nonnull_guards gs + nn x := by
  unfold nonnull_guards nn
  rw [List.countP_append]
  cases x with
  | none => simp
  | some p => by_cases hp : p = 0 <;> simp [hp]

theorem nonnull_guards_set {gs : List (Option Nat)} {i : Nat} (h : i < gs.length)
    (x : Option Nat) :
    nonnull_guards (gs.set i x) + nn gs[i] = nonnull_guards gs + nn x := by
  unfold nonnull_guards
  rw [List.countP_set _ _ _ _ h]
  have hle := List.boole_getElem_le_countP
    (fun g : Option Nat => match g with
      | some p => decide (p ≠ 0)
      | none => false) gs i h
  have e1 : ∀ g : Option Nat,
      (if (match g with
          | some p => decide (p ≠ 0)
          | none => false) = true then 1 else 0) = nn g := by
    intro g
    cases g with
    | none => simp [nn]
    | some p => by_cases hp : p = 0 <;> simp [nn, hp]
  rw [e1] at hle ⊢
  rw [e1]
  omega

theorem guard_at_some {gs : List (Option Nat)} {g p : Nat} (h : guard_at gs g = some p) :
    ∃ hlt : g < gs.length, gs[g] = some p := by
  unfold guard_at at h
  cases hg : gs.get? g with
  | none => rw [hg] at h; cases h
  | some x =>
    rw [hg] at h
    simp only [Option.some_bind, id] at h
    subst h
    rw [List.get?_eq_getElem?] at hg
    obtain ⟨hlt, e⟩ := List.getElem?_eq_some_iff.mp hg
    exact ⟨hlt, e⟩

@[simp] theorem nn_some_zero : nn (some 0) = 0 := rfl
@[simp] theorem nn_none : nn none = 0 := rfl

theorem reset_count (self : Nat) :
    leaves (guard_ptr.reset self).2 = nn (some self) ∧ enters (guard_ptr.reset self).2 = 0
      ∧ (guard_ptr.reset self).1 = 0 := by
  unfold guard_ptr.reset nn
  by_cases h : self = 0 <;> simp [h]

theorem ctor_count (p : Nat) :
    enters (guard_ptr.ctor p).2 = nn (some p) ∧ leaves (guard_ptr.ctor p).2 = 0
      ∧ (guard_ptr.ctor p).1 = p := by
  unfold guard_ptr.ctor nn
  by_cases h : p = 0 <;> simp [h]

theorem acquire_count (self first second : Nat) :
    nn (some (guard_ptr.acquire self first second).1)
        + leaves (guard_ptr.acquire self first second).2
      = nn (some self) + enters (guard_ptr.acquire self first second).2 := by
  unfold guard_ptr.acquire
  by_cases hf : first = 0
  · simp only [hf, if_true]
    obtain ⟨a, b, c⟩ := reset_count self
    rw [a, b, c]; simp
  · simp only [hf, if_false, nn]
    by_cases hs : self = 0 <;> by_cases h2 : second = 0 <;> simp [hs, h2]

theorem acquire_if_equal_count (self expected first second : Nat) :
    nn (some (guard_ptr.acquire_if_equal self expected first second).2.1)
        + leaves (guard_ptr.acquire_if_equal self expected first second).2.2
      = nn (some self) + enters (guard_ptr.acquire_if_equal self expected first second).2.2 := by
  unfold guard_ptr.acquire_if_equal
  by_cases hf : first = 0 ∨ first ≠ expected
  · simp only [hf, if_true]
    obtain ⟨a, b, c⟩ := reset_count self
    rw [a, b, c]; simp
  · simp only [hf, if_false]
    by_cases h2 : second = 0 ∨ second ≠ expected
    · simp only [h2, if_true, nn]
      by_cases hs : self = 0 <;> simp [hs]
    · simp only [h2, if_false, nn]
      have h20 : second ≠ 0 := fun e => h2 (Or.inl e)
      by_cases hs : self = 0 <;> simp [hs, h20]

/-- Every guard operation changes the number of non-null live guards by the number of
`enter_critical` calls it makes minus the number of `leave_critical` calls it makes. -/
theorem guard_step_count {N : Nat} {op : GuardOp} {gs gs1 : List (Option Nat)}
    {cs : List Call} (h : guard_step N op gs = some (gs1, cs)) :
    nonnull_guards gs1 + leaves cs = nonnull_guards gs + enters cs := by
  cases op with
  | construct p =>
    simp only [guard_step, Option.some.injEq, Prod.mk.injEq] at h
    obtain ⟨rfl, rfl⟩ := h
    obtain ⟨a, b, c⟩ := ctor_count p
    rw [nonnull_guards_append_one, a, b, c]; rfl
  | copy_construct src =>
    simp only [guard_step, Option.map_eq_some'] at h
    obtain ⟨p, _, h⟩ := h
    simp only [Prod.mk.injEq] at h
    obtain ⟨rfl, rfl⟩ := h
    obtain ⟨a, b, c⟩ := ctor_count p
    rw [nonnull_guards_append_one, a, b, c]; rfl
  | move_construct src =>
    simp only [guard_step, Option.map_eq_some'] at h
    obtain ⟨p, hp, h⟩ := h
    simp only [Prod.mk.injEq] at h
    obtain ⟨rfl, rfl⟩ := h
    obtain ⟨hlt, e⟩ := guard_at_some hp
    have := nonnull_guards_set hlt (some 0)
    rw [e] at this
    simp only [guard_ptr.move_ctor, nonnull_guards_append_one, leaves_nil, enters_nil]
    simp only [nn_some_zero] at this
    omega
  | copy_assign dst src =>
    simp only [guard_step, Option.bind_eq_some, Option.map_eq_some'] at h
    obtain ⟨self, hs, p, hp, h⟩ := h
    by_cases hds : dst = src
    · simp only [hds, if_true, Prod.mk.injEq] at h
      obtain ⟨rfl, rfl⟩ := h
      rfl
    · simp only [hds, if_false, Prod.mk.injEq] at h
      obtain ⟨rfl, rfl⟩ := h
      obtain ⟨hlt, e⟩ := guard_at_some hs
      have := nonnull_guards_set hlt (some p)
      rw [e] at this
      obtain ⟨a, b, _⟩ := reset_count self
      simp only [guard_ptr.copy_assign, leaves_append, enters_append, a, b]
      have e2 : enters (if p ≠ 0 then [Call.enter_critical] else []) = nn (some p)
          ∧ leaves (if p ≠ 0 then [Call.enter_critical] else []) = 0 := by
        unfold nn
        by_cases hp0 : p = 0 <;> simp [hp0]
      rw [e2.1, e2.2]
      omega
  | move_assign dst src =>
    simp only [guard_step, Option.bind_eq_some, Option.map_eq_some'] at h
    obtain ⟨self, hs, p, hp, h⟩ := h
    by_cases hds : dst = src
    · simp only [hds, if_true, Prod.mk.injEq] at h
      obtain ⟨rfl, rfl⟩ := h
      rfl
    · simp only [hds, if_false, Prod.mk.injEq] at h
      obtain ⟨rfl, rfl⟩ := h
      obtain ⟨hlt, e⟩ := guard_at_some hs
      obtain ⟨hlt2, e2⟩ := guard_at_some hp
      have h1 := nonnull_guards_set hlt (some p)
      rw [e] at h1
      have hlt3 : src < (gs.set dst (some p)).length := by simpa using hlt2
      have h2 := nonnull_guards_set hlt3 (some 0)
      rw [List.getElem_set_ne hds, e2] at h2
      obtain ⟨a, b, _⟩ := reset_count self
      simp only [guard_ptr.move_assign, a, b]
      simp only [nn_some_zero] at h2
      omega
  | acquire g first second =>
    simp only [guard_step, Option.map_eq_some'] at h
    obtain ⟨self, hs, h⟩ := h
    simp only [Prod.mk.injEq] at h
    obtain ⟨rfl, rfl⟩ := h
    obtain ⟨hlt, e⟩ := guard_at_some hs
    have h1 := nonnull_guards_set hlt (some (guard_ptr.acquire self first second).1)
    rw [e] at h1
    have := acquire_count self first second
    omega
  | acquire_if_equal g expected first second =>
    simp only [guard_step, Option.map_eq_some'] at h
    obtain ⟨self, hs, h⟩ := h
    simp only [Prod.mk.injEq] at h
    obtain ⟨rfl, rfl⟩ := h
    obtain ⟨hlt, e⟩ := guard_at_some hs
    have h1 := nonnull_guards_set hlt
      (some (guard_ptr.acquire_if_equal self expected first second).2.1)
    rw [e] at h1
    have := acquire_if_equal_count self expected first second
    omega
  | reset g =>
    simp only [guard_step, Option.map_eq_some'] at h
    obtain ⟨self, hs, h⟩ := h
    simp only [Prod.mk.injEq] at h
    obtain ⟨rfl, rfl⟩ := h
    obtain ⟨hlt, e⟩ := guard_at_some hs
    obtain ⟨a, b, c⟩ := reset_count self
    have h1 := nonnull_guards_set hlt (some (guard_ptr.reset self).1)
    rw [e, c] at h1
    rw [c, a, b]
    simp only [nn_some_zero] at h1
    omega
  | reclaim g d =>
    simp only [guard_step, Option.bind_eq_some, Option.map_eq_some'] at h
    obtain ⟨self, hs, r, hr, h⟩ := h
    simp only [Prod.mk.injEq] at h
    obtain ⟨rfl, rfl⟩ := h
    obtain ⟨hlt, e⟩ := guard_at_some hs
    unfold guard_ptr.reclaim at hr
    split at hr
    · cases hr
    · cases hr
      obtain ⟨a, b, c⟩ := reset_count self
      have h1 := nonnull_guards_set hlt (some (guard_ptr.reset self).1)
      rw [e, c] at h1
      simp only [c, List.cons_append, List.nil_append, leaves_cons_set_deleter,
        leaves_cons_add_retired_node, enters_cons_set_deleter, enters_cons_add_retired_node,
        a, b]
      simp only [nn_some_zero] at h1
      omega
  | swap g1 g2 =>
    simp only [guard_step, Option.bind_eq_some, Option.map_eq_some'] at h
    obtain ⟨p1, hp1, p2, hp2, h⟩ := h
    simp only [Prod.mk.injEq] at h
    obtain ⟨rfl, rfl⟩ := h
    obtain ⟨hlt1, e1⟩ := guard_at_some hp1
    obtain ⟨hlt2, e2⟩ := guard_at_some hp2
    have h1 := nonnull_guards_set hlt1 (some p2)
    rw [e1] at h1
    have hlt3 : g2 < (gs.set g1 (some p2)).length := by simpa using hlt2
    have h2 := nonnull_guards_set hlt3 (some p1)
    have e3 : (gs.set g1 (some p2))[g2] = some p2 := by
      by_cases h12 : g1 = g2
      · subst h12; simp
      · rw [List.getElem_set_ne h12]; exact e2
    rw [e3] at h2
    simp only [leaves_nil, enters_nil]
    omega
  | destroy g =>
    simp only [guard_step, Option.map_eq_some'] at h
    obtain ⟨self, hs, h⟩ := h
    simp only [Prod.mk.injEq] at h
    obtain ⟨rfl, rfl⟩ := h
    obtain ⟨hlt, e⟩ := guard_at_some hs
    obtain ⟨a, b, _⟩ := reset_count self
    have h1 := nonnull_guards_set hlt none
    rw [e] at h1
    rw [a, b]
    simp only [nn_none] at h1
    omega

/-- One guard operation preserves `enter_count = nonnull_guards mod 2 ^ 32`. -/
theorem guard_exec_count {U N : Nat} {op : GuardOp} {s s1 : GuardState}
    (h : guard_exec U N op s = some s1)
    (hlt : s.thread.enter_count < UINT)
    (hinv : s.thread.enter_count = nonnull_guards s.guards % UINT) :
    s1.thread.enter_count < UINT
      ∧ s1.thread.enter_count = nonnull_guards s1.guards % UINT := by
  unfold guard_exec at h
  split at h
  · cases h
  · rename_i gs cs hstep
    split at h
    · cases h
    · rename_i w t hex
      cases h
      have a := guard_step_count hstep
      obtain ⟨b, c⟩ := exec_calls_count U cs hex hlt
      refine ⟨c, ?_⟩
      simp only
      rw [hinv] at b
      unfold UINT at *
      omega

/-- A sequence of guard operations preserves `enter_count = nonnull_guards mod 2 ^ 32`. -/
theorem run_ops_count (U N : Nat) (ops : List GuardOp) :
    ∀ {s s1 : GuardState}, run_ops U N ops s = some s1 →
      s.thread.enter_count < UINT →
      s.thread.enter_count = nonnull_guards s.guards % UINT →
      s1.thread.enter_count < UINT
        ∧ s1.thread.enter_count = nonnull_guards s1.guards % UINT := by
  induction ops with
  | nil =>
    intro s s1 h hlt hinv
    simp only [run_ops, Option.some.injEq] at h
    subst h
    exact ⟨hlt, hinv⟩
  | cons op ops ih =>
    intro s s1 h hlt hinv
    simp only [run_ops] at h
    cases hop : guard_exec U N op s with
    | none => rw [hop] at h; cases h
    | some s2 =>
      rw [hop] at h
      obtain ⟨a, b⟩ := guard_exec_count hop hlt hinv
      exact ih h a b

/-! ## C4: the guard-pass invariant -/

theorem exec_calls_cons_enter (U : Nat) (cs : List Call) (w : World) (t : thread_data) :
    exec_calls U (Call.enter_critical :: cs) w t
      = (enter_critical U w t).bind fun r => exec_calls U cs r.1 r.2 := by
  simp only [exec_calls, exec_enter]
  cases enter_critical U w t with
  | none => rfl
  | some r => rfl

/-- Constructing `n` guards from a non-null marked pointer makes `n` calls of
`enter_critical` and appends `n` non-null guards. -/
theorem run_ops_replicate_construct (U N : Nat) {p : Nat} (hp : p ≠ 0) (n : Nat) :
    ∀ (gs : List (Option Nat)) (w : World) (t : thread_data),
      run_ops U N (List.replicate n (GuardOp.construct p)) ⟨gs, w, t⟩
        = (exec_calls U (List.replicate n Call.enter_critical) w t).map
            fun r => ⟨gs ++ List.replicate n (some p), r.1, r.2⟩ := by
  induction n with
  | zero => intro gs w t; simp [run_ops, exec_calls]
  | succ n ih =>
    intro gs w t
    simp only [List.replicate_succ]
    rw [exec_calls_cons_enter]
    simp only [run_ops, guard_exec, guard_step, guard_ptr.ctor, hp, ne_eq, not_false_eq_true,
      if_true, exec_calls_single, exec_enter]
    cases enter_critical U w t with
    | none => rfl
    | some r =>
      obtain ⟨w1, t1⟩ := r
      simp only [Option.some_bind]
      rw [ih]
      simp [List.replicate_succ]

theorem nonnull_guards_replicate {p : Nat} (hp : p ≠ 0) (n : Nat) :
    nonnull_guards (List.replicate n (some p)) = n := by
  induction n with
  | zero => rfl
  | succ n ih =>
    rw [List.replicate_succ]
    unfold nonnull_guards at *
    rw [List.countP_cons, ih]
    simp [hp]

/-- A new thread that enters `2 ^ 32` times is left with `enter_count = 0`. -/
theorem exec_wrap_from_init :
    exec_calls 0 (List.replicate 4294967296 Call.enter_critical)
        (World.init heap8) thread_data.init
      = some ({ global_epoch := 0,
                entries := [{ is_in_critical_region := true, local_epoch := 0, active := true }],
                abandoned := 0, heap := heap8, update_attempts := 0 },
              { enter_count := 0, entries_since_update := 0, control_block := some 0,
                retire_lists := fun i => if i = 0 then 0 else 0 }) := by
  have h2 := exec_replicate_enter 0
    { global_epoch := 0,
      entries := [{ is_in_critical_region := true, local_epoch := 0, active := true }],
      abandoned := 0, heap := heap8, update_attempts := 0 } 4294967294
    { enter_count := 1, entries_since_update := 0, control_block := some 0,
      retire_lists := fun i => if i = 0 then 0 else 0 } (by decide) (by decide)
  have e1 : List.replicate 1 Call.enter_critical = [Call.enter_critical] := rfl
  have h1 : exec_calls 0 [Call.enter_critical] (World.init heap8) thread_data.init
      = some ({ global_epoch := 0,
                entries := [{ is_in_critical_region := true, local_epoch := 0, active := true }],
                abandoned := 0, heap := heap8, update_attempts := 0 },
              { enter_count := 1, entries_since_update := 0, control_block := some 0,
                retire_lists := fun i => if i = 0 then 0 else 0 }) := by
    rw [exec_calls_single]; exact first_entry_init 0
  rw [show (4294967296 : Nat) = 1 + (4294967294 + 1) from rfl, List.replicate_add,
    List.replicate_add, e1, exec_calls_append, h1, Option.some_bind, exec_calls_append, h2,
    Option.some_bind, exec_calls_single]
  simp only [exec_enter]
  rw [enter_critical_wrap 0 _ (by decide)]

/-- C4 (as stated, refuted). A new thread constructs `2 ^ 32` guards from the non-null
marked pointer `4` and destroys none: every operation returns, `2 ^ 32` live guards are
non-null, and the 32 bit `enter_count` is `0`. -/
theorem C4_counterexample :
    (run_ops 0 2 (List.replicate 4294967296 (GuardOp.construct 4))
        ⟨[], World.init heap8, thread_data.init⟩).map
      (fun s => (s.thread.enter_count, nonnull_guards s.guards)) = some (0, 4294967296) := by
  rw [run_ops_replicate_construct 0 2 (by decide : (4 : Nat) ≠ 0), exec_wrap_from_init]
  simp only [Option.map_some', List.nil_append,
    nonnull_guards_replicate (by decide : (4 : Nat) ≠ 0)]

/-- C4 (amended). For every sequence of guard operations on one thread (construct from
a marked pointer, copy-construct, move-construct, copy-assign, move-assign, acquire,
acquire_if_equal, reset, reclaim on a non-null guard, swap, destroy), started in a state
where `enter_count` is the number of live non-null guards modulo `2 ^ 32` (such as a new
thread without guards), after each operation `enter_count` is the number of live guards
whose marked pointer is non-null, modulo `2 ^ 32`; the two are equal whenever fewer than
`2 ^ 32` non-null guards are alive.  In particular copy-constructing from a non-null guard
performs exactly one `enter_critical`, and destroying either of the two guards afterwards
performs exactly one `leave_critical`. -/
theorem C4_enter_count_is_number_of_nonnull_guards
    (U N : Nat) (ops : List GuardOp) (s s1 : GuardState)
    (hinv : s.thread.enter_count = nonnull_guards s.guards % UINT)
    (h : run_ops U N ops s = some s1) :
    s1.thread.enter_count = nonnull_guards s1.guards % UINT
      ∧ (nonnull_guards s1.guards < UINT →
          s1.thread.enter_count = nonnull_guards s1.guards)
      ∧ (∀ (gs : List (Option Nat)) (src p : Nat), guard_at gs src = some p → p ≠ 0 →
          guard_step N (GuardOp.copy_construct src) gs
              = some (gs ++ [some p], [Call.enter_critical])
            ∧ guard_step N (GuardOp.destroy src) (gs ++ [some p])
              = some ((gs ++ [some p]).set src none, [Call.leave_critical])
            ∧ guard_step N (GuardOp.destroy gs.length) (gs ++ [some p])
              = some ((gs ++ [some p]).set gs.length none, [Call.leave_critical])) := by
  have hlt : s.thread.enter_count < UINT := by
    rw [hinv]; exact Nat.mod_lt _ (by decide)
  obtain ⟨_, b⟩ := run_ops_count U N ops h hlt hinv
  refine ⟨b, fun hl => by rw [b, Nat.mod_eq_of_lt hl], ?_⟩
  intro gs src p hsrc hp
  obtain ⟨hlen, hget⟩ := guard_at_some hsrc
  have h1 : guard_at (gs ++ [some p]) src = some p := by
    simp only [guard_at, List.get?_eq_getElem?] at hsrc ⊢
    rw [List.getElem?_append_left hlen]; exact hsrc
  have h2 : guard_at (gs ++ [some p]) gs.length = some p := by
    simp [guard_at]
  simp only [guard_step, hsrc, h1, h2, Option.map_some', guard_ptr.ctor, guard_ptr.reset, hp,
    ne_eq, not_false_eq_true, if_true, and_self]

/-- Instance of C4: a new thread constructs a guard on `4`, copies it, and destroys the
original. -/
theorem C4_witness :
    thread_data.init.enter_count = nonnull_guards ([] : List (Option Nat)) % UINT
    ∧ ∃ s1 : GuardState,
        run_ops 0 2 [GuardOp.construct 4, GuardOp.copy_construct 0, GuardOp.destroy 0]
          ⟨[], World.init heap8, thread_data.init⟩ = some s1
        ∧ s1.guards = [none, some 4]
        ∧ s1.thread.enter_count = 1
        ∧ s1.thread.enter_count = nonnull_guards s1.guards % UINT :=
  ⟨rfl, _, rfl, rfl, rfl,
   (C4_enter_count_is_number_of_nonnull_guards 0 2
     [GuardOp.construct 4, GuardOp.copy_construct 0, GuardOp.destroy 0]
     ⟨[], World.init heap8, thread_data.init⟩ _ rfl rfl).1⟩

/-! ## C6: well-formedness of the retire lists in every reachable state -/

theorem Owned.frame {w w1 : World} {t t1 : thread_data} {f : Nat → List Ptr}
    {segs : List (Ptr × Nat × List Ptr)} (o : Owned w t f segs)
    (hh : w1.heap = w.heap) (ha : w1.abandoned = w.abandoned) (hg : w1.global_epoch < 3)
    (hr : t1.retire_lists = t.retire_lists)
    (hc : ∀ cb, t1.control_block = some cb → cb < w1.entries.length) :
    Owned w1 t1 f segs := by
  refine ⟨hg, ?_, ?_, o.nodup, ?_, hc⟩
  · rw [hh, hr]; exact o.lists
  · rw [hh, ha]; exact o.orphans
  · rw [hh]; exact o.deleted_nodup

theorem Owned.threadWF {w : World} {t : thread_data} {f : Nat → List Ptr}
    {segs : List (Ptr × Nat × List Ptr)} (o : Owned w t f segs) :
    ThreadWF w.heap t.retire_lists f :=
  threadWF_of_nodup_all o.lists (List.Nodup.of_append_right o.nodup)

theorem mem_three {f : Nat → List Ptr} {q : Ptr} :
    q ∈ f 0 ++ f 1 ++ f 2 ↔ ∃ i, i < 3 ∧ q ∈ f i := by
  constructor
  · intro h
    simp only [List.mem_append] at h
    rcases h with (h | h) | h
    · exact ⟨0, by omega, h⟩
    · exact ⟨1, by omega, h⟩
    · exact ⟨2, by omega, h⟩
  · rintro ⟨i, hi, h⟩
    simp only [List.mem_append]
    interval_cases i
    · exact Or.inl (Or.inl h)
    · exact Or.inl (Or.inr h)
    · exact Or.inr h

theorem Owned.drain_list {w v : World} {t u : thread_data} {f : Nat → List Ptr}
    {segs : List (Ptr × Nat × List Ptr)} (o : Owned w t f segs) {e : Nat} (he : e < 3)
    (hh : v.heap = (f e).foldl delete_one w.heap) (ha : v.abandoned = w.abandoned)
    (hg : v.global_epoch < 3)
    (hr : u.retire_lists = fun i => if i = e then 0 else t.retire_lists i)
    (hc : ∀ cb, u.control_block = some cb → cb < v.entries.length) :
    Owned v u (fun i => if i = e then [] else f i) segs
      ∧ ∀ q, (q ∈ owned (fun i => if i = e then [] else f i) segs ∨ q ∈ v.heap.deleted)
              ↔ (q ∈ owned f segs ∨ q ∈ w.heap.deleted) := by
  have wf := o.threadWF
  have hnd := o.nodup
  unfold owned at hnd
  have hdisj : ∀ q ∈ flat segs, q ∉ f e := by
    intro q hq hqe
    exact (List.nodup_append.mp hnd).2.2 hq (mem_three.mpr ⟨e, he, hqe⟩)
  refine ⟨⟨hg, ?_, ?_, ?_, ?_, hc⟩, ?_⟩
  · rw [hh, hr]; exact (wf.drain he).chain
  · rw [hh, ha]
    exact o.orphans.transport_orphans fun q hq =>
      ⟨foldl_delete_one_obj _ _ (hdisj q hq), foldl_delete_one_live _ _ (hdisj q hq)⟩
  · have hs : List.Sublist (owned (fun i => if i = e then [] else f i) segs)
        (flat segs ++ (f 0 ++ f 1 ++ f 2)) := by
      unfold owned
      interval_cases e <;> simp
    exact hnd.sublist hs
  · rw [hh, foldl_delete_one_deleted]
    exact List.nodup_append.mpr ⟨o.deleted_nodup, wf.nodup e he,
      fun q hq1 hq2 => wf.not_deleted he hq2 hq1⟩
  · intro q
    rw [hh, foldl_delete_one_deleted]
    unfold owned
    interval_cases e <;> simp <;> tauto

theorem OChain.te_lt {h : Heap} {p : Ptr} {segs : List (Ptr × Nat × List Ptr)}
    (c : OChain h p segs) : ∀ s ∈ segs, s.2.1 < 3 := by
  induction c with
  | nil => intro s hs; cases hs
  | cons _ _ hte _ _ _ _ ih =>
    intro s hs
    rcases List.mem_cons.mp hs with rfl | hs
    · exact hte
    · exact ih s hs

theorem mem_adopt_fp (segs : List (Ptr × Nat × List Ptr)) :
    ∀ (f : Nat → List Ptr), (∀ s ∈ segs, s.2.1 < 3) → ∀ q,
      (q ∈ adopt_fp segs f 0 ++ adopt_fp segs f 1 ++ adopt_fp segs f 2)
        ↔ (q ∈ flat segs ∨ q ∈ f 0 ++ f 1 ++ f 2) := by
  induction segs with
  | nil => intro f _ q; simp [adopt_fp, flat]
  | cons s segs ih =>
    intro f hs q
    obtain ⟨o, te, fp⟩ := s
    have hte : te < 3 := hs (o, te, fp) (List.mem_cons_self _ _)
    simp only [adopt_fp, flat]
    rw [ih _ (fun s h => hs s (List.mem_cons_of_mem _ h)) q]
    interval_cases te <;> simp <;> tauto

theorem find_inactive_lt : ∀ (es : List thread_control_block) (i : Nat),
    find_inactive es = some i → i < es.length := by
  intro es
  induction es with
  | nil => intro i h; cases h
  | cons e es ih =>
    intro i h
    simp only [find_inactive] at h
    cases hf : find_inactive es with
    | some j =>
      rw [hf] at h
      cases h
      have := ih j hf
      simp only [List.length_cons]; omega
    | none =>
      rw [hf] at h
      simp only at h
      split at h
      · cases h
      · cases h; simp

theorem acquire_entry_valid (w : World) :
    (acquire_entry w).2 < (acquire_entry w).1.entries.length
      ∧ w.entries.length ≤ (acquire_entry w).1.entries.length := by
  unfold acquire_entry
  split
  · rename_i i hi
    have hlt := find_inactive_lt _ _ hi
    split
    · simp only [set_tcb_entries, List.length_set]
      exact ⟨hlt, le_refl _⟩
    · exact ⟨hlt, le_refl _⟩
  · simp

theorem ensure_has_control_block_valid {w w0 : World} {t t0 : thread_data} {cb : Nat}
    (hv : ∀ c, t.control_block = some c → c < w.entries.length)
    (h : ensure_has_control_block w t = (w0, t0, cb)) :
    cb < w0.entries.length ∧ w.entries.length ≤ w0.entries.length := by
  unfold ensure_has_control_block at h
  split at h
  · rename_i cb0 hcb
    cases h
    exact ⟨hv _ hcb, le_refl _⟩
  · have a := acquire_entry_valid w
    cases h
    exact a

theorem tcb_of_lt {w : World} {cb : Nat} (h : cb < w.entries.length) :
    ∃ b, w.tcb cb = some b :=
  ⟨w.entries[cb], by simp [World.tcb, List.get?_eq_getElem?, List.getElem?_eq_getElem h]⟩

theorem do_enter_critical_owned (U : Nat) {w : World} {t : thread_data} {f : Nat → List Ptr}
    {segs : List (Ptr × Nat × List Ptr)} (o : Owned w t f segs) :
    ∃ w1 t1 f1 segs1, do_enter_critical U w t = some (w1, t1) ∧ Owned w1 t1 f1 segs1
      ∧ ∀ q, (q ∈ owned f1 segs1 ∨ q ∈ w1.heap.deleted)
              ↔ (q ∈ owned f segs ∨ q ∈ w.heap.deleted) := by
  cases hens : ensure_has_control_block w t with
  | mk w0 r =>
  obtain ⟨t0, cb⟩ := r
  obtain ⟨hcb0, -, hesu0, hrl0, hg0, hh0, ha0, -⟩ := ensure_has_control_block_spec hens
  obtain ⟨hlt, hlen⟩ := ensure_has_control_block_valid o.cb_valid hens
  obtain ⟨b, hb⟩ := tcb_of_lt hlt
  have hset := tcb_set_tcb_same hb { b with is_in_critical_region := true }
  have hg3 : w0.global_epoch < 3 := by rw [hg0]; exact o.epoch_lt
  have o1 : Owned (w0.set_tcb cb { b with is_in_critical_region := true })
      { t0 with entries_since_update := 0 } f segs :=
    o.frame (by simp [hh0]) (by simp [ha0]) (by simpa using hg3) hrl0
      (by intro c hc; simp only [hcb0] at hc; cases hc; simpa using hlt)
  unfold do_enter_critical
  rw [hens]
  simp only [hb, set_tcb_global_epoch]
  split
  · -- a new epoch is observed
    have hd : Drainable (w0.set_tcb cb { b with is_in_critical_region := true }).heap
        (t0.retire_lists w0.global_epoch) (f w0.global_epoch) :=
      ⟨o1.lists _ hg3, o1.threadWF.nodup _ hg3⟩
    rw [adopt_epoch_eq (t := { t0 with entries_since_update := 0 }) hset hg3 hd]
    obtain ⟨o2, acc⟩ := o1.drain_list hg3 (v := { (World.set_tcb (w0.set_tcb cb { b with is_in_critical_region := true }) cb
        { is_in_critical_region := true, local_epoch := w0.global_epoch, active := b.active }) with
          heap := (f w0.global_epoch).foldl delete_one (w0.set_tcb cb { b with is_in_critical_region := true }).heap })
      (u := { t0 with entries_since_update := 0,
                       retire_lists := fun i => if i = w0.global_epoch then 0 else t0.retire_lists i })
      rfl rfl (by simpa using hg3) rfl
      (by intro c hc; simp only [hcb0] at hc; cases hc; simpa using hlt)
    refine ⟨_, _, _, _, rfl, o2, fun q => (acc q).trans ?_⟩
    simp [hh0]
  · split
    · -- an advance is attempted
      by_cases hB : Blocked (w0.set_tcb cb { b with is_in_critical_region := true })
          w0.global_epoch
      · rw [try_update_epoch_blocked _ _ _ hg3 hB]
        refine ⟨_, _, f, segs, rfl, o1.frame rfl rfl (by simpa using hg3) rfl ?_, fun q => ?_⟩
        · intro c hc; simp only [hcb0] at hc; cases hc; simpa using hlt
        · simp [hh0]
      · rw [try_update_epoch_cas _ _ _ hg3 hB (by simp)]
        have hn3 : (w0.global_epoch + 1) % UINT % number_epochs < 3 :=
          Nat.mod_lt _ (by decide)
        have o2 : Owned
            { (w0.set_tcb cb { b with is_in_critical_region := true }) with
              update_attempts :=
                (w0.set_tcb cb { b with is_in_critical_region := true }).update_attempts + 1,
              global_epoch := (w0.global_epoch + 1) % UINT % number_epochs }
            { t0 with entries_since_update := 0 } f segs :=
          o1.frame rfl rfl hn3 rfl
            (by intro c hc; simp only [hcb0] at hc; cases hc; simpa using hlt)
        obtain ⟨w2, t2, had, wf2, hab2, hent2, hg2, -, hcb2, -, -, hcalls2, -, -, -⟩ :=
          adopt_orphans_wf o2.orphans o2.threadWF o2.nodup
        rw [had]
        simp only [Option.map_some']
        have hb2 : w2.tcb cb = some { b with is_in_critical_region := true } := by
          unfold World.tcb at hset ⊢
          rw [hent2]; exact hset
        have hd : Drainable w2.heap
            (t2.retire_lists ((w0.global_epoch + 1) % UINT % number_epochs))
            (adopt_fp segs f ((w0.global_epoch + 1) % UINT % number_epochs)) :=
          ⟨wf2.chain _ hn3, wf2.nodup _ hn3⟩
        rw [adopt_epoch_eq hb2 hn3 hd]
        have hdel2 : w2.heap.deleted = w.heap.deleted := by
          unfold Heap.deleted; rw [hcalls2]; simp [hh0]
        have hlen2 : w2.entries.length = w0.entries.length := by
          rw [hent2]; simp
        have o3 : Owned w2 t2 (adopt_fp segs f) [] := by
          refine ⟨by rw [hg2]; exact hn3, wf2.chain, by rw [hab2]; exact OChain.nil, ?_, ?_, ?_⟩
          · unfold owned; simpa [flat] using threadWF_nodup_all wf2
          · rw [hdel2]; exact o.deleted_nodup
          · intro c hc
            rw [hcb2] at hc
            simp only [hcb0] at hc
            cases hc
            rw [hlen2]; exact hlt
        obtain ⟨o4, acc⟩ := o3.drain_list hn3
          (v := { (w2.set_tcb cb { (
                      { b with is_in_critical_region := true } : thread_control_block) with
                      local_epoch := (w0.global_epoch + 1) % UINT % number_epochs }) with
                    heap := (adopt_fp segs f
                      ((w0.global_epoch + 1) % UINT % number_epochs)).foldl delete_one w2.heap })
          (u := { t2 with retire_lists := fun i =>
                    if i = (w0.global_epoch + 1) % UINT % number_epochs then 0
                    else t2.retire_lists i })
          rfl rfl (by simpa [hg2] using hn3) rfl
          (by
            intro c hc
            simp only [hcb2, hcb0] at hc
            cases hc
            simpa [hlen2] using hlt)
        refine ⟨_, _, _, _, rfl, o4, fun q => (acc q).trans ?_⟩
        rw [hdel2]
        unfold owned
        have := mem_adopt_fp segs f o.orphans.te_lt q
        simp only [flat, List.nil_append]
        rw [this]
        simp only [List.mem_append]
    · -- neither
      refine ⟨_, _, f, segs, rfl, o1.frame rfl rfl (by simpa using hg3) rfl ?_, fun q => ?_⟩
      · intro c hc; simp only [hcb0] at hc; cases hc; simpa using hlt
      · simp [hh0]

theorem enter_critical_owned (U : Nat) {w : World} {t : thread_data} {f : Nat → List Ptr}
    {segs : List (Ptr × Nat × List Ptr)} (o : Owned w t f segs) :
    ∃ w1 t1 f1 segs1, enter_critical U w t = some (w1, t1) ∧ Owned w1 t1 f1 segs1
      ∧ ∀ q, (q ∈ owned f1 segs1 ∨ q ∈ w1.heap.deleted)
              ↔ (q ∈ owned f segs ∨ q ∈ w.heap.deleted) := by
  unfold enter_critical
  dsimp only
  split
  · exact do_enter_critical_owned U (o.frame rfl rfl o.epoch_lt rfl o.cb_valid)
  · exact ⟨_, _, f, segs, rfl, o.frame rfl rfl o.epoch_lt rfl o.cb_valid, fun q => Iff.rfl⟩

theorem leave_critical_owned {w w1 : World} {t t1 : thread_data} {f : Nat → List Ptr}
    {segs : List (Ptr × Nat × List Ptr)} (o : Owned w t f segs)
    (h : leave_critical w t = some (w1, t1)) :
    Owned w1 t1 f segs ∧ w1.heap = w.heap := by
  unfold leave_critical at h
  by_cases hpos : 0 < t.enter_count
  · rw [if_pos hpos] at h
    dsimp only at h
    by_cases h0 : (t.enter_count + UINT - 1) % UINT = 0
    · rw [if_pos h0] at h
      unfold do_leave_critical at h
      dsimp only at h
      split at h
      · cases h
      · rename_i cb hcb
        split at h
        · cases h
        · cases h
          refine ⟨o.frame rfl rfl (by simpa using o.epoch_lt) rfl ?_, rfl⟩
          intro c hc
          simpa using o.cb_valid c hc
    · rw [if_neg h0] at h
      cases h
      exact ⟨o.frame rfl rfl o.epoch_lt rfl o.cb_valid, rfl⟩
  · rw [if_neg hpos] at h
    cases h

theorem retire_owned (U : Nat) {w w1 : World} {t t1 : thread_data} {f : Nat → List Ptr}
    {segs : List (Ptr × Nat × List Ptr)} (o : Owned w t f segs)
    {p : Ptr} {d : Nat} (hu : w.heap.is_user p) (hp : p ∉ owned f segs)
    (h : exec_calls U [Call.set_deleter p d, Call.add_retired_node p] w t = some (w1, t1)) :
    ∃ f1, Owned w1 t1 f1 segs ∧ w1.heap.deleted = w.heap.deleted
      ∧ ∀ q, q ∈ owned f1 segs ↔ (q = p ∨ q ∈ owned f segs) := by
  have hpf : ∀ i, i < 3 → p ∉ f i := fun i hi hm =>
    hp (List.mem_append_right _ (mem_three.mpr ⟨i, hi, hm⟩))
  have hps : p ∉ flat segs := fun hm => hp (List.mem_append_left _ hm)
  have h2 : exec_calls U ([Call.set_deleter p d] ++ [Call.add_retired_node p]) w t
      = some (w1, t1) := h
  clear h
  rw [exec_calls_append, exec_calls_single] at h2
  simp only [Call.exec] at h2
  by_cases hl : w.heap.live p = true
  · simp only [hl, if_true, Option.some_bind, exec_calls_single, Call.exec] at h2
    have h := h2
    clear h2
    simp only [add_retired_node] at h
    split at h
    · cases h
    · rename_i cb hcb
      split at h
      · cases h
      · rename_i b hb
        simp only [add_retired_node_at] at h
        generalize b.local_epoch = e at h
        split at h
        · rename_i he
          have he3 : e < 3 := he
          split at h
          · rename_i hl2
            cases h
            have wf1 : ThreadWF (set_deleter w.heap p d) t.retire_lists f :=
              o.threadWF.transport_lists fun i hi q hq => by
                have hne : q ≠ p := fun e => hpf i hi (e ▸ hq)
                exact ⟨set_deleter_obj_ne _ _ hne, set_deleter_live _ _ _ _⟩
            have wf2 := wf1.push he3 hl2 (set_deleter_is_node d hu) hpf
            refine ⟨fun i => if i = e then p :: f e else f i,
              ⟨o.epoch_lt, wf2.chain, ?_, ?_, ?_, o.cb_valid⟩, ?_, ?_⟩
            · refine o.orphans.transport_orphans fun q hq => ?_
              have hne : q ≠ p := fun e => hps (e ▸ hq)
              exact ⟨by
                simp only
                rw [set_next_obj_ne _ _ hne, set_deleter_obj_ne _ _ hne],
                by simp [set_deleter_live]⟩
            · have hnd : (p :: owned f segs).Nodup := List.nodup_cons.mpr ⟨hp, o.nodup⟩
              refine nodup_of_count_le hnd fun x => ?_
              unfold owned
              interval_cases e <;> simp [List.count_append, List.count_cons] <;> omega
            · simpa [set_deleter_deleted] using o.deleted_nodup
            · simp [set_deleter_deleted]
            · intro q
              unfold owned
              interval_cases e <;> simp <;> tauto
          · cases h
        · cases h
  · simp [hl] at h2

/-- Every reachable state is well formed, and the objects retired so far are exactly
those that are queued or destroyed. -/
theorem reach_owned {U : Nat} {w0 : World} {t0 : thread_data} {R0 : List Ptr}
    {f0 : Nat → List Ptr} {segs0 : List (Ptr × Nat × List Ptr)}
    (o : Owned w0 t0 f0 segs0)
    (hR : ∀ q, q ∈ R0 ↔ (q ∈ owned f0 segs0 ∨ q ∈ w0.heap.deleted))
    {w : World} {t : thread_data} {R : List Ptr} (r : Reach U w0 t0 R0 w t R) :
    ∃ f segs, Owned w t f segs ∧ ∀ q, q ∈ R ↔ (q ∈ owned f segs ∨ q ∈ w.heap.deleted) := by
  induction r with
  | start => exact ⟨f0, segs0, o, hR⟩
  | enter _ h ih =>
    obtain ⟨f, segs, o1, acc⟩ := ih
    obtain ⟨w2, t2, f1, segs1, he, o2, acc2⟩ := enter_critical_owned U o1
    rw [h] at he
    cases he
    exact ⟨f1, segs1, o2, fun q => (acc q).trans (acc2 q).symm⟩
  | leave _ h ih =>
    obtain ⟨f, segs, o1, acc⟩ := ih
    obtain ⟨o2, hh⟩ := leave_critical_owned o1 h
    exact ⟨f, segs, o2, fun q => by rw [hh]; exact acc q⟩
  | retire p d _ hp hu h ih =>
    obtain ⟨f, segs, o1, acc⟩ := ih
    have hp2 : p ∉ owned f segs := fun hm => hp ((acc p).mpr (Or.inl hm))
    obtain ⟨f1, o2, hd, hm⟩ := retire_owned U o1 hu hp2 h
    refine ⟨f1, segs, o2, fun q => ?_⟩
    rw [hd, hm q, List.mem_cons, acc q]
    tauto
  | interference _ hh ha hg hl ih =>
    obtain ⟨f, segs, o1, acc⟩ := ih
    exact ⟨f, segs, o1.frame hh ha hg rfl fun c hc => lt_of_lt_of_le (o1.cb_valid c hc) hl,
      fun q => by rw [hh]; exact acc q⟩

/-- C6. Provided every node is retired at most once (an object is retired only while
it is not among those retired so far, `R`), in every state a thread reaches through
`enter_critical`, `leave_critical`, retirement and the orphan adoption made by
`enter_critical`, from a well-formed state: the three retire lists are null terminated
(`Chain`, so acyclic), duplicate-free, pairwise disjoint and disjoint from the objects
already destroyed, also when the contents of adopted orphans are counted, and the orphan
list is well formed and disjoint from them.  Hence `delete_self` has run at most once on
every object, and exactly once on every retired object that is no longer queued; draining
any of the three lists returns and destroys exactly the objects of its footprint, and the
next `enter_critical` returns. -/
theorem C6_retire_lists_well_formed_in_every_reachable_state
    (U : Nat) (w0 : World) (t0 : thread_data) (R0 : List Ptr)
    (f0 : Nat → List Ptr) (segs0 : List (Ptr × Nat × List Ptr))
    (o : Owned w0 t0 f0 segs0)
    (hR : ∀ q, q ∈ R0 ↔ (q ∈ owned f0 segs0 ∨ q ∈ w0.heap.deleted))
    (w : World) (t : thread_data) (R : List Ptr) (r : Reach U w0 t0 R0 w t R) :
    ∃ f segs,
      (∀ i, i < 3 → Chain w.heap (t.retire_lists i) (f i))
      ∧ (∀ i, i < 3 → (f i).Nodup)
      ∧ (∀ i j, i < 3 → j < 3 → i ≠ j → ∀ q ∈ f i, q ∉ f j)
      ∧ (∀ i, i < 3 → ∀ q ∈ f i, q ∉ w.heap.deleted)
      ∧ OChain w.heap w.abandoned segs ∧ (owned f segs).Nodup
      ∧ (∀ q, w.heap.deleted.count q ≤ 1)
      ∧ (∀ q ∈ R, q ∉ owned f segs → w.heap.deleted.count q = 1)
      ∧ (∀ i, i < 3 → ∃ h1, delete_objects w.heap (t.retire_lists i) = some h1
            ∧ h1.deleted = w.heap.deleted ++ f i)
      ∧ ∃ w1 t1, enter_critical U w t = some (w1, t1) := by
  obtain ⟨f, segs, o1, acc⟩ := reach_owned o hR r
  have wf := o1.threadWF
  refine ⟨f, segs, o1.lists, wf.nodup, wf.disjoint, fun i hi q hq => wf.not_deleted hi hq,
    o1.orphans, o1.nodup, fun q => List.nodup_iff_count_le_one.mp o1.deleted_nodup q,
    fun q hq hn => ?_, fun i hi => ?_, ?_⟩
  · rcases (acc q).mp hq with h | h
    · exact absurd h hn
    · exact List.count_eq_one_of_mem o1.deleted_nodup h
  · exact ⟨_, delete_objects_drainable ⟨o1.lists i hi, wf.nodup i hi⟩,
      foldl_delete_one_deleted _ _⟩
  · obtain ⟨w1, t1, _, _, he, _, _⟩ := enter_critical_owned U o1
    exact ⟨w1, t1, he⟩

theorem owned_init : Owned (World.init heap8) thread_data.init (fun _ => []) [] :=
  ⟨by decide, fun _ _ => Chain.nil, OChain.nil, by simp [owned, flat],
   by simp [World.init, heap8, Heap.deleted], fun cb h => by cases h⟩

/-- Instance of C6: a new thread enters a critical region and retires the object `4`. -/
theorem C6_witness :
    Owned (World.init heap8) thread_data.init (fun _ => []) []
    ∧ (∀ q, q ∈ ([] : List Ptr)
          ↔ (q ∈ owned (fun _ => []) [] ∨ q ∈ (World.init heap8).heap.deleted))
    ∧ ∃ w t, Reach 0 (World.init heap8) thread_data.init [] w t [4]
      ∧ t.retire_lists 0 = 4
      ∧ ∃ f segs,
        (∀ i, i < 3 → Chain w.heap (t.retire_lists i) (f i))
        ∧ (∀ i, i < 3 → (f i).Nodup)
        ∧ (∀ i j, i < 3 → j < 3 → i ≠ j → ∀ q ∈ f i, q ∉ f j)
        ∧ (∀ i, i < 3 → ∀ q ∈ f i, q ∉ w.heap.deleted)
        ∧ OChain w.heap w.abandoned segs ∧ (owned f segs).Nodup
        ∧ (∀ q, w.heap.deleted.count q ≤ 1)
        ∧ (∀ q ∈ [4], q ∉ owned f segs → w.heap.deleted.count q = 1)
        ∧ (∀ i, i < 3 → ∃ h1, delete_objects w.heap (t.retire_lists i) = some h1
              ∧ h1.deleted = w.heap.deleted ++ f i)
        ∧ ∃ w1 t1, enter_critical 0 w t = some (w1, t1) :=
  ⟨owned_init, by simp [owned, flat, World.init, heap8, Heap.deleted],
   _, _,
   Reach.retire 4 0 (Reach.enter Reach.start (first_entry_init 0)) (by simp)
     (fun _ _ _ _ h => by cases h) rfl,
   rfl,
   C6_retire_lists_well_formed_in_every_reachable_state 0 (World.init heap8)
     thread_data.init [] (fun _ => []) [] owned_init
     (by simp [owned, flat, World.init, heap8, Heap.deleted]) _ _ _
     (Reach.retire 4 0 (Reach.enter Reach.start (first_entry_init 0)) (by simp)
       (fun _ _ _ _ h => by cases h) rfl)⟩

/-! ## Preemption inside `do_enter_critical` -/

/-- Without preemption the two parts of `do_enter_critical` make up the whole. -/
theorem do_enter_critical_split (U : Nat) (w : World) (t : thread_data) :
    do_enter_critical U w t
      = (do_enter_critical_load U w t).bind fun r => do_enter_critical_store r.1 r.2.1 r.2.2 := by
  unfold do_enter_critical do_enter_critical_load do_enter_critical_store
  split
  split
  · rfl
  · dsimp only
    split
    · rfl
    · split
      · split <;> rfl
      · rfl

theorem enter_critical_split (U : Nat) (w : World) (t : thread_data) :
    enter_critical U w t
      = (enter_critical_load U w t).bind fun r => do_enter_critical_store r.1 r.2.1 r.2.2 := by
  unfold enter_critical enter_critical_load
  dsimp only
  split
  · exact do_enter_critical_split U w _
  · rfl

theorem sys_run_append (U N : Nat) (xs ys : List (Nat × Action)) :
    ∀ s, sys_run U N (xs ++ ys) s = (sys_run U N xs s).bind (sys_run U N ys) := by
  induction xs with
  | nil => intro s; rfl
  | cons x xs ih =>
    intro s
    obtain ⟨i, a⟩ := x
    simp only [List.cons_append, sys_run]
    cases sys_step U N i a s with
    | none => rfl
    | some s1 => exact ih s1

theorem run_sys3 :
    sys_run 0 2 [(1, .acquire_begin 4), (0, .acquire 8), (0, .reset)] sys3 = some sysA := by
  rfl

theorem run_sysA :
    sys_run 0 2 [(0, .acquire 8), (0, .reset), (2, .acquire 4)] sysA = some sysB := by
  rfl

theorem run_sysB :
    sys_run 0 2 [(0, .acquire 8), (0, .reset), (1, .acquire_resume 4)] sysB = some sysC := by
  rfl

theorem run_sysC :
    sys_run 0 2 [(2, .reclaim 0), (0, .acquire 8), (0, .reset)] sysC = some sysD := by
  rfl

theorem run_sysD :
    sys_run 0 2 [(2, .acquire 8), (2, .reset), (0, .acquire 8), (0, .reset)] sysD
      = some sysE := by
  rfl

theorem run_sysE :
    (sys_run 0 2 [(2, .acquire 8)] sysE).map Sys.observe
      = some (1, [4],
          [(0, 0, false, 0, 0, 0), (4, 1, true, 0, 0, 0), (8, 1, true, 0, 0, 0)]) := by
  rfl

/-- C7 (the code fails the claim). Three threads use `epoch_based<0>` through guards only,
and every guard is acquired on an object that is not yet retired.  Thread `1` starts
`acquire` on a field holding the object `4` and is preempted inside `do_enter_critical`
after it has set its flag and loaded the global epoch `0`, before it stores that epoch
into `local_epoch`.  Thread `0` advances the epoch to `1`, thread `2` acquires a guard on
`4`, thread `0` advances the epoch to `2`.  Thread `1` resumes and completes its guard on
`4`: after these 9 steps nothing is destroyed, every retire list is empty, and threads
`1` and `2` hold a non-null guard on `4`.  Thread `2` then retires `4` through its guard;
the epoch is advanced to `0` and to `1`, thread `2` entering a critical region after each
advance.  At the end `delete_self` has run on `4` while thread `1` still holds its guard
on `4` (guard word `4`, `enter_count = 1`, flag set): `prevents_update` compares
`local_epoch` with the previous epoch only, so a flagged control block whose `local_epoch`
is neither the current nor the previous epoch does not prevent an advance. -/
theorem C7_preempted_entry_destroys_guarded_node :
    (sys_run 0 2 (preempted_entry_schedule.take 9) sys3).map Sys.observe
        = some (2, [],
            [(0, 0, false, 0, 0, 0), (4, 1, true, 0, 0, 0), (4, 1, true, 0, 0, 0)])
    ∧ (sys_run 0 2 preempted_entry_schedule sys3).map Sys.observe
        = some (1, [4],
            [(0, 0, false, 0, 0, 0), (4, 1, true, 0, 0, 0), (8, 1, true, 0, 0, 0)]) := by
  have e9 : preempted_entry_schedule.take 9
      = [(1, .acquire_begin 4), (0, .acquire 8), (0, .reset)]
        ++ ([(0, .acquire 8), (0, .reset), (2, .acquire 4)]
        ++ [(0, .acquire 8), (0, .reset), (1, .acquire_resume 4)]) := rfl
  have e17 : preempted_entry_schedule
      = [(1, .acquire_begin 4), (0, .acquire 8), (0, .reset)]
        ++ ([(0, .acquire 8), (0, .reset), (2, .acquire 4)]
        ++ ([(0, .acquire 8), (0, .reset), (1, .acquire_resume 4)]
        ++ ([(2, .reclaim 0), (0, .acquire 8), (0, .reset)]
        ++ ([(2, .acquire 8), (2, .reset), (0, .acquire 8), (0, .reset)]
        ++ [(2, .acquire 8)])))) := rfl
  constructor
  · rw [e9, sys_run_append, run_sys3, Option.some_bind, sys_run_append, run_sysA,
      Option.some_bind, run_sysB]
    rfl
  · rw [e17, sys_run_append, run_sys3, Option.some_bind, sys_run_append, run_sysA,
      Option.some_bind, sys_run_append, run_sysB, Option.some_bind, sys_run_append, run_sysC,
      Option.some_bind, sys_run_append, run_sysD, Option.some_bind]
    exact run_sysE

/-! ## Threads that run whole guard operations -/

theorem get_set_same {α : Type} {l : List α} {i : Nat} {y : α} (x : α)
    (h : l.get? i = some y) : (l.set i x).get? i = some x := by
  have hlt : i < l.length := by
    rw [List.get?_eq_getElem?] at h
    exact (List.getElem?_eq_some.mp h).1
  simp [List.get?_eq_getElem?, hlt]

theorem get_set_ne {α : Type} (l : List α) {i j : Nat} (x : α) (h : i ≠ j) :
    (l.set i x).get? j = l.get? j := by
  simp [List.get?_eq_getElem?, List.getElem?_set_ne h]

theorem get_lt {α : Type} {l : List α} {i : Nat} {y : α} (h : l.get? i = some y) :
    i < l.length := by
  rw [List.get?_eq_getElem?] at h
  exact (List.getElem?_eq_some.mp h).1

/-- A thread whose control block, retire lists and guards are untouched stays well formed
when other threads change the registry, the heap and the retired set. -/
theorem ThreadOK.transport_thread {es es1 : List thread_control_block} {h h1 : Heap} {R R1 : List Ptr}
    {G : Nat} {stamp stamp1 : Ptr → Nat} {f : Nat → List Ptr} {th : GThread}
    (ok : ThreadOK es h R G stamp f th)
    (hlen : es.length ≤ es1.length)
    (hes : ∀ cb, th.data.control_block = some cb → es1.get? cb = es.get? cb)
    (hh : ∀ k, k < 3 → ∀ q ∈ f k, h1.obj q = h.obj q ∧ h1.live q = h.live q)
    (hst : ∀ k, k < 3 → ∀ q ∈ f k, stamp1 q = stamp q)
    (hR : ∀ v ∈ th.held, v ∈ R1 → (v ∈ R ∧ stamp1 v = stamp v) ∨ G ≤ stamp1 v) :
    ThreadOK es1 h1 R1 G stamp1 f th := by
  refine ⟨fun cb hcb => lt_of_lt_of_le (ok.cb_lt cb hcb) hlen, ok.count, ?_, ?_, ?_⟩
  · intro hne
    obtain ⟨cb, b, hcb, hb, hf, hv⟩ := ok.inside hne
    refine ⟨cb, b, hcb, by rw [hes cb hcb]; exact hb, hf, fun v hv1 hv2 => ?_⟩
    rcases hR v hv1 hv2 with ⟨hr, hs⟩ | hge
    · rw [hs]; exact hv v hv1 hr
    · exact ⟨fun _ => hge, by omega⟩
  · intro k hk
    exact (ok.lists k hk).transport (hh k hk)
  · intro k hk v hv
    obtain ⟨cb, b, hcb, hb, hG⟩ := ok.bound k hk v hv
    refine ⟨cb, b, hcb, by rw [hes cb hcb]; exact hb, ?_⟩
    rw [hst k hk v hv]
    exact hG

theorem GInv.thread_only {es : List thread_control_block} {h : Heap} {ths : List GThread}
    {R : List Ptr} {G : Nat} {stamp : Ptr → Nat} {F : Nat → Nat → List Ptr}
    (inv : GInv es h ths R G stamp F) {i : Nat} {th : GThread} (u : GThread)
    (hi : ths.get? i = some th)
    (hcb : u.data.control_block = th.data.control_block)
    (ok : ThreadOK es h R G stamp (F i) u) :
    GInv es h (ths.set i u) R G stamp F := by
  refine ⟨inv.active, inv.flagged, ?_, ?_, ?_, ?_, ?_, inv.destroyed⟩
  · intro j thj hj
    by_cases hji : i = j
    · subst hji
      rw [get_set_same u hi] at hj
      cases hj
      exact ok
    · rw [get_set_ne _ _ hji] at hj
      exact inv.threads j thj hj
  · intro j l thj thl cb hj hl hcj hcl
    by_cases hji : i = j
    · subst hji
      rw [get_set_same u hi] at hj
      cases hj
      by_cases hli : i = l
      · exact hli
      · rw [get_set_ne _ _ hli] at hl
        exact inv.cb_inj i l th thl cb hi hl (hcb ▸ hcj) hcl
    · rw [get_set_ne _ _ hji] at hj
      by_cases hli : i = l
      · subst hli
        rw [get_set_same u hi] at hl
        cases hl
        exact inv.cb_inj j i thj th cb hj hi hcj (hcb ▸ hcl)
      · rw [get_set_ne _ _ hli] at hl
        exact inv.cb_inj j l thj thl cb hj hl hcj hcl
  · intro j k hj hk
    exact inv.nodup j k (by simpa using hj) hk
  · intro j l k m q hj hl hk hm
    exact inv.disjoint j l k m q (by simpa using hj) (by simpa using hl) hk hm
  · intro q
    rw [inv.account q]
    simp

/-- The owner of a control block changes the block (its flag, or its epoch together with
other parts of its own state). -/
theorem GInv.block_update {es : List thread_control_block} {h : Heap} {ths : List GThread}
    {R : List Ptr} {G : Nat} {stamp : Ptr → Nat} {F : Nat → Nat → List Ptr}
    (inv : GInv es h ths R G stamp F) {i cb : Nat} {th : GThread} (u : GThread)
    {b : thread_control_block} (c : thread_control_block)
    (hi : ths.get? i = some th)
    (hcb : th.data.control_block = some cb) (hcu : u.data.control_block = some cb)
    (hb : es.get? cb = some b) (ha : c.active = true)
    (hf : c.is_in_critical_region = true →
      c.local_epoch = G % 3 ∨ c.local_epoch = (G + 2) % 3)
    (ok : ThreadOK (es.set cb c) h R G stamp (F i) u) :
    GInv (es.set cb c) h (ths.set i u) R G stamp F := by
  have hframe : ∀ j thj, j ≠ i → ths.get? j = some thj →
      ThreadOK (es.set cb c) h R G stamp (F j) thj := by
    intro j thj hji hj
    refine (inv.threads j thj hj).transport_thread (by simp) ?_ (fun _ _ _ _ => ⟨rfl, rfl⟩)
      (fun _ _ _ _ => rfl) (fun v _ hv => Or.inl ⟨hv, rfl⟩)
    intro cbj hcbj
    have hne : cb ≠ cbj := by
      intro e
      subst e
      exact hji (inv.cb_inj j i thj th cb hj hi hcbj hcb)
    exact get_set_ne _ _ hne
  refine ⟨?_, ?_, ?_, ?_, ?_, ?_, ?_, inv.destroyed⟩
  · intro x hx
    rcases List.mem_or_eq_of_mem_set hx with hx | rfl
    · exact inv.active x hx
    · exact ha
  · intro cb2 b2 hb2 hf2
    by_cases hc : cb = cb2
    · subst hc
      rw [get_set_same c hb] at hb2
      cases hb2
      exact hf hf2
    · rw [get_set_ne _ _ hc] at hb2
      exact inv.flagged cb2 b2 hb2 hf2
  · intro j thj hj
    by_cases hji : i = j
    · subst hji
      rw [get_set_same u hi] at hj
      cases hj
      exact ok
    · rw [get_set_ne _ _ hji] at hj
      exact hframe j thj (Ne.symm hji) hj
  · intro j l thj thl cb2 hj hl hcj hcl
    have hcbu : u.data.control_block = th.data.control_block := by rw [hcu, hcb]
    by_cases hji : i = j
    · subst hji
      rw [get_set_same u hi] at hj
      cases hj
      by_cases hli : i = l
      · exact hli
      · rw [get_set_ne _ _ hli] at hl
        exact inv.cb_inj i l th thl cb2 hi hl (hcbu ▸ hcj) hcl
    · rw [get_set_ne _ _ hji] at hj
      by_cases hli : i = l
      · subst hli
        rw [get_set_same u hi] at hl
        cases hl
        exact inv.cb_inj j i thj th cb2 hj hi hcj (hcbu ▸ hcl)
      · rw [get_set_ne _ _ hli] at hl
        exact inv.cb_inj j l thj thl cb2 hj hl hcj hcl
  · intro j k hj hk
    exact inv.nodup j k (by simpa using hj) hk
  · intro j l k m q hj hl hk hm
    exact inv.disjoint j l k m q (by simpa using hj) (by simpa using hl) hk hm
  · intro q
    rw [inv.account q]
    simp

/-- A thread without a control block is given a new one, appended to the registry. -/
theorem GInv.new_block {es : List thread_control_block} {h : Heap} {ths : List GThread}
    {R : List Ptr} {G : Nat} {stamp : Ptr → Nat} {F : Nat → Nat → List Ptr}
    (inv : GInv es h ths R G stamp F) {i : Nat} {th : GThread} (c : thread_control_block)
    (hi : ths.get? i = some th) (hcb : th.data.control_block = none)
    (ha : c.active = true) (hf : c.is_in_critical_region = false) :
    GInv (es ++ [c]) h
      (ths.set i { data := { th.data with control_block := some es.length }, held := th.held })
      R G stamp F := by
  have hget : ∀ cb, cb < es.length → (es ++ [c]).get? cb = es.get? cb := by
    intro cb hlt
    simp [List.get?_eq_getElem?, List.getElem?_append_left hlt]
  have hframe : ∀ j thj, ths.get? j = some thj →
      ThreadOK (es ++ [c]) h R G stamp (F j) thj := by
    intro j thj hj
    refine (inv.threads j thj hj).transport_thread (by simp) ?_ (fun _ _ _ _ => ⟨rfl, rfl⟩)
      (fun _ _ _ _ => rfl) (fun v _ hv => Or.inl ⟨hv, rfl⟩)
    intro cbj hcbj
    exact hget cbj ((inv.threads j thj hj).cb_lt cbj hcbj)
  have oki := inv.threads i th hi
  refine ⟨?_, ?_, ?_, ?_, ?_, ?_, ?_, inv.destroyed⟩
  · intro x hx
    rcases List.mem_append.mp hx with hx | hx
    · exact inv.active x hx
    · rw [List.mem_singleton] at hx; subst hx; exact ha
  · intro cb2 b2 hb2 hf2
    by_cases hlt : cb2 < es.length
    · rw [hget cb2 hlt] at hb2
      exact inv.flagged cb2 b2 hb2 hf2
    · have hlt2 := get_lt hb2
      simp only [List.length_append, List.length_singleton] at hlt2
      have e : cb2 = es.length := by omega
      subst e
      simp [List.get?_eq_getElem?] at hb2
      subst hb2
      rw [hf] at hf2
      cases hf2
  · intro j thj hj
    by_cases hji : i = j
    · subst hji
      rw [get_set_same _ hi] at hj
      cases hj
      refine ⟨?_, oki.count, ?_, oki.lists, ?_⟩
      · intro cb hc
        simp only [Option.some.injEq] at hc
        subst hc
        simp
      · intro hne
        obtain ⟨cb, _, hc, _⟩ := oki.inside hne
        rw [hcb] at hc
        cases hc
      · intro k hk v hv
        obtain ⟨cb, _, hc, _⟩ := oki.bound k hk v hv
        rw [hcb] at hc
        cases hc
    · rw [get_set_ne _ _ hji] at hj
      exact hframe j thj hj
  · intro j l thj thl cb2 hj hl hcj hcl
    by_cases hji : i = j
    · subst hji
      rw [get_set_same _ hi] at hj
      cases hj
      by_cases hli : i = l
      · exact hli
      · rw [get_set_ne _ _ hli] at hl
        simp only [Option.some.injEq] at hcj
        subst hcj
        exact absurd ((inv.threads l thl hl).cb_lt _ hcl) (lt_irrefl _)
    · rw [get_set_ne _ _ hji] at hj
      by_cases hli : i = l
      · subst hli
        rw [get_set_same _ hi] at hl
        cases hl
        simp only [Option.some.injEq] at hcl
        subst hcl
        exact absurd ((inv.threads j thj hj).cb_lt _ hcj) (lt_irrefl _)
      · rw [get_set_ne _ _ hli] at hl
        exact inv.cb_inj j l thj thl cb2 hj hl hcj hcl
  · intro j k hj hk
    exact inv.nodup j k (by simpa using hj) hk
  · intro j l k m q hj hl hk hm
    exact inv.disjoint j l k m q (by simpa using hj) (by simpa using hl) hk hm
  · intro q
    rw [inv.account q]
    simp

/-- The global epoch is advanced while no flagged control block is one epoch behind. -/
theorem GInv.advance {es : List thread_control_block} {h : Heap} {ths : List GThread}
    {R : List Ptr} {G : Nat} {stamp : Ptr → Nat} {F : Nat → Nat → List Ptr}
    (inv : GInv es h ths R G stamp F)
    (hnb : ∀ cb b, es.get? cb = some b → b.is_in_critical_region = true →
      b.local_epoch ≠ (G + 2) % 3) :
    GInv es h ths R (G + 1) stamp F := by
  have hcur : ∀ cb b, es.get? cb = some b → b.is_in_critical_region = true →
      b.local_epoch = G % 3 := by
    intro cb b hb hf
    rcases inv.flagged cb b hb hf with e | e
    · exact e
    · exact absurd e (hnb cb b hb hf)
  refine ⟨inv.active, ?_, ?_, inv.cb_inj, inv.nodup, inv.disjoint, inv.account, ?_⟩
  · intro cb b hb hf
    right
    rw [hcur cb b hb hf]
    omega
  · intro j thj hj
    have ok := inv.threads j thj hj
    refine ⟨ok.cb_lt, ok.count, ?_, ok.lists, ?_⟩
    · intro hne
      obtain ⟨cb, b, hcb, hb, hf, hv⟩ := ok.inside hne
      refine ⟨cb, b, hcb, hb, hf, fun v hv1 hv2 => ?_⟩
      have h1 := (hv v hv1 hv2).1 (hcur cb b hb hf)
      have h2 := hcur cb b hb hf
      exact ⟨fun e => by omega, by omega⟩
    · intro k hk v hv
      obtain ⟨cb, b, hcb, hb, hG⟩ := ok.bound k hk v hv
      exact ⟨cb, b, hcb, hb, fun G1 h1 h2 _ => hG G1 (by omega) h2 (fun e => by omega)⟩
  · intro v hv
    have := inv.destroyed v hv
    omega

/-- The owner of the control block `cb` stores the current epoch into it and drains the
retire list of that epoch, while none of its guards is on a retired object. -/
theorem GInv.adopt {es : List thread_control_block} {h : Heap} {ths : List GThread}
    {R : List Ptr} {G : Nat} {stamp : Ptr → Nat} {F : Nat → Nat → List Ptr}
    (inv : GInv es h ths R G stamp F) {i cb : Nat} {th : GThread} (u : GThread)
    {b : thread_control_block}
    (hi : ths.get? i = some th)
    (hcb : th.data.control_block = some cb) (hcu : u.data.control_block = some cb)
    (hb : es.get? cb = some b) (hne : b.local_epoch ≠ G % 3)
    (hrl : u.data.retire_lists = fun k => if k = G % 3 then 0 else th.data.retire_lists k)
    (hcount : u.data.enter_count = u.held.length ∧ u.held.length < UINT)
    (hheld : ∀ v ∈ u.held, v ∉ R) :
    GInv (es.set cb { b with is_in_critical_region := true, local_epoch := G % 3 })
      ((F i (G % 3)).foldl delete_one h) (ths.set i u) R G stamp
      (fun j k => if j = i ∧ k = G % 3 then [] else F j k) := by
  have hil : i < ths.length := get_lt hi
  have hg3 : G % 3 < 3 := Nat.mod_lt _ (by decide)
  have oki := inv.threads i th hi
  have hsub : ∀ j k q, q ∈ (if j = i ∧ k = G % 3 then [] else F j k) → q ∈ F j k := by
    intro j k q hq
    split at hq
    · cases hq
    · exact hq
  have hkeep : ∀ j k, j < ths.length → k < 3 → ¬ (j = i ∧ k = G % 3) →
      ∀ q ∈ F j k, ((F i (G % 3)).foldl delete_one h).obj q = h.obj q
        ∧ ((F i (G % 3)).foldl delete_one h).live q = h.live q := by
    intro j k hj hk hn q hq
    have hnot : q ∉ F i (G % 3) := by
      intro hq2
      have := inv.disjoint j i k (G % 3) q hj hil hk hg3 hq hq2
      exact hn this
    exact ⟨foldl_delete_one_obj _ _ hnot, foldl_delete_one_live _ _ hnot⟩
  refine ⟨?_, ?_, ?_, ?_, ?_, ?_, ?_, ?_⟩
  · intro x hx
    rcases List.mem_or_eq_of_mem_set hx with hx | rfl
    · exact inv.active x hx
    · exact inv.active b (List.get?_mem hb)
  · intro cb2 b2 hb2 hf2
    by_cases hc : cb = cb2
    · subst hc
      rw [get_set_same _ hb] at hb2
      cases hb2
      exact Or.inl rfl
    · rw [get_set_ne _ _ hc] at hb2
      exact inv.flagged cb2 b2 hb2 hf2
  · intro j thj hj
    by_cases hji : i = j
    · subst hji
      rw [get_set_same u hi] at hj
      cases hj
      refine ⟨?_, hcount, ?_, ?_, ?_⟩
      · intro c hc
        rw [hcu] at hc
        cases hc
        simpa using get_lt hb
      · intro _
        exact ⟨cb, _, hcu, get_set_same _ hb, rfl, fun v hv hR => absurd hR (hheld v hv)⟩
      · intro k hk
        rw [hrl]
        by_cases hkg : k = G % 3
        · simp only [hkg, and_self, if_true]
          exact Chain.nil
        · simp only [hkg, and_false, if_false]
          exact (oki.lists k hk).transport (hkeep i k hil hk (fun e => hkg e.2))
      · intro k hk v hv
        by_cases hkg : k = G % 3
        · simp [hkg] at hv
        · simp only [hkg, and_false, if_false] at hv
          obtain ⟨cb2, b2, hc2, hb2, hG⟩ := oki.bound k hk v hv
          rw [hcb] at hc2
          cases hc2
          rw [hb] at hb2
          cases hb2
          exact ⟨cb, _, hcu, get_set_same _ hb, fun G1 h1 h2 _ => hG G1 h1 h2 (fun _ => hne)⟩
    · rw [get_set_ne _ _ hji] at hj
      have hjl := get_lt hj
      have hF : (fun k => if j = i ∧ k = G % 3 then [] else F j k) = F j := by
        funext k
        simp [Ne.symm hji]
      rw [hF]
      refine (inv.threads j thj hj).transport_thread (by simp) ?_ ?_ (fun _ _ _ _ => rfl)
        (fun v _ hv => Or.inl ⟨hv, rfl⟩)
      · intro cbj hcbj
        have hne2 : cb ≠ cbj := by
          intro e
          subst e
          exact hji (inv.cb_inj i j th thj cb hi hj hcb hcbj)
        exact get_set_ne _ _ hne2
      · intro k hk q hq
        exact hkeep j k hjl hk (fun e => hji e.1.symm) q hq
  · intro j l thj thl cb2 hj hl hcj hcl
    have hcbu : u.data.control_block = th.data.control_block := by rw [hcu, hcb]
    by_cases hji : i = j
    · subst hji
      rw [get_set_same u hi] at hj
      cases hj
      by_cases hli : i = l
      · exact hli
      · rw [get_set_ne _ _ hli] at hl
        exact inv.cb_inj i l th thl cb2 hi hl (hcbu ▸ hcj) hcl
    · rw [get_set_ne _ _ hji] at hj
      by_cases hli : i = l
      · subst hli
        rw [get_set_same u hi] at hl
        cases hl
        exact inv.cb_inj j i thj th cb2 hj hi hcj (hcbu ▸ hcl)
      · rw [get_set_ne _ _ hli] at hl
        exact inv.cb_inj j l thj thl cb2 hj hl hcj hcl
  · intro j k hj hk
    simp only [List.length_set] at hj
    dsimp only
    split
    · exact List.nodup_nil
    · exact inv.nodup j k hj hk
  · intro j l k m q hj hl hk hm hq1 hq2
    simp only [List.length_set] at hj hl
    exact inv.disjoint j l k m q hj hl hk hm (hsub j k q hq1) (hsub l m q hq2)
  · intro q
    rw [inv.account q, foldl_delete_one_deleted]
    simp only [List.length_set, List.mem_append]
    constructor
    · rintro (⟨j, k, hj, hk, hq⟩ | hq)
      · by_cases hjk : j = i ∧ k = G % 3
        · obtain ⟨rfl, rfl⟩ := hjk
          exact Or.inr (Or.inr hq)
        · exact Or.inl ⟨j, k, hj, hk, by simpa [hjk] using hq⟩
      · exact Or.inr (Or.inl hq)
    · rintro (⟨j, k, hj, hk, hq⟩ | hq | hq)
      · exact Or.inl ⟨j, k, hj, hk, hsub j k q hq⟩
      · exact Or.inr hq
      · exact Or.inl ⟨i, G % 3, hil, hg3, hq⟩
  · intro v hv
    rw [foldl_delete_one_deleted, List.mem_append] at hv
    rcases hv with hv | hv
    · exact inv.destroyed v hv
    · obtain ⟨cb2, b2, hc2, hb2, hG⟩ := oki.bound (G % 3) hg3 v hv
      rw [hcb] at hc2
      cases hc2
      rw [hb] at hb2
      cases hb2
      exact hG G (le_refl _) rfl (fun _ => hne)

/-- A thread that holds a guard retires the user object `p`, which was not retired
before, on the list of its local epoch `e`. -/
theorem GInv.retire {es : List thread_control_block} {h : Heap} {ths : List GThread}
    {R : List Ptr} {G : Nat} {stamp : Ptr → Nat} {F : Nat → Nat → List Ptr}
    (inv : GInv es h ths R G stamp F) {i cb : Nat} {th : GThread} (u : GThread)
    {b : thread_control_block} {p : Ptr} (d : Nat)
    (hi : ths.get? i = some th)
    (hcb : th.data.control_block = some cb) (hcu : u.data.control_block = some cb)
    (hb : es.get? cb = some b) (hheld : th.held ≠ [])
    (hp : p ∉ R) (hlive : h.live p = true) (hu : h.is_user p)
    (hrl : u.data.retire_lists
      = fun k => if k = b.local_epoch then p else th.data.retire_lists k)
    (hec : u.data.enter_count = th.data.enter_count) (hh : u.held = th.held) :
    GInv es ((set_deleter h p d).set_next p (th.data.retire_lists b.local_epoch))
      (ths.set i u) (p :: R) G (fun q => if q = p then G else stamp q)
      (fun j k => if j = i ∧ k = b.local_epoch then p :: F i b.local_epoch else F j k) := by
  have hil : i < ths.length := get_lt hi
  have oki := inv.threads i th hi
  obtain ⟨cb1, b1, hc1, hb1, hflag, hvs⟩ := oki.inside hheld
  rw [hcb] at hc1
  cases hc1
  rw [hb] at hb1
  cases hb1
  have hle := inv.flagged cb b hb hflag
  have he3 : b.local_epoch < 3 := by rcases hle with e | e <;> omega
  have hpF : ∀ j k, j < ths.length → k < 3 → p ∉ F j k := by
    intro j k hj hk hm
    exact hp ((inv.account p).mpr (Or.inl ⟨j, k, hj, hk, hm⟩))
  have hpd : p ∉ h.deleted := fun hm => hp ((inv.account p).mpr (Or.inr hm))
  have hkeep : ∀ j k, j < ths.length → k < 3 → ∀ q ∈ F j k,
      ((set_deleter h p d).set_next p (th.data.retire_lists b.local_epoch)).obj q = h.obj q
      ∧ ((set_deleter h p d).set_next p (th.data.retire_lists b.local_epoch)).live q
          = h.live q := by
    intro j k hj hk q hq
    have hne : q ≠ p := fun e => hpF j k hj hk (e ▸ hq)
    exact ⟨by rw [set_next_obj_ne _ _ hne, set_deleter_obj_ne _ _ hne],
      by simp [set_deleter_live]⟩
  have hstamp : ∀ q, q ∈ R → (if q = p then G else stamp q) = stamp q := by
    intro q hq
    have hne : q ≠ p := fun e => hp (e ▸ hq)
    simp [hne]
  have hFR : ∀ j k, j < ths.length → k < 3 → ∀ q ∈ F j k, q ∈ R :=
    fun j k hj hk q hq => (inv.account q).mpr (Or.inl ⟨j, k, hj, hk, hq⟩)
  have wf : ThreadWF h th.data.retire_lists (F i) :=
    ⟨oki.lists, fun k hk => inv.nodup i k hil hk,
     fun k l hk hl hkl q hq1 hq2 => hkl (inv.disjoint i i k l q hil hil hk hl hq1 hq2).2⟩
  have wf1 : ThreadWF (set_deleter h p d) th.data.retire_lists (F i) :=
    wf.transport_lists fun k hk q hq => by
      have hne : q ≠ p := fun e => hpF i k hil hk (e ▸ hq)
      exact ⟨set_deleter_obj_ne _ _ hne, set_deleter_live _ _ _ _⟩
  have wf2 := wf1.push he3 (by rw [set_deleter_live]; exact hlive) (set_deleter_is_node d hu)
    (fun k hk => hpF i k hil hk)
  have hFi : (fun k => if i = i ∧ k = b.local_epoch then p :: F i b.local_epoch else F i k)
      = fun k => if k = b.local_epoch then p :: F i b.local_epoch else F i k := by
    funext k; simp
  refine ⟨inv.active, inv.flagged, ?_, ?_, ?_, ?_, ?_, ?_⟩
  · intro j thj hj
    by_cases hji : i = j
    · subst hji
      rw [get_set_same u hi] at hj
      cases hj
      rw [hFi]
      refine ⟨?_, by rw [hec, hh]; exact oki.count, ?_, ?_, ?_⟩
      · intro c hc
        rw [hcu] at hc
        cases hc
        exact get_lt hb
      · intro _
        refine ⟨cb, b, hcu, hb, hflag, fun v hv hR => ?_⟩
        rw [hh] at hv
        by_cases hvp : v = p
        · subst hvp
          simp only [if_true]
          exact ⟨fun _ => le_refl _, by omega⟩
        · simp only [hvp, if_false]
          exact hvs v hv (by simpa [hvp] using hR)
      · rw [hrl]
        exact wf2.chain
      · intro k hk v hv
        refine ⟨cb, b, hcu, hb, ?_⟩
        by_cases hkv : k = b.local_epoch ∧ v = p
        · obtain ⟨rfl, rfl⟩ := hkv
          simp only [if_true]
          intro G1 h1 h2 h3
          rcases hle with e | e
          · have : G1 ≠ G := fun e2 => h3 e2 e
            omega
          · omega
        · have hvF : v ∈ F i k := by
            by_cases hk2 : k = b.local_epoch
            · simp only [hk2, if_true, List.mem_cons] at hv
              rcases hv with rfl | hv
              · exact absurd ⟨hk2, rfl⟩ hkv
              · rw [hk2]; exact hv
            · simpa [hk2] using hv
          rw [hstamp v (hFR i k hil hk v hvF)]
          obtain ⟨cb2, b2, hc2, hb2, hG⟩ := oki.bound k hk v hvF
          rw [hcb] at hc2
          cases hc2
          rw [hb] at hb2
          cases hb2
          exact hG
    · rw [get_set_ne _ _ hji] at hj
      have hjl := get_lt hj
      have hF : (fun k => if j = i ∧ k = b.local_epoch then p :: F i b.local_epoch
          else F j k) = F j := by
        funext k
        simp [Ne.symm hji]
      rw [hF]
      refine (inv.threads j thj hj).transport_thread (le_refl _) (fun _ _ => rfl)
        (fun k hk q hq => hkeep j k hjl hk q hq)
        (fun k hk q hq => hstamp q (hFR j k hjl hk q hq)) ?_
      intro v _ hv
      by_cases hvp : v = p
      · subst hvp
        exact Or.inr (by simp)
      · have hvR : v ∈ R := by simpa [hvp] using hv
        exact Or.inl ⟨hvR, hstamp v hvR⟩
  · intro j l thj thl cb2 hj hl hcj hcl
    have hcbu : u.data.control_block = th.data.control_block := by rw [hcu, hcb]
    by_cases hji : i = j
    · subst hji
      rw [get_set_same u hi] at hj
      cases hj
      by_cases hli : i = l
      · exact hli
      · rw [get_set_ne _ _ hli] at hl
        exact inv.cb_inj i l th thl cb2 hi hl (hcbu ▸ hcj) hcl
    · rw [get_set_ne _ _ hji] at hj
      by_cases hli : i = l
      · subst hli
        rw [get_set_same u hi] at hl
        cases hl
        exact inv.cb_inj j i thj th cb2 hj hi hcj (hcbu ▸ hcl)
      · rw [get_set_ne _ _ hli] at hl
        exact inv.cb_inj j l thj thl cb2 hj hl hcj hcl
  · intro j k hj hk
    simp only [List.length_set] at hj
    dsimp only
    split
    · exact List.nodup_cons.mpr ⟨hpF i _ hil he3, inv.nodup i _ hil he3⟩
    · exact inv.nodup j k hj hk
  · intro j l k m q hj hl hk hm hq1 hq2
    simp only [List.length_set] at hj hl
    by_cases h1 : j = i ∧ k = b.local_epoch
    · by_cases h2 : l = i ∧ m = b.local_epoch
      · exact ⟨h1.1.trans h2.1.symm, h1.2.trans h2.2.symm⟩
      · simp only [h1, and_self, if_true, h2, if_false, List.mem_cons] at hq1 hq2
        rcases hq1 with rfl | hq1
        · exact absurd hq2 (hpF l m hl hm)
        · obtain ⟨rfl, rfl⟩ := h1
          exact inv.disjoint j l _ m q hj hl hk hm hq1 hq2
    · by_cases h2 : l = i ∧ m = b.local_epoch
      · simp only [h1, if_false, h2, and_self, if_true, List.mem_cons] at hq1 hq2
        rcases hq2 with rfl | hq2
        · exact absurd hq1 (hpF j k hj hk)
        · obtain ⟨rfl, rfl⟩ := h2
          exact inv.disjoint j l k _ q hj hl hk hm hq1 hq2
      · simp only [h1, if_false, h2] at hq1 hq2
        exact inv.disjoint j l k m q hj hl hk hm hq1 hq2
  · intro q
    have hd : ((set_deleter h p d).set_next p (th.data.retire_lists b.local_epoch)).deleted
        = h.deleted := by simp [set_deleter_deleted]
    rw [hd, List.mem_cons, inv.account q]
    simp only [List.length_set]
    constructor
    · rintro (rfl | ⟨j, k, hj, hk, hq⟩ | hq)
      · exact Or.inl ⟨i, b.local_epoch, hil, he3, by simp⟩
      · refine Or.inl ⟨j, k, hj, hk, ?_⟩
        by_cases h1 : j = i ∧ k = b.local_epoch
        · obtain ⟨rfl, rfl⟩ := h1
          simp [hq]
        · simp [h1, hq]
      · exact Or.inr hq
    · rintro (⟨j, k, hj, hk, hq⟩ | hq)
      · by_cases h1 : j = i ∧ k = b.local_epoch
        · simp only [h1, and_self, if_true, List.mem_cons] at hq
          rcases hq with rfl | hq
          · exact Or.inl rfl
          · exact Or.inr (Or.inl ⟨i, b.local_epoch, hil, he3, hq⟩)
        · simp only [h1, if_false] at hq
          exact Or.inr (Or.inl ⟨j, k, hj, hk, hq⟩)
      · exact Or.inr (Or.inr hq)
  · intro v hv
    have hd : ((set_deleter h p d).set_next p (th.data.retire_lists b.local_epoch)).deleted
        = h.deleted := by simp [set_deleter_deleted]
    rw [hd] at hv
    rw [hstamp v ((inv.account v).mpr (Or.inr hv))]
    exact inv.destroyed v hv

theorem find_inactive_none : ∀ (es : List thread_control_block),
    (∀ b ∈ es, b.active = true) → find_inactive es = none := by
  intro es
  induction es with
  | nil => intro _; rfl
  | cons e es ih =>
    intro h
    have h1 := ih (fun b hb => h b (List.mem_cons_of_mem _ hb))
    have h2 := h e (List.mem_cons_self _ _)
    simp [find_inactive, h1, h2]

theorem do_enter_critical_ensure (U : Nat) {w w0 : World} {t t0 : thread_data} {cb : Nat}
    (h : ensure_has_control_block w t = (w0, t0, cb)) :
    do_enter_critical U w t = do_enter_critical U w0 t0 := by
  have hcb := (ensure_has_control_block_spec h).1
  unfold do_enter_critical
  rw [h, ensure_has_control_block_some hcb]

/-- The thread flags its own control block on a first-level entry; none of its guards is
on a retired object. -/
theorem ThreadOK.enter_flag {es : List thread_control_block} {h : Heap} {R : List Ptr}
    {G : Nat} {stamp : Ptr → Nat} {f : Nat → List Ptr} {th : GThread}
    (ok : ThreadOK es h R G stamp f th) (u : GThread) {cb : Nat} {b : thread_control_block}
    (hcb : th.data.control_block = some cb) (hcu : u.data.control_block = some cb)
    (hb : es.get? cb = some b)
    (hrl : u.data.retire_lists = th.data.retire_lists)
    (hcount : u.data.enter_count = u.held.length ∧ u.held.length < UINT)
    (hheld : ∀ v ∈ u.held, v ∉ R) :
    ThreadOK (es.set cb { b with is_in_critical_region := true }) h R G stamp f u := by
  refine ⟨?_, hcount, ?_, ?_, ?_⟩
  · intro c hc
    rw [hcu] at hc
    cases hc
    simpa using get_lt hb
  · intro _
    exact ⟨cb, _, hcu, get_set_same _ hb, rfl, fun v hv hR => absurd hR (hheld v hv)⟩
  · rw [hrl]; exact ok.lists
  · intro k hk v hv
    obtain ⟨cb2, b2, hc2, hb2, hG⟩ := ok.bound k hk v hv
    rw [hcb] at hc2
    cases hc2
    rw [hb] at hb2
    cases hb2
    exact ⟨cb, _, hcu, get_set_same _ hb, hG⟩

/-- The thread clears the flag of its own control block when its last guard goes. -/
theorem ThreadOK.leave_flag {es : List thread_control_block} {h : Heap} {R : List Ptr}
    {G : Nat} {stamp : Ptr → Nat} {f : Nat → List Ptr} {th : GThread}
    (ok : ThreadOK es h R G stamp f th) (u : GThread) {cb : Nat} {b : thread_control_block}
    (hcb : th.data.control_block = some cb) (hcu : u.data.control_block = some cb)
    (hb : es.get? cb = some b)
    (hrl : u.data.retire_lists = th.data.retire_lists)
    (hec : u.data.enter_count = 0) (hheld : u.held = []) :
    ThreadOK (es.set cb { b with is_in_critical_region := false }) h R G stamp f u := by
  refine ⟨?_, by rw [hec, hheld]; exact ⟨rfl, by decide⟩, ?_, ?_, ?_⟩
  · intro c hc
    rw [hcu] at hc
    cases hc
    simpa using get_lt hb
  · intro hne
    exact absurd hheld hne
  · rw [hrl]; exact ok.lists
  · intro k hk v hv
    obtain ⟨cb2, b2, hc2, hb2, hG⟩ := ok.bound k hk v hv
    rw [hcb] at hc2
    cases hc2
    rw [hb] at hb2
    cases hb2
    exact ⟨cb, _, hcu, get_set_same _ hb, hG⟩

theorem get_of_lt {α : Type} {l : List α} {i : Nat} (h : i < l.length) :
    ∃ y, l.get? i = some y :=
  ⟨l[i], by simp [List.get?_eq_getElem?, List.getElem?_eq_getElem h]⟩

theorem not_blocked_iff {w : World} {G : Nat} (hg : w.global_epoch = G % 3) :
    ¬ Blocked w w.global_epoch ↔
      ∀ cb b, w.entries.get? cb = some b → b.is_in_critical_region = true →
        b.local_epoch ≠ (G + 2) % 3 := by
  have e : (w.global_epoch + 2) % 3 = (G + 2) % 3 := by rw [hg]; omega
  constructor
  · intro hB cb b hb hf hl
    exact hB ⟨b, List.get?_mem hb, hf, by rw [e]; exact hl⟩
  · rintro hn ⟨b, hmem, hf, hl⟩
    obtain ⟨cb, hcb⟩ := List.get?_of_mem hmem
    exact hn cb b hcb hf (by rw [← e]; exact hl)

/-- A first-level entry of a thread that has a control block, with its new guard on an
object that is not retired: `do_enter_critical` returns and the invariant is kept. -/
theorem first_entry_inv (U : Nat) {w : World} {t : thread_data} {ths : List GThread}
    {R : List Ptr} {G : Nat} {stamp : Ptr → Nat} {F : Nat → Nat → List Ptr}
    {i cb : Nat} {th : GThread} {v : Ptr}
    (inv : GInv w.entries w.heap ths R G stamp F)
    (hg : w.global_epoch = G % 3) (h0 : w.abandoned = 0)
    (hi : ths.get? i = some th) (hcb : th.data.control_block = some cb)
    (htc : t.control_block = some cb) (htr : t.retire_lists = th.data.retire_lists)
    (hec : t.enter_count = 1) (hv : v ∉ R) :
    ∃ w1 t1 G1 F1, do_enter_critical U w t = some (w1, t1)
      ∧ w1.global_epoch = G1 % 3 ∧ w1.abandoned = 0
      ∧ GInv w1.entries w1.heap (ths.set i { data := t1, held := [v] }) R G1 stamp F1 := by
  have hil : i < ths.length := get_lt hi
  have oki := inv.threads i th hi
  obtain ⟨b, hb⟩ := get_of_lt (oki.cb_lt cb hcb)
  have hbw : w.tcb cb = some b := hb
  have hg3 : w.global_epoch < 3 := by rw [hg]; exact Nat.mod_lt _ (by decide)
  have hheld : ∀ x ∈ [v], x ∉ R := by
    intro x hx
    rw [List.mem_singleton] at hx
    subst hx
    exact hv
  have hone : (1 : Nat) < UINT := by decide
  by_cases hne : b.local_epoch = w.global_epoch
  · by_cases hu : t.entries_since_update = U
    · by_cases hB : Blocked (w.set_tcb cb { b with is_in_critical_region := true })
          w.global_epoch
      · -- the attempt is refused
        rw [do_enter_critical_blocked U htc hbw hne hg3 hu hB]
        refine ⟨_, _, G, F, rfl, hg, h0, ?_⟩
        refine inv.block_update _ _ hi hcb htc hb (inv.active b (List.get?_mem hb))
          (fun _ => Or.inl (hne.trans hg)) ?_
        exact oki.enter_flag _ hcb htc hb htr ⟨hec, hone⟩ hheld
      · -- the epoch is advanced
        have hd : Drainable w.heap (t.retire_lists ((w.global_epoch + 1) % 3))
            (F i ((w.global_epoch + 1) % 3)) := by
          rw [htr]
          exact ⟨oki.lists _ (Nat.mod_lt _ (by decide)),
            inv.nodup i _ hil (Nat.mod_lt _ (by decide))⟩
        rw [do_enter_critical_advance U htc hbw hne hg3 hu hB h0 hd]
        have e1 : (w.global_epoch + 1) % 3 = (G + 1) % 3 := by rw [hg]; omega
        have inv1 := inv.block_update
          { data := { t with entries_since_update := 0 }, held := [v] }
          { b with is_in_critical_region := true } hi hcb htc hb
          (inv.active b (List.get?_mem hb)) (fun _ => Or.inl (hne.trans hg))
          (oki.enter_flag _ hcb htc hb htr ⟨hec, hone⟩ hheld)
        have hnb := (not_blocked_iff
          (w := w.set_tcb cb { b with is_in_critical_region := true }) (G := G)
          (by simpa using hg)).mp (by simpa using hB)
        have inv2 := inv1.advance (by simpa using hnb)
        have hne2 : ({ b with is_in_critical_region := true } : thread_control_block).local_epoch
            ≠ (G + 1) % 3 := by
          simp only
          rw [hne, hg]
          omega
        have inv3 := inv2.adopt
          { data := { t with entries_since_update := 0,
                             retire_lists := fun k => if k = (G + 1) % 3 then 0
                                                      else t.retire_lists k },
            held := [v] }
          (get_set_same _ hi) htc htc (get_set_same _ hb) hne2 rfl ⟨hec, hone⟩ hheld
        refine ⟨_, _, G + 1, fun j k => if j = i ∧ k = (G + 1) % 3 then [] else F j k,
          rfl, e1, rfl, ?_⟩
        simp only [List.set_set] at inv3
        rw [e1]
        exact inv3
    · -- the threshold is not reached
      rw [do_enter_critical_stale U htc hbw hne hu]
      refine ⟨_, _, G, F, rfl, hg, h0, ?_⟩
      refine inv.block_update _ _ hi hcb htc hb (inv.active b (List.get?_mem hb))
        (fun _ => Or.inl (hne.trans hg)) ?_
      exact oki.enter_flag _ hcb htc hb htr ⟨hec, hone⟩ hheld
  · -- a new epoch is observed
    have hd : Drainable w.heap (t.retire_lists w.global_epoch) (F i w.global_epoch) := by
      rw [htr]
      exact ⟨oki.lists _ hg3, inv.nodup i _ hil hg3⟩
    rw [do_enter_critical_observe U htc hbw hne hg3 hd]
    have inv1 := inv.adopt
      { data := { t with entries_since_update := 0,
                         retire_lists := fun k => if k = G % 3 then 0 else t.retire_lists k },
        held := [v] }
      hi hcb htc hb (by rw [← hg]; exact hne) (by simp only; rw [htr]) ⟨hec, hone⟩ hheld
    refine ⟨_, _, G, fun j k => if j = i ∧ k = G % 3 then [] else F j k, rfl, hg, h0, ?_⟩
    rw [hg]
    exact inv1

theorem sysinv_acquire (U : Nat) {s : GSys} {i : Nat} {v : Ptr} {th : GThread}
    {w1 : World} {t1 : thread_data} (hinv : SysInv s)
    (hi : s.threads.get? i = some th) (hv : v ∉ s.retired ∨ v ∈ th.held)
    (hlen : th.held.length + 1 < UINT)
    (he : enter_critical U s.world th.data = some (w1, t1)) :
    SysInv { world := w1, threads := s.threads.set i { data := t1, held := v :: th.held },
             retired := s.retired } := by
  obtain ⟨G, stamp, F, hg, h0, inv⟩ := hinv
  have oki := inv.threads i th hi
  obtain ⟨hcount, _⟩ := oki.count
  by_cases hh : th.held = []
  · -- a first-level entry
    have hec : th.data.enter_count = 0 := by rw [hcount, hh]; rfl
    have hvR : v ∉ s.retired := by
      rcases hv with hv | hv
      · exact hv
      · rw [hh] at hv; cases hv
    rw [enter_critical_first U s.world hec] at he
    rw [hh]
    cases hcb : th.data.control_block with
    | none =>
      have hens := ensure_has_control_block_new (w := s.world)
        (t := { th.data with enter_count := 1 }) hcb (find_inactive_none _ inv.active)
      rw [do_enter_critical_ensure U hens] at he
      have inv0 := inv.new_block
        { is_in_critical_region := false, local_epoch := number_epochs, active := true }
        hi hcb rfl rfl
      obtain ⟨w2, t2, G1, F1, he2, hg2, h02, inv2⟩ :=
        first_entry_inv U
          (w := { s.world with entries := s.world.entries ++
            [{ is_in_critical_region := false, local_epoch := number_epochs, active := true }] })
          (t := { th.data with enter_count := 1,
                               control_block := some s.world.entries.length })
          (v := v) inv0 hg h0 (get_set_same _ hi) rfl rfl rfl rfl hvR
      rw [he2] at he
      cases he
      rw [List.set_set] at inv2
      exact ⟨G1, stamp, F1, hg2, h02, inv2⟩
    | some cb =>
      obtain ⟨w2, t2, G1, F1, he2, hg2, h02, inv2⟩ :=
        first_entry_inv U (w := s.world) (t := { th.data with enter_count := 1 }) (v := v)
          inv hg h0 hi hcb hcb rfl rfl hvR
      rw [he2] at he
      cases he
      exact ⟨G1, stamp, F1, hg2, h02, inv2⟩
  · -- a nested entry
    have hpos : 0 < th.data.enter_count := by
      rw [hcount]; exact List.length_pos.mpr hh
    have hlt : th.data.enter_count < UINT := by rw [hcount]; omega
    rw [enter_critical_nested U s.world hpos hlt] at he
    cases he
    refine ⟨G, stamp, F, hg, h0, inv.thread_only _ hi rfl ?_⟩
    refine ⟨oki.cb_lt, ?_, ?_, oki.lists, oki.bound⟩
    · simp only [List.length_cons]
      rw [hcount, Nat.mod_eq_of_lt hlen]
      exact ⟨rfl, hlen⟩
    · intro _
      obtain ⟨cb, b, hcb, hb, hf, hvs⟩ := oki.inside hh
      refine ⟨cb, b, hcb, hb, hf, fun x hx hxR => ?_⟩
      rcases List.mem_cons.mp hx with rfl | hx
      · rcases hv with hv | hv
        · exact absurd hxR hv
        · exact hvs x hv hxR
      · exact hvs x hx hxR

theorem sysinv_release {s : GSys} {i : Nat} {v : Ptr} {th : GThread}
    {w1 : World} {t1 : thread_data} (hinv : SysInv s)
    (hi : s.threads.get? i = some th) (hv : v ∈ th.held)
    (he : leave_critical s.world th.data = some (w1, t1)) :
    SysInv { world := w1, threads := s.threads.set i { data := t1, held := th.held.erase v },
             retired := s.retired } := by
  obtain ⟨G, stamp, F, hg, h0, inv⟩ := hinv
  have oki := inv.threads i th hi
  obtain ⟨hcount, hlt⟩ := oki.count
  have hh : th.held ≠ [] := List.ne_nil_of_mem hv
  have hlen := List.length_erase_of_mem hv
  obtain ⟨cb, b, hcb, hb, hf, hvs⟩ := oki.inside hh
  by_cases h1 : th.held.length = 1
  · -- the last guard goes
    have hec : th.data.enter_count = 1 := by rw [hcount, h1]
    rw [leave_critical_last hec] at he
    have hd := @do_leave_critical_eq s.world { th.data with enter_count := 0 } cb b hcb hb
    rw [hd] at he
    cases he
    refine ⟨G, stamp, F, hg, h0, ?_⟩
    have hnil : th.held.erase v = [] := by
      apply List.eq_nil_of_length_eq_zero
      rw [hlen, h1]
    refine inv.block_update _ _ hi hcb hcb hb (inv.active b (List.get?_mem hb))
      (fun hc => by cases hc) ?_
    exact oki.leave_flag _ hcb hcb hb rfl rfl hnil
  · -- a nested guard goes
    have hpos : 0 < th.held.length := List.length_pos.mpr hh
    have hlt1 : 1 < th.data.enter_count := by rw [hcount]; omega
    have hlt2 : th.data.enter_count < UINT := by rw [hcount]; exact hlt
    rw [leave_critical_nested hlt1 hlt2] at he
    cases he
    refine ⟨G, stamp, F, hg, h0, inv.thread_only _ hi rfl ?_⟩
    refine ⟨oki.cb_lt, ?_, ?_, oki.lists, oki.bound⟩
    · simp only
      rw [hlen, hcount]
      exact ⟨rfl, by omega⟩
    · intro _
      exact ⟨cb, b, hcb, hb, hf, fun x hx hxR => hvs x (List.mem_of_mem_erase hx) hxR⟩

theorem sysinv_retire (U : Nat) {s : GSys} {i : Nat} {v : Ptr} {d : Nat} {th : GThread}
    {w1 : World} {t1 : thread_data} (hinv : SysInv s)
    (hi : s.threads.get? i = some th) (hv : v ∈ th.held)
    (hR : v ∉ s.retired) (hu : s.world.heap.is_user v)
    (he : exec_calls U [Call.set_deleter v d, Call.add_retired_node v] s.world th.data
      = some (w1, t1)) :
    SysInv { world := w1, threads := s.threads.set i { data := t1, held := th.held },
             retired := v :: s.retired } := by
  obtain ⟨G, stamp, F, hg, h0, inv⟩ := hinv
  have oki := inv.threads i th hi
  have hh : th.held ≠ [] := List.ne_nil_of_mem hv
  obtain ⟨cb, b, hcb, hb, hf, hvs⟩ := oki.inside hh
  have hle := inv.flagged cb b hb hf
  have he3 : b.local_epoch < number_epochs := by
    unfold number_epochs
    rcases hle with e | e <;> omega
  by_cases hl : s.world.heap.live v = true
  · have hl2 : (set_deleter s.world.heap v d).live v = true := by
      rw [set_deleter_live]; exact hl
    have htcb : ({ s.world with heap := set_deleter s.world.heap v d } : World).tcb cb
        = some b := hb
    simp only [exec_calls, Call.exec, hl, if_true, add_retired_node, hcb, htcb,
      add_retired_node_at, he3, hl2] at he
    cases he
    exact ⟨G, fun q => if q = v then G else stamp q, _, hg, h0,
      inv.retire _ d hi hcb rfl hb hh hR hl hu rfl rfl rfl⟩
  · simp [exec_calls, Call.exec, hl] at he

theorem sysinv_reclaim (U : Nat) {s : GSys} {i : Nat} {v : Ptr} {d : Nat} {th : GThread}
    {w1 : World} {t1 : thread_data} (hinv : SysInv s)
    (hi : s.threads.get? i = some th) (hv : v ∈ th.held)
    (hR : v ∉ s.retired) (hu : s.world.heap.is_user v)
    (he : exec_calls U [Call.set_deleter v d, Call.add_retired_node v, Call.leave_critical]
      s.world th.data = some (w1, t1)) :
    SysInv { world := w1, threads := s.threads.set i { data := t1, held := th.held.erase v },
             retired := v :: s.retired } := by
  have he2 : exec_calls U ([Call.set_deleter v d, Call.add_retired_node v]
      ++ [Call.leave_critical]) s.world th.data = some (w1, t1) := he
  rw [exec_calls_append] at he2
  cases hr : exec_calls U [Call.set_deleter v d, Call.add_retired_node v] s.world th.data with
  | none => rw [hr] at he2; cases he2
  | some r =>
    obtain ⟨w2, t2⟩ := r
    rw [hr, Option.some_bind, exec_calls_single] at he2
    have inv2 := sysinv_retire U hinv hi hv hR hu hr
    have inv3 := sysinv_release (v := v) inv2 (get_set_same _ hi) hv he2
    simp only [List.set_set] at inv3
    exact inv3

theorem sysinv_start (h0 : Heap) (n : Nat) (hc : h0.calls = []) :
    SysInv { world := World.init h0,
             threads := List.replicate n { data := thread_data.init, held := [] },
             retired := [] } := by
  refine ⟨0, fun _ => 0, fun _ _ => [], rfl, rfl, ?_⟩
  have hd : h0.deleted = [] := by unfold Heap.deleted; rw [hc]; rfl
  have hth : ∀ i th,
      (List.replicate n ({ data := thread_data.init, held := [] } : GThread)).get? i = some th →
      th = { data := thread_data.init, held := [] } :=
    fun i th hi => List.eq_of_mem_replicate (List.get?_mem hi)
  refine ⟨?_, ?_, ?_, ?_, ?_, ?_, ?_, ?_⟩
  · intro b hb; cases hb
  · intro cb b hb; simp [World.init] at hb
  · intro i th hi
    rw [hth i th hi]
    refine ⟨?_, ⟨rfl, by decide⟩, ?_, fun _ _ => Chain.nil, ?_⟩
    · intro cb hcb; cases hcb
    · intro hne; exact absurd rfl hne
    · intro k _ v hv; cases hv
  · intro i j thi thj cb hi _ hci _
    rw [hth i thi hi] at hci
    cases hci
  · intro _ _ _ _; exact List.nodup_nil
  · intro i j k l q _ _ _ _ hq; cases hq
  · intro q
    simp [World.init, hd]
  · intro v hv
    simp [World.init, hd] at hv

/-- Every reachable state satisfies the invariant. -/
theorem greach_inv (U : Nat) (h0 : Heap) (n : Nat) (hc : h0.calls = []) {s : GSys}
    (r : GReach U h0 n s) : SysInv s := by
  induction r with
  | start => exact sysinv_start h0 n hc
  | acquire i v _ hi hv hlen he ih => exact sysinv_acquire U ih hi hv hlen he
  | release i v _ hi hv he ih => exact sysinv_release ih hi hv he
  | reclaim i v d _ hi hv hR hu he ih => exact sysinv_reclaim U ih hi hv hR hu he

/-- Whole guard operations.  Threads run whole guard operations (no thread is preempted
inside one, and no thread exits), every thread holds fewer than `2 ^ 32` guards at a
time, a guard is acquired on an object only while the object is not yet retired (or while
the thread already holds a guard on it), and no object is retired twice.  Then in every
interleaving, while a thread holds a non-null guard on `v`, `delete_self` has not been
invoked on `v`: no thread has drained a retire list containing `v`.  Moreover
`enter_count` of every thread is the number of its guards. -/
theorem whole_operations_protect_guarded_nodes
    (U : Nat) (h0 : Heap) (n : Nat) (hc : h0.calls = []) (s : GSys)
    (r : GReach U h0 n s) :
    ∀ i th, s.threads.get? i = some th →
      th.data.enter_count = th.held.length
        ∧ ∀ v ∈ th.held, v ∉ s.world.heap.deleted := by
  obtain ⟨G, stamp, F, _, _, inv⟩ := greach_inv U h0 n hc r
  intro i th hi
  have oki := inv.threads i th hi
  refine ⟨oki.count.1, fun v hv hd => ?_⟩
  obtain ⟨cb, b, _, _, _, hvs⟩ := oki.inside (List.ne_nil_of_mem hv)
  have h1 := (hvs v hv ((inv.account v).mpr (Or.inr hd))).2
  have h2 := inv.destroyed v hd
  omega

/-- Two threads running whole guard operations: both acquire a guard on the object `4`,
and the first retires it through its guard; the second still holds its guard. -/
theorem whole_operations_two_threads :
    heap8.calls = []
    ∧ ∃ s, GReach 0 heap8 2 s
      ∧ 4 ∈ s.retired
      ∧ (∃ th, s.threads.get? 1 = some th ∧ 4 ∈ th.held)
      ∧ ∀ i th, s.threads.get? i = some th →
          th.data.enter_count = th.held.length
            ∧ ∀ v ∈ th.held, v ∉ s.world.heap.deleted :=
  have r := GReach.reclaim 0 4 0
    (GReach.acquire 1 4
      (GReach.acquire 0 4 (GReach.start : GReach 0 heap8 2 _) rfl (Or.inl (by simp))
        (by decide) rfl)
      rfl (Or.inl (by simp)) (by decide) rfl)
    rfl (by simp) (by simp) (fun _ _ _ _ h => by cases h) rfl
  ⟨rfl, _, r, by simp, ⟨_, rfl, by simp⟩,
   whole_operations_protect_guarded_nodes 0 heap8 2 rfl _ r⟩

theorem run_sys2 :
    sys_run 0 2 [(0, .acquire 4), (0, .reclaim 0), (0, .acquire 8), (0, .reset)] sys2
      = some sysL1 := by
  rfl

theorem run_sysL1 :
    sys_run 0 2 [(0, .acquire 8), (0, .reset), (1, .acquire 4)] sysL1 = some sysL2 := by
  rfl

theorem run_sysL2 :
    (sys_run 0 2 [(0, .acquire 8)] sysL2).map Sys.observe
      = some (0, [4], [(8, 1, true, 0, 0, 0), (4, 1, true, 0, 0, 0)]) := by
  rfl

/-- A guard acquired on an object that is already retired does not protect it.  Two
threads use `epoch_based<0>` through guards, by whole guard operations.  Thread `0`
retires the object `4` and advances the epoch twice; after these 6 steps and the
acquisition by thread `1` of a guard on `4`, nothing is destroyed, `4` is queued on
`retire_lists[0]` of thread `0`, and thread `1` holds a non-null guard on `4`.  The next
entry of thread `0` advances the epoch and drains that list: `delete_self` runs on `4`
while thread `1` holds its guard on `4`. -/
theorem late_guard_destroys_guarded_node :
    (sys_run 0 2 (late_guard_schedule.take 7) sys2).map Sys.observe
        = some (2, [], [(0, 0, false, 4, 0, 0), (4, 1, true, 0, 0, 0)])
    ∧ (sys_run 0 2 late_guard_schedule sys2).map Sys.observe
        = some (0, [4], [(8, 1, true, 0, 0, 0), (4, 1, true, 0, 0, 0)]) := by
  have e7 : late_guard_schedule.take 7
      = [(0, .acquire 4), (0, .reclaim 0), (0, .acquire 8), (0, .reset)]
        ++ [(0, .acquire 8), (0, .reset), (1, .acquire 4)] := rfl
  have e8 : late_guard_schedule
      = [(0, .acquire 4), (0, .reclaim 0), (0, .acquire 8), (0, .reset)]
        ++ ([(0, .acquire 8), (0, .reset), (1, .acquire 4)] ++ [(0, .acquire 8)]) := rfl
  constructor
  · rw [e7, sys_run_append, run_sys2, Option.some_bind, run_sysL1]
    rfl
  · rw [e8, sys_run_append, run_sys2, Option.some_bind, sys_run_append, run_sysL1,
      Option.some_bind]
    exact run_sysL2

/-! ## C12: the marked pointer round trip -/

theorem markMask_eq (N : Nat) : MarkMask N = 2 ^ N - 1 := by
  simp [MarkMask, Nat.one_shiftLeft]

theorem testBit_of_lt_two_pow {x k i : Nat} (h : x < 2 ^ k) (hi : k ≤ i) :
    x.testBit i = false :=
  Nat.testBit_lt_two_pow (lt_of_lt_of_le h (Nat.pow_le_pow_right (by decide) hi))

/-- The bits of `~MarkMask` in a 64 bit word. -/
theorem testBit_not_markMask (N i : Nat) :
    (UINTPTR - 1 - MarkMask N).testBit i = (decide (N ≤ i) && decide (i < 64)) := by
  rw [markMask_eq]
  by_cases hN : N ≤ 64
  · have e : UINTPTR - 1 - (2 ^ N - 1) = 2 ^ N * (2 ^ (64 - N) - 1) := by
      have h1 : (2 : Nat) ^ N * 2 ^ (64 - N) = UINTPTR := by
        rw [← pow_add, Nat.add_sub_cancel' hN]; rfl
      have h2 : 1 ≤ (2 : Nat) ^ N := Nat.one_le_two_pow
      have h3 : 1 ≤ (2 : Nat) ^ (64 - N) := Nat.one_le_two_pow
      rw [Nat.mul_sub, Nat.mul_one, h1]
      omega
    rw [e, Nat.testBit_mul_pow_two, Nat.testBit_two_pow_sub_one]
    by_cases h1 : N ≤ i
    · simp only [ge_iff_le, h1, decide_True, Bool.true_and]
      congr 1
      apply propext
      omega
    · simp [h1]
  · have hle : UINTPTR - 1 ≤ 2 ^ N - 1 := by
      have : UINTPTR ≤ 2 ^ N := by
        have := Nat.pow_le_pow_right (by decide : 0 < 2) (by omega : 64 ≤ N)
        exact this
      omega
    rw [Nat.sub_eq_zero_of_le hle, Nat.zero_testBit]
    by_cases h1 : N ≤ i
    · have : ¬ i < 64 := by omega
      simp [this]
    · simp [h1]

theorem marked_ptr_round_trip (N p m : Nat) (hp : p &&& MarkMask N = 0)
    (hm : m ≤ MarkMask N) (hlt : p < UINTPTR) :
    marked_ptr.mk N p m = some (p ||| m)
      ∧ marked_ptr.get N (p ||| m) = p ∧ marked_ptr.mark N (p ||| m) = m := by
  have hpb : ∀ i, i < N → p.testBit i = false := by
    intro i hi
    have := congrArg (fun x => x.testBit i) hp
    simp only [markMask_eq, Nat.testBit_and, Nat.testBit_two_pow_sub_one, Nat.zero_testBit,
      hi, decide_True, Bool.and_true] at this
    exact this
  have hm2 : m < 2 ^ N := by
    rw [markMask_eq] at hm
    have : 1 ≤ (2 : Nat) ^ N := Nat.one_le_two_pow
    omega
  have hmb : ∀ i, N ≤ i → m.testBit i = false := fun i hi => testBit_of_lt_two_pow hm2 hi
  have hp64 : ∀ i, 64 ≤ i → p.testBit i = false :=
    fun i hi => testBit_of_lt_two_pow (k := 64) hlt hi
  refine ⟨by simp [marked_ptr.mk, hm, hp], ?_, ?_⟩
  · apply Nat.eq_of_testBit_eq
    intro i
    simp only [marked_ptr.get, Nat.testBit_and, Nat.testBit_or, testBit_not_markMask]
    by_cases h1 : N ≤ i
    · by_cases h2 : i < 64
      · simp [h1, h2, hmb i h1]
      · simp [h1, h2, hp64 i (by omega)]
    · simp [h1, hpb i (by omega)]
  · apply Nat.eq_of_testBit_eq
    intro i
    simp only [marked_ptr.mark, markMask_eq, Nat.testBit_and, Nat.testBit_or,
      Nat.testBit_two_pow_sub_one]
    by_cases h1 : i < N
    · simp [h1, hpb i h1]
    · simp [h1, hmb i (by omega)]

/-- C12. Marked-pointer round trip: for every number of mark bits `N`, every pointer
`p` (a 64 bit word) whose `N` low bits are zero and every mark `m <= 2^N - 1`, the
constructor `marked_ptr(p, m)` passes its two assertions, `marked_ptr(p, m).get() == p`
and `marked_ptr(p, m).mark() == m`; a guard constructed from that marked pointer holds
the same word, so its `get()` and `mark()` return `p` and `m` as well. -/
theorem C12_marked_ptr_round_trip (N p m : Nat) (hp : p &&& MarkMask N = 0)
    (hm : m ≤ MarkMask N) (hlt : p < UINTPTR) :
    ∃ mp, marked_ptr.mk N p m = some mp
      ∧ marked_ptr.get N mp = p ∧ marked_ptr.mark N mp = m
      ∧ marked_ptr.get N (guard_ptr.ctor mp).1 = p
      ∧ marked_ptr.mark N (guard_ptr.ctor mp).1 = m := by
  obtain ⟨h1, h2, h3⟩ := marked_ptr_round_trip N p m hp hm hlt
  exact ⟨p ||| m, h1, h2, h3, h2, h3⟩

/-- Instance of C12: the object `4` with the mark `3` and two mark bits (the marked
pointer of the test harness). -/
theorem C12_witness :
    4 &&& MarkMask 2 = 0 ∧ 3 ≤ MarkMask 2 ∧ 4 < UINTPTR
    ∧ ∃ mp, marked_ptr.mk 2 4 3 = some mp
      ∧ marked_ptr.get 2 mp = 4 ∧ marked_ptr.mark 2 mp = 3
      ∧ marked_ptr.get 2 (guard_ptr.ctor mp).1 = 4
      ∧ marked_ptr.mark 2 (guard_ptr.ctor mp).1 = 3 :=
  ⟨by decide, by decide, by decide,
   C12_marked_ptr_round_trip 2 4 3 (by decide) (by decide) (by decide)⟩

/-! ## C13 to C17: the member functions of `guard_ptr` -/

theorem marked_ptr_get_zero (N : Nat) : marked_ptr.get N 0 = 0 := by
  simp [marked_ptr.get]

theorem marked_ptr_mark_zero (N : Nat) : marked_ptr.mark N 0 = 0 := by
  simp [marked_ptr.mark]

/-- C13. For every guard (a marked pointer word `ptr`, with any number `N` of mark
bits), after `reset()` the guard is null: its word is `0`, so `get() == nullptr` and
`mark() == 0`.  `reset()` calls `leave_critical` exactly once if the guard was non-null
and makes no call at all if it was null; a second `reset()` makes no call and leaves the
guard null, and run on any engine state it changes nothing. -/
theorem C13_reset_makes_guard_null (N ptr : Nat) :
    (guard_ptr.reset ptr).1 = 0
      ∧ marked_ptr.get N (guard_ptr.reset ptr).1 = 0
      ∧ marked_ptr.mark N (guard_ptr.reset ptr).1 = 0
      ∧ (guard_ptr.reset ptr).2 = (if ptr ≠ 0 then [Call.leave_critical] else [])
      ∧ leaves (guard_ptr.reset ptr).2 = (if ptr ≠ 0 then 1 else 0)
      ∧ enters (guard_ptr.reset ptr).2 = 0
      ∧ guard_ptr.reset (guard_ptr.reset ptr).1 = (0, [])
      ∧ ∀ (U : Nat) (w : World) (t : thread_data),
          exec_calls U (guard_ptr.reset (guard_ptr.reset ptr).1).2 w t = some (w, t) := by
  refine ⟨rfl, marked_ptr_get_zero N, marked_ptr_mark_zero N, rfl, ?_, ?_, rfl,
    fun _ _ _ => rfl⟩
  · by_cases h : ptr = 0 <;> simp [guard_ptr.reset, h]
  · by_cases h : ptr = 0 <;> simp [guard_ptr.reset, h]

/-- C15. The call `guard.acquire(p)` on a guard holding `ptr`, when the field holds the
value `v` at both loads: if `v` is null the guard becomes null and the only call is one
`leave_critical` when the guard was non-null before; if `v` is non-null the guard ends
holding exactly `v` and the only call is one `enter_critical` when the guard was null
before.  If the second load returns null although the first returned the non-null
`first`, the guard ends null, `enter_critical` is called only when the guard was null
before, and exactly one `leave_critical` follows. -/
theorem C15_acquire (ptr v first : Nat) :
    guard_ptr.acquire ptr v v
        = (if v = 0 then (0, if ptr ≠ 0 then [Call.leave_critical] else [])
           else (v, if ptr = 0 then [Call.enter_critical] else []))
      ∧ (if first = 0 then True
         else guard_ptr.acquire ptr first 0
                = (0, (if ptr = 0 then [Call.enter_critical] else []) ++ [Call.leave_critical])
              ∧ leaves (guard_ptr.acquire ptr first 0).2 = 1) := by
  constructor
  · by_cases hv : v = 0
    · simp [guard_ptr.acquire, guard_ptr.reset, hv]
    · simp [guard_ptr.acquire, hv]
  · by_cases hf : first = 0
    · simp [hf]
    · by_cases hp : ptr = 0 <;> simp [guard_ptr.acquire, hf, hp, leaves]

/-- C16 (as stated, refuted). A null guard calls `acquire_if_equal` with
`expected = 4`; the first load returns `4`, the reload returns `8`.  The first snapshot
equals `expected`, yet the function returns `false` (after `enter_critical` and
`leave_critical`, the guard being null). -/
theorem C16_counterexample :
    guard_ptr.acquire_if_equal 0 4 4 8
      = (false, 0, [Call.enter_critical, Call.leave_critical])
    ∧ decide ((4 : Nat) = 4) = true := by
  decide

/-- C16 (amended). For every first snapshot `first`, every reloaded value `second` and
every `expected`: on the early exit (`first` null or different from `expected`)
`acquire_if_equal` returns `first == expected`; otherwise it returns whether the
reloaded value equals `expected`.  So when the reload mismatches `expected` (is null or
differs from it) it undoes the entry, exactly one `leave_critical` being called and the
guard left null, and returns `false`, although the first snapshot equalled `expected`. -/
theorem C16_acquire_if_equal_result (ptr expected first second : Nat) :
    (guard_ptr.acquire_if_equal ptr expected first second).1
        = (if first = 0 ∨ first ≠ expected then decide (first = expected)
           else decide (second = expected))
      ∧ (if first = 0 ∨ first ≠ expected then True
         else if second = expected then True
         else guard_ptr.acquire_if_equal ptr expected first second
                = (false, 0,
                   (if ptr = 0 then [Call.enter_critical] else []) ++ [Call.leave_critical])
              ∧ leaves (guard_ptr.acquire_if_equal ptr expected first second).2.2 = 1) := by
  by_cases h1 : first = 0 ∨ first ≠ expected
  · simp [guard_ptr.acquire_if_equal, h1]
  · have hf : first ≠ 0 := fun e => h1 (Or.inl e)
    have he : first = expected := not_not.mp fun e => h1 (Or.inr e)
    have hx : expected ≠ 0 := he ▸ hf
    by_cases h2 : second = expected
    · simp [guard_ptr.acquire_if_equal, h1, h2, hx]
    · have h3 : second = 0 ∨ second ≠ expected := Or.inr h2
      by_cases hp : ptr = 0 <;>
        simp [guard_ptr.acquire_if_equal, h1, h2, h3, hp, leaves, Ne.symm hx]

/-- C17 (as stated, refuted). `acquire_if_equal` with `expected` null on a field that
holds null leaves on its first comparison and returns `true`. -/
theorem C17_counterexample :
    guard_ptr.acquire_if_equal 0 0 0 0 = (true, 0, []) := by
  decide

/-- C17 (amended). Whenever `acquire_if_equal` leaves on its first comparison (the
relaxed snapshot `first` is null or differs from `expected`), it has not called
`enter_critical`: its only calls are those of `reset()` (one `leave_critical` if the
guard was non-null), the guard ends null, and the return value is `first == expected`,
which is `true` exactly when the snapshot and `expected` are both null and `false` in
every other case. -/
theorem C17_early_exit (ptr expected first second : Nat)
    (h : first = 0 ∨ first ≠ expected) :
    guard_ptr.acquire_if_equal ptr expected first second
        = (decide (first = 0 ∧ expected = 0), 0,
           if ptr ≠ 0 then [Call.leave_critical] else [])
      ∧ enters (guard_ptr.acquire_if_equal ptr expected first second).2.2 = 0 := by
  have e : decide (first = expected) = decide (first = 0 ∧ expected = 0) := by
    rcases h with h | h
    · subst h
      by_cases hx : expected = 0
      · simp [hx]
      · simp [hx, Ne.symm hx]
    · simp only [h, decide_False]
      symm
      rw [decide_eq_false_iff_not]
      rintro ⟨a, b⟩
      exact h (a.trans b.symm)
  constructor
  · simp only [guard_ptr.acquire_if_equal, h, if_true, e]
    rfl
  · by_cases hp : ptr = 0 <;> simp [guard_ptr.acquire_if_equal, h, guard_ptr.reset, hp, enters]

/-- Instance of C17: a guard holding `4` meets the snapshot `8` while expecting `4`. -/
theorem C17_witness :
    ((8 : Nat) = 0 ∨ (8 : Nat) ≠ 4)
    ∧ guard_ptr.acquire_if_equal 4 4 8 8 = (false, 0, [Call.leave_critical])
    ∧ enters (guard_ptr.acquire_if_equal 4 4 8 8).2.2 = 0 :=
  ⟨by decide, (C17_early_exit 4 4 8 8 (by decide)).1, (C17_early_exit 4 4 8 8 (by decide)).2⟩

/-! ## C18: destruction of the thread state -/

theorem call_exec_keeps_block_or_lists (U : Nat) (c : Call) {w w1 : World}
    {t t1 : thread_data} (h : c.exec U w t = some (w1, t1))
    (h0 : t.control_block = none → ∀ i, t.retire_lists i = 0) :
    t1.control_block = none → ∀ i, t1.retire_lists i = 0 := by
  cases c with
  | enter_critical =>
    simp only [Call.exec, enter_critical] at h
    split at h
    · have hf := (do_enter_critical_flag h).1
      intro hn
      simp [thread_data.in_critical_region, hn] at hf
    · cases h
      exact h0
  | leave_critical =>
    simp only [Call.exec, leave_critical] at h
    split at h
    · split at h
      · simp only [do_leave_critical] at h
        split at h
        · cases h
        · rename_i cb hcb
          intro hn
          split at h
          · cases h
          · cases h
            rw [hcb] at hn
            cases hn
      · cases h
        exact h0
    · cases h
  | set_deleter p d =>
    simp only [Call.exec] at h
    split at h
    · cases h
      exact h0
    · cases h
  | add_retired_node p =>
    simp only [Call.exec, add_retired_node] at h
    split at h
    · cases h
    · rename_i cb hcb
      split at h
      · cases h
      · have := (add_retired_node_at_frame h).2.2.2.2.1
        intro hn
        rw [this, hcb] at hn
        cases hn

/-- A thread that has no control block has nothing queued: this holds after every
sequence of calls made by guards on a thread that started with it. -/
theorem exec_calls_keeps_block_or_lists (U : Nat) (cs : List Call) :
    ∀ {w w1 : World} {t t1 : thread_data}, exec_calls U cs w t = some (w1, t1) →
      (t.control_block = none → ∀ i, t.retire_lists i = 0) →
      t1.control_block = none → ∀ i, t1.retire_lists i = 0 := by
  induction cs with
  | nil =>
    intro w w1 t t1 h h0
    simp only [exec_calls] at h
    cases h
    exact h0
  | cons c cs ih =>
    intro w w1 t t1 h h0
    simp only [exec_calls] at h
    split at h
    · cases h
    · rename_i w2 t2 hc
      exact ih h (call_exec_keeps_block_or_lists U c hc h0)

/-- C18 (as stated, refuted). A new thread enters and leaves a critical region once and
retires nothing.  It has a control block attached (number `0`), yet its destructor pushes
no orphan: the orphan list stays empty and no object is allocated; only the control
block is released. -/
theorem C18_counterexample :
    (exec_calls 0 [Call.enter_critical, Call.leave_critical]
        (World.init heap8) thread_data.init).map (fun r => r.2.control_block) = some (some 0)
    ∧ ((exec_calls 0 [Call.enter_critical, Call.leave_critical]
          (World.init heap8) thread_data.init).bind
        (fun r => thread_data.dtor r.1 r.2)).map
        (fun w => (w.abandoned, w.heap.top, w.entries))
      = some (0, 8, [{ is_in_critical_region := false, local_epoch := 0, active := false }]) := by
  constructor <;> rfl

/-- C18 (amended). On destruction of a thread's local state (`~thread_data`, with the
global epoch in range): nothing is done exactly when no control block is attached, and
every retire list is then empty (for every thread that started with a default
constructed state).  When a control block is attached (and, as the destructor asserts,
not in a critical region) and some retire list is non-empty, a new orphan record holding
the three retire lists and the target epoch `(global_epoch + 2) mod 3` is pushed on the
registry's orphan list, and the control block is released.  When a control block is
attached and every retire list is empty, no orphan is created: only the control block is
released. -/
theorem C18_thread_exit (w : World) (t : thread_data) (hg : w.global_epoch < 3) :
    (t.control_block = none → thread_data.dtor w t = some w)
    ∧ (∀ (U : Nat) (cs : List Call) (w0 : World),
        exec_calls U cs w0 thread_data.init = some (w, t) →
        t.control_block = none → ∀ i, t.retire_lists i = 0)
    ∧ (∀ cb b, t.control_block = some cb → w.tcb cb = some b →
        b.is_in_critical_region = false →
        (b.active = true → thread_data.dtor w t ≠ some w)
        ∧ ((t.retire_lists 0 ≠ 0 ∨ t.retire_lists 1 ≠ 0 ∨ t.retire_lists 2 ≠ 0) →
            thread_data.dtor w t
              = some { global_epoch := w.global_epoch,
                       entries := w.entries.set cb
                         { b with is_in_critical_region := false, active := false },
                       abandoned := w.heap.top + 1,
                       heap :=
                         { obj := fun q =>
                             if q = w.heap.top + 1 then
                               { next := w.abandoned,
                                 kind := .orphan ((w.global_epoch + 2) % 3)
                                   (t.retire_lists 0) (t.retire_lists 1) (t.retire_lists 2) }
                             else w.heap.obj q,
                           top := w.heap.top + 1,
                           calls := w.heap.calls },
                       update_attempts := w.update_attempts })
        ∧ (¬ (t.retire_lists 0 ≠ 0 ∨ t.retire_lists 1 ≠ 0 ∨ t.retire_lists 2 ≠ 0) →
            thread_data.dtor w t
              = some { w with
                       entries := w.entries.set cb
                         { b with is_in_critical_region := false, active := false } })) := by
  refine ⟨fun hn => by simp [thread_data.dtor, hn], ?_, ?_⟩
  · intro U cs w0 h
    exact exec_calls_keeps_block_or_lists U cs h (fun _ _ => rfl)
  · intro cb b hcb hb hf
    have hlt := tcb_lt hb
    have hte : ((w.global_epoch + number_epochs) % UINT + UINT - 1) % UINT % number_epochs
        = (w.global_epoch + 2) % 3 := old_epoch_of_lt hg
    have hrel : ∀ v : World, v.tcb cb = some b →
        release_entry v cb
          = { v with
              entries := v.entries.set cb
                { b with is_in_critical_region := false, active := false } } := by
      intro v hv
      simp [release_entry, hv, World.set_tcb]
    have h3 : ¬ (t.retire_lists 0 ≠ 0 ∨ t.retire_lists 1 ≠ 0 ∨ t.retire_lists 2 ≠ 0) →
        thread_data.dtor w t
          = some { w with
                   entries := w.entries.set cb
                     { b with is_in_critical_region := false, active := false } } := by
      intro hl
      simp only [thread_data.dtor, hcb, hl, if_false, hb, hf]
      rw [hrel w hb]
      simp
    have h2 : (t.retire_lists 0 ≠ 0 ∨ t.retire_lists 1 ≠ 0 ∨ t.retire_lists 2 ≠ 0) →
        thread_data.dtor w t
          = some { global_epoch := w.global_epoch,
                   entries := w.entries.set cb
                     { b with is_in_critical_region := false, active := false },
                   abandoned := w.heap.top + 1,
                   heap :=
                     { obj := fun q =>
                         if q = w.heap.top + 1 then
                           { next := w.abandoned,
                             kind := .orphan ((w.global_epoch + 2) % 3)
                               (t.retire_lists 0) (t.retire_lists 1) (t.retire_lists 2) }
                         else w.heap.obj q,
                       top := w.heap.top + 1,
                       calls := w.heap.calls },
                   update_attempts := w.update_attempts } := by
      intro hl
      simp only [thread_data.dtor, hcb, hl, if_true, hte]
      have hb2 : (abandon_retired_nodes
          { w with
            heap :=
              { w.heap with
                obj := fun q =>
                  if q = w.heap.top + 1 then
                    { next := 0,
                      kind := .orphan ((w.global_epoch + 2) % 3)
                        (t.retire_lists 0) (t.retire_lists 1) (t.retire_lists 2) }
                  else w.heap.obj q
                top := w.heap.top + 1 } } (w.heap.top + 1)).tcb cb = some b := hb
      rw [hb2]
      simp only [hf]
      rw [hrel _ hb2]
      simp only [abandon_retired_nodes, Heap.set_next, Bool.false_eq_true, if_false]
      refine congrArg some ?_
      simp only [World.mk.injEq, Heap.mk.injEq, true_and, and_true]
      funext q
      by_cases hq : q = w.heap.top + 1 <;> simp [hq]
    refine ⟨?_, h2, h3⟩
    intro ha hd
    have hx : ∀ v : World, v.entries = w.entries.set cb
        { b with is_in_critical_region := false, active := false } → v ≠ w := by
      intro v hv e
      rw [e] at hv
      have := congrArg (fun l => l.get? cb) hv
      simp only [List.get?_eq_getElem?, List.getElem?_set_self hlt] at this
      have hb3 : w.entries[cb]? = some b := by
        simpa [World.tcb, List.get?_eq_getElem?] using hb
      rw [hb3] at this
      have := congrArg (fun o => o.map (fun x => x.active)) this
      simp [ha] at this
    by_cases hl : t.retire_lists 0 ≠ 0 ∨ t.retire_lists 1 ≠ 0 ∨ t.retire_lists 2 ≠ 0
    · rw [h2 hl] at hd
      exact hx _ rfl (Option.some.inj hd)
    · rw [h3 hl] at hd
      exact hx _ rfl (Option.some.inj hd)

/-- Instance of C18: the thread of `thread2`, which owns the control block `0` and has
the object `4` queued on `retire_lists[0]`, is destroyed at epoch `0`: the orphan is
allocated at the address `9` with target epoch `2`. -/
theorem C18_witness :
    world2.global_epoch < 3
    ∧ thread_data.dtor world2 thread2
        = some { global_epoch := 0,
                 entries := [{ is_in_critical_region := false, local_epoch := 0,
                               active := false }],
                 abandoned := 9,
                 heap :=
                   { obj := fun q =>
                       if q = 9 then { next := 0, kind := .orphan 2 4 0 0 } else heap8.obj q,
                     top := 9,
                     calls := [] },
                 update_attempts := 0 } :=
  ⟨by decide,
   ((C18_thread_exit world2 thread2 (by decide)).2.2 0
      { is_in_critical_region := false, local_epoch := 0, active := true }
      rfl rfl rfl).2.1 (Or.inl (by decide))⟩

/-! ## C19: the branch of `do_enter_critical` that observes a new epoch -/

theorem next_epoch_of_lt {e : Nat} (h : e < 3) :
    (e + 1) % UINT % number_epochs = (e + 1) % 3 := by
  unfold UINT number_epochs
  omega

/-- The effect of `do_enter_critical` on the global epoch. -/
theorem do_enter_critical_epoch {U : Nat} {w w1 : World} {t t1 : thread_data}
    (h : do_enter_critical U w t = some (w1, t1)) :
    w1.global_epoch = w.global_epoch
      ∨ (w1.global_epoch = (w.global_epoch + 1) % UINT % number_epochs
          ∧ w1.update_attempts = w.update_attempts + 1) := by
  rcases he : ensure_has_control_block w t with ⟨w0, t0, cb⟩
  obtain ⟨-, -, -, -, hg0, -, -, hua0⟩ := ensure_has_control_block_spec he
  unfold do_enter_critical at h
  rw [he] at h
  simp only at h
  split at h
  · cases h
  · rename_i b hb
    simp only [set_tcb_global_epoch, hg0] at h
    split at h
    · obtain ⟨_, _, _, _, hg1, _⟩ := adopt_epoch_frame h
      exact Or.inl (hg1.trans hg0)
    · split at h
      · split at h
        · cases h
        · rename_i w2 t2 htry
          cases h
          obtain ⟨-, hua2, hg2, -⟩ := try_update_epoch_frame htry
          simp only [set_tcb_update_attempts, set_tcb_global_epoch] at hua2 hg2
          rcases hg2 with hg2 | ⟨-, hg2⟩
          · exact Or.inl (hg2.trans hg0)
          · exact Or.inr ⟨hg2, by rw [hua2, hua0]⟩
        · rename_i w2 t2 htry
          obtain ⟨-, hua2, hg2, -⟩ := try_update_epoch_frame htry
          simp only [set_tcb_update_attempts, set_tcb_global_epoch] at hua2 hg2
          obtain ⟨_, _, _, _, hg1, hua1, _⟩ := adopt_epoch_frame h
          rcases hg2 with hg2 | ⟨-, hg2⟩
          · exact Or.inl (hg1.trans (hg2.trans hg0))
          · exact Or.inr ⟨hg1.trans hg2, by rw [hua1, hua2, hua0]⟩
      · cases h
        exact Or.inl hg0

theorem call_exec_epoch {U : Nat} {c : Call} {w w1 : World} {t t1 : thread_data}
    (h : c.exec U w t = some (w1, t1)) :
    w1.global_epoch = w.global_epoch
      ∨ (c = Call.enter_critical
          ∧ w1.global_epoch = (w.global_epoch + 1) % UINT % number_epochs
          ∧ w1.update_attempts = w.update_attempts + 1) := by
  cases c with
  | enter_critical =>
    simp only [Call.exec, enter_critical] at h
    split at h
    · rcases do_enter_critical_epoch h with e | e
      · exact Or.inl e
      · exact Or.inr ⟨rfl, e⟩
    · cases h
      exact Or.inl rfl
  | leave_critical =>
    left
    simp only [Call.exec, leave_critical] at h
    split at h
    · split at h
      · simp only [do_leave_critical] at h
        split at h
        · cases h
        · split at h
          · cases h
          · cases h
            rfl
      · cases h
        rfl
    · cases h
  | set_deleter p d =>
    left
    simp only [Call.exec] at h
    split at h
    · cases h
      rfl
    · cases h
  | add_retired_node p =>
    left
    simp only [Call.exec, add_retired_node] at h
    split at h
    · cases h
    · split at h
      · cases h
      · exact (add_retired_node_at_frame h).2.1

theorem dtor_epoch {w w1 : World} {t : thread_data} (h : thread_data.dtor w t = some w1) :
    w1.global_epoch = w.global_epoch ∧ w1.update_attempts = w.update_attempts := by
  unfold thread_data.dtor at h
  split at h
  · cases h
    exact ⟨rfl, rfl⟩
  · simp only at h
    split at h
    · cases h
    · split at h
      · cases h
      · cases h
        simp only [release_entry]
        split <;> split <;> exact ⟨rfl, rfl⟩

theorem engine_step_epoch {U : Nat} {L : List Nat} {w w1 : World}
    (s : EngineStep U L w w1) (hg : w.global_epoch < 3) (hL : ∀ c ∈ L, c < 3) :
    w1.global_epoch = w.global_epoch
      ∨ (w1.global_epoch = (w.global_epoch + 1) % 3
          ∧ w1.update_attempts = w.update_attempts + 1) := by
  cases s with
  | call c t t1 h =>
    rcases call_exec_epoch h with e | ⟨-, e, a⟩
    · exact Or.inl e
    · exact Or.inr ⟨by rw [e, next_epoch_of_lt hg], a⟩
  | exit t h => exact Or.inl (dtor_epoch h).1
  | update t t1 curr r hc h =>
    obtain ⟨-, hua, hg2, -⟩ := try_update_epoch_frame h
    rcases hg2 with e | ⟨e1, e2⟩
    · exact Or.inl e
    · exact Or.inr ⟨by rw [e2, e1, next_epoch_of_lt (hL curr hc)], hua⟩

theorem engine_reach_inv {U : Nat} {h0 : Heap} {w : World} {L : List Nat}
    (r : EngineReach U h0 w L) : w.global_epoch < 3 ∧ ∀ c ∈ L, c < 3 := by
  induction r with
  | init => exact ⟨Nat.zero_lt_succ 2, by simp⟩
  | step _ s ih =>
    refine ⟨?_, ih.2⟩
    rcases engine_step_epoch s ih.1 ih.2 with e | ⟨e, -⟩
    · rw [e]; exact ih.1
    · rw [e]; exact Nat.mod_lt _ (by decide)
  | load _ ih =>
    refine ⟨ih.1, ?_⟩
    intro c hc
    rcases List.mem_cons.mp hc with e | hc
    · rw [e]; exact ih.1
    · exact ih.2 c hc

theorem engine_reach_exec_calls {U : Nat} {h0 : Heap} {L : List Nat} (cs : List Call) :
    ∀ {w w1 : World} {t t1 : thread_data}, EngineReach U h0 w L →
      exec_calls U cs w t = some (w1, t1) → EngineReach U h0 w1 L := by
  induction cs with
  | nil =>
    intro w w1 t t1 r h
    simp only [exec_calls] at h
    cases h
    exact r
  | cons c cs ih =>
    intro w w1 t t1 r h
    simp only [exec_calls] at h
    split at h
    · cases h
    · rename_i w2 t2 hc
      exact ih (r.step (EngineStep.call c t t2 hc)) h

/-- C20. The global epoch starts at `0`.  In every state reached from the initial one
through calls made by guards (`enter_critical`, `leave_critical`, `set_deleter`,
`add_retired_node`), destructions of thread states and calls of `try_update_epoch` with
an epoch loaded earlier, by any threads in any order, `global_epoch` lies in `{0,1,2}`.
Every such step leaves `global_epoch` unchanged or changes it from `e` to `(e+1) mod 3`,
and in the second case the step has called `try_update_epoch`.  A call
`try_update_epoch(curr, (curr+1) mod 3)` changes `global_epoch` if and only if no control
block prevents the advance and `global_epoch` equals `curr`.  The other member functions
(`ensure_has_control_block`, the store into `local_epoch` with the drain, `adopt_orphans`,
`leave_critical`, `add_retired_node`, `~thread_data`, and a `do_enter_critical` that does
not call `try_update_epoch`) leave `global_epoch` unchanged. -/
theorem C20_global_epoch_invariant (U : Nat) (h0 : Heap) :
    (World.init h0).global_epoch = 0
    ∧ (∀ w L, EngineReach U h0 w L → w.global_epoch < 3)
    ∧ (∀ w L w1, EngineReach U h0 w L → EngineStep U L w w1 →
        w1.global_epoch = w.global_epoch
          ∨ (w1.global_epoch = (w.global_epoch + 1) % 3
              ∧ w1.update_attempts = w.update_attempts + 1))
    ∧ (∀ w L, EngineReach U h0 w L → ∀ t curr r w1 t1,
        (curr = w.global_epoch ∨ curr ∈ L) →
        try_update_epoch w t curr ((curr + 1) % UINT % number_epochs) = some (r, w1, t1) →
        (w1.global_epoch ≠ w.global_epoch ↔ (¬ Blocked w curr ∧ w.global_epoch = curr))
          ∧ (w1.global_epoch ≠ w.global_epoch →
              w1.global_epoch = (w.global_epoch + 1) % 3))
    ∧ (∀ w t, (ensure_has_control_block w t).1.global_epoch = w.global_epoch)
    ∧ (∀ w t cb e w1 t1, adopt_epoch w t cb e = some (w1, t1) →
        w1.global_epoch = w.global_epoch)
    ∧ (∀ w t w1 t1, adopt_orphans w t = some (w1, t1) → w1.global_epoch = w.global_epoch)
    ∧ (∀ w t w1 t1, leave_critical w t = some (w1, t1) → w1.global_epoch = w.global_epoch)
    ∧ (∀ w t p w1 t1, add_retired_node w t p = some (w1, t1) →
        w1.global_epoch = w.global_epoch)
    ∧ (∀ w t w1, thread_data.dtor w t = some w1 → w1.global_epoch = w.global_epoch)
    ∧ (∀ w t w1 t1, do_enter_critical U w t = some (w1, t1) →
        w1.update_attempts = w.update_attempts → w1.global_epoch = w.global_epoch) := by
  refine ⟨rfl, fun w L r => (engine_reach_inv r).1, ?_, ?_, ?_, ?_, ?_, ?_, ?_, ?_, ?_⟩
  · intro w L w1 r s
    exact engine_step_epoch s (engine_reach_inv r).1 (engine_reach_inv r).2
  · intro w L r t curr b w1 t1 hc h
    have hg := (engine_reach_inv r).1
    have hc3 : curr < 3 := by
      rcases hc with e | hc
      · rw [e]; exact hg
      · exact (engine_reach_inv r).2 curr hc
    have hne : (curr + 1) % 3 ≠ curr := by omega
    by_cases hB : Blocked w curr
    · rw [try_update_epoch_blocked w t _ hc3 hB] at h
      cases h
      exact ⟨⟨fun e => absurd rfl e, fun e => absurd hB e.1⟩, fun e => absurd rfl e⟩
    · by_cases hcur : w.global_epoch = curr
      · rw [try_update_epoch_cas w t _ hc3 hB hcur] at h
        cases ha : adopt_orphans
            { w with update_attempts := w.update_attempts + 1,
                     global_epoch := (curr + 1) % UINT % number_epochs } t with
        | none => rw [ha] at h; cases h
        | some p =>
          rw [ha] at h
          cases h
          have e := (adopt_orphans_frame ha).2.1
          have e2 : p.1.global_epoch = (curr + 1) % 3 := by
            rw [e]
            exact next_epoch_of_lt hc3
          have e3 : p.1.global_epoch ≠ w.global_epoch := by
            rw [e2, hcur]
            exact hne
          exact ⟨⟨fun _ => ⟨hB, hcur⟩, fun _ => e3⟩, fun _ => by rw [e2, hcur]⟩
      · rw [try_update_epoch_stale w t _ hc3 hB hcur] at h
        cases h
        exact ⟨⟨fun e => absurd rfl e, fun e => absurd e.2 hcur⟩, fun e => absurd rfl e⟩
  · intro w t
    rcases he : ensure_has_control_block w t with ⟨w0, t0, cb⟩
    exact (ensure_has_control_block_spec he).2.2.2.2.1
  · intro w t cb e w1 t1 h
    obtain ⟨_, _, _, _, hg1, _⟩ := adopt_epoch_frame h
    exact hg1
  · intro w t w1 t1 h
    exact (adopt_orphans_frame h).2.1
  · intro w t w1 t1 h
    have hx : Call.leave_critical.exec U w t = some (w1, t1) := h
    rcases call_exec_epoch hx with e | ⟨e, -⟩
    · exact e
    · cases e
  · intro w t p w1 t1 h
    have hx : (Call.add_retired_node p).exec U w t = some (w1, t1) := h
    rcases call_exec_epoch hx with e | ⟨e, -⟩
    · exact e
    · cases e
  · intro w t w1 h
    exact (dtor_epoch h).1
  · intro w t w1 t1 h ha
    rcases do_enter_critical_epoch h with e | ⟨-, e⟩
    · exact e
    · omega

/-- Instance of C20: a new thread enters, leaves and enters again with
`UpdateThreshold = 0`; the second entry advances the global epoch from `0` to `1`, and
the state reached satisfies the invariant. -/
theorem C20_witness :
    EngineReach 0 heap8 world5 [] ∧ world5.global_epoch = 1 ∧ world5.global_epoch < 3 :=
  have h : ∃ t, exec_calls 0 [Call.enter_critical, Call.leave_critical, Call.enter_critical]
      (World.init heap8) thread_data.init = some (world5, t) := ⟨_, rfl⟩
  have r : EngineReach 0 heap8 world5 [] :=
    match h with
    | ⟨_, e⟩ => engine_reach_exec_calls _ EngineReach.init e
  ⟨r, rfl, (C20_global_epoch_invariant 0 heap8).2.1 world5 [] r⟩

/-! ## C11: nodes with a stored deleter -/

theorem delete_one_calls (h : Heap) (p : Ptr) :
    (delete_one h p).calls = h.calls ++ [(stored_deleter h p, p)] := by
  unfold delete_one stored_deleter
  split <;> simp_all [Heap.log, Heap.set_kind]

theorem stored_deleter_congr {h h2 : Heap} {p : Ptr} (e : h2.obj p = h.obj p) :
    stored_deleter h2 p = stored_deleter h p := by
  unfold stored_deleter
  rw [e]

/-- The entries for `p` that a drain with footprint `fp` adds to the log of deleter
applications. -/
theorem foldl_delete_one_calls_filter (p : Ptr) (fp : List Ptr) :
    ∀ h : Heap, fp.Nodup →
      (fp.foldl delete_one h).calls.filter (fun c => decide (c.2 = p))
        = h.calls.filter (fun c => decide (c.2 = p))
            ++ (if p ∈ fp then [(stored_deleter h p, p)] else []) := by
  induction fp with
  | nil => intro h _; simp
  | cons q fp ih =>
    intro h hnd
    have hq : q ∉ fp := (List.nodup_cons.mp hnd).1
    rw [List.foldl_cons, ih _ (List.nodup_cons.mp hnd).2, delete_one_calls, List.filter_append]
    by_cases hqp : q = p
    · subst hqp
      simp [hq]
    · have hne : p ≠ q := fun e => hqp e.symm
      rw [stored_deleter_congr (delete_one_obj_ne h hne)]
      simp [hqp, hne]

theorem calls_filter_of_live {h : Heap} {p : Ptr} (hl : h.live p = true) :
    h.calls.filter (fun c => decide (c.2 = p)) = [] := by
  have hnd := ((live_iff _ _).mp hl).2.2
  rw [List.filter_eq_nil_iff]
  intro c hc hcp
  apply hnd
  have : c.2 = p := by simpa using hcp
  rw [← this]
  exact List.mem_map_of_mem Prod.snd hc

theorem set_deleter_non_empty {h : Heap} {p : Ptr} {buf : Option Nat} (d : Nat)
    (hk : (h.obj p).kind = .with_non_empty_deleter buf) :
    set_deleter h p d = h.set_kind p (.with_non_empty_deleter (some d)) := by
  simp [set_deleter, hk]

theorem set_kind_kind_same (h : Heap) (p : Ptr) (k : Kind) : ((h.set_kind p k).obj p).kind = k := by
  simp [Heap.set_kind]

theorem delete_self_not_live {h : Heap} {p : Ptr} (hl : h.live p = false) :
    ∀ fuel, delete_self fuel h p = none := by
  intro fuel
  cases fuel with
  | zero => rw [delete_self]
  | succ n => rw [delete_self]; simp [hl]

/-- The member `delete_self` of a node with a stored deleter, right after
`set_deleter(d)`. -/
theorem delete_self_after_set_deleter {h : Heap} {p : Ptr} {buf : Option Nat} (d fuel : Nat)
    (hl : h.live p = true) (hk : (h.obj p).kind = .with_non_empty_deleter buf) :
    ∃ h1, delete_self (fuel + 1) (set_deleter h p d) p = some h1
      ∧ h1.calls = h.calls ++ [(some d, p)]
      ∧ (h1.obj p).kind = .with_non_empty_deleter none
      ∧ ∀ fuel2, delete_self fuel2 h1 p = none := by
  rw [set_deleter_non_empty d hk, delete_self]
  simp only [set_kind_live, hl, if_true, set_kind_kind_same]
  refine ⟨_, rfl, rfl, ?_, ?_⟩
  · simp [Heap.log, Heap.set_kind]
  · apply delete_self_not_live
    rw [Bool.eq_false_iff]
    intro hl2
    have := ((live_iff _ _).mp hl2).2.2
    simp at this

/-- A drain of a list on which the node `p` with the stored deleter `d` is queued. -/
theorem drain_applies_stored_deleter {h : Heap} {l p : Ptr} {fp : List Ptr} {d : Nat}
    (hd : Drainable h l fp) (hp : p ∈ fp)
    (hk : (h.obj p).kind = .with_non_empty_deleter (some d)) :
    ∃ h1, delete_objects h l = some h1
      ∧ h1.calls.filter (fun c => decide (c.2 = p)) = [(some d, p)] := by
  refine ⟨_, delete_objects_drainable hd, ?_⟩
  rw [foldl_delete_one_calls_filter p fp h hd.2, calls_filter_of_live (hd.1.live_of_mem p hp),
    if_pos hp]
  simp [stored_deleter, hk]

/-- The heap after the two calls by which `reclaim` retires its pointee. -/
theorem solo_retire_heap {U : Nat} {w w1 : World} {t t1 : thread_data} {cb : Nat}
    {f : Nat → List Ptr} (s : Solo w t cb f) {p d : Nat} (hl : w.heap.live p = true)
    (h : exec_calls U [Call.set_deleter p d, Call.add_retired_node p] w t = some (w1, t1)) :
    w1.heap = (set_deleter w.heap p d).set_next p (t.retire_lists w.global_epoch) := by
  obtain ⟨b, hb, hloc⟩ := s.tcb
  have hg : w.global_epoch < number_epochs := s.epoch_lt
  have hl2 : (set_deleter w.heap p d).live p = true := by rw [set_deleter_live]; exact hl
  have htcb : ({ w with heap := set_deleter w.heap p d } : World).tcb cb = some b := hb
  simp only [exec_calls, Call.exec, hl, if_true, add_retired_node, s.cb_eq, htcb, hloc,
    add_retired_node_at, hg, hl2] at h
  cases h
  rfl

/-- The log of deleter applications along `reclaim(d)` on a node `p` with a stored
deleter followed by three `update_epoch()`, for a thread running alone with
`UpdateThreshold = 0`. -/
theorem solo_reclaim_three_advances_calls
    {w : World} {t : thread_data} {cb : Nat} {f : Nat → List Ptr} (p d : Nat)
    {buf : Option Nat}
    (s : Solo w t cb f) (hc : t.enter_count = 1) (hu : t.entries_since_update = 0)
    (hl : w.heap.live p = true) (hk : (w.heap.obj p).kind = .with_non_empty_deleter buf)
    (hf : ∀ i, i < 3 → p ∉ f i) :
    ∃ w1 t1 w2 t2 w3 t3 w4 t4,
      exec_calls 0 [Call.set_deleter p d, Call.add_retired_node p, Call.leave_critical] w t
        = some (w1, t1)
      ∧ w1.heap.calls.filter (fun c => decide (c.2 = p)) = []
      ∧ exec_calls 0 [Call.enter_critical, Call.leave_critical] w1 t1 = some (w2, t2)
      ∧ w2.heap.calls.filter (fun c => decide (c.2 = p)) = []
      ∧ exec_calls 0 [Call.enter_critical, Call.leave_critical] w2 t2 = some (w3, t3)
      ∧ w3.heap.calls.filter (fun c => decide (c.2 = p)) = []
      ∧ t3.retire_lists w.global_epoch = p
      ∧ enter_critical 0 w3 t3 = some (w4, t4)
      ∧ w4.heap.calls.filter (fun c => decide (c.2 = p)) = [(some d, p)]
      ∧ t4.retire_lists w.global_epoch = 0 := by
  have hg := s.epoch_lt
  have husr : w.heap.is_user p := by
    intro te l0 l1 l2 e
    rw [hk] at e
    cases e
  obtain ⟨wa, ta, ha, sa, ga, _, _, ca, ua, ra⟩ := solo_retire 0 s d hl husr hf
  have hha := solo_retire_heap s hl ha
  obtain ⟨w1, t1, h1, s1, g1, _, hp1, c1, u1, r1⟩ := solo_leave sa (ca.trans hc)
  obtain ⟨w2, t2, h2, s2, g2, _, hp2, c2, u2, r2⟩ :=
    solo_update_epoch s1 c1 (by rw [u1, ua, hu])
  obtain ⟨w3, t3, h3, s3, g3, _, hp3, c3, u3, r3⟩ := solo_update_epoch s2 c2 u2
  have nd4 : (p :: f w.global_epoch).Nodup := by
    have := sa.lists.nodup w.global_epoch hg
    simpa using this
  obtain ⟨w4, t4, h4, _, g4, _, hp4, _, _, r4⟩ := solo_enter_advance 0 s3 c3 u3
  have e1 : w1.global_epoch = w.global_epoch := by rw [g1, ga]
  have e2 : w2.global_epoch = (w.global_epoch + 1) % 3 := by rw [g2, e1]
  have e3 : w3.global_epoch = (w.global_epoch + 2) % 3 := by rw [g3, e2]; omega
  have n1 : (w.global_epoch + 1) % 3 ≠ w.global_epoch := by omega
  have n2 : (w.global_epoch + 2) % 3 ≠ w.global_epoch := by omega
  have n3 : (w.global_epoch + 2) % 3 ≠ (w.global_epoch + 1) % 3 := by omega
  have n4 : ((w.global_epoch + 2) % 3 + 1) % 3 = w.global_epoch := by omega
  have n5 : ((w.global_epoch + 1) % 3 + 1) % 3 = (w.global_epoch + 2) % 3 := by omega
  have l1 : (w.global_epoch + 1) % 3 < 3 := Nat.mod_lt _ (by decide)
  have l2 : (w.global_epoch + 2) % 3 < 3 := Nat.mod_lt _ (by decide)
  have nd2 := s.lists.nodup _ l1
  have nd3 := s.lists.nodup _ l2
  rw [e1] at hp2 r2
  simp only [n1, if_false] at hp2
  rw [e2, e1, n5] at hp3
  rw [e2, n5] at r3
  simp only [n3, n2, if_false] at hp3
  rw [e3, e2, e1, n4, n5] at hp4
  rw [e3, n4] at r4
  simp only [n1.symm, n2.symm, if_false, if_true] at hp4
  have hm1 := hf _ l1
  have hm2 := hf _ l2
  -- the node carries the deleter `d` from the retirement on
  have k1 : stored_deleter w1.heap p = some d := by
    rw [hp1, hha]
    simp [stored_deleter, set_deleter_non_empty d hk, set_kind_kind_same]
  have k2 : stored_deleter w2.heap p = some d := by
    rw [hp2, stored_deleter_congr (foldl_delete_one_obj _ _ hm1), k1]
  have k3 : stored_deleter w3.heap p = some d := by
    rw [hp3, stored_deleter_congr (foldl_delete_one_obj _ _ hm2), k2]
  have c1 : w1.heap.calls.filter (fun c => decide (c.2 = p)) = [] := by
    rw [hp1, hha, set_next_calls, set_deleter_non_empty d hk]
    exact calls_filter_of_live hl
  have c2 : w2.heap.calls.filter (fun c => decide (c.2 = p)) = [] := by
    rw [hp2, foldl_delete_one_calls_filter p _ _ nd2, c1, if_neg hm1]
    rfl
  have c3 : w3.heap.calls.filter (fun c => decide (c.2 = p)) = [] := by
    rw [hp3, foldl_delete_one_calls_filter p _ _ nd3, c2, if_neg hm2]
    rfl
  refine ⟨w1, t1, w2, t2, w3, t3, w4, t4, ?_, c1, h2, c2, h3, c3, ?_, h4, ?_, ?_⟩
  · rw [show [Call.set_deleter p d, Call.add_retired_node p, Call.leave_critical]
        = [Call.set_deleter p d, Call.add_retired_node p] ++ [Call.leave_critical] from rfl,
      exec_calls_append, ha]
    simp [exec_calls, Call.exec, h1]
  · rw [r3, r2, r1, ra]; simp [n1.symm, n2.symm]
  · rw [hp4, foldl_delete_one_calls_filter p _ _ nd4, c3, if_pos (List.mem_cons_self _ _), k3]
    rfl
  · rw [r4]; simp

/-- C11. A node `p` whose deleter type is non-empty.  After `set_deleter(d)`, the call
`delete_self()` returns and applies exactly the deleter `d`, once, to `p` itself (one
entry `(d, p)` is added to the log of deleter applications), and destroys the stored
deleter; a further `delete_self()` is a fault.  A drain of a well-formed list on which
`p` is queued with the stored deleter `d` applies `d` to `p` exactly once and applies no
other deleter to `p`.  Consequently, for a thread running alone with
`UpdateThreshold = 0`, a node retired with `reclaim(D)` has no deleter applied to it
after `reclaim` and after each of the first two advances, and has `D` applied to it,
exactly once and with the node as argument, when the entry of the third advance drains
its retire list. -/
theorem C11_stateful_deleter_invoked_once :
    (∀ (h : Heap) (p : Ptr) (buf : Option Nat) (d fuel : Nat),
      h.live p = true → (h.obj p).kind = .with_non_empty_deleter buf →
      ∃ h1, delete_self (fuel + 1) (set_deleter h p d) p = some h1
        ∧ h1.calls = h.calls ++ [(some d, p)]
        ∧ (h1.obj p).kind = .with_non_empty_deleter none
        ∧ ∀ fuel2, delete_self fuel2 h1 p = none)
    ∧ (∀ (h : Heap) (l p : Ptr) (fp : List Ptr) (d : Nat),
      Drainable h l fp → p ∈ fp → (h.obj p).kind = .with_non_empty_deleter (some d) →
      ∃ h1, delete_objects h l = some h1
        ∧ h1.calls.filter (fun c => decide (c.2 = p)) = [(some d, p)])
    ∧ (∀ (N ptr D : Nat) (w : World) (t : thread_data) (cb : Nat) (f : Nat → List Ptr)
        (buf : Option Nat),
      Solo w t cb f → t.enter_count = 1 → t.entries_since_update = 0 →
      w.heap.live (marked_ptr.get N ptr) = true →
      (w.heap.obj (marked_ptr.get N ptr)).kind = .with_non_empty_deleter buf →
      (∀ i, i < 3 → marked_ptr.get N ptr ∉ f i) →
      ∃ calls w1 t1 w2 t2 w3 t3 w4 t4,
        guard_ptr.reclaim N ptr D = some (0, calls)
        ∧ exec_calls 0 calls w t = some (w1, t1)
        ∧ w1.heap.calls.filter (fun c => decide (c.2 = marked_ptr.get N ptr)) = []
        ∧ exec_calls 0 [Call.enter_critical, Call.leave_critical] w1 t1 = some (w2, t2)
        ∧ w2.heap.calls.filter (fun c => decide (c.2 = marked_ptr.get N ptr)) = []
        ∧ exec_calls 0 [Call.enter_critical, Call.leave_critical] w2 t2 = some (w3, t3)
        ∧ w3.heap.calls.filter (fun c => decide (c.2 = marked_ptr.get N ptr)) = []
        ∧ t3.retire_lists w.global_epoch = marked_ptr.get N ptr
        ∧ enter_critical 0 w3 t3 = some (w4, t4)
        ∧ w4.heap.calls.filter (fun c => decide (c.2 = marked_ptr.get N ptr))
            = [(some D, marked_ptr.get N ptr)]
        ∧ t4.retire_lists w.global_epoch = 0) := by
  refine ⟨?_, ?_, ?_⟩
  · intro h p buf d fuel hl hk
    exact delete_self_after_set_deleter d fuel hl hk
  · intro h l p fp d hd hp hk
    exact drain_applies_stored_deleter hd hp hk
  · intro N ptr D w t cb f buf s hc hu hl hk hf
    obtain ⟨w1, t1, w2, t2, w3, t3, w4, t4, h1, c1, h2, c2, h3, c3, r3, h4, c4, r4⟩ :=
      solo_reclaim_three_advances_calls (marked_ptr.get N ptr) D s hc hu hl hk hf
    exact ⟨_, w1, t1, w2, t2, w3, t3, w4, t4, reclaim_calls D ((live_iff _ _).mp hl).1,
      h1, c1, h2, c2, h3, c3, r3, h4, c4, r4⟩

theorem solo_world6 : Solo world6 thread1 0 (fun _ => []) :=
  ⟨rfl, ⟨_, rfl, rfl⟩, by decide, alone_singleton world6 rfl, rfl, threadWF_empty _⟩

/-- Instance of C11: the only thread holds a guard on the marked pointer `7` (object
`4`, mark `3`, two mark bits) and retires it with the deleter `4`, which has captured
the address of the object. -/
theorem C11_witness :
    Solo world6 thread1 0 (fun _ => [])
    ∧ world6.heap.live (marked_ptr.get 2 7) = true
    ∧ (world6.heap.obj (marked_ptr.get 2 7)).kind = .with_non_empty_deleter none
    ∧ ∃ calls w1 t1 w2 t2 w3 t3 w4 t4,
        guard_ptr.reclaim 2 7 4 = some (0, calls)
        ∧ exec_calls 0 calls world6 thread1 = some (w1, t1)
        ∧ w1.heap.calls.filter (fun c => decide (c.2 = marked_ptr.get 2 7)) = []
        ∧ exec_calls 0 [Call.enter_critical, Call.leave_critical] w1 t1 = some (w2, t2)
        ∧ w2.heap.calls.filter (fun c => decide (c.2 = marked_ptr.get 2 7)) = []
        ∧ exec_calls 0 [Call.enter_critical, Call.leave_critical] w2 t2 = some (w3, t3)
        ∧ w3.heap.calls.filter (fun c => decide (c.2 = marked_ptr.get 2 7)) = []
        ∧ t3.retire_lists world6.global_epoch = marked_ptr.get 2 7
        ∧ enter_critical 0 w3 t3 = some (w4, t4)
        ∧ w4.heap.calls.filter (fun c => decide (c.2 = marked_ptr.get 2 7))
            = [(some 4, marked_ptr.get 2 7)]
        ∧ t4.retire_lists world6.global_epoch = 0 :=
  ⟨solo_world6, by decide, rfl,
   C11_stateful_deleter_invoked_once.2.2 2 7 4 world6 thread1 0 (fun _ => []) none
     solo_world6 rfl rfl (by decide) rfl (fun _ _ => List.not_mem_nil _)⟩

/-! ## C22: the target epoch of an orphan -/

/-- The destructor of a thread state that has a control block outside any critical
region and some retired node left. -/
theorem dtor_with_retired {w : World} {t : thread_data} {cb : Nat} {b : thread_control_block}
    (hg : w.global_epoch < 3) (hcb : t.control_block = some cb) (hb : w.tcb cb = some b)
    (hf : b.is_in_critical_region = false)
    (hl : t.retire_lists 0 ≠ 0 ∨ t.retire_lists 1 ≠ 0 ∨ t.retire_lists 2 ≠ 0) :
    thread_data.dtor w t
      = some { global_epoch := w.global_epoch,
               entries := w.entries.set cb
                 { b with is_in_critical_region := false, active := false },
               abandoned := w.heap.top + 1,
               heap :=
                 { obj := fun q =>
                     if q = w.heap.top + 1 then
                       { next := w.abandoned,
                         kind := .orphan ((w.global_epoch + 2) % 3)
                           (t.retire_lists 0) (t.retire_lists 1) (t.retire_lists 2) }
                     else w.heap.obj q,
                   top := w.heap.top + 1,
                   calls := w.heap.calls },
               update_attempts := w.update_attempts } := by
  have hte : ((w.global_epoch + number_epochs) % UINT + UINT - 1) % UINT % number_epochs
      = (w.global_epoch + 2) % 3 := old_epoch_of_lt hg
  have hrel : ∀ v : World, v.tcb cb = some b →
      release_entry v cb
        = { v with
            entries := v.entries.set cb
              { b with is_in_critical_region := false, active := false } } := by
    intro v hv
    simp [release_entry, hv, World.set_tcb]
  simp only [thread_data.dtor, hcb, hl, if_true, hte]
  have hb2 : (abandon_retired_nodes
      { w with
        heap :=
          { w.heap with
            obj := fun q =>
              if q = w.heap.top + 1 then
                { next := 0,
                  kind := .orphan ((w.global_epoch + 2) % 3)
                    (t.retire_lists 0) (t.retire_lists 1) (t.retire_lists 2) }
              else w.heap.obj q
            top := w.heap.top + 1 } } (w.heap.top + 1)).tcb cb = some b := hb
  rw [hb2]
  simp only [hf]
  rw [hrel _ hb2]
  simp only [abandon_retired_nodes, Heap.set_next, Bool.false_eq_true, if_false]
  refine congrArg some ?_
  simp only [World.mk.injEq, Heap.mk.injEq, true_and, and_true]
  funext q
  by_cases hq : q = w.heap.top + 1 <;> simp [hq]

/-- C22. For every global epoch `g` in `{0,1,2}`: the expression
`(global_epoch + number_epochs - 1) % number_epochs` of `~thread_data`, evaluated in 32
bit unsigned arithmetic, neither wraps in its addition nor borrows in its subtraction,
so it equals `(g + 3 - 1) mod 3`, which is `(g - 1) mod 3` over the integers; this value
is below `3` and differs from `g`.  When the departing thread (with a control block that
is not in a critical region) has a non-empty retire list, the destructor returns and the
orphan it pushes on the orphan list has this target epoch and holds the thread's three
retire lists in their order. -/
theorem C22_orphan_target_epoch (w : World) (t : thread_data) (cb : Nat)
    (b : thread_control_block) (hg : w.global_epoch < 3)
    (hcb : t.control_block = some cb) (hb : w.tcb cb = some b)
    (hf : b.is_in_critical_region = false)
    (hl : t.retire_lists 0 ≠ 0 ∨ t.retire_lists 1 ≠ 0 ∨ t.retire_lists 2 ≠ 0) :
    w.global_epoch + number_epochs < UINT
    ∧ 1 ≤ w.global_epoch + number_epochs
    ∧ ((w.global_epoch + number_epochs) % UINT + UINT - 1) % UINT % number_epochs
        = (w.global_epoch + 3 - 1) % 3
    ∧ (((w.global_epoch + 3 - 1) % 3 : Nat) : Int) = ((w.global_epoch : Int) - 1) % 3
    ∧ (w.global_epoch + 3 - 1) % 3 < number_epochs
    ∧ (w.global_epoch + 3 - 1) % 3 ≠ w.global_epoch
    ∧ ∃ w1, thread_data.dtor w t = some w1
        ∧ w1.abandoned = w.heap.top + 1
        ∧ (w1.heap.obj w1.abandoned).kind
            = .orphan ((w.global_epoch + 3 - 1) % 3)
                (t.retire_lists 0) (t.retire_lists 1) (t.retire_lists 2)
        ∧ (w1.heap.obj w1.abandoned).next = w.abandoned := by
  have hte : ((w.global_epoch + number_epochs) % UINT + UINT - 1) % UINT % number_epochs
      = (w.global_epoch + 3 - 1) % 3 := by
    unfold number_epochs UINT
    omega
  refine ⟨by unfold number_epochs UINT; omega, by unfold number_epochs; omega, hte,
    by omega, by unfold number_epochs; omega, by omega, ?_⟩
  have e : (w.global_epoch + 3 - 1) % 3 = (w.global_epoch + 2) % 3 := by omega
  rw [dtor_with_retired hg hcb hb hf hl, e]
  exact ⟨_, rfl, rfl, by simp, by simp⟩

/-- Instance of C22: the thread of `thread2` (object `4` on `retire_lists[0]`) exits at
the global epoch `0`; the target epoch is `2`. -/
theorem C22_witness :
    world2.global_epoch < 3
    ∧ ((world2.global_epoch + number_epochs) % UINT + UINT - 1) % UINT % number_epochs = 2
    ∧ ∃ w1, thread_data.dtor world2 thread2 = some w1
        ∧ w1.abandoned = 9
        ∧ (w1.heap.obj w1.abandoned).kind = .orphan 2 4 0 0
        ∧ (w1.heap.obj w1.abandoned).next = 0 :=
  have h := C22_orphan_target_epoch world2 thread2 0
    { is_in_critical_region := false, local_epoch := 0, active := true }
    (by decide) rfl rfl rfl (Or.inl (by decide))
  ⟨by decide, h.2.2.1, h.2.2.2.2.2.2⟩

/-! ## C27: marked pointers are compared by the whole word -/

/-- A 64 bit word is the union of its pointer part and its mark. -/
theorem get_or_mark (N w : Nat) (hw : w < UINTPTR) :
    marked_ptr.get N w ||| marked_ptr.mark N w = w := by
  apply Nat.eq_of_testBit_eq
  intro i
  simp only [marked_ptr.get, marked_ptr.mark, Nat.testBit_or, Nat.testBit_and,
    testBit_not_markMask]
  simp only [markMask_eq, Nat.testBit_two_pow_sub_one]
  by_cases h1 : N ≤ i
  · by_cases h2 : i < 64
    · simp [h1, h2]
    · have : w.testBit i = false := testBit_of_lt_two_pow (k := 64) hw (by omega)
      simp [this]
  · have h3 : i < N := by omega
    simp [h1, h3]

theorem word_ne_zero_iff (N w : Nat) (hw : w < UINTPTR) :
    w ≠ 0 ↔ marked_ptr.get N w ≠ 0 ∨ marked_ptr.mark N w ≠ 0 := by
  constructor
  · intro h
    by_contra hn
    push_neg at hn
    apply h
    rw [← get_or_mark N w hw, hn.1, hn.2]
    rfl
  · rintro h rfl
    rcases h with h | h
    · exact h (marked_ptr_get_zero N)
    · exact h (marked_ptr_mark_zero N)

/-- C27. Marked pointers are compared and null tested by the whole word.  For every
number `N` of mark bits, all pointers `p`, `q` (64 bit words) whose `N` low bits are zero
and all marks `m`, `n` not above `MarkMask`: both constructors pass their assertions;
`marked_ptr(p, m) == marked_ptr(q, n)` holds if and only if `p == q` and `m == n`;
`operator!=` is the negation of `operator==`; the conversion to `bool` of
`marked_ptr(p, m)`, and of a guard constructed from it, is `true` if and only if
`get() != nullptr` or `mark() != 0`.  The last equivalence holds for every 64 bit word. -/
theorem C27_whole_word_comparison (N p q m n : Nat)
    (hp : p &&& MarkMask N = 0) (hq : q &&& MarkMask N = 0)
    (hm : m ≤ MarkMask N) (hn : n ≤ MarkMask N) (hpl : p < UINTPTR) (hql : q < UINTPTR) :
    ∃ a b, marked_ptr.mk N p m = some a ∧ marked_ptr.mk N q n = some b
      ∧ (marked_ptr.operator_eq a b = true ↔ (p = q ∧ m = n))
      ∧ marked_ptr.operator_ne a b = !marked_ptr.operator_eq a b
      ∧ (marked_ptr.operator_bool a = true
          ↔ (marked_ptr.get N a ≠ 0 ∨ marked_ptr.mark N a ≠ 0))
      ∧ (guard_ptr.operator_bool (guard_ptr.ctor a).1 = true
          ↔ (marked_ptr.get N (guard_ptr.ctor a).1 ≠ 0
              ∨ marked_ptr.mark N (guard_ptr.ctor a).1 ≠ 0))
      ∧ (∀ w, w < UINTPTR →
          (marked_ptr.operator_bool w = true
            ↔ (marked_ptr.get N w ≠ 0 ∨ marked_ptr.mark N w ≠ 0))) := by
  obtain ⟨a1, a2, a3⟩ := marked_ptr_round_trip N p m hp hm hpl
  obtain ⟨b1, b2, b3⟩ := marked_ptr_round_trip N q n hq hn hql
  have hbool : marked_ptr.operator_bool (p ||| m) = true
      ↔ (marked_ptr.get N (p ||| m) ≠ 0 ∨ marked_ptr.mark N (p ||| m) ≠ 0) := by
    rw [a2, a3]
    simp only [marked_ptr.operator_bool, decide_eq_true_eq]
    constructor
    · intro h
      by_contra hc
      push_neg at hc
      apply h
      rw [hc.1, hc.2]
      rfl
    · rintro h e
      have e1 := congrArg (marked_ptr.get N) e
      have e2 := congrArg (marked_ptr.mark N) e
      rw [a2, marked_ptr_get_zero] at e1
      rw [a3, marked_ptr_mark_zero] at e2
      rcases h with h | h
      · exact h e1
      · exact h e2
  refine ⟨p ||| m, q ||| n, a1, b1, ?_, ?_, hbool, hbool, ?_⟩
  · simp only [marked_ptr.operator_eq, decide_eq_true_eq]
    constructor
    · intro e
      have e1 := congrArg (marked_ptr.get N) e
      have e2 := congrArg (marked_ptr.mark N) e
      rw [a2, b2] at e1
      rw [a3, b3] at e2
      exact ⟨e1, e2⟩
    · rintro ⟨rfl, rfl⟩
      rfl
  · simp [marked_ptr.operator_ne, marked_ptr.operator_eq]
  · intro w hw
    simp only [marked_ptr.operator_bool, decide_eq_true_eq]
    exact word_ne_zero_iff N w hw

/-- Instance of C27: the marked pointers `(8, 3)` and `(8, 1)` with two mark bits differ
although they point to the same object, and `(0, 1)` converts to `true`. -/
theorem C27_witness :
    marked_ptr.mk 2 8 3 = some 11 ∧ marked_ptr.mk 2 8 1 = some 9
    ∧ marked_ptr.operator_eq 11 9 = false ∧ marked_ptr.operator_ne 11 9 = true
    ∧ marked_ptr.mk 2 0 1 = some 1 ∧ marked_ptr.operator_bool 1 = true
    ∧ marked_ptr.get 2 1 = 0
    ∧ ∃ a b, marked_ptr.mk 2 8 3 = some a ∧ marked_ptr.mk 2 8 1 = some b
      ∧ (marked_ptr.operator_eq a b = true ↔ ((8 : Nat) = 8 ∧ (3 : Nat) = 1)) :=
  ⟨by decide, by decide, by decide, by decide, by decide, by decide, by decide,
   match C27_whole_word_comparison 2 8 8 3 1 (by decide) (by decide) (by decide) (by decide)
     (by decide) (by decide) with
   | ⟨a, b, h1, h2, h3, _⟩ => ⟨a, b, h1, h2, h3⟩⟩

/-! ## C23: the frame of `reclaim` -/

/-- The two calls by which `reclaim` retires its pointee `p`, for a thread whose control
block holds the local epoch `b.local_epoch`. -/
theorem retire_calls_eq (U : Nat) {w : World} {t : thread_data} {cb : Nat}
    {b : thread_control_block} {p : Ptr} (d : Nat)
    (hcb : t.control_block = some cb) (hb : w.tcb cb = some b) (hL : b.local_epoch < 3)
    (hl : w.heap.live p = true) :
    exec_calls U [Call.set_deleter p d, Call.add_retired_node p] w t
      = some ({ w with heap := (set_deleter w.heap p d).set_next p
                                  (t.retire_lists b.local_epoch) },
              { t with retire_lists := fun i => if i = b.local_epoch then p
                                               else t.retire_lists i }) := by
  have hg : b.local_epoch < number_epochs := hL
  have hl2 : (set_deleter w.heap p d).live p = true := by rw [set_deleter_live]; exact hl
  have htcb : ({ w with heap := set_deleter w.heap p d } : World).tcb cb = some b := hb
  simp only [exec_calls, Call.exec, hl, if_true, add_retired_node, hcb, htcb,
    add_retired_node_at, hg, hl2]

/-- C23. The call `guard.reclaim(d)` on a guard whose pointer part `p` is a live object,
held by a thread (`enter_count > 0`) whose control block holds the local epoch `L < 3`.
The calls made are `set_deleter(d)` on `p`, `add_retired_node(p)` and one
`leave_critical`, and they return.  Afterwards `p` carries the deleter `d` (if its
deleter type is not empty), `p->next` is the old head of `retire_lists[L]` and `p` is the
new head; the other two retire lists, every other object, the global epoch and the local
epoch are unchanged; no `delete_self` has run; the guard is null and `enter_count` is
one less (the flag `is_in_critical_region` is cleared if the count reaches `0`). -/
theorem C23_reclaim_frame (U N ptr d : Nat) (w : World) (t : thread_data) (cb : Nat)
    (b : thread_control_block)
    (hcb : t.control_block = some cb) (hb : w.tcb cb = some b) (hL : b.local_epoch < 3)
    (hl : w.heap.live (marked_ptr.get N ptr) = true)
    (hpos : 0 < t.enter_count) (hc : t.enter_count < UINT) :
    ∃ w1 t1,
      guard_ptr.reclaim N ptr d
        = some (0, [Call.set_deleter (marked_ptr.get N ptr) d,
                    Call.add_retired_node (marked_ptr.get N ptr), Call.leave_critical])
      ∧ exec_calls U [Call.set_deleter (marked_ptr.get N ptr) d,
                      Call.add_retired_node (marked_ptr.get N ptr), Call.leave_critical] w t
          = some (w1, t1)
      ∧ w1.heap = (set_deleter w.heap (marked_ptr.get N ptr) d).set_next
                    (marked_ptr.get N ptr) (t.retire_lists b.local_epoch)
      ∧ (∀ buf, (w.heap.obj (marked_ptr.get N ptr)).kind = .with_non_empty_deleter buf →
          (w1.heap.obj (marked_ptr.get N ptr)).kind = .with_non_empty_deleter (some d))
      ∧ ((w.heap.obj (marked_ptr.get N ptr)).kind = .with_empty_deleter →
          (w1.heap.obj (marked_ptr.get N ptr)).kind = .with_empty_deleter)
      ∧ (w1.heap.obj (marked_ptr.get N ptr)).next = t.retire_lists b.local_epoch
      ∧ t1.retire_lists b.local_epoch = marked_ptr.get N ptr
      ∧ (∀ i, i ≠ b.local_epoch → t1.retire_lists i = t.retire_lists i)
      ∧ (∀ q, q ≠ marked_ptr.get N ptr → w1.heap.obj q = w.heap.obj q)
      ∧ w1.global_epoch = w.global_epoch
      ∧ w1.tcb cb
          = some { b with is_in_critical_region :=
                     if t.enter_count = 1 then false else b.is_in_critical_region }
      ∧ (∀ c, c ≠ cb → w1.tcb c = w.tcb c)
      ∧ w1.heap.calls = w.heap.calls
      ∧ w1.abandoned = w.abandoned
      ∧ w1.update_attempts = w.update_attempts
      ∧ t1.enter_count = t.enter_count - 1
      ∧ t1.entries_since_update = t.entries_since_update
      ∧ t1.control_block = t.control_block := by
  have hp0 : marked_ptr.get N ptr ≠ 0 := ((live_iff _ _).mp hl).1
  have hcalls := reclaim_calls d hp0
  generalize marked_ptr.get N ptr = p at *
  have h2 := retire_calls_eq U d hcb hb hL hl
  have hsplit : exec_calls U
      [Call.set_deleter p d, Call.add_retired_node p, Call.leave_critical] w t
      = (exec_calls U [Call.set_deleter p d, Call.add_retired_node p] w t).bind
          fun r => exec_calls U [Call.leave_critical] r.1 r.2 :=
    exec_calls_append U [Call.set_deleter p d, Call.add_retired_node p]
      [Call.leave_critical] w t
  rw [hsplit, h2, Option.some_bind, exec_calls_single]
  have hkind1 : ∀ buf, (w.heap.obj p).kind = .with_non_empty_deleter buf →
      (((set_deleter w.heap p d).set_next p (t.retire_lists b.local_epoch)).obj p).kind
        = .with_non_empty_deleter (some d) := by
    intro buf hk
    rw [set_next_kind, set_deleter_non_empty d hk, set_kind_kind_same]
  have hkind2 : (w.heap.obj p).kind = .with_empty_deleter →
      (((set_deleter w.heap p d).set_next p (t.retire_lists b.local_epoch)).obj p).kind
        = .with_empty_deleter := by
    intro hk
    rw [set_next_kind]
    simp [set_deleter, hk]
  have hobj : ∀ q, q ≠ p →
      ((set_deleter w.heap p d).set_next p (t.retire_lists b.local_epoch)).obj q
        = w.heap.obj q := by
    intro q hq
    rw [set_next_obj_ne _ _ hq, set_deleter_obj_ne _ _ hq]
  have hcallsq : ((set_deleter w.heap p d).set_next p (t.retire_lists b.local_epoch)).calls
      = w.heap.calls := by
    rw [set_next_calls]
    unfold set_deleter
    split <;> rfl
  by_cases h1 : t.enter_count = 1
  · have hlast := @leave_critical_last
      { w with heap := (set_deleter w.heap p d).set_next p (t.retire_lists b.local_epoch) }
      { t with retire_lists := fun i => if i = b.local_epoch then p else t.retire_lists i }
      h1
    have hdl := @do_leave_critical_eq
      { w with heap := (set_deleter w.heap p d).set_next p (t.retire_lists b.local_epoch) }
      { t with enter_count := 0,
               retire_lists := fun i => if i = b.local_epoch then p else t.retire_lists i }
      cb b hcb hb
    refine ⟨_, _, hcalls, hlast.trans hdl, rfl, hkind1, hkind2, by simp, by simp, ?_, hobj,
      rfl, ?_, ?_, hcallsq, rfl, rfl, by simp [h1], rfl, rfl⟩
    · intro i hi
      simp [hi]
    · simp only [h1, if_true]
      exact tcb_set_tcb_same hb _
    · intro c hcne
      exact tcb_set_tcb_ne _ (Ne.symm hcne) _
  · have hn := @leave_critical_nested
      { w with heap := (set_deleter w.heap p d).set_next p (t.retire_lists b.local_epoch) }
      { t with retire_lists := fun i => if i = b.local_epoch then p else t.retire_lists i }
      (by show 1 < t.enter_count; omega) hc
    refine ⟨_, _, hcalls, hn, rfl, hkind1, hkind2, by simp, by simp, ?_, hobj,
      rfl, ?_, ?_, hcallsq, rfl, rfl, rfl, rfl, rfl⟩
    · intro i hi
      simp [hi]
    · simp only [h1, if_false]
      exact hb
    · intro c _
      rfl

/-- Instance of C23: the thread of `thread1`, inside a critical region at epoch `0`,
reclaims its guard on the marked pointer `7` (object `4`, mark `3`). -/
theorem C23_witness :
    world1.heap.live (marked_ptr.get 2 7) = true
    ∧ ∃ w1 t1,
        guard_ptr.reclaim 2 7 0
          = some (0, [Call.set_deleter (marked_ptr.get 2 7) 0,
                      Call.add_retired_node (marked_ptr.get 2 7), Call.leave_critical])
        ∧ exec_calls 0 [Call.set_deleter (marked_ptr.get 2 7) 0,
                        Call.add_retired_node (marked_ptr.get 2 7), Call.leave_critical]
            world1 thread1 = some (w1, t1)
        ∧ t1.retire_lists 0 = marked_ptr.get 2 7
        ∧ w1.heap.calls = []
        ∧ t1.enter_count = 0 :=
  have h := C23_reclaim_frame 0 2 7 0 world1 thread1 0
    { is_in_critical_region := true, local_epoch := 0, active := true }
    rfl rfl (by decide) (by decide) (by decide) (by decide)
  ⟨by decide,
   match h with
   | ⟨w1, t1, a1, a2, _, _, _, _, a7, _, _, _, _, _, a13, _, _, a16, _⟩ =>
     ⟨w1, t1, a1, a2, a7, a13, a16⟩⟩

/-! ## C25: the postcondition of `acquire_if_equal` -/

theorem exec_enter_leave_count {U : Nat} {w w1 : World} {t t1 : thread_data}
    (hc : t.enter_count < UINT)
    (h : exec_calls U [Call.enter_critical, Call.leave_critical] w t = some (w1, t1)) :
    t1.enter_count = t.enter_count := by
  simp only [exec_calls, Call.exec] at h
  split at h
  · cases h
  · rename_i w2 t2 he
    split at h
    · cases h
    · rename_i w3 t3 hl
      cases h
      have e1 := enter_critical_count he
      obtain ⟨hpos, e2⟩ := leave_critical_count hl
      rw [e2, e1]
      rw [e1] at hpos
      unfold UINT at *
      omega

/-- C25. The postcondition of `acquire_if_equal` on a guard holding the word `ptr`, for
every first snapshot `first`, every reloaded value `second` and every `expected`.  When
it returns `true` the guard holds exactly the word `expected` (so the same pointer and
the same mark); when it returns `false` the guard is null.  Whenever the calls it makes
return, `enter_count` is its previous value adjusted by the change in the nullness of
the guard: incremented (as a 32 bit unsigned) if the guard was null and is not any more,
decremented if the guard was non-null and is null now, unchanged otherwise.  When
both loads return the same value `v`, the result is `true` if and only if
`v == expected`. -/
theorem C25_acquire_if_equal_postcondition (U N ptr expected first second v : Nat)
    (w w1 : World) (t t1 : thread_data) (hc : t.enter_count < UINT)
    (h : exec_calls U (guard_ptr.acquire_if_equal ptr expected first second).2.2 w t
          = some (w1, t1)) :
    ((guard_ptr.acquire_if_equal ptr expected first second).1 = true →
        (guard_ptr.acquire_if_equal ptr expected first second).2.1 = expected
        ∧ marked_ptr.get N (guard_ptr.acquire_if_equal ptr expected first second).2.1
            = marked_ptr.get N expected
        ∧ marked_ptr.mark N (guard_ptr.acquire_if_equal ptr expected first second).2.1
            = marked_ptr.mark N expected)
    ∧ ((guard_ptr.acquire_if_equal ptr expected first second).1 = false →
        (guard_ptr.acquire_if_equal ptr expected first second).2.1 = 0)
    ∧ t1.enter_count
        = (if ptr = 0 ∧ (guard_ptr.acquire_if_equal ptr expected first second).2.1 ≠ 0 then
             (t.enter_count + 1) % UINT
           else if ptr ≠ 0 ∧ (guard_ptr.acquire_if_equal ptr expected first second).2.1 = 0
             then t.enter_count - 1
           else t.enter_count)
    ∧ ((guard_ptr.acquire_if_equal ptr expected v v).1 = true ↔ v = expected) := by
  have hpost : ∀ f s : Nat,
      ((guard_ptr.acquire_if_equal ptr expected f s).1 = true →
        (guard_ptr.acquire_if_equal ptr expected f s).2.1 = expected)
      ∧ ((guard_ptr.acquire_if_equal ptr expected f s).1 = false →
        (guard_ptr.acquire_if_equal ptr expected f s).2.1 = 0) := by
    intro f s
    unfold guard_ptr.acquire_if_equal
    by_cases h1 : f = 0 ∨ f ≠ expected
    · rw [if_pos h1]
      refine ⟨fun e => ?_, fun _ => rfl⟩
      have e1 : f = expected := by simpa using e
      rcases h1 with h1 | h1
      · show (0 : Nat) = expected
        rw [← e1, h1]
      · exact absurd e1 h1
    · rw [if_neg h1]
      dsimp only
      by_cases h2 : s = 0 ∨ s ≠ expected
      · rw [if_pos h2]
        refine ⟨fun e => ?_, fun _ => rfl⟩
        have e1 : (0 : Nat) = expected := by simpa using e
        exact e1
      · rw [if_neg h2]
        push_neg at h2
        exact ⟨fun _ => h2.2, fun e => by simp [h2.2] at e⟩
  refine ⟨fun e => ?_, (hpost first second).2, ?_, ?_⟩
  · have := (hpost first second).1 e
    exact ⟨this, by rw [this], by rw [this]⟩
  · revert h
    unfold guard_ptr.acquire_if_equal
    by_cases h1 : first = 0 ∨ first ≠ expected
    · rw [if_pos h1]
      by_cases hp : ptr = 0
      · simp only [guard_ptr.reset, hp, ne_eq, not_true_eq_false, if_false, exec_calls]
        intro h
        cases h
        simp
      · simp only [guard_ptr.reset, hp, ne_eq, not_false_eq_true, if_true]
        intro h
        rw [exec_calls_single] at h
        have := (leave_critical_count h).2
        have hpos := (leave_critical_count h).1
        rw [this]
        simp only [hp, false_and, if_false, ne_eq, not_false_eq_true, and_self, if_true]
        unfold UINT at *
        omega
    · rw [if_neg h1]
      dsimp only
      by_cases h2 : second = 0 ∨ second ≠ expected
      · rw [if_pos h2]
        by_cases hp : ptr = 0
        · simp only [hp, if_true, List.singleton_append]
          intro h
          rw [exec_enter_leave_count hc h]
          simp
        · simp only [hp, if_false, List.nil_append]
          intro h
          rw [exec_calls_single] at h
          have := (leave_critical_count h).2
          have hpos := (leave_critical_count h).1
          rw [this]
          simp only [hp, false_and, if_false, ne_eq, not_false_eq_true, and_self, if_true]
          unfold UINT at *
          omega
      · rw [if_neg h2]
        push_neg at h2
        by_cases hp : ptr = 0
        · simp only [hp, if_true]
          intro h
          rw [exec_calls_single] at h
          rw [enter_critical_count h]
          simp [h2.1]
        · simp only [hp, if_false, exec_calls]
          intro h
          cases h
          simp [h2.1]
  · unfold guard_ptr.acquire_if_equal
    by_cases h1 : v = 0 ∨ v ≠ expected
    · rw [if_pos h1]
      simp
    · rw [if_neg h1]
      dsimp only
      rw [if_neg h1]
      simp

/-- Instance of C25: a new thread with a null guard calls `acquire_if_equal` on a field
that holds `4`, expecting `4`. -/
theorem C25_witness :
    thread_data.init.enter_count < UINT
    ∧ guard_ptr.acquire_if_equal 0 4 4 4 = (true, 4, [Call.enter_critical])
    ∧ ∃ w1 t1, exec_calls 0 (guard_ptr.acquire_if_equal 0 4 4 4).2.2
          (World.init heap8) thread_data.init = some (w1, t1)
        ∧ t1.enter_count = 1 :=
  have h := first_entry_init 0
  have h2 : exec_calls 0 (guard_ptr.acquire_if_equal 0 4 4 4).2.2
      (World.init heap8) thread_data.init = _ := (exec_calls_single 0 _ _ _).trans h
  ⟨by decide, by decide, _, _, h2,
   (C25_acquire_if_equal_postcondition 0 2 0 4 4 4 4 _ _ _ _ (by decide) h2).2.2.1⟩

/-! ## C24: `delete_objects` -/

/-- Neither `delete_objects` nor `delete_self` writes a `next` field. -/
theorem drain_keeps_next (fuel : Nat) :
    (∀ (h h1 : Heap) (p : Ptr), delete_objects_loop fuel h p = some h1 →
        ∀ q, (h1.obj q).next = (h.obj q).next)
    ∧ (∀ (h h1 : Heap) (p : Ptr), delete_self fuel h p = some h1 →
        ∀ q, (h1.obj q).next = (h.obj q).next) := by
  induction fuel with
  | zero =>
    constructor
    · intro h h1 p e
      rw [delete_objects_loop] at e
      cases e
    · intro h h1 p e
      rw [delete_self] at e
      cases e
  | succ n ih =>
    constructor
    · intro h h1 p e q
      rw [delete_objects_loop] at e
      split at e
      · cases e; rfl
      · split at e
        · dsimp only at e
          split at e
          · cases e
          · rename_i h2 hs
            rw [ih.1 _ _ _ e q, ih.2 _ _ _ hs q]
        · cases e
    · intro h h1 p e q
      rw [delete_self] at e
      split at e
      · split at e
        · cases e; rfl
        · cases e
        · cases e
          simp [Heap.log]
        · rename_i te l0 l1 l2 hk
          cases e0 : delete_objects_loop n (h.log none p) l0 with
          | none => rw [e0] at e; cases e
          | some a =>
            rw [e0, Option.some_bind] at e
            cases e1 : delete_objects_loop n a l1 with
            | none => rw [e1] at e; cases e
            | some c =>
              rw [e1, Option.some_bind] at e
              rw [ih.1 _ _ _ e q, ih.1 _ _ _ e1 q, ih.1 _ _ _ e0 q]
              rfl
      · cases e

theorem ListOf.congr_next {h h2 : Heap} {p : Ptr} {ns : List Ptr} (l : ListOf h p ns)
    (e : ∀ q, (h2.obj q).next = (h.obj q).next) : ListOf h2 p ns := by
  induction l with
  | nil => exact ListOf.nil
  | cons hp _ ih => exact ListOf.cons hp (by rw [e]; exact ih)

theorem ListOf.same_nodes {h : Heap} {p : Ptr} {ns : List Ptr} (l : ListOf h p ns) :
    ∀ {ms : List Ptr}, ListOf h p ms → ns = ms := by
  induction l with
  | nil =>
    intro ms m
    cases m with
    | nil => rfl
    | cons hp _ => exact absurd rfl hp
  | cons hp _ ih =>
    intro ms m
    cases m with
    | nil => exact absurd rfl hp
    | cons _ m2 => rw [ih m2]

theorem ListOf.suffix_of_mem {h : Heap} {p : Ptr} {ns : List Ptr} (l : ListOf h p ns) :
    ∀ q ∈ ns, ∃ l1 l2, ns = l1 ++ q :: l2 ∧ ListOf h q (q :: l2) := by
  induction l with
  | nil => intro q hq; cases hq
  | @cons p ns hp l2 ih =>
    intro q hq
    rcases List.mem_cons.mp hq with e | hq
    · subst e
      exact ⟨[], ns, rfl, ListOf.cons hp l2⟩
    · obtain ⟨a, c, e, m⟩ := ih q hq
      exact ⟨p :: a, c, by rw [e]; rfl, m⟩

/-- A list that reaches `nullptr` meets no object twice. -/
theorem ListOf.nodup {h : Heap} {p : Ptr} {ns : List Ptr} (l : ListOf h p ns) : ns.Nodup := by
  induction l with
  | nil => exact List.nodup_nil
  | @cons p ns hp l2 ih =>
    refine List.nodup_cons.mpr ⟨?_, ih⟩
    intro hmem
    obtain ⟨a, c, e, m⟩ := l2.suffix_of_mem p hmem
    have := (ListOf.cons hp l2).same_nodes m
    have hlen := congrArg List.length this
    rw [e] at hlen
    simp at hlen
    omega

/-- A null terminated list of live user nodes is a well-formed retire list. -/
theorem ListOf.chain {h : Heap} {p : Ptr} {ns : List Ptr} (l : ListOf h p ns)
    (hn : ∀ q ∈ ns, h.live q = true ∧ h.is_node q) : Chain h p ns := by
  induction l with
  | nil => exact Chain.nil
  | @cons p ns hp l2 ih =>
    exact Chain.node (hn p (List.mem_cons_self _ _)).1 (hn p (List.mem_cons_self _ _)).2
      (ih fun q hq => hn q (List.mem_cons_of_mem _ hq))

/-- The nodes of a well-formed retire list, among its footprint. -/
theorem Chain.nodes {h : Heap} {p : Ptr} {fp : List Ptr} (c : Chain h p fp) :
    ∃ ns, ListOf h p ns ∧ ns.Sublist fp ∧ ((∀ q ∈ ns, h.is_node q) → fp = ns) := by
  induction c with
  | nil => exact ⟨[], ListOf.nil, List.Sublist.refl _, fun _ => rfl⟩
  | @node p fp hl hn c ih =>
    obtain ⟨ns, l, s, e⟩ := ih
    refine ⟨p :: ns, ListOf.cons ((live_iff _ _).mp hl).1 l, s.cons₂ p, fun hq => ?_⟩
    rw [e fun q hq2 => hq q (List.mem_cons_of_mem _ hq2)]
  | @orphan p te l0 l1 l2 f0 f1 f2 fp hl hk c0 c1 c2 c _ _ _ ih =>
    obtain ⟨ns, l, s, _⟩ := ih
    refine ⟨p :: ns, ListOf.cons ((live_iff _ _).mp hl).1 l,
      (List.sublist_append_of_sublist_right s).cons₂ p, fun hq => ?_⟩
    have := hq p (List.mem_cons_self _ _)
    rcases this with e | ⟨d, e⟩ <;> rw [hk] at e <;> cases e

theorem traced_loop_fst (fuel : Nat) : ∀ (h : Heap) (p : Ptr),
    (delete_objects_traced_loop fuel h p).map Prod.fst = delete_objects_loop fuel h p := by
  induction fuel with
  | zero => intro h p; rw [delete_objects_traced_loop, delete_objects_loop]; rfl
  | succ n ih =>
    intro h p
    rw [delete_objects_traced_loop, delete_objects_loop]
    by_cases hp : p = 0
    · simp [hp]
    · simp only [hp, if_false]
      by_cases hl : h.live p = true
      · simp only [hl, if_true]
        cases hs : delete_self n h p with
        | none => rfl
        | some h1 =>
          simp only
          rw [← ih h1 (h.obj p).next]
          cases delete_objects_traced_loop n h1 (h.obj p).next with
          | none => rfl
          | some r => rfl
      · simp [hl]

theorem traced_loop_accesses (fuel : Nat) : ∀ (h : Heap) (p : Ptr) (r : Heap × List Access),
    delete_objects_traced_loop fuel h p = some r →
    ∃ ns, ListOf h p ns ∧ r.2 = drain_accesses ns := by
  induction fuel with
  | zero => intro h p r e; rw [delete_objects_traced_loop] at e; cases e
  | succ n ih =>
    intro h p r e
    rw [delete_objects_traced_loop] at e
    by_cases hp : p = 0
    · simp only [hp, if_true] at e
      cases e
      exact ⟨[], hp ▸ ListOf.nil, rfl⟩
    · simp only [hp, if_false] at e
      by_cases hl : h.live p = true
      · simp only [hl, if_true] at e
        cases hs : delete_self n h p with
        | none => rw [hs] at e; cases e
        | some h1 =>
          rw [hs] at e
          simp only at e
          cases ht : delete_objects_traced_loop n h1 (h.obj p).next with
          | none => rw [ht] at e; cases e
          | some r2 =>
            rw [ht] at e
            cases e
            obtain ⟨ns, l, a⟩ := ih _ _ _ ht
            have l2 : ListOf h (h.obj p).next ns :=
              l.congr_next fun q => ((drain_keeps_next n).2 _ _ _ hs q).symm
            exact ⟨p :: ns, ListOf.cons hp l2, by simp [drain_accesses, a]⟩
      · simp [hl] at e

/-- The function `delete_objects` on a well-formed retire list with the nodes `ns`. -/
theorem delete_objects_ref_drainable {h : Heap} {p : Ptr} {fp ns : List Ptr}
    (hd : Drainable h p fp) (hw : ListOf h p ns) :
    delete_objects_ref h p = some (fp.foldl delete_one h, 0, drain_accesses ns) := by
  have h1 := delete_objects_drainable hd
  unfold delete_objects at h1
  have h2 := traced_loop_fst (2 * h.top + 1) h p
  rw [h1] at h2
  unfold delete_objects_ref
  cases ht : delete_objects_traced_loop (2 * h.top + 1) h p with
  | none => rw [ht] at h2; cases h2
  | some r =>
    rw [ht] at h2
    obtain ⟨ms, l, a⟩ := traced_loop_accesses _ _ _ _ ht
    have e1 : r.1 = fp.foldl delete_one h := by
      simpa using h2
    obtain ⟨r1, r2⟩ := r
    simp only at e1 a
    rw [e1, a, l.same_nodes hw]

/-- C24. For every null terminated list (so finite and acyclic) with the nodes `ns`,
head first, that is a well-formed retire list (its nodes are live; a user node has its
deleter, an orphan carries well-formed lists; nothing is met twice; `fp` lists the nodes
together with what the orphans among them carry): `delete_objects` returns; its accesses
to the nodes are, for each node in head-to-tail order, the read of its `next` link
immediately followed by its `delete_self`, and nothing else, so `delete_self` runs
exactly once on each of the `n` nodes and a `next` link is never read after the
`delete_self` of its node; the objects destroyed are exactly those of `fp`, each once;
and `list` is null afterwards.  For a list of user nodes `fp` is `ns`.  On the empty
list nothing is accessed and nothing is destroyed.  A null terminated list of live user
nodes with their deleters is such a well-formed list. -/
theorem C24_delete_objects (h : Heap) (p : Ptr) (ns fp : List Ptr)
    (hw : ListOf h p ns) (hd : Drainable h p fp) :
    delete_objects_ref h p = some (fp.foldl delete_one h, 0, drain_accesses ns)
    ∧ delete_objects h p = some (fp.foldl delete_one h)
    ∧ (fp.foldl delete_one h).deleted = h.deleted ++ fp
    ∧ ns.Nodup ∧ fp.Nodup ∧ ns.Sublist fp
    ∧ (∀ q ∈ ns, (fp.foldl delete_one h).deleted.count q = 1)
    ∧ ((∀ q ∈ ns, h.is_node q) → fp = ns)
    ∧ ((∀ q ∈ ns, h.live q = true ∧ h.is_node q) → Drainable h p ns)
    ∧ delete_objects_ref h 0 = some (h, 0, []) := by
  obtain ⟨ms, l, s, e⟩ := hd.1.nodes
  have hms : ms = ns := l.same_nodes hw
  subst hms
  refine ⟨delete_objects_ref_drainable hd hw, delete_objects_drainable hd,
    foldl_delete_one_deleted _ _, hw.nodup, hd.2, s, ?_, e, ?_, ?_⟩
  · intro q hq
    have hq2 := s.subset hq
    have hl := (live_iff _ _).mp (hd.1.live_of_mem q hq2)
    rw [foldl_delete_one_deleted, List.count_append, List.count_eq_zero_of_not_mem hl.2.2,
      List.count_eq_one_of_mem hd.2 hq2]
  · intro hn
    exact ⟨hw.chain hn, hw.nodup⟩
  · have := @delete_objects_ref_drainable h 0 [] [] ⟨Chain.nil, List.nodup_nil⟩ ListOf.nil
    exact this

theorem listOf_heap8l : ListOf heap8l 4 [4, 6, 2] :=
  ListOf.cons (by decide) (ListOf.cons (by decide) (ListOf.cons (by decide) ListOf.nil))

theorem drainable_heap8l : Drainable heap8l 4 [4, 6, 2] :=
  ⟨listOf_heap8l.chain (by
      intro q hq
      refine ⟨?_, Or.inl rfl⟩
      simp only [List.mem_cons, List.mem_singleton, List.not_mem_nil, or_false] at hq
      rcases hq with rfl | rfl | rfl <;> decide),
   by decide⟩

/-- Instance of C24: the list `4 -> 6 -> 2` of three user nodes. -/
theorem C24_witness :
    ListOf heap8l 4 [4, 6, 2] ∧ Drainable heap8l 4 [4, 6, 2]
    ∧ delete_objects_ref heap8l 4
        = some ([4, 6, 2].foldl delete_one heap8l, 0,
                [Access.read_next 4, Access.delete_self 4, Access.read_next 6,
                 Access.delete_self 6, Access.read_next 2, Access.delete_self 2])
    ∧ ([4, 6, 2].foldl delete_one heap8l).deleted = [4, 6, 2] :=
  have h := C24_delete_objects heap8l 4 [4, 6, 2] [4, 6, 2] listOf_heap8l drainable_heap8l
  ⟨listOf_heap8l, drainable_heap8l, h.1, h.2.2.1⟩

/-! ## C26: the range of `local_epoch` -/

theorem tcb_set_tcb_cases {w : World} {cb i : Nat} {x b : thread_control_block}
    (h : (w.set_tcb cb x).tcb i = some b) :
    (i = cb ∧ b = x) ∨ (i ≠ cb ∧ w.tcb i = some b) := by
  by_cases hi : i = cb
  · subst hi
    left
    refine ⟨rfl, ?_⟩
    have hlt : i < w.entries.length := by
      have := tcb_lt h
      simpa [World.set_tcb] using this
    obtain ⟨b0, hb0⟩ := tcb_of_lt hlt
    rw [tcb_set_tcb_same hb0] at h
    exact (Option.some.inj h).symm
  · right
    refine ⟨hi, ?_⟩
    rw [tcb_set_tcb_ne w (Ne.symm hi)] at h
    exact h

/-- The control blocks after `ensure_has_control_block`: only a newly allocated one
holds the sentinel. -/
theorem ensure_has_control_block_entries {w w0 : World} {t t0 : thread_data} {cb : Nat}
    (h : ensure_has_control_block w t = (w0, t0, cb))
    (hlt : ∀ i b, w.tcb i = some b → b.local_epoch < 3) :
    (∀ i b, w0.tcb i = some b → i ≠ cb → b.local_epoch < 3)
    ∧ (∀ i b, w0.tcb i = some b → b.local_epoch ≤ 3)
    ∧ w.entries.length ≤ w0.entries.length := by
  unfold ensure_has_control_block at h
  cases hc : t.control_block with
  | some c =>
    simp only [hc] at h
    cases h
    exact ⟨fun i b hb _ => hlt i b hb, fun i b hb => Nat.le_of_lt (hlt i b hb), le_refl _⟩
  | none =>
    simp only [hc] at h
    unfold acquire_entry at h
    cases hf : find_inactive w.entries with
    | some j =>
      simp only [hf] at h
      cases hj : w.tcb j with
      | none =>
        simp only [hj] at h
        cases h
        exact ⟨fun i b hb _ => hlt i b hb, fun i b hb => Nat.le_of_lt (hlt i b hb), le_refl _⟩
      | some bj =>
        simp only [hj] at h
        have h1 := congrArg Prod.fst h
        have h3 := congrArg (fun x => x.2.2) h
        simp only at h1 h3
        subst h1
        subst h3
        have key : ∀ i b, (w.set_tcb j { bj with active := true }).tcb i = some b →
            b.local_epoch < 3 := by
          intro i b hb
          rcases tcb_set_tcb_cases hb with ⟨_, e⟩ | ⟨_, e⟩
          · rw [e]; exact hlt j bj hj
          · exact hlt i b e
        exact ⟨fun i b hb _ => key i b hb, fun i b hb => Nat.le_of_lt (key i b hb),
          by simp [World.set_tcb]⟩
    | none =>
      simp only [hf] at h
      cases h
      have key : ∀ i b,
          (w.entries ++ [(⟨false, number_epochs, true⟩ : thread_control_block)]).get? i
            = some b →
          (i < w.entries.length ∧ w.tcb i = some b)
            ∨ (i = w.entries.length ∧ b.local_epoch = 3) := by
        intro i b hb
        by_cases hi : i < w.entries.length
        · left
          rw [List.get?_eq_getElem?, List.getElem?_append_left hi] at hb
          exact ⟨hi, by unfold World.tcb; rw [List.get?_eq_getElem?]; exact hb⟩
        · right
          have hlen := get_lt hb
          simp only [List.length_append, List.length_singleton] at hlen
          have e : i = w.entries.length := by omega
          subst e
          rw [List.get?_eq_getElem?, List.getElem?_append_right (le_refl _)] at hb
          simp only [Nat.sub_self, List.getElem?_cons_zero, Option.some.injEq] at hb
          rw [← hb]
          exact ⟨rfl, rfl⟩
      refine ⟨fun i b hb hne => ?_, fun i b hb => ?_, by simp⟩
      · rcases key i b hb with ⟨_, e⟩ | ⟨e, _⟩
        · exact hlt i b e
        · exact absurd e hne
      · rcases key i b hb with ⟨_, e⟩ | ⟨_, e⟩
        · exact Nat.le_of_lt (hlt i b e)
        · omega

theorem others_of_set {w w1 : World} {cb : Nat} {x : thread_control_block}
    (h : w1.entries = w.entries.set cb x)
    (ho : ∀ i b, w.tcb i = some b → i ≠ cb → b.local_epoch < 3) :
    ∀ i b, w1.tcb i = some b → i ≠ cb → b.local_epoch < 3 := by
  intro i b hb hi
  have e : w1.tcb i = (w.set_tcb cb x).tcb i := by
    unfold World.tcb
    rw [h]
    rfl
  rw [e] at hb
  rcases tcb_set_tcb_cases hb with ⟨e1, _⟩ | ⟨_, e2⟩
  · exact absurd e1 hi
  · exact ho i b e2 hi

theorem below3_of_set {w w1 : World} {cb : Nat} {x : thread_control_block}
    (h : w1.entries = w.entries.set cb x)
    (ho : ∀ i b, w.tcb i = some b → i ≠ cb → b.local_epoch < 3) (hx : x.local_epoch < 3) :
    ∀ i b, w1.tcb i = some b → b.local_epoch < 3 := by
  intro i b hb
  have e : w1.tcb i = (w.set_tcb cb x).tcb i := by
    unfold World.tcb
    rw [h]
    rfl
  rw [e] at hb
  rcases tcb_set_tcb_cases hb with ⟨_, e1⟩ | ⟨e1, e2⟩
  · rw [e1]; exact hx
  · exact ho i b e2 e1

theorem in_critical_region_some {w : World} {t : thread_data}
    (h : t.in_critical_region w = true) :
    ∃ cb b, t.control_block = some cb ∧ w.tcb cb = some b := by
  unfold thread_data.in_critical_region at h
  cases hc : t.control_block with
  | none => simp [hc] at h
  | some cb =>
    cases hb : w.tcb cb with
    | none => simp [hc, hb] at h
    | some b => exact ⟨cb, b, rfl, hb⟩

/-- Every first-level entry leaves all control blocks, that of the entering thread
included, with a local epoch below `3`. -/
theorem do_enter_critical_below3 {U : Nat} {w w1 : World} {t t1 : thread_data}
    (h : do_enter_critical U w t = some (w1, t1)) (hg : w.global_epoch < 3)
    (hlt : ∀ i b, w.tcb i = some b → b.local_epoch < 3) :
    (∀ i b, w1.tcb i = some b → b.local_epoch < 3)
    ∧ w.entries.length ≤ w1.entries.length
    ∧ ∃ cb b, t1.control_block = some cb ∧ w1.tcb cb = some b ∧ b.local_epoch < 3 := by
  have hall : (∀ i b, w1.tcb i = some b → b.local_epoch < 3)
      ∧ w.entries.length ≤ w1.entries.length := by
    rcases he : ensure_has_control_block w t with ⟨w0, t0, cb⟩
    obtain ⟨hne, _, hlen⟩ := ensure_has_control_block_entries he hlt
    obtain ⟨-, -, -, -, hg0, -, -, -⟩ := ensure_has_control_block_spec he
    unfold do_enter_critical at h
    rw [he] at h
    simp only at h
    split at h
    · cases h
    · rename_i b hb
      simp only [set_tcb_global_epoch, hg0] at h
      have hA : ∀ i b1, (w0.set_tcb cb { b with is_in_critical_region := true }).tcb i
          = some b1 → i ≠ cb → b1.local_epoch < 3 := others_of_set rfl hne
      have hlenA : (w0.set_tcb cb { b with is_in_critical_region := true }).entries.length
          = w0.entries.length := by simp [World.set_tcb]
      split at h
      · obtain ⟨b2, _, hent, he3, _⟩ := adopt_epoch_frame h
        refine ⟨below3_of_set hent hA he3, ?_⟩
        rw [hent, List.length_set, hlenA]
        exact hlen
      · rename_i heq
        have hb3 : b.local_epoch < 3 := by
          have : b.local_epoch = w.global_epoch := not_not.mp heq
          rw [this]; exact hg
        have hAll : ∀ i b1, (w0.set_tcb cb { b with is_in_critical_region := true }).tcb i
            = some b1 → b1.local_epoch < 3 := below3_of_set rfl hne hb3
        split at h
        · split at h
          · cases h
          · rename_i w2 t2 htry
            cases h
            obtain ⟨hent, -⟩ := try_update_epoch_frame htry
            refine ⟨fun i b1 hb1 => hAll i b1 (by rw [← tcb_congr hent i]; exact hb1), ?_⟩
            rw [hent, hlenA]
            exact hlen
          · rename_i w2 t2 htry
            obtain ⟨hent, -⟩ := try_update_epoch_frame htry
            obtain ⟨b2, _, hent2, he3, _⟩ := adopt_epoch_frame h
            have h2 : ∀ i b1, w2.tcb i = some b1 → i ≠ cb → b1.local_epoch < 3 :=
              fun i b1 hb1 hi => hA i b1 (by rw [← tcb_congr hent i]; exact hb1) hi
            refine ⟨below3_of_set hent2 h2 he3, ?_⟩
            rw [hent2, List.length_set, hent, hlenA]
            exact hlen
        · cases h
          refine ⟨hAll, ?_⟩
          rw [hlenA]
          exact hlen
  obtain ⟨cb, b, hc, hb⟩ := in_critical_region_some (do_enter_critical_flag h).1
  exact ⟨hall.1, hall.2, cb, b, hc, hb, hall.1 cb b hb⟩


theorem call_exec_below3 {U : Nat} {c : Call} {w w1 : World} {t t1 : thread_data}
    (h : c.exec U w t = some (w1, t1)) (hg : w.global_epoch < 3)
    (hlt : ∀ i b, w.tcb i = some b → b.local_epoch < 3) :
    (∀ i b, w1.tcb i = some b → b.local_epoch < 3)
    ∧ w.entries.length ≤ w1.entries.length := by
  cases c with
  | enter_critical =>
    simp only [Call.exec, enter_critical] at h
    split at h
    · exact ⟨(do_enter_critical_below3 h hg hlt).1, (do_enter_critical_below3 h hg hlt).2.1⟩
    · cases h
      exact ⟨hlt, le_refl _⟩
  | leave_critical =>
    simp only [Call.exec, leave_critical] at h
    split at h
    · split at h
      · simp only [do_leave_critical] at h
        split at h
        · cases h
        · rename_i cb hcb
          split at h
          · cases h
          · rename_i b hb
            cases h
            exact ⟨below3_of_set rfl (fun i b1 hb1 _ => hlt i b1 hb1) (hlt cb b hb),
              by simp [World.set_tcb]⟩
      · cases h
        exact ⟨hlt, le_refl _⟩
    · cases h
  | set_deleter p d =>
    simp only [Call.exec] at h
    split at h
    · cases h
      exact ⟨hlt, le_refl _⟩
    · cases h
  | add_retired_node p =>
    simp only [Call.exec, add_retired_node] at h
    split at h
    · cases h
    · split at h
      · cases h
      · have e := (add_retired_node_at_frame h).1
        exact ⟨fun i b hb => hlt i b (by rw [← tcb_congr e i]; exact hb), by rw [e]⟩

theorem dtor_below3 {w w1 : World} {t : thread_data} (h : thread_data.dtor w t = some w1)
    (hlt : ∀ i b, w.tcb i = some b → b.local_epoch < 3) :
    (∀ i b, w1.tcb i = some b → b.local_epoch < 3)
    ∧ w.entries.length ≤ w1.entries.length := by
  unfold thread_data.dtor at h
  split at h
  · cases h
    exact ⟨hlt, le_refl _⟩
  · rename_i cb hcb
    simp only at h
    split at h
    · cases h
    · rename_i b hb
      split at h
      · cases h
      · cases h
        have hent : ∀ v : World, v.entries = w.entries → v.tcb cb = some b →
            (∀ i b1, (release_entry v cb).tcb i = some b1 → b1.local_epoch < 3)
            ∧ w.entries.length ≤ (release_entry v cb).entries.length := by
          intro v hv hvb
          have hb0 : w.tcb cb = some b := by rw [← tcb_congr hv cb]; exact hvb
          have e : (release_entry v cb).entries
              = w.entries.set cb { b with is_in_critical_region := false, active := false } := by
            simp [release_entry, hvb, World.set_tcb, hv]
          exact ⟨below3_of_set e (fun i b1 hb1 _ => hlt i b1 hb1) (hlt cb b hb0),
            by rw [e, List.length_set]⟩
        exact hent _ (by split <;> rfl) hb

theorem engine_step_below3 {U : Nat} {L : List Nat} {w w1 : World}
    (s : EngineStep U L w w1) (hg : w.global_epoch < 3)
    (hlt : ∀ i b, w.tcb i = some b → b.local_epoch < 3) :
    (∀ i b, w1.tcb i = some b → b.local_epoch < 3)
    ∧ w.entries.length ≤ w1.entries.length := by
  cases s with
  | call c t t1 h => exact call_exec_below3 h hg hlt
  | exit t h => exact dtor_below3 h hlt
  | update t t1 curr r hc h =>
    have e := (try_update_epoch_frame h).1
    exact ⟨fun i b hb => hlt i b (by rw [← tcb_congr e i]; exact hb), by rw [e]⟩

/-- Between whole operations every registered control block holds a local epoch below
`3`. -/
theorem engine_reach_below3 {U : Nat} {h0 : Heap} {w : World} {L : List Nat}
    (r : EngineReach U h0 w L) : ∀ i b, w.tcb i = some b → b.local_epoch < 3 := by
  induction r with
  | init =>
    intro i b hb
    simp [World.tcb, World.init] at hb
  | step r s ih => exact (engine_step_below3 s (engine_reach_inv r).1 ih).1
  | load _ ih => exact ih

theorem call_exec_thread {U : Nat} {c : Call} {w w1 : World} {t t1 : thread_data}
    (h : c.exec U w t = some (w1, t1)) (hg : w.global_epoch < 3)
    (hlt : ∀ i b, w.tcb i = some b → b.local_epoch < 3)
    (hv : ∀ cb, t.control_block = some cb → cb < w.entries.length)
    (hn : t.enter_count ≠ 0 → t.control_block ≠ none) :
    (∀ cb, t1.control_block = some cb → cb < w1.entries.length)
    ∧ (t1.enter_count ≠ 0 → t1.control_block ≠ none) := by
  have hlen := (call_exec_below3 h hg hlt).2
  cases c with
  | enter_critical =>
    simp only [Call.exec, enter_critical] at h
    split at h
    · obtain ⟨_, _, cb, b, hc, hb, _⟩ := do_enter_critical_below3 h hg hlt
      refine ⟨fun c hc2 => ?_, fun _ => by rw [hc]; simp⟩
      rw [hc] at hc2
      cases hc2
      exact tcb_lt hb
    · rename_i hne
      cases h
      refine ⟨hv, fun _ => hn ?_⟩
      intro h0
      apply hne
      show (t.enter_count + 1) % UINT = 1
      rw [h0]
      rfl
  | leave_critical =>
    have hx : leave_critical w t = some (w1, t1) := h
    have hpos := (leave_critical_count hx).1
    have hcb : t1.control_block = t.control_block := by
      unfold leave_critical at hx
      rw [if_pos hpos] at hx
      dsimp only at hx
      by_cases h0 : (t.enter_count + UINT - 1) % UINT = 0
      · rw [if_pos h0] at hx
        simp only [do_leave_critical] at hx
        split at hx
        · cases hx
        · split at hx
          · cases hx
          · cases hx
            rfl
      · rw [if_neg h0] at hx
        cases hx
        rfl
    rw [hcb]
    exact ⟨fun cb hc => lt_of_lt_of_le (hv cb hc) hlen, fun _ => hn (by omega)⟩
  | set_deleter p d =>
    simp only [Call.exec] at h
    split at h
    · cases h
      exact ⟨hv, hn⟩
    · cases h
  | add_retired_node p =>
    simp only [Call.exec, add_retired_node] at h
    split at h
    · cases h
    · rename_i cb hcb
      split at h
      · cases h
      · have e := (add_retired_node_at_frame h).2.2.2.2.1
        rw [e]
        exact ⟨fun c hc => lt_of_lt_of_le (hv c hc) hlen, fun _ => by rw [hcb]; simp⟩

theorem thread_reach_engine {U : Nat} {h0 : Heap} {w : World} {t : thread_data}
    {L : List Nat} (r : ThreadReach U h0 w t L) : EngineReach U h0 w L := by
  induction r with
  | start r => exact r
  | own c _ h ih => exact ih.step (EngineStep.call c _ _ h)
  | other _ s ih => exact ih.step s
  | load _ ih => exact ih.load

/-- A thread that holds a guard has a control block, and a control block pointer is
valid. -/
theorem thread_reach_inv {U : Nat} {h0 : Heap} {w : World} {t : thread_data}
    {L : List Nat} (r : ThreadReach U h0 w t L) :
    (∀ cb, t.control_block = some cb → cb < w.entries.length)
    ∧ (t.enter_count ≠ 0 → t.control_block ≠ none) := by
  induction r with
  | start r =>
    exact ⟨fun cb hc => by simp [thread_data.init] at hc,
      fun hc => absurd rfl hc⟩
  | own c r h ih =>
    have e := thread_reach_engine r
    exact call_exec_thread h (engine_reach_inv e).1 (engine_reach_below3 e) ih.1 ih.2
  | other r s ih =>
    have e := thread_reach_engine r
    have hlen := (engine_step_below3 s (engine_reach_inv e).1 (engine_reach_below3 e)).2
    exact ⟨fun cb hc => lt_of_lt_of_le (ih.1 cb hc) hlen, ih.2⟩
  | load _ ih => exact ih

theorem tcb_append_new (w : World) (b : thread_control_block) :
    ({ w with entries := w.entries ++ [b] } : World).tcb w.entries.length = some b := by
  simp [World.tcb, List.get?_eq_getElem?]

/-- The first entry of a thread that is given a new control block, up to the store into
`local_epoch`: the control block still holds the sentinel. -/
theorem do_enter_critical_load_new (U : Nat) {w : World} {t : thread_data}
    (hg : w.global_epoch < 3) (hcb : t.control_block = none)
    (hf : find_inactive w.entries = none) :
    ∃ w1 t1 cb b, do_enter_critical_load U w t = some (w1, t1, some (cb, w.global_epoch))
      ∧ t1.control_block = some cb ∧ w1.tcb cb = some b ∧ b.local_epoch = 3
      ∧ b.is_in_critical_region = true := by
  have hne : (3 : Nat) ≠ w.global_epoch := by omega
  have hb := tcb_append_new w ⟨false, number_epochs, true⟩
  unfold do_enter_critical_load
  rw [ensure_has_control_block_new hcb hf]
  simp only [hb]
  rw [if_pos (by show number_epochs ≠ w.global_epoch; exact hne)]
  exact ⟨_, _, _, _, rfl, rfl, tcb_set_tcb_same hb _, rfl, rfl⟩

/-- No control block holds a local epoch above `3` while a thread is between the load
of `global_epoch` and the store into `local_epoch`. -/
theorem do_enter_critical_load_le3 {U : Nat} {w w1 : World} {t t1 : thread_data}
    {p : Option (Nat × Nat)} (h : do_enter_critical_load U w t = some (w1, t1, p))
    (hlt : ∀ i b, w.tcb i = some b → b.local_epoch < 3) :
    ∀ i b, w1.tcb i = some b → b.local_epoch ≤ 3 := by
  rcases he : ensure_has_control_block w t with ⟨w0, t0, cb⟩
  obtain ⟨_, hle, _⟩ := ensure_has_control_block_entries he hlt
  have hA : ∀ (x : thread_control_block) (b0 : thread_control_block), w0.tcb cb = some b0 →
      x.local_epoch = b0.local_epoch →
      ∀ i b1, (w0.set_tcb cb x).tcb i = some b1 → b1.local_epoch ≤ 3 := by
    intro x b0 hb0 hx i b1 hb1
    rcases tcb_set_tcb_cases hb1 with ⟨_, e⟩ | ⟨_, e⟩
    · rw [e, hx]; exact hle cb b0 hb0
    · exact hle i b1 e
  unfold do_enter_critical_load at h
  rw [he] at h
  simp only at h
  split at h
  · cases h
  · rename_i b hb
    split at h
    · cases h
      exact hA { b with is_in_critical_region := true } b hb rfl
    · split at h
      · split at h
        · cases h
        · rename_i w2 t2 htry
          cases h
          have hent := (try_update_epoch_frame htry).1
          intro i b1 hb1
          exact hA { b with is_in_critical_region := true } b hb rfl i b1 (by rw [← tcb_congr hent i]; exact hb1)
        · rename_i w2 t2 htry
          cases h
          have hent := (try_update_epoch_frame htry).1
          intro i b1 hb1
          exact hA { b with is_in_critical_region := true } b hb rfl i b1 (by rw [← tcb_congr hent i]; exact hb1)
      · cases h
        exact hA { b with is_in_critical_region := true } b hb rfl

theorem find_inactive_spec : ∀ (es : List thread_control_block) (i : Nat),
    find_inactive es = some i → ∃ b, es.get? i = some b ∧ b.active = false := by
  intro es
  induction es with
  | nil => intro i h; cases h
  | cons e es ih =>
    intro i h
    simp only [find_inactive] at h
    cases hf : find_inactive es with
    | some j =>
      rw [hf] at h
      cases h
      obtain ⟨b, hb, ha⟩ := ih j hf
      exact ⟨b, by simpa using hb, ha⟩
    | none =>
      rw [hf] at h
      simp only at h
      split at h
      · cases h
      · rename_i hact
        cases h
        exact ⟨e, rfl, by simpa using hact⟩

/-- A thread without a control block that finds a released one takes it over as it is:
only the flag `active` is set. -/
theorem ensure_has_control_block_reused {w : World} {t : thread_data} {i : Nat}
    (hcb : t.control_block = none) (hf : find_inactive w.entries = some i) :
    ∃ b0, w.tcb i = some b0 ∧ b0.active = false
      ∧ ensure_has_control_block w t
          = (w.set_tcb i { b0 with active := true }, { t with control_block := some i }, i) := by
  obtain ⟨b0, hb0, ha⟩ := find_inactive_spec _ _ hf
  refine ⟨b0, hb0, ha, ?_⟩
  have hb : w.tcb i = some b0 := hb0
  simp only [ensure_has_control_block, hcb, acquire_entry, hf, hb]

/-- The first entry of a thread that takes over a released control block, up to the
store into `local_epoch`: the control block holds the local epoch of its former
owner. -/
theorem do_enter_critical_load_reused {U : Nat} {w w1 : World} {t t1 : thread_data}
    {i : Nat} {b0 : thread_control_block} {p : Option (Nat × Nat)}
    (hb0 : w.tcb i = some b0)
    (he : ensure_has_control_block w t
      = (w.set_tcb i { b0 with active := true }, { t with control_block := some i }, i))
    (h : do_enter_critical_load U w t = some (w1, t1, p)) :
    t1.control_block = some i
      ∧ w1.tcb i = some { is_in_critical_region := true, local_epoch := b0.local_epoch,
                          active := true } := by
  have hb : (w.set_tcb i { b0 with active := true }).tcb i = some { b0 with active := true } :=
    tcb_set_tcb_same hb0 _
  have hs := tcb_set_tcb_same hb
    ({ ({ b0 with active := true } : thread_control_block) with is_in_critical_region := true })
  unfold do_enter_critical_load at h
  rw [he] at h
  simp only [hb] at h
  split at h
  · cases h
    exact ⟨rfl, hs⟩
  · split at h
    · split at h
      · cases h
      · rename_i w2 t2 htry
        cases h
        obtain ⟨hent, -, -, hc, -⟩ := try_update_epoch_frame htry
        exact ⟨hc, by rw [tcb_congr hent i]; exact hs⟩
      · rename_i w2 t2 htry
        cases h
        obtain ⟨hent, -, -, hc, -⟩ := try_update_epoch_frame htry
        exact ⟨hc, by rw [tcb_congr hent i]; exact hs⟩
    · cases h
      exact ⟨rfl, hs⟩

/-- C26 (amended). The local epoch of a control block.  A newly allocated control block
holds the sentinel `3` (`number_epochs`), and the thread it is allocated for finds it
there during its first first-level entry, until the store into `local_epoch`.  A thread
that takes over a released control block finds there the local epoch its former owner
left, a value in `{0,1,2}`: `ensure_has_control_block` only sets the flag `active`, and
the block holds that local epoch until the store of the entry, if the entry makes one.
After every first-level entry that returns, the local epoch of the entering thread is in
`{0,1,2}`.  In every state that a thread starting with a default constructed
`thread_data` reaches by its own calls, interleaved with any steps of other threads, the
thread either has no control block and holds no guard, or its local epoch is in
`{0,1,2}`.  Every local epoch in a reachable state, also while a thread is between the
load of `global_epoch` and the store into `local_epoch`, is in `{0,1,2,3}`.  Consequently
`add_retired_node(p)` called while a guard is held (`enter_count` is not `0`) passes
`add_retired_node(p, epoch)` an index below `number_epochs`: its assertion holds, and the
call returns whenever `p` is live. -/
theorem C26_local_epoch_range (U : Nat) (h0 : Heap) :
    (∀ w, find_inactive w.entries = none →
        (acquire_entry w).1.tcb (acquire_entry w).2
          = some { is_in_critical_region := false, local_epoch := number_epochs,
                   active := true }
        ∧ number_epochs = 3)
    ∧ (∀ w L t, EngineReach U h0 w L → t.control_block = none →
        find_inactive w.entries = none →
        ∃ w1 t1 cb b,
          do_enter_critical_load U w t = some (w1, t1, some (cb, w.global_epoch))
          ∧ t1.control_block = some cb ∧ w1.tcb cb = some b ∧ b.local_epoch = 3
          ∧ b.is_in_critical_region = true)
    ∧ (∀ w L t i, EngineReach U h0 w L → t.control_block = none →
        find_inactive w.entries = some i →
        ∃ b0, w.tcb i = some b0 ∧ b0.active = false ∧ b0.local_epoch < 3
          ∧ ensure_has_control_block w t
              = (w.set_tcb i { b0 with active := true }, { t with control_block := some i }, i)
          ∧ ∀ w1 t1 p, do_enter_critical_load U w t = some (w1, t1, p) →
              t1.control_block = some i
              ∧ w1.tcb i = some { is_in_critical_region := true,
                                  local_epoch := b0.local_epoch, active := true })
    ∧ (∀ w L t w1 t1, EngineReach U h0 w L → do_enter_critical U w t = some (w1, t1) →
        ∃ cb b, t1.control_block = some cb ∧ w1.tcb cb = some b ∧ b.local_epoch < 3)
    ∧ (∀ w t L, ThreadReach U h0 w t L →
        (t.control_block = none ∧ t.enter_count = 0)
        ∨ ∃ cb b, t.control_block = some cb ∧ w.tcb cb = some b ∧ b.local_epoch < 3)
    ∧ (∀ w L, EngineReach U h0 w L → ∀ i b, w.tcb i = some b → b.local_epoch ≤ 3)
    ∧ (∀ w L t w1 t1 p, EngineReach U h0 w L →
        do_enter_critical_load U w t = some (w1, t1, p) →
        ∀ i b, w1.tcb i = some b → b.local_epoch ≤ 3)
    ∧ (∀ w t L, ThreadReach U h0 w t L → t.enter_count ≠ 0 →
        ∃ cb b, t.control_block = some cb ∧ w.tcb cb = some b
          ∧ b.local_epoch < number_epochs
          ∧ ∀ p, add_retired_node w t p = add_retired_node_at w t p b.local_epoch
              ∧ (w.heap.live p = true → ∃ r, add_retired_node w t p = some r)) := by
  have hthread : ∀ w t L, ThreadReach U h0 w t L →
      ∀ cb, t.control_block = some cb → ∃ b, w.tcb cb = some b ∧ b.local_epoch < 3 := by
    intro w t L r cb hc
    obtain ⟨b, hb⟩ := tcb_of_lt ((thread_reach_inv r).1 cb hc)
    exact ⟨b, hb, engine_reach_below3 (thread_reach_engine r) cb b hb⟩
  refine ⟨?_, ?_, ?_, ?_, ?_, ?_, ?_, ?_⟩
  · intro w hf
    refine ⟨?_, rfl⟩
    simp only [acquire_entry, hf]
    exact tcb_append_new w _
  · intro w L t r hc hf
    exact do_enter_critical_load_new U (engine_reach_inv r).1 hc hf
  · intro w L t i r hc hf
    obtain ⟨b0, hb0, ha, he⟩ := ensure_has_control_block_reused (t := t) hc hf
    exact ⟨b0, hb0, ha, engine_reach_below3 r i b0 hb0, he,
      fun w1 t1 p h => do_enter_critical_load_reused hb0 he h⟩
  · intro w L t w1 t1 r h
    exact (do_enter_critical_below3 h (engine_reach_inv r).1 (engine_reach_below3 r)).2.2
  · intro w t L r
    cases hc : t.control_block with
    | none =>
      left
      refine ⟨rfl, ?_⟩
      by_contra hne
      exact (thread_reach_inv r).2 hne hc
    | some cb =>
      right
      obtain ⟨b, hb, hlt⟩ := hthread w t L r cb hc
      exact ⟨cb, b, rfl, hb, hlt⟩
  · intro w L r i b hb
    exact Nat.le_of_lt (engine_reach_below3 r i b hb)
  · intro w L t w1 t1 p r h
    exact do_enter_critical_load_le3 h (engine_reach_below3 r)
  · intro w t L r hne
    have hsome := (thread_reach_inv r).2 hne
    cases hc : t.control_block with
    | none => exact absurd hc hsome
    | some cb =>
      obtain ⟨b, hb, hlt⟩ := hthread w t L r cb hc
      refine ⟨cb, b, rfl, hb, hlt, fun p => ⟨by simp [add_retired_node, hc, hb], fun hl => ?_⟩⟩
      have hl3 : b.local_epoch < number_epochs := hlt
      simp [add_retired_node, hc, hb, add_retired_node_at, hl3, hl]

theorem thread_reach_world1 : ThreadReach 0 heap8 world1 thread1 [] := by
  have h := first_entry_init 0
  have e : ({ enter_count := 1, entries_since_update := 0, control_block := some 0,
              retire_lists := fun i => if i = 0 then 0 else 0 } : thread_data) = thread1 := by
    unfold thread1
    congr
    funext i
    simp
  rw [e] at h
  exact ThreadReach.own Call.enter_critical (ThreadReach.start EngineReach.init) h

/-- Instance of C26: a new thread after its first entry; it holds a guard, its local
epoch is `0`, and `add_retired_node` uses the index `0`. -/
theorem C26_witness :
    ThreadReach 0 heap8 world1 thread1 [] ∧ thread1.enter_count ≠ 0
    ∧ ∃ cb b, thread1.control_block = some cb ∧ world1.tcb cb = some b
        ∧ b.local_epoch < number_epochs
        ∧ ∀ p, add_retired_node world1 thread1 p
                = add_retired_node_at world1 thread1 p b.local_epoch
            ∧ (world1.heap.live p = true → ∃ r, add_retired_node world1 thread1 p = some r) :=
  ⟨thread_reach_world1, by decide,
   (C26_local_epoch_range 0 heap8).2.2.2.2.2.2.2 world1 thread1 [] thread_reach_world1
     (by decide)⟩

/-- C26 (as stated, refuted). With `epoch_based<0>`, a thread enters and leaves a
critical region once at epoch `0` and exits: its control block is released with
`local_epoch = 0`.  A second thread, with a default constructed `thread_data`, finds
that block in its first first-level entry: the block it is given holds the local epoch
`0`, not the sentinel `3`, and still holds `0` when the thread has set its flag, loaded
the global epoch and made its advance, before it stores the new epoch `1`. -/
theorem C26_counterexample :
    ((exec_calls 0 [Call.enter_critical, Call.leave_critical] (World.init heap8)
        thread_data.init).bind fun r => thread_data.dtor r.1 r.2) = some world8
    ∧ find_inactive world8.entries = some 0
    ∧ (ensure_has_control_block world8 thread_data.init).2.1.control_block = some 0
    ∧ (ensure_has_control_block world8 thread_data.init).1.tcb 0
        = some { is_in_critical_region := false, local_epoch := 0, active := true }
    ∧ (do_enter_critical_load 0 world8 thread_data.init).map
          (fun r => (r.2.1.control_block, r.1.tcb 0, r.2.2))
        = some (some 0,
            some { is_in_critical_region := true, local_epoch := 0, active := true },
            some (0, 1)) :=
  ⟨rfl, rfl, rfl, rfl, rfl⟩

/-! ## C21: adoption and destruction of orphans -/

theorem adopt_fp_mono (segs : List (Ptr × Nat × List Ptr)) :
    ∀ (f : Nat → List Ptr) (i : Nat) (q : Ptr), q ∈ f i → q ∈ adopt_fp segs f i := by
  induction segs with
  | nil => intro f i q hq; exact hq
  | cons s segs ih =>
    intro f i q hq
    obtain ⟨o, te, fp⟩ := s
    simp only [adopt_fp]
    apply ih
    by_cases hi : i = te
    · simp only [hi, if_true]
      subst hi
      exact List.mem_cons_of_mem _ (List.mem_append_right _ hq)
    · simp only [hi, if_false]
      exact hq

/-- An adopted orphan and what it carries are on the list of its target epoch. -/
theorem mem_adopt_fp_target (segs : List (Ptr × Nat × List Ptr)) :
    ∀ (f : Nat → List Ptr) (s : Ptr × Nat × List Ptr), s ∈ segs →
      s.1 ∈ adopt_fp segs f s.2.1 ∧ ∀ q ∈ s.2.2, q ∈ adopt_fp segs f s.2.1 := by
  induction segs with
  | nil => intro f s hs; cases hs
  | cons s0 segs ih =>
    intro f s hs
    obtain ⟨o, te, fp⟩ := s0
    simp only [adopt_fp]
    rcases List.mem_cons.mp hs with e | hs
    · subst e
      refine ⟨adopt_fp_mono _ _ _ _ (by simp), fun q hq => adopt_fp_mono _ _ _ _ ?_⟩
      simp [hq]
    · exact ih _ s hs

theorem deleted_of_calls {h h2 : Heap} (e : h2.calls = h.calls) : h2.deleted = h.deleted := by
  unfold Heap.deleted
  rw [e]

/-- Second branch of `do_enter_critical`, the attempt goes through: the orphans `segs`
are adopted and the list of the new epoch is drained. -/
theorem do_enter_critical_adopting (U : Nat) {w : World} {t : thread_data} {cb : Nat}
    {b : thread_control_block} {segs : List (Ptr × Nat × List Ptr)} {f : Nat → List Ptr}
    (hcb : t.control_block = some cb) (hb : w.tcb cb = some b)
    (he : b.local_epoch = w.global_epoch) (hg : w.global_epoch < 3)
    (hu : t.entries_since_update = U)
    (hB : ¬ Blocked (w.set_tcb cb { b with is_in_critical_region := true }) w.global_epoch)
    (oc : OChain w.heap w.abandoned segs) (wf : ThreadWF w.heap t.retire_lists f)
    (hnd : (flat segs ++ (f 0 ++ f 1 ++ f 2)).Nodup) :
    ∃ wa ta w1 t1,
      adopt_orphans
          { (w.set_tcb cb { b with is_in_critical_region := true }) with
            update_attempts := w.update_attempts + 1,
            global_epoch := (w.global_epoch + 1) % 3 }
          { t with entries_since_update := 0 } = some (wa, ta)
      ∧ ThreadWF wa.heap ta.retire_lists (adopt_fp segs f)
      ∧ wa.heap.calls = w.heap.calls
      ∧ do_enter_critical U w t = some (w1, t1)
      ∧ w1.global_epoch = (w.global_epoch + 1) % 3
      ∧ w1.abandoned = 0
      ∧ w1.update_attempts = w.update_attempts + 1
      ∧ w1.heap = (adopt_fp segs f ((w.global_epoch + 1) % 3)).foldl delete_one wa.heap
      ∧ t1.retire_lists
          = (fun i => if i = (w.global_epoch + 1) % 3 then 0 else ta.retire_lists i)
      ∧ ThreadWF w1.heap t1.retire_lists
          (fun i => if i = (w.global_epoch + 1) % 3 then [] else adopt_fp segs f i)
      ∧ t1.control_block = some cb
      ∧ w1.tcb cb = some { b with is_in_critical_region := true,
                                  local_epoch := (w.global_epoch + 1) % 3 }
      ∧ t1.enter_count = t.enter_count
      ∧ t1.entries_since_update = 0
      ∧ (∀ i, i ≠ cb → w1.tcb i = w.tcb i) := by
  have hlt : (w.global_epoch + 1) % 3 < 3 := Nat.mod_lt _ (by norm_num)
  have h := try_update_epoch_cas (w.set_tcb cb { b with is_in_critical_region := true })
    { t with entries_since_update := 0 } ((w.global_epoch + 1) % 3) hg hB rfl
  obtain ⟨wa, ta, hadopt, wfa, ha0, hent, hge, hua, hcba, heca, hesua, hcalls, -, -, -⟩ :=
    adopt_orphans_wf
      (w := { (w.set_tcb cb { b with is_in_critical_region := true }) with
              update_attempts :=
                (w.set_tcb cb { b with is_in_critical_region := true }).update_attempts + 1,
              global_epoch := (w.global_epoch + 1) % 3 })
      (t := { t with entries_since_update := 0 }) oc wf hnd
  rw [hadopt] at h
  simp only [Option.map_some'] at h
  have h1 : wa.tcb cb = some { b with is_in_critical_region := true } := by
    rw [tcb_congr hent cb]
    exact tcb_set_tcb_same hb _
  have hd : Drainable wa.heap (ta.retire_lists ((w.global_epoch + 1) % 3))
      (adopt_fp segs f ((w.global_epoch + 1) % 3)) :=
    ⟨wfa.chain _ hlt, wfa.nodup _ hlt⟩
  have h2 := adopt_epoch_eq h1 hlt hd
  have hif : (b.local_epoch ≠ w.global_epoch) = False := by simp [he]
  have hrun : do_enter_critical U w t
      = some ({ (wa.set_tcb cb { b with is_in_critical_region := true,
                                        local_epoch := (w.global_epoch + 1) % 3 }) with
                  heap := (adopt_fp segs f ((w.global_epoch + 1) % 3)).foldl
                            delete_one wa.heap },
              { ta with retire_lists := fun i => if i = (w.global_epoch + 1) % 3 then 0
                                                 else ta.retire_lists i }) := by
    simp only [do_enter_critical, ensure_has_control_block_some hcb, hb, set_tcb_global_epoch,
      hif, if_false, hu, if_true, next_epoch_eq hg, h]
    rw [h2]
    rfl
  refine ⟨wa, ta, _, _, hadopt, wfa, hcalls, hrun, hge, ha0, hua, rfl, rfl, wfa.drain hlt,
    hcba.trans hcb, ?_, heca, hesua, ?_⟩
  · show (wa.set_tcb cb _).tcb cb = _
    exact tcb_set_tcb_same h1 _
  · intro i hi
    show (wa.set_tcb cb _).tcb i = _
    rw [tcb_set_tcb_ne _ (Ne.symm hi), tcb_congr hent i]
    show (w.set_tcb cb _).tcb i = _
    rw [tcb_set_tcb_ne _ (Ne.symm hi)]

/-- When `try_update_epoch` adopts: exactly when its compare-exchange succeeds. -/
theorem try_update_epoch_adoption {w w1 : World} {t t1 : thread_data} {curr : Nat} {r : Bool}
    (hc : curr < 3)
    (h : try_update_epoch w t curr ((curr + 1) % UINT % number_epochs) = some (r, w1, t1)) :
    ((Blocked w curr ∨ w.global_epoch ≠ curr) →
        w1.abandoned = w.abandoned ∧ w1.heap = w.heap ∧ t1 = t
          ∧ w1.global_epoch = w.global_epoch)
    ∧ ((¬ Blocked w curr ∧ w.global_epoch = curr) →
        adopt_orphans { w with update_attempts := w.update_attempts + 1,
                               global_epoch := (curr + 1) % UINT % number_epochs } t
          = some (w1, t1)
        ∧ w1.abandoned = 0 ∧ w1.global_epoch = (curr + 1) % 3) := by
  by_cases hB : Blocked w curr
  · rw [try_update_epoch_blocked w t _ hc hB] at h
    cases h
    exact ⟨fun _ => ⟨rfl, rfl, rfl, rfl⟩, fun e => absurd hB e.1⟩
  · by_cases hcur : w.global_epoch = curr
    · rw [try_update_epoch_cas w t _ hc hB hcur] at h
      cases ha : adopt_orphans
          { w with update_attempts := w.update_attempts + 1,
                   global_epoch := (curr + 1) % UINT % number_epochs } t with
      | none => rw [ha] at h; cases h
      | some p =>
        rw [ha] at h
        cases h
        obtain ⟨-, e, -, a0, -⟩ := adopt_orphans_frame ha
        refine ⟨fun e2 => ?_, fun _ => ⟨rfl, a0, by rw [e]; exact next_epoch_of_lt hc⟩⟩
        rcases e2 with e2 | e2
        · exact absurd e2 hB
        · exact absurd hcur e2
    · rw [try_update_epoch_stale w t _ hc hB hcur] at h
      cases h
      exact ⟨fun _ => ⟨rfl, rfl, rfl, rfl⟩, fun e => absurd e.2 hcur⟩

/-- A first-level entry that does not advance the global epoch leaves the orphan list
alone. -/
theorem do_enter_critical_abandoned {U : Nat} {w w1 : World} {t t1 : thread_data}
    (h : do_enter_critical U w t = some (w1, t1)) (hg : w.global_epoch < 3)
    (he : w1.global_epoch = w.global_epoch) : w1.abandoned = w.abandoned := by
  rcases hens : ensure_has_control_block w t with ⟨w0, t0, cb⟩
  obtain ⟨-, -, -, -, hg0, -, ha0, -⟩ := ensure_has_control_block_spec hens
  unfold do_enter_critical at h
  rw [hens] at h
  simp only at h
  split at h
  · cases h
  · rename_i b hb
    simp only [set_tcb_global_epoch, hg0] at h
    split at h
    · obtain ⟨_, _, _, _, _, _, ha1, _⟩ := adopt_epoch_frame h
      exact ha1.trans ha0
    · split at h
      · have hne : (w.global_epoch + 1) % 3 ≠ w.global_epoch := by omega
        split at h
        · cases h
        · rename_i w2 t2 htry
          cases h
          obtain ⟨h1, h2⟩ := try_update_epoch_adoption hg htry
          by_cases hx : Blocked (w0.set_tcb cb { b with is_in_critical_region := true })
              w.global_epoch ∨ (w0.set_tcb cb { b with is_in_critical_region := true }).global_epoch
                ≠ w.global_epoch
          · exact (h1 hx).1.trans ha0
          · push_neg at hx
            have := (h2 hx).2.2
            rw [he] at this
            exact absurd this.symm hne
        · rename_i w2 t2 htry
          obtain ⟨_, _, _, _, hg1, _, ha1, _⟩ := adopt_epoch_frame h
          obtain ⟨h1, h2⟩ := try_update_epoch_adoption hg htry
          by_cases hx : Blocked (w0.set_tcb cb { b with is_in_critical_region := true })
              w.global_epoch ∨ (w0.set_tcb cb { b with is_in_critical_region := true }).global_epoch
                ≠ w.global_epoch
          · rw [ha1]
            exact (h1 hx).1.trans ha0
          · push_neg at hx
            have := (h2 hx).2.2
            rw [← hg1, he] at this
            exact absurd this.symm hne
      · cases h
        exact ha0

theorem call_exec_abandoned {U : Nat} {c : Call} {w w1 : World} {t t1 : thread_data}
    (h : c.exec U w t = some (w1, t1)) (hg : w.global_epoch < 3)
    (he : w1.global_epoch = w.global_epoch) : w1.abandoned = w.abandoned := by
  cases c with
  | enter_critical =>
    simp only [Call.exec, enter_critical] at h
    split at h
    · exact do_enter_critical_abandoned h hg he
    · cases h
      rfl
  | leave_critical =>
    simp only [Call.exec, leave_critical] at h
    split at h
    · split at h
      · simp only [do_leave_critical] at h
        split at h
        · cases h
        · split at h
          · cases h
          · cases h
            rfl
      · cases h
        rfl
    · cases h
  | set_deleter p d =>
    simp only [Call.exec] at h
    split at h
    · cases h
      rfl
    · cases h
  | add_retired_node p =>
    simp only [Call.exec, add_retired_node] at h
    split at h
    · cases h
    · split at h
      · cases h
      · exact (add_retired_node_at_frame h).2.2.2.1


/-- An orphan with the target epoch `(G+2) mod 3` that is on the orphan list when a
thread running alone advances the epoch from `G`: it is adopted and survives that entry,
and the entry of the next advance destroys it together with what it carries. -/
theorem orphan_adopted_then_destroyed {w : World} {t : thread_data} {cb : Nat}
    {b : thread_control_block} {segs : List (Ptr × Nat × List Ptr)} {f : Nat → List Ptr}
    {o : Ptr} {fp : List Ptr}
    (hcb : t.control_block = some cb) (hb : w.tcb cb = some b)
    (he : b.local_epoch = w.global_epoch) (hg : w.global_epoch < 3)
    (hc : t.enter_count = 0) (hu : t.entries_since_update = 0) (ha : Alone w cb)
    (oc : OChain w.heap w.abandoned segs) (wf : ThreadWF w.heap t.retire_lists f)
    (hnd : (flat segs ++ (f 0 ++ f 1 ++ f 2)).Nodup)
    (ho : (o, (w.global_epoch + 2) % 3, fp) ∈ segs) :
    ∃ w1 t1 w2 t2 w3 t3 F1,
      enter_critical 0 w t = some (w1, t1)
      ∧ w1.global_epoch = (w.global_epoch + 1) % 3
      ∧ w1.abandoned = 0
      ∧ ThreadWF w1.heap t1.retire_lists F1
      ∧ o ∈ F1 ((w.global_epoch + 2) % 3)
      ∧ (∀ q ∈ fp, q ∈ F1 ((w.global_epoch + 2) % 3))
      ∧ o ∉ w1.heap.deleted
      ∧ (∀ q ∈ fp, q ∉ w1.heap.deleted)
      ∧ leave_critical w1 t1 = some (w2, t2)
      ∧ w2.heap = w1.heap
      ∧ enter_critical 0 w2 t2 = some (w3, t3)
      ∧ w3.global_epoch = (w.global_epoch + 2) % 3
      ∧ w3.heap.deleted.count o = 1
      ∧ (∀ q ∈ fp, w3.heap.deleted.count q = 1) := by
  have n12 : (w.global_epoch + 2) % 3 ≠ (w.global_epoch + 1) % 3 := by omega
  have l1 : (w.global_epoch + 1) % 3 < 3 := Nat.mod_lt _ (by decide)
  have l2 : (w.global_epoch + 2) % 3 < 3 := Nat.mod_lt _ (by decide)
  -- the adopting entry
  obtain ⟨wa, ta, w1, t1, -, wfa, hcalls, hrun, g1, a1, -, hh1, -, wf1, hcb1, htcb1, hec1,
      hesu1, hoth1⟩ :=
    do_enter_critical_adopting 0 (t := { t with enter_count := 1 }) hcb hb he hg hu
      (not_blocked_of_alone hb he ha true) oc wf hnd
  have hmem := mem_adopt_fp_target segs f _ ho
  simp only at hmem
  have hd1 : w1.heap.deleted = w.heap.deleted ++ adopt_fp segs f ((w.global_epoch + 1) % 3) := by
    rw [hh1, foldl_delete_one_deleted, deleted_of_calls hcalls]
  have hnot : ∀ q, q ∈ adopt_fp segs f ((w.global_epoch + 2) % 3) → q ∉ w1.heap.deleted := by
    intro q hq
    rw [hd1, List.mem_append, not_or]
    refine ⟨?_, wfa.disjoint _ _ l2 l1 n12 q hq⟩
    have := wfa.not_deleted l2 hq
    rw [deleted_of_calls hcalls] at this
    exact this
  -- the matching leave
  have hl : leave_critical w1 t1
      = some (w1.set_tcb cb (⟨false, (w.global_epoch + 1) % 3, b.active⟩ : thread_control_block),
              { t1 with enter_count := 0 }) := by
    rw [leave_critical_last hec1]
    exact @do_leave_critical_eq w1 { t1 with enter_count := 0 } cb _ hcb1 htcb1
  -- the entry of the next advance
  have hb2 : (w1.set_tcb cb (⟨false, (w.global_epoch + 1) % 3, b.active⟩ : thread_control_block)).tcb cb
        = some (⟨false, (w.global_epoch + 1) % 3, b.active⟩ : thread_control_block) :=
    tcb_set_tcb_same htcb1 _
  have ha2 : Alone (w1.set_tcb cb (⟨false, (w.global_epoch + 1) % 3, b.active⟩ : thread_control_block)) cb := by
    intro i b1 hi hb1
    rw [tcb_set_tcb_ne _ (Ne.symm hi), hoth1 i hi] at hb1
    exact ha i b1 hi hb1
  have oc2 : OChain (w1.set_tcb cb (⟨false, (w.global_epoch + 1) % 3, b.active⟩ : thread_control_block)).heap
      (w1.set_tcb cb (⟨false, (w.global_epoch + 1) % 3, b.active⟩ : thread_control_block)).abandoned [] := by
    show OChain w1.heap w1.abandoned []
    rw [a1]
    exact OChain.nil
  have hnd2 : (flat [] ++
      ((fun i => if i = (w.global_epoch + 1) % 3 then [] else adopt_fp segs f i) 0
        ++ (fun i => if i = (w.global_epoch + 1) % 3 then [] else adopt_fp segs f i) 1
        ++ (fun i => if i = (w.global_epoch + 1) % 3 then [] else adopt_fp segs f i) 2)).Nodup := by
    have := threadWF_nodup_all wf1
    simpa [flat] using this
  obtain ⟨wa3, ta3, w3, t3, -, -, hcalls3, hrun3, g3, -, -, hh3, -⟩ :=
    do_enter_critical_adopting 0
      (w := w1.set_tcb cb (⟨false, (w.global_epoch + 1) % 3, b.active⟩ : thread_control_block))
      (t := { t1 with enter_count := 1 }) (b := (⟨false, (w.global_epoch + 1) % 3, b.active⟩ : thread_control_block))
      hcb1 hb2 g1.symm (by show w1.global_epoch < 3; rw [g1]; exact l1) hesu1
      (not_blocked_of_alone hb2 g1.symm ha2 true) oc2 wf1 hnd2
  have e3 : ((w1.set_tcb cb (⟨false, (w.global_epoch + 1) % 3, b.active⟩ : thread_control_block)).global_epoch + 1) % 3
        = (w.global_epoch + 2) % 3 := by
    show (w1.global_epoch + 1) % 3 = _
    rw [g1]
    omega
  rw [e3] at g3 hh3
  have hF : adopt_fp []
      (fun i => if i = (w.global_epoch + 1) % 3 then [] else adopt_fp segs f i)
      ((w.global_epoch + 2) % 3) = adopt_fp segs f ((w.global_epoch + 2) % 3) := by
    simp [adopt_fp, n12]
  rw [hF] at hh3
  have hd3 : w3.heap.deleted
      = w1.heap.deleted ++ adopt_fp segs f ((w.global_epoch + 2) % 3) := by
    rw [hh3, foldl_delete_one_deleted, deleted_of_calls hcalls3]
    rfl
  have hcount : ∀ q, q ∈ adopt_fp segs f ((w.global_epoch + 2) % 3) →
      w3.heap.deleted.count q = 1 := by
    intro q hq
    rw [hd3, List.count_append, List.count_eq_zero_of_not_mem (hnot q hq),
      List.count_eq_one_of_mem (wfa.nodup _ l2) hq]
  refine ⟨w1, t1, _, _, w3, t3, _, ?_, g1, a1, wf1, ?_, ?_, hnot o hmem.1,
    fun q hq => hnot q (hmem.2 q hq), hl, rfl, ?_, g3, hcount o hmem.1,
    fun q hq => hcount q (hmem.2 q hq)⟩
  · rw [enter_critical_first 0 w hc]
    exact hrun
  · simp only [n12, if_false]
    exact hmem.1
  · intro q hq
    simp only [n12, if_false]
    exact hmem.2 q hq
  · rw [enter_critical_first 0 _ (rfl : ({ t1 with enter_count := 0 } : thread_data).enter_count = 0)]
    exact hrun3

/-- The three ways a first-level entry ends, from a well-formed state: nothing is
drained; the epoch observed is new to the thread and its list is drained; or the entry
advances the epoch, adopts the orphans and drains the list of the new epoch. -/
theorem do_enter_critical_cases (U : Nat) {w : World} {t : thread_data} {f : Nat → List Ptr}
    {segs : List (Ptr × Nat × List Ptr)} (o : Owned w t f segs) :
    ∃ w1 t1, do_enter_critical U w t = some (w1, t1)
      ∧ ((w1.global_epoch = w.global_epoch ∧ w1.abandoned = w.abandoned
            ∧ w1.heap = w.heap ∧ Owned w1 t1 f segs)
         ∨ (w1.global_epoch = w.global_epoch ∧ w1.abandoned = w.abandoned
            ∧ w1.heap.deleted = w.heap.deleted ++ f w.global_epoch
            ∧ Owned w1 t1 (fun i => if i = w.global_epoch then [] else f i) segs)
         ∨ (w1.global_epoch = (w.global_epoch + 1) % 3 ∧ w1.abandoned = 0
            ∧ w1.heap.deleted
                = w.heap.deleted ++ adopt_fp segs f ((w.global_epoch + 1) % 3)
            ∧ Owned w1 t1
                (fun i => if i = (w.global_epoch + 1) % 3 then [] else adopt_fp segs f i)
                [])) := by
  cases hens : ensure_has_control_block w t with
  | mk w0 r =>
  obtain ⟨t0, cb⟩ := r
  obtain ⟨hcb0, -, hesu0, hrl0, hg0, hh0, ha0, -⟩ := ensure_has_control_block_spec hens
  obtain ⟨hlt, hlen⟩ := ensure_has_control_block_valid o.cb_valid hens
  obtain ⟨b, hb⟩ := tcb_of_lt hlt
  have hset := tcb_set_tcb_same hb { b with is_in_critical_region := true }
  have hg3 : w0.global_epoch < 3 := by rw [hg0]; exact o.epoch_lt
  have o1 : Owned (w0.set_tcb cb { b with is_in_critical_region := true })
      { t0 with entries_since_update := 0 } f segs :=
    o.frame (by simp [hh0]) (by simp [ha0]) (by simpa using hg3) hrl0
      (by intro c hc; simp only [hcb0] at hc; cases hc; simpa using hlt)
  have hnext : (w0.global_epoch + 1) % UINT % number_epochs = (w.global_epoch + 1) % 3 := by
    rw [hg0]; exact next_epoch_eq o.epoch_lt
  unfold do_enter_critical
  rw [hens]
  simp only [hb, set_tcb_global_epoch]
  split
  · -- a new epoch is observed
    have hd : Drainable (w0.set_tcb cb { b with is_in_critical_region := true }).heap
        (t0.retire_lists w0.global_epoch) (f w0.global_epoch) :=
      ⟨o1.lists _ hg3, o1.threadWF.nodup _ hg3⟩
    rw [adopt_epoch_eq (t := { t0 with entries_since_update := 0 }) hset hg3 hd]
    obtain ⟨o2, -⟩ := o1.drain_list hg3 (v := { (World.set_tcb (w0.set_tcb cb { b with is_in_critical_region := true }) cb
        { is_in_critical_region := true, local_epoch := w0.global_epoch, active := b.active }) with
          heap := (f w0.global_epoch).foldl delete_one (w0.set_tcb cb { b with is_in_critical_region := true }).heap })
      (u := { t0 with entries_since_update := 0,
                       retire_lists := fun i => if i = w0.global_epoch then 0 else t0.retire_lists i })
      rfl rfl (by simpa using hg3) rfl
      (by intro c hc; simp only [hcb0] at hc; cases hc; simpa using hlt)
    refine ⟨_, _, rfl, Or.inr (Or.inl ⟨hg0, ha0, ?_, ?_⟩)⟩
    · show ((f w0.global_epoch).foldl delete_one w0.heap).deleted = _
      rw [foldl_delete_one_deleted, hh0, hg0]
    · rw [← hg0]; exact o2
  · split
    · -- an advance is attempted
      by_cases hB : Blocked (w0.set_tcb cb { b with is_in_critical_region := true })
          w0.global_epoch
      · rw [try_update_epoch_blocked _ _ _ hg3 hB]
        refine ⟨_, _, rfl, Or.inl ⟨hg0, ha0, hh0, o1.frame rfl rfl (by simpa using hg3) rfl ?_⟩⟩
        intro c hc; simp only [hcb0] at hc; cases hc; simpa using hlt
      · rw [try_update_epoch_cas _ _ _ hg3 hB (by simp)]
        have hn3 : (w0.global_epoch + 1) % UINT % number_epochs < 3 :=
          Nat.mod_lt _ (by decide)
        have o2 : Owned
            { (w0.set_tcb cb { b with is_in_critical_region := true }) with
              update_attempts :=
                (w0.set_tcb cb { b with is_in_critical_region := true }).update_attempts + 1,
              global_epoch := (w0.global_epoch + 1) % UINT % number_epochs }
            { t0 with entries_since_update := 0 } f segs :=
          o1.frame rfl rfl hn3 rfl
            (by intro c hc; simp only [hcb0] at hc; cases hc; simpa using hlt)
        obtain ⟨w2, t2, had, wf2, hab2, hent2, hg2, -, hcb2, -, -, hcalls2, -, -, -⟩ :=
          adopt_orphans_wf o2.orphans o2.threadWF o2.nodup
        rw [had]
        simp only [Option.map_some']
        have hb2 : w2.tcb cb = some { b with is_in_critical_region := true } := by
          unfold World.tcb at hset ⊢
          rw [hent2]; exact hset
        have hd : Drainable w2.heap
            (t2.retire_lists ((w0.global_epoch + 1) % UINT % number_epochs))
            (adopt_fp segs f ((w0.global_epoch + 1) % UINT % number_epochs)) :=
          ⟨wf2.chain _ hn3, wf2.nodup _ hn3⟩
        rw [adopt_epoch_eq hb2 hn3 hd]
        have hdel2 : w2.heap.deleted = w.heap.deleted := by
          unfold Heap.deleted; rw [hcalls2]; simp [hh0]
        have hlen2 : w2.entries.length = w0.entries.length := by
          rw [hent2]; simp
        have o3 : Owned w2 t2 (adopt_fp segs f) [] := by
          refine ⟨by rw [hg2]; exact hn3, wf2.chain, by rw [hab2]; exact OChain.nil, ?_, ?_, ?_⟩
          · unfold owned; simpa [flat] using threadWF_nodup_all wf2
          · rw [hdel2]; exact o.deleted_nodup
          · intro c hc
            rw [hcb2] at hc
            simp only [hcb0] at hc
            cases hc
            rw [hlen2]; exact hlt
        obtain ⟨o4, -⟩ := o3.drain_list hn3
          (v := { (w2.set_tcb cb { (
                      { b with is_in_critical_region := true } : thread_control_block) with
                      local_epoch := (w0.global_epoch + 1) % UINT % number_epochs }) with
                    heap := (adopt_fp segs f
                      ((w0.global_epoch + 1) % UINT % number_epochs)).foldl delete_one w2.heap })
          (u := { t2 with retire_lists := fun i =>
                    if i = (w0.global_epoch + 1) % UINT % number_epochs then 0
                    else t2.retire_lists i })
          rfl rfl (by simpa [hg2] using hn3) rfl
          (by
            intro c hc
            simp only [hcb2, hcb0] at hc
            cases hc
            simpa [hlen2] using hlt)
        refine ⟨_, _, rfl, Or.inr (Or.inr ⟨?_, ?_, ?_, ?_⟩)⟩
        · show w2.global_epoch = _
          rw [hg2]; exact hnext
        · exact hab2
        · show ((adopt_fp segs f ((w0.global_epoch + 1) % UINT % number_epochs)).foldl
              delete_one w2.heap).deleted = _
          rw [foldl_delete_one_deleted, hdel2, hnext]
        · rw [← hnext]; exact o4
    · -- neither
      refine ⟨_, _, rfl, Or.inl ⟨hg0, ha0, hh0, o1.frame rfl rfl (by simpa using hg3) rfl ?_⟩⟩
      intro c hc; simp only [hcb0] at hc; cases hc; simpa using hlt

/-- The three ways an entry ends; a nested entry drains nothing. -/
theorem enter_critical_cases (U : Nat) {w : World} {t : thread_data} {f : Nat → List Ptr}
    {segs : List (Ptr × Nat × List Ptr)} (o : Owned w t f segs) :
    ∃ w1 t1, enter_critical U w t = some (w1, t1)
      ∧ ((w1.global_epoch = w.global_epoch ∧ w1.abandoned = w.abandoned
            ∧ w1.heap = w.heap ∧ Owned w1 t1 f segs)
         ∨ (w1.global_epoch = w.global_epoch ∧ w1.abandoned = w.abandoned
            ∧ w1.heap.deleted = w.heap.deleted ++ f w.global_epoch
            ∧ Owned w1 t1 (fun i => if i = w.global_epoch then [] else f i) segs)
         ∨ (w1.global_epoch = (w.global_epoch + 1) % 3 ∧ w1.abandoned = 0
            ∧ w1.heap.deleted
                = w.heap.deleted ++ adopt_fp segs f ((w.global_epoch + 1) % 3)
            ∧ Owned w1 t1
                (fun i => if i = (w.global_epoch + 1) % 3 then [] else adopt_fp segs f i)
                [])) := by
  unfold enter_critical
  dsimp only
  split
  · exact do_enter_critical_cases U (o.frame rfl rfl o.epoch_lt rfl o.cb_valid)
  · exact ⟨_, _, rfl, Or.inl ⟨rfl, rfl, rfl, o.frame rfl rfl o.epoch_lt rfl o.cb_valid⟩⟩

theorem mem_flat_of_mem {segs : List (Ptr × Nat × List Ptr)} {s : Ptr × Nat × List Ptr}
    (hs : s ∈ segs) : ∀ q ∈ s.1 :: s.2.2, q ∈ flat segs := by
  induction segs with
  | nil => cases hs
  | cons s0 segs ih =>
    obtain ⟨o0, te0, fp0⟩ := s0
    intro q hq
    rcases List.mem_cons.mp hs with e | hs
    · subst e
      simp only [flat, List.mem_cons, List.mem_append] at hq ⊢
      rcases hq with hq | hq
      · exact Or.inl hq
      · exact Or.inr (Or.inl hq)
    · simp only [flat, List.mem_cons, List.mem_append]
      exact Or.inr (Or.inr (ih hs q hq))

/-- What is queued has not been destroyed. -/
theorem Owned.queued_not_deleted {w : World} {t : thread_data} {f : Nat → List Ptr}
    {segs : List (Ptr × Nat × List Ptr)} (o : Owned w t f segs) {q : Ptr}
    (hq : q ∈ owned f segs) : q ∉ w.heap.deleted := by
  unfold owned at hq
  rcases List.mem_append.mp hq with h | h
  · exact ((live_iff _ _).mp (o.orphans.live_of_mem_flat q h)).2.2
  · obtain ⟨i, hi, hm⟩ := mem_three.mp h
    exact o.threadWF.not_deleted hi hm

theorem Owned.mem_list {w : World} {t : thread_data} {f : Nat → List Ptr}
    {segs : List (Ptr × Nat × List Ptr)} (_ : Owned w t f segs) {q : Ptr} {i : Nat}
    (hi : i < 3) (hq : q ∈ f i) : q ∈ owned f segs :=
  List.mem_append_right _ (mem_three.mpr ⟨i, hi, hq⟩)

theorem mem_drained {A : Nat → List Ptr} {E : Nat} (hE : E < 3) (q : Ptr) :
    (q ∈ owned (fun i => if i = E then [] else A i) [] ∨ q ∈ A E)
      ↔ q ∈ A 0 ++ A 1 ++ A 2 := by
  have e1 : q ∈ owned (fun i => if i = E then [] else A i) []
      ↔ ∃ i, i < 3 ∧ q ∈ (fun i => if i = E then [] else A i) i := by
    unfold owned
    simp only [flat, List.nil_append]
    exact mem_three (f := fun i => if i = E then [] else A i)
  rw [e1, mem_three]
  constructor
  · rintro (⟨i, hi, hq⟩ | hq)
    · by_cases e : i = E
      · simp [e] at hq
      · simp only [e, if_false] at hq
        exact ⟨i, hi, hq⟩
    · exact ⟨E, hE, hq⟩
  · rintro ⟨i, hi, hq⟩
    by_cases e : i = E
    · right; rw [← e]; exact hq
    · left
      exact ⟨i, hi, by simp only [e, if_false]; exact hq⟩

/-- The three ways an entry ends, with the footprints of the new state and the account
of what is queued and what is destroyed. -/
theorem enter_critical_account (U : Nat) {w : World} {t : thread_data} {f : Nat → List Ptr}
    {segs : List (Ptr × Nat × List Ptr)} (o : Owned w t f segs) :
    ∃ w1 t1 f1 segs1, enter_critical U w t = some (w1, t1) ∧ Owned w1 t1 f1 segs1
      ∧ (∀ q, (q ∈ owned f1 segs1 ∨ q ∈ w1.heap.deleted)
                ↔ (q ∈ owned f segs ∨ q ∈ w.heap.deleted))
      ∧ ((w1.global_epoch = w.global_epoch ∧ w1.abandoned = w.abandoned
            ∧ w1.heap = w.heap ∧ f1 = f ∧ segs1 = segs)
         ∨ (w1.global_epoch = w.global_epoch ∧ w1.abandoned = w.abandoned
            ∧ w1.heap.deleted = w.heap.deleted ++ f w.global_epoch
            ∧ f1 = (fun i => if i = w.global_epoch then [] else f i) ∧ segs1 = segs)
         ∨ (w1.global_epoch = (w.global_epoch + 1) % 3 ∧ w1.abandoned = 0
            ∧ w1.heap.deleted
                = w.heap.deleted ++ adopt_fp segs f ((w.global_epoch + 1) % 3)
            ∧ f1 = (fun i => if i = (w.global_epoch + 1) % 3 then [] else adopt_fp segs f i)
            ∧ segs1 = [])) := by
  have hg := o.epoch_lt
  obtain ⟨w1, t1, he, h | h | h⟩ := enter_critical_cases U o
  · obtain ⟨h1, h2, h3, h4⟩ := h
    exact ⟨w1, t1, f, segs, he, h4, fun q => by rw [h3], Or.inl ⟨h1, h2, h3, rfl, rfl⟩⟩
  · obtain ⟨h1, h2, h3, h4⟩ := h
    refine ⟨w1, t1, _, segs, he, h4, fun q => ?_, Or.inr (Or.inl ⟨h1, h2, h3, rfl, rfl⟩)⟩
    rw [h3]
    unfold owned
    generalize w.global_epoch = g at hg
    interval_cases g <;> simp <;> tauto
  · obtain ⟨h1, h2, h3, h4⟩ := h
    refine ⟨w1, t1, _, [], he, h4, fun q => ?_, Or.inr (Or.inr ⟨h1, h2, h3, rfl, rfl⟩)⟩
    rw [h3]
    have hm := mem_adopt_fp segs f o.orphans.te_lt q
    have hn : (w.global_epoch + 1) % 3 < 3 := Nat.mod_lt _ (by decide)
    have hdr := mem_drained (A := adopt_fp segs f) hn q
    have e2 : q ∈ owned f segs ↔ q ∈ adopt_fp segs f 0 ++ adopt_fp segs f 1 ++ adopt_fp segs f 2 := by
      unfold owned
      rw [List.mem_append]
      exact hm.symm
    rw [e2, ← hdr, List.mem_append]
    exact ⟨fun h => h.elim (fun a => Or.inl (Or.inl a))
        (fun h => h.elim Or.inr (fun a => Or.inl (Or.inr a))),
      fun h => h.elim (fun h => h.elim Or.inl (fun a => Or.inr (Or.inr a)))
        (fun a => Or.inr (Or.inl a))⟩

/-- An entry from a state whose orphan list holds an orphan with the target epoch
`(G+2) mod 3`: the entry does not destroy the orphan or a node it carries; when it does
not advance the epoch the orphan list is as before; when it advances the epoch the
orphan list is taken whole and the orphan, with what it carries, is queued on
`retire_lists[(G+2) mod 3]`. -/
theorem entry_adopts_orphan (U : Nat) {w : World} {t : thread_data} {f : Nat → List Ptr}
    {segs : List (Ptr × Nat × List Ptr)} {o : Ptr} {fp : List Ptr}
    (ow : Owned w t f segs) (ho : (o, (w.global_epoch + 2) % 3, fp) ∈ segs) :
    ∃ w1 t1 f1 segs1, enter_critical U w t = some (w1, t1) ∧ Owned w1 t1 f1 segs1
      ∧ (∀ q ∈ o :: fp, q ∉ w1.heap.deleted)
      ∧ (w1.global_epoch = w.global_epoch → w1.abandoned = w.abandoned ∧ segs1 = segs)
      ∧ (w1.global_epoch ≠ w.global_epoch →
          w1.global_epoch = (w.global_epoch + 1) % 3 ∧ w1.abandoned = 0 ∧ segs1 = []
          ∧ ∀ q ∈ o :: fp, q ∈ f1 ((w.global_epoch + 2) % 3)) := by
  have hg := ow.epoch_lt
  have hfl := mem_flat_of_mem ho
  simp only at hfl
  obtain ⟨w1, t1, f1, segs1, he, o1, -, h | h | h⟩ := enter_critical_account U ow
  · obtain ⟨h1, h2, h3, h4, h5⟩ := h
    subst h4 h5
    refine ⟨w1, t1, f1, segs1, he, o1, fun q hq => ?_, fun _ => ⟨h2, rfl⟩,
      fun hne => absurd h1 hne⟩
    exact o1.queued_not_deleted (List.mem_append_left _ (hfl q hq))
  · obtain ⟨h1, h2, h3, h4, h5⟩ := h
    subst h5
    refine ⟨w1, t1, f1, segs1, he, o1, fun q hq => ?_, fun _ => ⟨h2, rfl⟩,
      fun hne => absurd h1 hne⟩
    exact o1.queued_not_deleted (List.mem_append_left _ (hfl q hq))
  · obtain ⟨h1, h2, h3, h4, h5⟩ := h
    have n12 : (w.global_epoch + 2) % 3 ≠ (w.global_epoch + 1) % 3 := by omega
    have l2 : (w.global_epoch + 2) % 3 < 3 := Nat.mod_lt _ (by decide)
    have hmem := mem_adopt_fp_target segs f _ ho
    simp only at hmem
    have hin : ∀ q ∈ o :: fp, q ∈ f1 ((w.global_epoch + 2) % 3) := by
      intro q hq
      rw [h4]
      simp only [n12, if_false]
      rcases List.mem_cons.mp hq with e | hq
      · rw [e]; exact hmem.1
      · exact hmem.2 q hq
    refine ⟨w1, t1, f1, segs1, he, o1, fun q hq => ?_, fun e => ?_,
      fun _ => ⟨h1, h2, h5, hin⟩⟩
    · exact o1.queued_not_deleted (o1.mem_list l2 (hin q hq))
    · rw [h1] at e
      omega

/-- An entry from a state in which the nodes `X` are queued on `retire_lists[te]`: either
they are still queued there and none is destroyed, or the entry ends at the global epoch
`te` and has destroyed each of them exactly once.  An entry that ends at another epoch
leaves them queued; an entry that advances the epoch to `te` destroys them. -/
theorem entry_drains_queued (U : Nat) {w : World} {t : thread_data} {f : Nat → List Ptr}
    {segs : List (Ptr × Nat × List Ptr)} {te : Nat} {X : List Ptr}
    (ow : Owned w t f segs) (hte : te < 3) (hX : ∀ q ∈ X, q ∈ f te) :
    ∃ w1 t1 f1 segs1, enter_critical U w t = some (w1, t1) ∧ Owned w1 t1 f1 segs1
      ∧ (∀ q, (q ∈ owned f1 segs1 ∨ q ∈ w1.heap.deleted)
                ↔ (q ∈ owned f segs ∨ q ∈ w.heap.deleted))
      ∧ ((∀ q ∈ X, q ∈ f1 te ∧ q ∉ w1.heap.deleted)
         ∨ (w1.global_epoch = te
            ∧ ∀ q ∈ X, w1.heap.deleted.count q = 1 ∧ q ∉ owned f1 segs1))
      ∧ (w1.global_epoch ≠ te → ∀ q ∈ X, q ∈ f1 te ∧ q ∉ w1.heap.deleted)
      ∧ (w1.global_epoch ≠ w.global_epoch → w1.global_epoch = te →
          ∀ q ∈ X, w1.heap.deleted.count q = 1 ∧ q ∉ owned f1 segs1) := by
  have hg := ow.epoch_lt
  obtain ⟨w1, t1, f1, segs1, he, o1, acc, h⟩ := enter_critical_account U ow
  have hq1 : (∀ q ∈ X, q ∈ f1 te) → ∀ q ∈ X, q ∈ f1 te ∧ q ∉ w1.heap.deleted :=
    fun h q hq => ⟨h q hq, o1.queued_not_deleted (o1.mem_list hte (h q hq))⟩
  have hd1 : (∀ q ∈ X, q ∈ w1.heap.deleted) →
      ∀ q ∈ X, w1.heap.deleted.count q = 1 ∧ q ∉ owned f1 segs1 :=
    fun h q hq => ⟨List.count_eq_one_of_mem o1.deleted_nodup (h q hq),
      fun hm => o1.queued_not_deleted hm (h q hq)⟩
  refine ⟨w1, t1, f1, segs1, he, o1, acc, ?_⟩
  rcases h with h | h | h
  · obtain ⟨h1, h2, h3, h4, h5⟩ := h
    subst h4 h5
    exact ⟨Or.inl (hq1 hX), fun _ => hq1 hX, fun hne => absurd h1 hne⟩
  · obtain ⟨h1, h2, h3, h4, h5⟩ := h
    by_cases e : te = w.global_epoch
    · have hd : ∀ q ∈ X, q ∈ w1.heap.deleted := by
        intro q hq
        rw [h3, ← e]
        exact List.mem_append_right _ (hX q hq)
      exact ⟨Or.inr ⟨by rw [h1, e], hd1 hd⟩, fun hne => absurd (by rw [h1, e]) hne,
        fun hne => absurd h1 hne⟩
    · have hq : ∀ q ∈ X, q ∈ f1 te := by
        intro q hq
        rw [h4]
        simp only [e, if_false]
        exact hX q hq
      exact ⟨Or.inl (hq1 hq), fun _ => hq1 hq, fun hne => absurd h1 hne⟩
  · obtain ⟨h1, h2, h3, h4, h5⟩ := h
    by_cases e : te = (w.global_epoch + 1) % 3
    · have hd : ∀ q ∈ X, q ∈ w1.heap.deleted := by
        intro q hq
        rw [h3, ← e]
        exact List.mem_append_right _ (adopt_fp_mono segs f te q (hX q hq))
      exact ⟨Or.inr ⟨by rw [h1, e], hd1 hd⟩, fun hne => absurd (by rw [h1, e]) hne,
        fun _ _ => hd1 hd⟩
    · have hq : ∀ q ∈ X, q ∈ f1 te := by
        intro q hq
        rw [h4]
        simp only [e, if_false]
        exact adopt_fp_mono segs f te q (hX q hq)
      exact ⟨Or.inl (hq1 hq), fun _ => hq1 hq, fun _ e2 => absurd (by rw [← e2, h1]) e⟩

/-- Retirement of a node pushes it on one list and leaves what is queued where it is. -/
theorem retire_owned_at (U : Nat) {w w1 : World} {t t1 : thread_data} {f : Nat → List Ptr}
    {segs : List (Ptr × Nat × List Ptr)} (o : Owned w t f segs)
    {p : Ptr} {d : Nat} (hu : w.heap.is_user p) (hp : p ∉ owned f segs)
    (h : exec_calls U [Call.set_deleter p d, Call.add_retired_node p] w t = some (w1, t1)) :
    ∃ e, e < 3 ∧ Owned w1 t1 (fun i => if i = e then p :: f e else f i) segs
      ∧ w1.heap.deleted = w.heap.deleted ∧ w1.global_epoch = w.global_epoch := by
  have hpf : ∀ i, i < 3 → p ∉ f i := fun i hi hm =>
    hp (List.mem_append_right _ (mem_three.mpr ⟨i, hi, hm⟩))
  have hps : p ∉ flat segs := fun hm => hp (List.mem_append_left _ hm)
  have h2 : exec_calls U ([Call.set_deleter p d] ++ [Call.add_retired_node p]) w t
      = some (w1, t1) := h
  clear h
  rw [exec_calls_append, exec_calls_single] at h2
  simp only [Call.exec] at h2
  by_cases hl : w.heap.live p = true
  · simp only [hl, if_true, Option.some_bind, exec_calls_single, Call.exec] at h2
    have h := h2
    clear h2
    simp only [add_retired_node] at h
    split at h
    · cases h
    · rename_i cb hcb
      split at h
      · cases h
      · rename_i b hb
        simp only [add_retired_node_at] at h
        generalize b.local_epoch = e at h
        split at h
        · rename_i he
          have he3 : e < 3 := he
          split at h
          · rename_i hl2
            cases h
            have wf1 : ThreadWF (set_deleter w.heap p d) t.retire_lists f :=
              o.threadWF.transport_lists fun i hi q hq => by
                have hne : q ≠ p := fun e => hpf i hi (e ▸ hq)
                exact ⟨set_deleter_obj_ne _ _ hne, set_deleter_live _ _ _ _⟩
            have wf2 := wf1.push he3 hl2 (set_deleter_is_node d hu) hpf
            refine ⟨e, he3, ⟨o.epoch_lt, wf2.chain, ?_, ?_, ?_, o.cb_valid⟩, ?_, rfl⟩
            · refine o.orphans.transport_orphans fun q hq => ?_
              have hne : q ≠ p := fun e => hps (e ▸ hq)
              exact ⟨by
                simp only
                rw [set_next_obj_ne _ _ hne, set_deleter_obj_ne _ _ hne],
                by simp [set_deleter_live]⟩
            · have hnd : (p :: owned f segs).Nodup := List.nodup_cons.mpr ⟨hp, o.nodup⟩
              refine nodup_of_count_le hnd fun x => ?_
              unfold owned
              interval_cases e <;> simp [List.count_append, List.count_cons] <;> omega
            · simpa [set_deleter_deleted] using o.deleted_nodup
            · simp [set_deleter_deleted]
          · cases h
        · cases h
  · simp [hl] at h2

/-- Steps of other threads.  Whatever they do to the registry, the global epoch, the
orphan list and the rest of the heap, as long as the objects on the thread's retire lists
are left as they are and the orphan list stays well formed and apart from them, the
thread's view stays well formed with the same footprints. -/
theorem Owned.environment {w w1 : World} {t : thread_data} {f : Nat → List Ptr}
    {segs segs1 : List (Ptr × Nat × List Ptr)} (o : Owned w t f segs)
    (hobj : ∀ i, i < 3 → ∀ q ∈ f i, w1.heap.obj q = w.heap.obj q ∧ w1.heap.live q = w.heap.live q)
    (oc : OChain w1.heap w1.abandoned segs1) (hnd : (owned f segs1).Nodup)
    (hd : w1.heap.deleted.Nodup) (hg : w1.global_epoch < 3)
    (hlen : w.entries.length ≤ w1.entries.length) :
    Owned w1 t f segs1 :=
  ⟨hg, fun i hi => (o.lists i hi).transport (hobj i hi), oc, hnd, hd,
   fun c hc => lt_of_lt_of_le (o.cb_valid c hc) hlen⟩

theorem retire_owned_mem {f : Nat → List Ptr} {segs : List (Ptr × Nat × List Ptr)} {e : Nat}
    (he : e < 3) (p q : Ptr) :
    q ∈ owned (fun i => if i = e then p :: f e else f i) segs ↔ (q = p ∨ q ∈ owned f segs) := by
  unfold owned
  interval_cases e <;> simp <;> tauto

/-- Nodes queued on `retire_lists[te]` stay queued there, through every operation of the
thread and every change that other threads make to the registry and the global epoch,
until an entry drains that list; they are never destroyed twice. -/
theorem queued_until_drained {U : Nat} {w0 : World} {t0 : thread_data} {R0 : List Ptr}
    {f0 : Nat → List Ptr} {segs0 : List (Ptr × Nat × List Ptr)}
    (o : Owned w0 t0 f0 segs0)
    (hR : ∀ q, q ∈ R0 ↔ (q ∈ owned f0 segs0 ∨ q ∈ w0.heap.deleted))
    {te : Nat} {X : List Ptr} (hte : te < 3) (hX : ∀ q ∈ X, q ∈ f0 te)
    {w : World} {t : thread_data} {R : List Ptr} (r : Reach U w0 t0 R0 w t R) :
    ∃ f segs, Owned w t f segs
      ∧ (∀ q, q ∈ R ↔ (q ∈ owned f segs ∨ q ∈ w.heap.deleted))
      ∧ ((∀ q ∈ X, q ∈ f te) ∨ (∀ q ∈ X, q ∈ w.heap.deleted)) := by
  induction r with
  | start => exact ⟨f0, segs0, o, hR, Or.inl hX⟩
  | enter _ h ih =>
    obtain ⟨f, segs, o1, acc, hq⟩ := ih
    rcases hq with hq | hq
    · obtain ⟨w2, t2, f1, segs1, he, o2, acc2, hd, -, -⟩ := entry_drains_queued U o1 hte hq
      rw [h] at he
      cases he
      refine ⟨f1, segs1, o2, fun q => (acc q).trans (acc2 q).symm, ?_⟩
      rcases hd with hd | hd
      · exact Or.inl fun q hq => (hd q hq).1
      · exact Or.inr fun q hq =>
          List.count_pos_iff.mp (by rw [(hd.2 q hq).1]; exact Nat.one_pos)
    · obtain ⟨w2, t2, f1, segs1, he, o2, acc2, hc⟩ := enter_critical_account U o1
      rw [h] at he
      cases he
      refine ⟨f1, segs1, o2, fun q => (acc q).trans (acc2 q).symm, Or.inr fun q hx => ?_⟩
      rcases hc with hc | hc | hc
      · rw [hc.2.2.1]; exact hq q hx
      · rw [hc.2.2.1]; exact List.mem_append_left _ (hq q hx)
      · rw [hc.2.2.1]; exact List.mem_append_left _ (hq q hx)
  | leave _ h ih =>
    obtain ⟨f, segs, o1, acc, hq⟩ := ih
    obtain ⟨o2, hh⟩ := leave_critical_owned o1 h
    exact ⟨f, segs, o2, fun q => by rw [hh]; exact acc q, by rw [hh]; exact hq⟩
  | retire p d _ hp hu h ih =>
    obtain ⟨f, segs, o1, acc, hq⟩ := ih
    have hp2 : p ∉ owned f segs := fun hm => hp ((acc p).mpr (Or.inl hm))
    obtain ⟨e, he, o2, hd, -⟩ := retire_owned_at U o1 hu hp2 h
    refine ⟨_, segs, o2, fun q => ?_, ?_⟩
    · rw [hd, retire_owned_mem he, List.mem_cons, acc q]
      tauto
    · rw [hd]
      rcases hq with hq | hq
      · left
        intro q hx
        by_cases e2 : te = e
        · simp only [e2, if_true]
          exact List.mem_cons_of_mem _ (e2 ▸ hq q hx)
        · simp only [e2, if_false]
          exact hq q hx
      · exact Or.inr hq
  | interference _ hh ha hg hl ih =>
    obtain ⟨f, segs, o1, acc, hq⟩ := ih
    exact ⟨f, segs, o1.frame hh ha hg rfl fun c hc => lt_of_lt_of_le (o1.cb_valid c hc) hl,
      fun q => by rw [hh]; exact acc q, by rw [hh]; exact hq⟩

theorem flat_cons_mem {o : Ptr} {te : Nat} {fp : List Ptr}
    {segs : List (Ptr × Nat × List Ptr)} {q : Ptr} :
    q ∈ flat ((o, te, fp) :: segs) ↔ q = o ∨ q ∈ fp ∨ q ∈ flat segs := by
  simp [flat]

/-- A new orphan at the head of the orphan list, seen by a thread whose lists are apart
from those the orphan carries. -/
theorem owned_after_abandon {w w1 : World} {t t2 : thread_data}
    {f f2 : Nat → List Ptr} {segs : List (Ptr × Nat × List Ptr)} {te : Nat}
    (o : Owned w t f segs) (o2 : Owned w t2 f2 segs)
    (hdis : ∀ q, q ∈ f 0 ++ f 1 ++ f 2 → q ∉ f2 0 ++ f2 1 ++ f2 2)
    (hfresh : w.heap.top + 1 ∉ w.heap.deleted) (hte : te < 3)
    (hg : w1.global_epoch < 3) (hlen : w.entries.length ≤ w1.entries.length)
    (hab : w1.abandoned = w.heap.top + 1)
    (htop : w1.heap.top = w.heap.top + 1) (hcalls : w1.heap.calls = w.heap.calls)
    (hobj : ∀ q, q ≠ w.heap.top + 1 → w1.heap.obj q = w.heap.obj q)
    (hnew : w1.heap.obj (w.heap.top + 1)
      = { next := w.abandoned,
          kind := .orphan te (t.retire_lists 0) (t.retire_lists 1) (t.retire_lists 2) }) :
    Owned w1 t2 f2 ((w.heap.top + 1, te, f 0 ++ f 1 ++ f 2) :: segs) := by
  have hnd1 := o.nodup
  have hnd2 := o2.nodup
  unfold owned at hnd1 hnd2
  have hdel : w1.heap.deleted = w.heap.deleted := deleted_of_calls hcalls
  have hlf : ∀ q, q ∈ f 0 ++ f 1 ++ f 2 → w.heap.live q = true := fun q hq => by
    obtain ⟨i, hi, hm⟩ := mem_three.mp hq
    exact (o.lists i hi).live_of_mem q hm
  have hlf2 : ∀ q, q ∈ f2 0 ++ f2 1 ++ f2 2 → w.heap.live q = true := fun q hq => by
    obtain ⟨i, hi, hm⟩ := mem_three.mp hq
    exact (o2.lists i hi).live_of_mem q hm
  have hls : ∀ q, q ∈ flat segs → w.heap.live q = true := o.orphans.live_of_mem_flat
  have hne : ∀ q, w.heap.live q = true → q ≠ w.heap.top + 1 := fun q h e => by
    have h2 := ((live_iff _ _).mp h).2.1
    rw [e] at h2
    exact Nat.not_succ_le_self _ h2
  have htr : ∀ q, w.heap.live q = true →
      w1.heap.obj q = w.heap.obj q ∧ w1.heap.live q = w.heap.live q := by
    intro q h
    refine ⟨hobj q (hne q h), ?_⟩
    rw [h, live_iff, htop, hdel]
    obtain ⟨h1, h2, h3⟩ := (live_iff _ _).mp h
    exact ⟨h1, Nat.le_succ_of_le h2, h3⟩
  refine ⟨hg, fun i hi => (o2.lists i hi).transport fun q hq =>
      htr q ((o2.lists i hi).live_of_mem q hq), ?_, ?_, ?_, ?_⟩
  · rw [hab]
    have hk : (w1.heap.obj (w.heap.top + 1)).kind
        = .orphan te (t.retire_lists 0) (t.retire_lists 1) (t.retire_lists 2) := by
      rw [hnew]
    have hn : (w1.heap.obj (w.heap.top + 1)).next = w.abandoned := by rw [hnew]
    refine OChain.cons ?_ hk hte ?_ ?_ ?_ ?_
    · rw [live_iff, htop, hdel]
      exact ⟨Nat.succ_ne_zero _, le_refl _, hfresh⟩
    · exact (o.lists 0 (by decide)).transport fun q hq =>
        htr q ((o.lists 0 (by decide)).live_of_mem q hq)
    · exact (o.lists 1 (by decide)).transport fun q hq =>
        htr q ((o.lists 1 (by decide)).live_of_mem q hq)
    · exact (o.lists 2 (by decide)).transport fun q hq =>
        htr q ((o.lists 2 (by decide)).live_of_mem q hq)
    · rw [hn]
      exact o.orphans.transport_orphans fun q hq => htr q (hls q hq)
  · unfold owned
    have hA := List.nodup_append.mp hnd1
    have hB := List.nodup_append.mp hnd2
    simp only [flat, List.cons_append]
    rw [List.nodup_cons]
    constructor
    · intro hm
      simp only [List.mem_append] at hm
      rcases hm with (hm | hm) | hm
      · exact hne _ (hlf _ (by simp only [List.mem_append]; exact hm)) rfl
      · exact hne _ (hls _ hm) rfl
      · exact hne _ (hlf2 _ (by simp only [List.mem_append]; exact hm)) rfl
    · rw [List.nodup_append]
      refine ⟨?_, hB.2.1, ?_⟩
      · rw [List.nodup_append]
        exact ⟨hA.2.1, hA.1, fun q h1 h2 => hA.2.2 h2 h1⟩
      · intro q h1 h2
        rcases List.mem_append.mp h1 with h1 | h1
        · exact hdis q h1 h2
        · exact hB.2.2 h1 h2
  · rw [hdel]; exact o.deleted_nodup
  · intro c hc
    exact lt_of_lt_of_le (o2.cb_valid c hc) hlen

/-- The exit of a thread seen by another thread.  A thread with a non-empty retire list
exits at the global epoch `G`; its lists are well formed and apart from those of a second
thread.  The destructor returns and destroys nothing, and the second thread's view is
well formed again with the new orphan, of target epoch `(G+2) mod 3` and carrying the
three lists, at the head of the orphan list. -/
theorem dtor_abandons {w : World} {t t2 : thread_data} {cb : Nat} {b : thread_control_block}
    {f f2 : Nat → List Ptr} {segs : List (Ptr × Nat × List Ptr)}
    (o : Owned w t f segs) (o2 : Owned w t2 f2 segs)
    (hdis : ∀ q, q ∈ f 0 ++ f 1 ++ f 2 → q ∉ f2 0 ++ f2 1 ++ f2 2)
    (hcb : t.control_block = some cb) (hb : w.tcb cb = some b)
    (hf : b.is_in_critical_region = false)
    (hl : t.retire_lists 0 ≠ 0 ∨ t.retire_lists 1 ≠ 0 ∨ t.retire_lists 2 ≠ 0)
    (hfresh : w.heap.top + 1 ∉ w.heap.deleted) :
    ∃ w1, thread_data.dtor w t = some w1
      ∧ w1.global_epoch = w.global_epoch ∧ w1.heap.deleted = w.heap.deleted
      ∧ Owned w1 t2 f2
          ((w.heap.top + 1, (w.global_epoch + 2) % 3, f 0 ++ f 1 ++ f 2) :: segs) := by
  rw [dtor_with_retired o.epoch_lt hcb hb hf hl]
  refine ⟨_, rfl, rfl, rfl, ?_⟩
  refine owned_after_abandon o o2 hdis hfresh (Nat.mod_lt _ (by decide)) o.epoch_lt
    (by simp) rfl rfl rfl (fun q hq => by simp [hq]) (by simp)

theorem leave_critical_epoch {w w1 : World} {t t1 : thread_data}
    (h : leave_critical w t = some (w1, t1)) : w1.global_epoch = w.global_epoch := by
  unfold leave_critical at h
  by_cases hpos : 0 < t.enter_count
  · rw [if_pos hpos] at h
    dsimp only at h
    by_cases h0 : (t.enter_count + UINT - 1) % UINT = 0
    · rw [if_pos h0] at h
      unfold do_leave_critical at h
      dsimp only at h
      split at h
      · cases h
      · split at h
        · cases h
        · cases h
          rfl
    · rw [if_neg h0] at h
      cases h
      rfl
  · rw [if_neg hpos] at h
    cases h

/-- Before the global epoch is `te`, what is queued on `retire_lists[te]` stays queued;
and the global epoch of every state met is different from `te`. -/
theorem queued_before_epoch {U : Nat} {w0 : World} {t0 : thread_data}
    {f0 : Nat → List Ptr} {segs0 : List (Ptr × Nat × List Ptr)}
    (o : Owned w0 t0 f0 segs0)
    {te : Nat} {X : List Ptr} (hte : te < 3) (hX : ∀ q ∈ X, q ∈ f0 te)
    {w : World} {t : thread_data} (r : ReachBefore U te w0 t0 w t) :
    w.global_epoch ≠ te
    ∧ ∃ f segs, Owned w t f segs ∧ (∀ q ∈ X, q ∈ f te) := by
  induction r with
  | start h => exact ⟨h, f0, segs0, o, hX⟩
  | enter _ h hne ih =>
    obtain ⟨-, f, segs, o1, hq⟩ := ih
    obtain ⟨w2, t2, f1, segs1, he, o2, -, -, hk, -⟩ := entry_drains_queued U o1 hte hq
    rw [h] at he
    cases he
    exact ⟨hne, f1, segs1, o2, fun q hx => (hk hne q hx).1⟩
  | leave _ h ih =>
    obtain ⟨hne, f, segs, o1, hq⟩ := ih
    obtain ⟨o2, -⟩ := leave_critical_owned o1 h
    exact ⟨by rw [leave_critical_epoch h]; exact hne, f, segs, o2, hq⟩
  | retire p d _ hu hp h ih =>
    obtain ⟨hne, f, segs, o1, hq⟩ := ih
    obtain ⟨e, he, o2, -, hg⟩ := retire_owned_at U o1 hu (hp f segs o1) h
    refine ⟨by rw [hg]; exact hne, _, segs, o2, fun q hx => ?_⟩
    by_cases e2 : te = e
    · simp only [e2, if_true]
      exact List.mem_cons_of_mem _ (e2 ▸ hq q hx)
    · simp only [e2, if_false]
      exact hq q hx
  | environment _ henv hne ih =>
    obtain ⟨-, f, segs, o1, hq⟩ := ih
    obtain ⟨segs1, o2⟩ := henv f segs o1
    exact ⟨hne, f, segs1, o2, hq⟩

/-- From adoption to destruction.  Nodes queued on `retire_lists[te]` in a state whose
global epoch is not `te` are still queued, and not destroyed, in every state the thread
reaches before the global epoch is `te`; the thread's entry from such a state returns,
and when it ends at the global epoch `te` it has advanced the epoch itself and has run
`delete_self` exactly once on each of the nodes. -/
theorem queued_then_destroyed {U : Nat} {w0 : World} {t0 : thread_data}
    {f0 : Nat → List Ptr} {segs0 : List (Ptr × Nat × List Ptr)}
    (o : Owned w0 t0 f0 segs0)
    {te : Nat} {X : List Ptr} (hte : te < 3) (hX : ∀ q ∈ X, q ∈ f0 te)
    {w : World} {t : thread_data} (r : ReachBefore U te w0 t0 w t) :
    (∃ f segs, Owned w t f segs ∧ ∀ q ∈ X, q ∈ f te ∧ q ∉ w.heap.deleted)
    ∧ ∃ w1 t1, enter_critical U w t = some (w1, t1)
        ∧ (w1.global_epoch ≠ te → ∃ f1 segs1, Owned w1 t1 f1 segs1
              ∧ ∀ q ∈ X, q ∈ f1 te ∧ q ∉ w1.heap.deleted)
        ∧ (w1.global_epoch = te →
            w.global_epoch = (te + 2) % 3
            ∧ ∀ q ∈ X, w.heap.deleted.count q = 0 ∧ w1.heap.deleted.count q = 1) := by
  obtain ⟨hne, f, segs, o1, hq⟩ := queued_before_epoch o hte hX r
  have hnd : ∀ q ∈ X, q ∉ w.heap.deleted := fun q hx =>
    o1.queued_not_deleted (o1.mem_list hte (hq q hx))
  refine ⟨⟨f, segs, o1, fun q hx => ⟨hq q hx, hnd q hx⟩⟩, ?_⟩
  obtain ⟨w1, t1, f1, segs1, he, o2, -, -, hk, hd⟩ := entry_drains_queued U o1 hte hq
  refine ⟨w1, t1, he, fun h => ⟨f1, segs1, o2, hk h⟩, fun h => ?_⟩
  have hne2 : w1.global_epoch ≠ w.global_epoch := by rw [h]; exact Ne.symm hne
  have hg := o1.epoch_lt
  obtain ⟨w2, t2, f2, segs2, he2, -, -, hc⟩ := enter_critical_account U o1
  rw [he] at he2
  cases he2
  have hstep : w1.global_epoch = (w.global_epoch + 1) % 3 := by
    rcases hc with hc | hc | hc
    · exact absurd hc.1 hne2
    · exact absurd hc.1 hne2
    · exact hc.1
  refine ⟨by rw [h] at hstep; omega, fun q hx =>
    ⟨List.count_eq_zero_of_not_mem (hnd q hx), (hd hne2 h q hx).1⟩⟩

/-- C21. Orphans are adopted only after a successful compare-exchange on
`global_epoch`: a `try_update_epoch` that is prevented, or that finds `global_epoch`
different from `curr`, leaves the orphan list, the heap and the thread state as they
are, and one whose compare-exchange succeeds runs `adopt_orphans`, after which the
orphan list is empty; a call made by a guard that does not advance the global epoch
leaves the orphan list alone.  On a well-formed orphan list `adopt_orphans` returns,
destroys nothing, and leaves every orphan, with what it carries, queued on the adopter's
`retire_lists[target_epoch]`.

Abandonment: when a thread with a non-empty retire list exits at the global epoch `G`,
every other thread whose lists are apart from its own finds the new orphan, with the
target epoch `(G+2) mod 3` and carrying the three lists, at the head of the orphan list.

Adoption, for every `UpdateThreshold`, every `entries_since_update` and every state of
the registry: an entry from a well-formed state at the global epoch `G` whose orphan list
holds an orphan with the target epoch `(G+2) mod 3` returns and destroys neither the
orphan nor a node it carries; when it does not advance the epoch the orphan list is as
before, and when it advances the epoch, to `(G+1) mod 3`, the orphan list is left empty
and the orphan, with what it carries, is queued on `retire_lists[(G+2) mod 3]`.

Destruction, again for every `UpdateThreshold` and every state of the registry: from a
well-formed state in which the nodes `X` (the orphan and what it carries) are queued on
`retire_lists[te]`, an entry returns and either leaves them queued and not destroyed, or
ends at the global epoch `te` and has run `delete_self` exactly once on each of them; it
leaves them queued whenever it ends at another epoch, and it destroys them whenever it
advances the epoch to `te`.  `leave_critical` and the retirement of another node leave
them queued, and so does every step of other threads that leaves the objects on the
thread's lists as they are and the orphan list well formed.  In every state the thread
reaches by entries, `leave_critical` and retirements, with other threads changing the
registry and the global epoch in between, the nodes are still queued and not destroyed,
or `delete_self` has run exactly once on each.  In every state met before the global
epoch is `te`, whatever other threads do to the registry, the global epoch, the orphan
list and the rest of the heap in between, they are still queued and not destroyed, and
the thread's entry from such a state that ends at the global epoch `te` has advanced the
epoch from `(te+2) mod 3` itself and has run `delete_self` exactly once on each of them.

Last, an adopter running alone with `UpdateThreshold = 0` whose local epoch is the global
epoch `G` does make the two advances: its entry adopts the orphan and advances `G` to
`(G+1) mod 3`, and neither the orphan nor a node it carries is destroyed during that
entry; its next entry advances the epoch to `(G+2) mod 3`, destroys the orphan and runs
`delete_self` exactly once on every node of its three lists. -/
theorem C21_orphans_adopted_after_cas :
    (∀ (w w1 : World) (t t1 : thread_data) (curr : Nat) (r : Bool), curr < 3 →
      try_update_epoch w t curr ((curr + 1) % UINT % number_epochs) = some (r, w1, t1) →
      ((Blocked w curr ∨ w.global_epoch ≠ curr) →
          w1.abandoned = w.abandoned ∧ w1.heap = w.heap ∧ t1 = t
            ∧ w1.global_epoch = w.global_epoch)
      ∧ ((¬ Blocked w curr ∧ w.global_epoch = curr) →
          adopt_orphans { w with update_attempts := w.update_attempts + 1,
                                 global_epoch := (curr + 1) % UINT % number_epochs } t
            = some (w1, t1)
          ∧ w1.abandoned = 0 ∧ w1.global_epoch = (curr + 1) % 3))
    ∧ (∀ (U : Nat) (c : Call) (w w1 : World) (t t1 : thread_data),
        c.exec U w t = some (w1, t1) → w.global_epoch < 3 →
        w1.global_epoch = w.global_epoch → w1.abandoned = w.abandoned)
    ∧ (∀ (w : World) (t : thread_data) (segs : List (Ptr × Nat × List Ptr))
        (f : Nat → List Ptr),
        OChain w.heap w.abandoned segs → ThreadWF w.heap t.retire_lists f →
        (flat segs ++ (f 0 ++ f 1 ++ f 2)).Nodup →
        ∃ w1 t1, adopt_orphans w t = some (w1, t1)
          ∧ w1.abandoned = 0
          ∧ w1.heap.calls = w.heap.calls
          ∧ ThreadWF w1.heap t1.retire_lists (adopt_fp segs f)
          ∧ ∀ s ∈ segs, s.1 ∈ adopt_fp segs f s.2.1
              ∧ ∀ q ∈ s.2.2, q ∈ adopt_fp segs f s.2.1)
    ∧ (∀ (w : World) (t t2 : thread_data) (cb : Nat) (b : thread_control_block)
        (f f2 : Nat → List Ptr) (segs : List (Ptr × Nat × List Ptr)),
        Owned w t f segs → Owned w t2 f2 segs →
        (∀ q, q ∈ f 0 ++ f 1 ++ f 2 → q ∉ f2 0 ++ f2 1 ++ f2 2) →
        t.control_block = some cb → w.tcb cb = some b → b.is_in_critical_region = false →
        (t.retire_lists 0 ≠ 0 ∨ t.retire_lists 1 ≠ 0 ∨ t.retire_lists 2 ≠ 0) →
        w.heap.top + 1 ∉ w.heap.deleted →
        ∃ w1, thread_data.dtor w t = some w1
          ∧ w1.global_epoch = w.global_epoch ∧ w1.heap.deleted = w.heap.deleted
          ∧ Owned w1 t2 f2
              ((w.heap.top + 1, (w.global_epoch + 2) % 3, f 0 ++ f 1 ++ f 2) :: segs))
    ∧ (∀ (U : Nat) (w : World) (t : thread_data) (f : Nat → List Ptr)
        (segs : List (Ptr × Nat × List Ptr)) (o : Ptr) (fp : List Ptr),
        Owned w t f segs → (o, (w.global_epoch + 2) % 3, fp) ∈ segs →
        ∃ w1 t1 f1 segs1, enter_critical U w t = some (w1, t1) ∧ Owned w1 t1 f1 segs1
          ∧ (∀ q ∈ o :: fp, q ∉ w1.heap.deleted)
          ∧ (w1.global_epoch = w.global_epoch → w1.abandoned = w.abandoned ∧ segs1 = segs)
          ∧ (w1.global_epoch ≠ w.global_epoch →
              w1.global_epoch = (w.global_epoch + 1) % 3 ∧ w1.abandoned = 0 ∧ segs1 = []
              ∧ ∀ q ∈ o :: fp, q ∈ f1 ((w.global_epoch + 2) % 3)))
    ∧ (∀ (U : Nat) (w : World) (t : thread_data) (f : Nat → List Ptr)
        (segs : List (Ptr × Nat × List Ptr)) (te : Nat) (X : List Ptr),
        Owned w t f segs → te < 3 → (∀ q ∈ X, q ∈ f te) →
        ∃ w1 t1 f1 segs1, enter_critical U w t = some (w1, t1) ∧ Owned w1 t1 f1 segs1
          ∧ ((∀ q ∈ X, q ∈ f1 te ∧ q ∉ w1.heap.deleted)
             ∨ (w1.global_epoch = te
                ∧ ∀ q ∈ X, w1.heap.deleted.count q = 1 ∧ q ∉ owned f1 segs1))
          ∧ (w1.global_epoch ≠ te → ∀ q ∈ X, q ∈ f1 te ∧ q ∉ w1.heap.deleted)
          ∧ (w1.global_epoch ≠ w.global_epoch → w1.global_epoch = te →
              ∀ q ∈ X, w1.heap.deleted.count q = 1 ∧ q ∉ owned f1 segs1))
    ∧ (∀ (w w1 : World) (t t1 : thread_data) (f : Nat → List Ptr)
        (segs : List (Ptr × Nat × List Ptr)),
        Owned w t f segs → leave_critical w t = some (w1, t1) →
        Owned w1 t1 f segs ∧ w1.heap = w.heap)
    ∧ (∀ (U : Nat) (w w1 : World) (t t1 : thread_data) (f : Nat → List Ptr)
        (segs : List (Ptr × Nat × List Ptr)) (p : Ptr) (d : Nat),
        Owned w t f segs → w.heap.is_user p → p ∉ owned f segs →
        exec_calls U [Call.set_deleter p d, Call.add_retired_node p] w t = some (w1, t1) →
        ∃ e, e < 3 ∧ Owned w1 t1 (fun i => if i = e then p :: f e else f i) segs
          ∧ w1.heap.deleted = w.heap.deleted ∧ w1.global_epoch = w.global_epoch)
    ∧ (∀ (w w1 : World) (t : thread_data) (f : Nat → List Ptr)
        (segs segs1 : List (Ptr × Nat × List Ptr)),
        Owned w t f segs →
        (∀ i, i < 3 → ∀ q ∈ f i,
          w1.heap.obj q = w.heap.obj q ∧ w1.heap.live q = w.heap.live q) →
        OChain w1.heap w1.abandoned segs1 → (owned f segs1).Nodup →
        w1.heap.deleted.Nodup → w1.global_epoch < 3 →
        w.entries.length ≤ w1.entries.length →
        Owned w1 t f segs1)
    ∧ (∀ (U : Nat) (w0 w : World) (t0 t : thread_data) (R0 R : List Ptr)
        (f0 : Nat → List Ptr) (segs0 : List (Ptr × Nat × List Ptr)) (te : Nat)
        (X : List Ptr),
        Owned w0 t0 f0 segs0 →
        (∀ q, q ∈ R0 ↔ (q ∈ owned f0 segs0 ∨ q ∈ w0.heap.deleted)) →
        te < 3 → (∀ q ∈ X, q ∈ f0 te) → Reach U w0 t0 R0 w t R →
        ∃ f segs, Owned w t f segs
          ∧ ((∀ q ∈ X, q ∈ f te ∧ q ∉ w.heap.deleted)
             ∨ (∀ q ∈ X, w.heap.deleted.count q = 1 ∧ q ∉ owned f segs)))
    ∧ (∀ (U : Nat) (w0 w : World) (t0 t : thread_data)
        (f0 : Nat → List Ptr) (segs0 : List (Ptr × Nat × List Ptr)) (te : Nat)
        (X : List Ptr),
        Owned w0 t0 f0 segs0 →
        te < 3 → (∀ q ∈ X, q ∈ f0 te) → ReachBefore U te w0 t0 w t →
        (∃ f segs, Owned w t f segs ∧ ∀ q ∈ X, q ∈ f te ∧ q ∉ w.heap.deleted)
        ∧ ∃ w1 t1, enter_critical U w t = some (w1, t1)
            ∧ (w1.global_epoch ≠ te → ∃ f1 segs1, Owned w1 t1 f1 segs1
                  ∧ ∀ q ∈ X, q ∈ f1 te ∧ q ∉ w1.heap.deleted)
            ∧ (w1.global_epoch = te →
                w.global_epoch = (te + 2) % 3
                ∧ ∀ q ∈ X, w.heap.deleted.count q = 0 ∧ w1.heap.deleted.count q = 1))
    ∧ (∀ (w : World) (t : thread_data) (cb : Nat) (b : thread_control_block)
        (segs : List (Ptr × Nat × List Ptr)) (f : Nat → List Ptr) (o : Ptr) (fp : List Ptr),
        t.control_block = some cb → w.tcb cb = some b → b.local_epoch = w.global_epoch →
        w.global_epoch < 3 → t.enter_count = 0 → t.entries_since_update = 0 → Alone w cb →
        OChain w.heap w.abandoned segs → ThreadWF w.heap t.retire_lists f →
        (flat segs ++ (f 0 ++ f 1 ++ f 2)).Nodup →
        (o, (w.global_epoch + 2) % 3, fp) ∈ segs →
        ∃ w1 t1 w2 t2 w3 t3 F1,
          enter_critical 0 w t = some (w1, t1)
          ∧ w1.global_epoch = (w.global_epoch + 1) % 3
          ∧ w1.abandoned = 0
          ∧ ThreadWF w1.heap t1.retire_lists F1
          ∧ o ∈ F1 ((w.global_epoch + 2) % 3)
          ∧ (∀ q ∈ fp, q ∈ F1 ((w.global_epoch + 2) % 3))
          ∧ o ∉ w1.heap.deleted
          ∧ (∀ q ∈ fp, q ∉ w1.heap.deleted)
          ∧ leave_critical w1 t1 = some (w2, t2)
          ∧ w2.heap = w1.heap
          ∧ enter_critical 0 w2 t2 = some (w3, t3)
          ∧ w3.global_epoch = (w.global_epoch + 2) % 3
          ∧ w3.heap.deleted.count o = 1
          ∧ (∀ q ∈ fp, w3.heap.deleted.count q = 1)) := by
  refine ⟨?_, ?_, ?_, ?_, ?_, ?_, ?_, ?_, ?_, ?_, ?_, ?_⟩
  · intro w w1 t t1 curr r hc h
    exact try_update_epoch_adoption hc h
  · intro U c w w1 t t1 h hg he
    exact call_exec_abandoned h hg he
  · intro w t segs f oc wf hnd
    obtain ⟨w1, t1, h, wf1, a0, -, -, -, -, -, -, hcalls, -⟩ := adopt_orphans_wf oc wf hnd
    exact ⟨w1, t1, h, a0, hcalls, wf1, fun s hs => mem_adopt_fp_target segs f s hs⟩
  · intro w t t2 cb b f f2 segs o o2 hdis hcb hb hf hl hfresh
    exact dtor_abandons o o2 hdis hcb hb hf hl hfresh
  · intro U w t f segs o fp ow ho
    exact entry_adopts_orphan U ow ho
  · intro U w t f segs te X ow hte hX
    obtain ⟨w1, t1, f1, segs1, he, o1, -, h⟩ := entry_drains_queued U ow hte hX
    exact ⟨w1, t1, f1, segs1, he, o1, h⟩
  · intro w w1 t t1 f segs o h
    exact leave_critical_owned o h
  · intro U w w1 t t1 f segs p d o hu hp h
    exact retire_owned_at U o hu hp h
  · intro w w1 t f segs segs1 o hobj oc hnd hd hg hlen
    exact o.environment hobj oc hnd hd hg hlen
  · intro U w0 w t0 t R0 R f0 segs0 te X o hR hte hX r
    obtain ⟨f, segs, o1, -, h⟩ := queued_until_drained o hR hte hX r
    refine ⟨f, segs, o1, ?_⟩
    rcases h with h | h
    · exact Or.inl fun q hq => ⟨h q hq, o1.queued_not_deleted (o1.mem_list hte (h q hq))⟩
    · exact Or.inr fun q hq => ⟨List.count_eq_one_of_mem o1.deleted_nodup (h q hq),
        fun hm => o1.queued_not_deleted hm (h q hq)⟩
  · intro U w0 w t0 t f0 segs0 te X o hte hX r
    exact queued_then_destroyed o hte hX r
  · intro w t cb b segs f o fp hcb hb he hg hc hu ha oc wf hnd ho
    exact orphan_adopted_then_destroyed hcb hb he hg hc hu ha oc wf hnd ho

theorem alone_world7 : Alone world7 1 := by
  intro i b hi hb
  have hlt := tcb_lt hb
  have h0 : i = 0 := by
    have : world7.entries.length = 2 := rfl
    omega
  subst h0
  have : world7.tcb 0 = some ⟨false, 0, false⟩ := rfl
  rw [this] at hb
  cases hb
  rfl

theorem ochain_world7 : OChain world7.heap world7.abandoned [(9, 2, [4])] := by
  have c4 : Chain heap9 4 [4] := Chain.node (by decide) (Or.inl rfl) Chain.nil
  have h := @OChain.cons heap9 9 2 4 0 0 [4] [] [] [] (by decide) rfl (by decide) c4
    Chain.nil Chain.nil OChain.nil
  exact h

theorem owned_world7 : Owned world7 thread7 (fun _ => []) [(9, 2, [4])] :=
  ⟨by decide, fun _ _ => Chain.nil, ochain_world7, by decide,
   by simp [world7, heap9, Heap.deleted], fun cb h => by cases h; decide⟩

/-- Instance of C21: the second thread of `world7` enters with the orphan `9` (target
epoch `2`, carrying the object `4`) on the orphan list at the global epoch `0`.  Running
alone with `UpdateThreshold = 0`, it adopts the orphan when it advances the epoch from
`0` to `1`, and destroys both when it advances the epoch to `2`. -/
theorem C21_witness :
    (Owned world7 thread7 (fun _ => []) [(9, 2, [4])]
      ∧ (9, (world7.global_epoch + 2) % 3, [4]) ∈ [(9, 2, [4])]
      ∧ ∃ w1 t1 f1 segs1, enter_critical 0 world7 thread7 = some (w1, t1)
          ∧ Owned w1 t1 f1 segs1
          ∧ (∀ q ∈ [9, 4], q ∉ w1.heap.deleted)
          ∧ (w1.global_epoch = world7.global_epoch →
              w1.abandoned = world7.abandoned ∧ segs1 = [(9, 2, [4])])
          ∧ (w1.global_epoch ≠ world7.global_epoch →
              w1.global_epoch = (world7.global_epoch + 1) % 3 ∧ w1.abandoned = 0
              ∧ segs1 = []
              ∧ ∀ q ∈ [9, 4], q ∈ f1 ((world7.global_epoch + 2) % 3)))
    ∧ ∃ w1 t1 w2 t2 w3 t3 F1,
      enter_critical 0 world7 thread7 = some (w1, t1)
      ∧ w1.global_epoch = 1
      ∧ w1.abandoned = 0
      ∧ ThreadWF w1.heap t1.retire_lists F1
      ∧ 9 ∈ F1 2
      ∧ (∀ q ∈ [4], q ∈ F1 2)
      ∧ 9 ∉ w1.heap.deleted
      ∧ (∀ q ∈ [4], q ∉ w1.heap.deleted)
      ∧ leave_critical w1 t1 = some (w2, t2)
      ∧ w2.heap = w1.heap
      ∧ enter_critical 0 w2 t2 = some (w3, t3)
      ∧ w3.global_epoch = 2
      ∧ w3.heap.deleted.count 9 = 1
      ∧ (∀ q ∈ [4], w3.heap.deleted.count q = 1) :=
  ⟨⟨owned_world7, by decide,
    C21_orphans_adopted_after_cas.2.2.2.2.1 0 world7 thread7 (fun _ => []) [(9, 2, [4])]
      9 [4] owned_world7 (by decide)⟩,
   C21_orphans_adopted_after_cas.2.2.2.2.2.2.2.2.2.2.2 world7 thread7 1 ⟨false, 0, true⟩
    [(9, 2, [4])] (fun _ => []) 9 [4] rfl rfl rfl (by decide) rfl rfl alone_world7
    ochain_world7 (threadWF_empty _) (by decide) (by decide)⟩

end EBR
